import Mathlib

/-!
# Super send packet handler

A shallow embedding of `uhd::transport::sph::send_packet_handler`
(`host/lib/transport/super_send_packet_handler.hpp`) and theorems about its
`send` entry point.

Conventions of the embedding

* `size_t` values are natural numbers; every arithmetic result that the source
  stores in a `size_t` and that can leave the range is reduced by `wrap`
  (modulo `2 ^ 64`).
* The handler object is the record `send_packet_handler`; member functions
  take the record and return the updated record.
* The collaborators bound into the handler (buffer providers, the VRT packer,
  `time_spec_t::to_ticks`, the `sendmmsg` system call) are the fields of
  `environment`.  A buffer provider is an oracle indexed by the number of
  times it has been called before, so that every deterministic behaviour of a
  provider is covered, whatever it depends on (timeout, sample count, ...).
* Everything the handler does to a collaborator is appended to the ghost
  field `log`, in program order.
* A member function that can leave the defined behaviour of C++ (integer
  division by zero, a vector index out of range, an empty `std::function`,
  a null buffer, a wait that never ends) returns `none` there.
* A configuration call that reaches a channel through `_props.at` returns a
  `call_result`: whether `std::out_of_range` was thrown, and the handler as
  the call leaves it.
* A `double` is a value of IEEE 754 binary64 (`double`); its arithmetic
  rounds the exact result to nearest, ties to even.
* In `send_one_packet` the worker threads are run one after the other, in
  slice order, after the inline slice: one of the schedules the source admits.
  The interleavings of the calling thread and the workers are the subject of
  `thread_step` and `interleave`, in which a step is one statement of a
  thread and the flags are read and written atomically.
-/

namespace sph

/-- Reduction of an arithmetic result to the range of `size_t` (64 bit). -/
def wrap (x : Nat) : Nat := x % 2 ^ 64

/-- Semantics of `std::vector::resize (n, v)`. -/
def vec_resize {α : Type} (l : List α) (n : Nat) (v : α) : List α :=
  l.take n ++ List.replicate (n - l.length) v

/-- Effect of `for (i = 0; i < n; i++) flags[i] = v;` on a vector of flags
that has at least `n` entries (entries past the end are not created). -/
def set_first {α : Type} (l : List α) (n : Nat) (v : α) : List α :=
  List.replicate (min n l.length) v ++ l.drop n

/-- Modelled from the spec: `uhd::time_spec_t` is declared outside the source
files at hand.  A time value is kept as whole seconds and an uninterpreted
fractional part; it is only ever handed to `to_ticks`. -/
structure time_spec_t where
  full_secs : Int
  frac_secs : Nat
deriving DecidableEq, Repr

/-- Modelled from the spec: `uhd::tx_metadata_t` (declared outside the source
files at hand), the metadata record
`{start_of_burst, end_of_burst, has_time_spec, time_spec}` of a request. -/
structure tx_metadata_t where
  has_time_spec : Bool
  time_spec : time_spec_t
  start_of_burst : Bool
  end_of_burst : Bool
deriving DecidableEq, Repr

/-- Modelled from the spec: `vrt::if_packet_info_t` (declared outside the
source files at hand), the packet descriptor.  The packet kind is always
"data" and is left out. -/
structure if_packet_info_t where
  num_payload_words32 : Nat
  num_payload_bytes : Nat
  num_header_words32 : Nat
  num_packet_words32 : Nat
  packet_count : Nat
  sob : Bool
  eob : Bool
  fc_ack : Bool
  has_sid : Bool
  sid : Nat
  has_cid : Bool
  has_tsi : Bool
  has_tsf : Bool
  tsf : Nat
  has_tlr : Bool
deriving DecidableEq, Repr

/-- Modelled from the spec: the value of a default-constructed
`vrt::if_packet_info_t`. -/
def if_packet_info_t.init : if_packet_info_t :=
  { num_payload_words32 := 0, num_payload_bytes := 0, num_header_words32 := 0,
    num_packet_words32 := 0, packet_count := 0, sob := false, eob := false,
    fc_ack := false, has_sid := false, sid := 0, has_cid := false,
    has_tsi := false, has_tsf := false, tsf := 0, has_tlr := false }

/-- Modelled from the spec: `managed_send_buffer` (declared outside the source
files at hand), an exclusively owned writable buffer.  Only its identity and
the socket it writes to (`get_socket ()`) are kept. -/
structure managed_send_buffer where
  id : Nat
  sock_fd : Int
deriving DecidableEq, Repr

/-- What the handler does to its collaborators, in program order.
`send_one_packet` records the entry into that member function with its
arguments, `enqueue` the `push_back` into a transmission batch. -/
inductive event where
  | send_one_packet (nsamps_per_buff : Nat) (if_packet_info : if_packet_info_t)
      (buffer_offset_bytes : Nat)
  | get_buff (chan : Nat) (result : Option managed_send_buffer)
  | vrt_packer (chan : Nat) (if_packet_info : if_packet_info_t)
  | conv (chan : Nat) (in_buffs : List Nat) (nsamps : Nat)
  | commit (chan : Nat) (buff : managed_send_buffer) (num_bytes : Nat)
  | enqueue (chan : Nat) (buff : managed_send_buffer)
  | release (chan : Nat) (buff : managed_send_buffer)
  | go_postal (chan : Nat)
  | sendmmsg (sock_fd : Int) (msgs : List managed_send_buffer) (retval : Int)
  | sendmmsg_failed
deriving DecidableEq, Repr

/-- The collaborators of a handler.

* `get_buff f k` is what the buffer provider `f` returns on its call number
  `k` (counted per channel); `none` is a timeout.
* `vrt_packer` returns the descriptor as the packer leaves it (it fills in
  `num_header_words32` and `num_packet_words32`).
* `to_ticks` is `time_spec_t::to_ticks (_tick_rate)` stored into the 64 bit
  field `tsf`.
* `sendmmsg k` is the return value of the call number `k` of `sendmmsg`.
* `zero` is the address of the static `zero` of `send`, `zero_resize` that of
  the static `zero` of `resize`. -/
structure environment where
  get_buff : Nat → Nat → Option managed_send_buffer
  vrt_packer : if_packet_info_t → if_packet_info_t
  to_ticks : time_spec_t → Nat
  sendmmsg : Nat → Int
  zero : Nat
  zero_resize : Nat

/-- Per-channel properties, `xport_chan_props_type`.  `get_buff` is the bound
provider (`none`: empty `std::function`), `go_postal` tells whether a
post-send callback is bound, `get_buff_calls` is a ghost counter of the calls
made to the provider of this channel. -/
structure xport_chan_props_type where
  get_buff : Option Nat
  go_postal : Bool
  has_sid : Bool
  sid : Nat
  buff : Option managed_send_buffer
  get_buff_calls : Nat
deriving DecidableEq, Repr

/-- Value of a default-constructed `xport_chan_props_type`. -/
def xport_chan_props_type.init : xport_chan_props_type :=
  { get_buff := none, go_postal := false, has_sid := false, sid := 0,
    buff := none, get_buff_calls := 0 }

/-- Buffers waiting for one `sendmmsg` call, `multi_msb_type`. -/
structure multi_msb_type where
  buffs : List managed_send_buffer
  sock_fd : Int
deriving DecidableEq, Repr

/-- The data members of `send_packet_handler`.  `conversion_threads` is the
size of the vector of threads; `sendmmsg_calls` and `log` are ghost fields. -/
structure send_packet_handler where
  conversion_threads : Nat
  conversion_ready : List Bool
  conversion_done : List Bool
  thread_indices : List (List Nat)
  conversion_terminate : Bool
  channel_per_conversion_thread : Nat
  header_offset_words32 : Nat
  props : List xport_chan_props_type
  multi_msb_buffs : List multi_msb_type
  num_inputs : Nat
  bytes_per_otw_item : Nat
  bytes_per_cpu_item : Nat
  max_samples_per_packet : Nat
  zero_buffs : List Nat
  next_packet_seq : Nat
  has_tlr : Bool
  cached_metadata : Bool
  metadata_cache : tx_metadata_t
  convert_nsamps : Nat
  convert_buffer_offset_bytes : Nat
  sendmmsg_calls : Nat
  log : List event
deriving DecidableEq, Repr

/-- The channel width of the handler, `size ()`. -/
def send_packet_handler.size (s : send_packet_handler) : Nat := s.props.length

/-- The constructor `send_packet_handler (size)`.  Of the members the
constructor leaves uninitialised, those set by the configuration calls are
given as arguments and the others start at zero (or false). -/
def send_packet_handler.init (num_inputs bytes_per_otw_item bytes_per_cpu_item
    max_samples_per_packet header_offset_words32 : Nat) : send_packet_handler :=
  { conversion_threads := 0, conversion_ready := [], conversion_done := [],
    thread_indices := [], conversion_terminate := false,
    channel_per_conversion_thread := 8,
    header_offset_words32 := header_offset_words32,
    props := [], multi_msb_buffs := [{ buffs := [], sock_fd := 0 }],
    num_inputs := num_inputs, bytes_per_otw_item := bytes_per_otw_item,
    bytes_per_cpu_item := bytes_per_cpu_item,
    max_samples_per_packet := max_samples_per_packet, zero_buffs := [],
    next_packet_seq := 0, has_tlr := true, cached_metadata := false,
    metadata_cache :=
      { has_time_spec := false, time_spec := { full_secs := 0, frac_secs := 0 },
        start_of_burst := false, end_of_burst := false },
    convert_nsamps := 0, convert_buffer_offset_bytes := 0,
    sendmmsg_calls := 0, log := [] }

/-- The inner loop of `resize`: the indices pushed for thread `i`. -/
def resize_indices (channel_per_conversion_thread size i : Nat) : List Nat :=
  ((List.range channel_per_conversion_thread).map
      (fun j => i * channel_per_conversion_thread + j)).takeWhile
    (fun thread_index => decide (thread_index < size))

/-- The outer loop of `resize`: every slice gets its indices appended. -/
def resize_push (channel_per_conversion_thread size : Nat) :
    Nat → List (List Nat) → List (List Nat)
  | _, [] => []
  | i, slice :: rest =>
    (slice ++ resize_indices channel_per_conversion_thread size i) ::
      resize_push channel_per_conversion_thread size (i + 1) rest

/-- The member function `resize (size)`.  The ceiling of the floating point
quotient is taken as the ceiling of the exact quotient. -/
def resize (env : environment) (s : send_packet_handler) (size : Nat) :
    send_packet_handler :=
  if s.size = size then s
  else
    let threads :=
      if s.channel_per_conversion_thread < size then
        (size + s.channel_per_conversion_thread - 1) / s.channel_per_conversion_thread
      else 1
    { s with
      conversion_threads := threads
      thread_indices :=
        resize_push s.channel_per_conversion_thread size 0
          (vec_resize s.thread_indices threads [])
      conversion_done := List.replicate size false
      conversion_ready := List.replicate size false
      conversion_terminate := false
      multi_msb_buffs := vec_resize s.multi_msb_buffs size { buffs := [], sock_fd := 0 }
      props := vec_resize s.props size xport_chan_props_type.init
      zero_buffs := vec_resize s.zero_buffs size env.zero_resize }

/-- How a configuration call ends: it returns, or `_props.at` throws
`std::out_of_range`; either way with the handler as the call leaves it. -/
inductive call_result where
  | returned (s : send_packet_handler)
  | out_of_range (s : send_packet_handler)
deriving DecidableEq, Repr

/-- The member function `set_xport_chan_sid`: two assignments, each through
`_props.at (xport_chan)`.  The stream identifier is a `uint32_t` value. -/
def set_xport_chan_sid (s : send_packet_handler) (xport_chan : Nat) (has_sid : Bool)
    (sid : Nat) : call_result :=
  match s.props[xport_chan]? with
  | none => call_result.out_of_range s
  | some p =>
    let s1 := { s with props := s.props.set xport_chan { p with has_sid := has_sid } }
    match s1.props[xport_chan]? with
    | none => call_result.out_of_range s1
    | some p1 =>
      call_result.returned { s1 with props := s1.props.set xport_chan { p1 with sid := sid } }

/-- The member function `set_xport_chan_get_buff`; the provider is named by
its number. -/
def set_xport_chan_get_buff (s : send_packet_handler) (xport_chan f : Nat) : call_result :=
  match s.props[xport_chan]? with
  | none => call_result.out_of_range s
  | some p =>
    call_result.returned { s with props := s.props.set xport_chan { p with get_buff := some f } }

/-- The member function `set_xport_chan_post_send_cb`; of the callback the
model keeps whether there is one. -/
def set_xport_chan_post_send_cb (s : send_packet_handler) (xport_chan : Nat) (cb : Bool) :
    call_result :=
  match s.props[xport_chan]? with
  | none => call_result.out_of_range s
  | some p =>
    call_result.returned { s with props := s.props.set xport_chan { p with go_postal := cb } }

/-- The member function `send_multiple_packets`, one batch: one `sendmmsg`
call with the buffers of the batch; a failure is printed. -/
def send_batch (env : environment) (s : send_packet_handler) (multi_msb : multi_msb_type) :
    send_packet_handler :=
  let retval := env.sendmmsg s.sendmmsg_calls
  { s with
    sendmmsg_calls := s.sendmmsg_calls + 1
    log := s.log ++ (event.sendmmsg multi_msb.sock_fd multi_msb.buffs retval ::
      (if retval = -1 then [event.sendmmsg_failed] else [])) }

/-- The member function `send_multiple_packets`: the loop over
`multi_msb_buffs`.  The batches themselves are left as they are. -/
def send_multiple_packets (env : environment) (s : send_packet_handler) :
    send_packet_handler :=
  s.multi_msb_buffs.foldl (send_batch env) s

/-- The loop of `send_one_packet` that gets a buffer for each channel or
stops at the first timeout; `chan` is the index of the first channel of the
list.  The result is `(all acquired, channels, events)`. -/
def get_buffs (env : environment) :
    Nat → List xport_chan_props_type →
      Option (Bool × List xport_chan_props_type × List event)
  | _, [] => some (true, [], [])
  | chan, props :: rest =>
    match props.get_buff with
    | none => none
    | some f =>
      let r := env.get_buff f props.get_buff_calls
      let props1 := { props with buff := r, get_buff_calls := props.get_buff_calls + 1 }
      match r with
      | none => some (false, props1 :: rest, [event.get_buff chan none])
      | some _ =>
        match get_buffs env (chan + 1) rest with
        | none => none
        | some (ok, rest1, evs) => some (ok, props1 :: rest1, event.get_buff chan r :: evs)

/-- The body of the loop over the indices in `convert_to_in_buff_sequential`
(and in `convert_to_in_buff`): the unit of work for one channel.
`buffs` and `if_packet_info` are what `_convert_buffs` and
`_convert_if_packet_info` point to. -/
def convert_index (env : environment) (s : send_packet_handler) (buffs : List Nat)
    (if_packet_info : if_packet_info_t) (index : Nat) : Option send_packet_handler :=
  match s.props[index]?, s.multi_msb_buffs[index]? with
  | some props, some multi_msb =>
    match props.buff with
    | none => none
    | some buff =>
      let in_buffs := (List.range s.num_inputs).map
        (fun i => buffs.getD (index * s.num_inputs + i) 0 + s.convert_buffer_offset_bytes)
      let info := { if_packet_info with has_sid := props.has_sid, sid := props.sid }
      let packed := env.vrt_packer info
      let num_vita_words32 := wrap (s.header_offset_words32 + packed.num_packet_words32)
      some { s with
        multi_msb_buffs := s.multi_msb_buffs.set index
          { buffs := multi_msb.buffs ++ [buff], sock_fd := buff.sock_fd }
        log := s.log ++
          ([event.vrt_packer index info, event.conv index in_buffs s.convert_nsamps,
            event.commit index buff (wrap (num_vita_words32 * 4)),
            event.enqueue index buff, event.release index buff] ++
           (if props.go_postal then [event.go_postal index] else [])) }
  | _, _ => none

/-- The member function `convert_to_in_buff_sequential`. -/
def convert_to_in_buff_sequential (env : environment) (buffs : List Nat)
    (if_packet_info : if_packet_info_t) :
    List Nat → send_packet_handler → Option send_packet_handler
  | [], s => some s
  | index :: rest, s =>
    match convert_index env s buffs if_packet_info index with
    | none => none
    | some s1 => convert_to_in_buff_sequential env buffs if_packet_info rest s1

/-- The loop over the indices in the worker `convert_to_in_buff`: the unit of
work, then the two flags of the channel. -/
def convert_worker_indices (env : environment) (buffs : List Nat)
    (if_packet_info : if_packet_info_t) :
    List Nat → send_packet_handler → Option send_packet_handler
  | [], s => some s
  | index :: rest, s =>
    match convert_index env s buffs if_packet_info index with
    | none => none
    | some s1 =>
      convert_worker_indices env buffs if_packet_info rest
        { s1 with
          conversion_ready := s1.conversion_ready.set index false
          conversion_done := s1.conversion_done.set index true }

/-- One turn of the loop of the worker `convert_to_in_buff` for the slice
`indices`, run once the calling thread has signalled: the worker goes on when
the ready flag of its first channel is set, leaves when termination is
requested, and otherwise does its slice.  A worker that is not signalled does
nothing. -/
def convert_to_in_buff (env : environment) (buffs : List Nat)
    (if_packet_info : if_packet_info_t) (indices : List Nat) (s : send_packet_handler) :
    Option send_packet_handler :=
  match indices with
  | [] => none
  | index0 :: _ =>
    match s.conversion_ready[index0]? with
    | none => none
    | some false => some s
    | some true =>
      if s.conversion_terminate then some s
      else convert_worker_indices env buffs if_packet_info indices s

/-- All workers, each doing one turn, in the order of their slices. -/
def run_workers (env : environment) (buffs : List Nat) (if_packet_info : if_packet_info_t) :
    List (List Nat) → send_packet_handler → Option send_packet_handler
  | [], s => some s
  | indices :: rest, s =>
    match convert_to_in_buff env buffs if_packet_info indices s with
    | none => none
    | some s1 => run_workers env buffs if_packet_info rest s1

/-- The wait of `send_one_packet` for the workers: it ends when the done flag
of every channel from `thread_indices[1].front ()` on is set. -/
def wait_for_workers (s : send_packet_handler) : Option send_packet_handler :=
  match s.thread_indices[1]? with
  | none => none
  | some [] => none
  | some (first :: _) =>
    if ((List.range s.size).filter (fun i => decide (first ≤ i))).all
        (fun i => s.conversion_done.getD i false) then some s
    else none

/-- The first statements of `send_one_packet`: "load the rest of the
if_packet_info in here". -/
def load_packet_info (s : send_packet_handler) (if_packet_info : if_packet_info_t)
    (nsamps_per_buff : Nat) : if_packet_info_t :=
  let num_payload_bytes := wrap (wrap (nsamps_per_buff * s.num_inputs) * s.bytes_per_otw_item)
  { if_packet_info with
    num_payload_bytes := num_payload_bytes
    num_payload_words32 := wrap (num_payload_bytes + 3) / 4
    packet_count := s.next_packet_seq }

/-- The member function `send_one_packet`.  The result is the return value,
the descriptor as the call leaves it (it is passed by reference) and the
handler. -/
def send_one_packet (env : environment) (s : send_packet_handler) (buffs : List Nat)
    (nsamps_per_buff : Nat) (if_packet_info : if_packet_info_t)
    (buffer_offset_bytes : Nat) :
    Option (Nat × if_packet_info_t × send_packet_handler) :=
  let info := load_packet_info s if_packet_info nsamps_per_buff
  let s1 : send_packet_handler :=
    { s with
      convert_nsamps := nsamps_per_buff
      log := s.log ++ [event.send_one_packet nsamps_per_buff if_packet_info buffer_offset_bytes] }
  match get_buffs env 0 s1.props with
  | none => none
  | some (false, props, evs) => some (0, info, { s1 with props := props, log := s1.log ++ evs })
  | some (true, props, evs) =>
    let s2 : send_packet_handler :=
      { s1 with
        props := props
        log := s1.log ++ evs
        convert_buffer_offset_bytes := buffer_offset_bytes }
    let s3 : send_packet_handler :=
      if 1 < s2.conversion_threads then
        { s2 with
          conversion_done := set_first s2.conversion_done s2.size false
          conversion_ready := set_first s2.conversion_ready s2.size true }
      else s2
    match s3.thread_indices[0]? with
    | none => none
    | some indices0 =>
      match convert_to_in_buff_sequential env buffs info indices0 s3 with
      | none => none
      | some s4 =>
        let joined : Option send_packet_handler :=
          if 1 < s4.conversion_threads then
            match run_workers env buffs info
                ((s4.thread_indices.take s4.conversion_threads).drop 1) s4 with
            | none => none
            | some s5 => wait_for_workers s5
          else some s4
        match joined with
        | none => none
        | some s6 =>
          some (nsamps_per_buff, info,
            { s6 with next_packet_seq := wrap (s6.next_packet_seq + 1) })

/-- The loop of `send` over the full-size fragments.  `n` is the number of
fragments still to send.  The result is `(returned early, total_num_samps_sent,
descriptor, handler)`. -/
def send_fragments (env : environment) (buffs : List Nat) (metadata : tx_metadata_t) :
    Nat → send_packet_handler → if_packet_info_t → Nat →
      Option (Bool × Nat × if_packet_info_t × send_packet_handler)
  | 0, s, if_packet_info, total_num_samps_sent =>
    some (false, total_num_samps_sent, if_packet_info, s)
  | n + 1, s, if_packet_info, total_num_samps_sent =>
    match send_one_packet env s buffs s.max_samples_per_packet if_packet_info
        (wrap (total_num_samps_sent * s.bytes_per_cpu_item)) with
    | none => none
    | some (num_samps_sent, info, s1) =>
      let total := total_num_samps_sent + num_samps_sent
      if num_samps_sent = 0 then some (true, total, info, s1)
      else
        send_fragments env buffs metadata n s1
          { info with tsf := env.to_ticks metadata.time_spec, sob := false } total

/-- The descriptor `send` derives from the metadata of the request. -/
def translate_metadata (env : environment) (s : send_packet_handler)
    (metadata : tx_metadata_t) : if_packet_info_t :=
  { if_packet_info_t.init with
    has_cid := false
    has_tlr := s.has_tlr
    has_tsi := false
    has_tsf := metadata.has_time_spec
    tsf := env.to_ticks metadata.time_spec
    sob := metadata.start_of_burst
    eob := metadata.end_of_burst
    fc_ack := false }

/-- The part of `send` that applies the cached metadata to the descriptor. -/
def apply_metadata_cache (env : environment) (s : send_packet_handler)
    (metadata : tx_metadata_t) (if_packet_info : if_packet_info_t) : if_packet_info_t :=
  let info : if_packet_info_t :=
    if metadata.has_time_spec then if_packet_info
    else
      { if_packet_info with
        has_tsf := s.metadata_cache.has_time_spec
        tsf := env.to_ticks s.metadata_cache.time_spec }
  { info with sob := s.metadata_cache.start_of_burst, eob := s.metadata_cache.end_of_burst }

/-- The member function `send`.  The timeout is only handed on to the buffer
providers, whose answers are those of the oracle, and is left out.  The
result is the return value and the handler. -/
def send (env : environment) (s : send_packet_handler) (buffs : List Nat)
    (nsamps_per_buff : Nat) (metadata : tx_metadata_t) :
    Option (Nat × send_packet_handler) :=
  let info0 := translate_metadata env s metadata
  let use_cache : Bool := s.cached_metadata && decide (nsamps_per_buff ≠ 0)
  let if_packet_info := if use_cache then apply_metadata_cache env s metadata info0 else info0
  let s0 : send_packet_handler := if use_cache then { s with cached_metadata := false } else s
  if nsamps_per_buff ≤ s0.max_samples_per_packet then
    let s1 : send_packet_handler :=
      { s0 with zero_buffs := vec_resize s0.zero_buffs buffs.length env.zero }
    if nsamps_per_buff = 0 then
      if metadata.start_of_burst then
        some (0, { s1 with metadata_cache := metadata, cached_metadata := true })
      else
        match send_one_packet env s1 s1.zero_buffs 1 if_packet_info 0 with
        | none => none
        | some (_, _, s2) => some (0, send_multiple_packets env s2)
    else
      match send_one_packet env s1 buffs nsamps_per_buff if_packet_info 0 with
      | none => none
      | some (nsamps_sent, _, s2) => some (nsamps_sent, send_multiple_packets env s2)
  else if s0.max_samples_per_packet = 0 then none
  else
    let num_fragments := (nsamps_per_buff - 1) / s0.max_samples_per_packet
    let final_length := (nsamps_per_buff - 1) % s0.max_samples_per_packet + 1
    match send_fragments env buffs metadata num_fragments s0
        { if_packet_info with eob := false } 0 with
    | none => none
    | some (true, total_num_samps_sent, _, s1) => some (total_num_samps_sent, s1)
    | some (false, total_num_samps_sent, info, s1) =>
      match send_one_packet env s1 buffs final_length
          { info with eob := metadata.end_of_burst }
          (wrap (total_num_samps_sent * s1.bytes_per_cpu_item)) with
      | none => none
      | some (n, _, s2) =>
        let s3 := send_multiple_packets env s2
        some (total_num_samps_sent + n,
          { s3 with
            multi_msb_buffs := s3.multi_msb_buffs.map (fun multi_msb => { multi_msb with buffs := [] }) })


/-! ## Observations on the log -/

/-- The calls of `send_one_packet` in a run of events: sample count,
descriptor and buffer offset of each, in order. -/
def episodes (evs : List event) : List (Nat × if_packet_info_t × Nat) :=
  evs.filterMap (fun e =>
    match e with
    | event.send_one_packet n info off => some (n, info, off)
    | _ => none)

/-- The number of buffer acquisitions that timed out in a run of events. -/
def timeouts (evs : List event) : Nat :=
  evs.countP (fun e =>
    match e with
    | event.get_buff _ none => true
    | _ => false)

/-- The descriptors handed to the packer for channel `chan`, in order. -/
def packed (chan : Nat) (evs : List event) : List if_packet_info_t :=
  evs.filterMap (fun e =>
    match e with
    | event.vrt_packer c info => if c = chan then some info else none
    | _ => none)

/-- The sample counts handed to the converter for channel `chan`, in order. -/
def converted (chan : Nat) (evs : List event) : List Nat :=
  evs.filterMap (fun e =>
    match e with
    | event.conv c _ n => if c = chan then some n else none
    | _ => none)

/-- The buffers committed for channel `chan`, in order. -/
def commits (chan : Nat) (evs : List event) : List managed_send_buffer :=
  evs.filterMap (fun e =>
    match e with
    | event.commit c buff _ => if c = chan then some buff else none
    | _ => none)

/-- The buffers put into the transmission batch of channel `chan`, in order. -/
def enqueued (chan : Nat) (evs : List event) : List managed_send_buffer :=
  evs.filterMap (fun e =>
    match e with
    | event.enqueue c buff => if c = chan then some buff else none
    | _ => none)

/-- Events of the data path of a packet: an acquisition, a commit or an
enqueue. -/
def event.is_packet_work : event → Bool
  | event.get_buff _ _ => true
  | event.commit _ _ _ => true
  | event.enqueue _ _ => true
  | _ => false

/-! ## Closed forms -/

/-- What the provider of a channel answers to its call number
`get_buff_calls + j`. -/
def answer (env : environment) (props : xport_chan_props_type) (j : Nat) :
    Option managed_send_buffer :=
  match props.get_buff with
  | none => none
  | some f => env.get_buff f (props.get_buff_calls + j)

/-- A channel after its provider has been called once. -/
def acquire (env : environment) (props : xport_chan_props_type) : xport_chan_props_type :=
  { props with buff := answer env props 0, get_buff_calls := props.get_buff_calls + 1 }

/-- Whether the next acquisition succeeds on every channel. -/
def acq_ok (env : environment) : List xport_chan_props_type → Bool
  | [] => true
  | props :: rest => (answer env props 0).isSome && acq_ok env rest

/-- The channels after the acquisition loop. -/
def acq_props (env : environment) : List xport_chan_props_type → List xport_chan_props_type
  | [] => []
  | props :: rest =>
    acquire env props :: (if (answer env props 0).isSome then acq_props env rest else rest)

/-- The events of the acquisition loop. -/
def acq_events (env : environment) : Nat → List xport_chan_props_type → List event
  | _, [] => []
  | chan, props :: rest =>
    event.get_buff chan (answer env props 0) ::
      (if (answer env props 0).isSome then acq_events env (chan + 1) rest else [])

/-- The descriptor of a packet with the stream id of a channel put in, as the
unit of work hands it to the packer. -/
def stamp (props : xport_chan_props_type) (if_packet_info : if_packet_info_t) :
    if_packet_info_t :=
  { if_packet_info with has_sid := props.has_sid, sid := props.sid }

/-- The events of the unit of work of channel `index`. -/
def unit_events (env : environment) (props : List xport_chan_props_type)
    (num_inputs offset nsamps header_offset_words32 : Nat) (buffs : List Nat)
    (if_packet_info : if_packet_info_t) (index : Nat) : List event :=
  match props[index]? with
  | none => []
  | some p =>
    match p.buff with
    | none => []
    | some buff =>
      [event.vrt_packer index { if_packet_info with has_sid := p.has_sid, sid := p.sid },
       event.conv index
         ((List.range num_inputs).map (fun i => buffs.getD (index * num_inputs + i) 0 + offset))
         nsamps,
       event.commit index buff
         (wrap (wrap (header_offset_words32 +
           (env.vrt_packer
             { if_packet_info with has_sid := p.has_sid, sid := p.sid }).num_packet_words32) * 4)),
       event.enqueue index buff, event.release index buff] ++
      (if p.go_postal then [event.go_postal index] else [])

/-- The transmission batches after the unit of work of channel `index`. -/
def enqueue_at (props : List xport_chan_props_type) (multi : List multi_msb_type)
    (index : Nat) : List multi_msb_type :=
  match props[index]?, multi[index]? with
  | some p, some m =>
    match p.buff with
    | none => multi
    | some buff => multi.set index { buffs := m.buffs ++ [buff], sock_fd := buff.sock_fd }
  | _, _ => multi

/-- The transmission batches after the units of work of the channels `indices`. -/
def enqueue_all (props : List xport_chan_props_type) (multi : List multi_msb_type)
    (indices : List Nat) : List multi_msb_type :=
  indices.foldl (enqueue_at props) multi

/-- The handler after the unit of work of channel `index`. -/
def convert_effect (env : environment) (buffs : List Nat) (if_packet_info : if_packet_info_t)
    (s : send_packet_handler) (index : Nat) : send_packet_handler :=
  { s with
    multi_msb_buffs := enqueue_at s.props s.multi_msb_buffs index
    log := s.log ++ unit_events env s.props s.num_inputs s.convert_buffer_offset_bytes
      s.convert_nsamps s.header_offset_words32 buffs if_packet_info index }

/-- A vector of flags after `flags[i] = v` for every `i` of `indices`. -/
def set_flags (v : Bool) (indices : List Nat) (flags : List Bool) : List Bool :=
  indices.foldl (fun l i => l.set i v) flags

/-- The events of one call of `send_one_packet`. -/
def episode_events (env : environment) (s : send_packet_handler) (buffs : List Nat)
    (nsamps_per_buff : Nat) (if_packet_info : if_packet_info_t) (buffer_offset_bytes : Nat) :
    List event :=
  event.send_one_packet nsamps_per_buff if_packet_info buffer_offset_bytes ::
    (acq_events env 0 s.props ++
      (if acq_ok env s.props then
        s.thread_indices.flatten.flatMap
          (unit_events env (acq_props env s.props) s.num_inputs buffer_offset_bytes
            nsamps_per_buff s.header_offset_words32 buffs
            (load_packet_info s if_packet_info nsamps_per_buff))
      else []))

/-- The handler after one call of `send_one_packet`. -/
def episode_state (env : environment) (s : send_packet_handler) (buffs : List Nat)
    (nsamps_per_buff : Nat) (if_packet_info : if_packet_info_t) (buffer_offset_bytes : Nat) :
    send_packet_handler :=
  if acq_ok env s.props then
    { s with
      convert_nsamps := nsamps_per_buff
      convert_buffer_offset_bytes := buffer_offset_bytes
      props := acq_props env s.props
      conversion_ready :=
        if 1 < s.conversion_threads then
          set_flags false (s.thread_indices.drop 1).flatten
            (set_first s.conversion_ready s.size true)
        else s.conversion_ready
      conversion_done :=
        if 1 < s.conversion_threads then
          set_flags true (s.thread_indices.drop 1).flatten
            (set_first s.conversion_done s.size false)
        else s.conversion_done
      multi_msb_buffs :=
        enqueue_all (acq_props env s.props) s.multi_msb_buffs s.thread_indices.flatten
      next_packet_seq := wrap (s.next_packet_seq + 1)
      log := s.log ++
        episode_events env s buffs nsamps_per_buff if_packet_info buffer_offset_bytes }
  else
    { s with
      convert_nsamps := nsamps_per_buff
      props := acq_props env s.props
      log := s.log ++
        episode_events env s buffs nsamps_per_buff if_packet_info buffer_offset_bytes }

/-- The events of `send_multiple_packets` on the batches `multi`, the first
call of `sendmmsg` being call number `k`. -/
def flush_events (env : environment) : Nat → List multi_msb_type → List event
  | _, [] => []
  | k, multi_msb :: rest =>
    (event.sendmmsg multi_msb.sock_fd multi_msb.buffs (env.sendmmsg k) ::
      (if env.sendmmsg k = -1 then [event.sendmmsg_failed] else [])) ++
      flush_events env (k + 1) rest

/-- The descriptor after its payload fields and its sequence number have been
loaded for `nsamps_per_buff` samples, as a function of the members of the
handler that `load_packet_info` reads. -/
def loaded (num_inputs bytes_per_otw_item next_packet_seq : Nat)
    (if_packet_info : if_packet_info_t) (nsamps_per_buff : Nat) : if_packet_info_t :=
  { if_packet_info with
    num_payload_bytes := wrap (wrap (nsamps_per_buff * num_inputs) * bytes_per_otw_item)
    num_payload_words32 :=
      wrap (wrap (wrap (nsamps_per_buff * num_inputs) * bytes_per_otw_item) + 3) / 4
    packet_count := next_packet_seq }

/-- The descriptor handed to `send_one_packet` for fragment `i` of the loop of
`send` that starts on handler `s` with the descriptor `if_packet_info`, the
fragments before it having been sent. -/
def frag_info (env : environment) (metadata : tx_metadata_t) (s : send_packet_handler)
    (if_packet_info : if_packet_info_t) (i : Nat) : if_packet_info_t :=
  match i with
  | 0 => if_packet_info
  | j + 1 =>
    { loaded s.num_inputs s.bytes_per_otw_item (wrap (s.next_packet_seq + j))
        if_packet_info s.max_samples_per_packet with
      tsf := env.to_ticks metadata.time_spec
      sob := false }

/-- Every channel's provider returns a buffer on its call number `j`, counted
from the state of the handler. -/
def acquires (env : environment) (s : send_packet_handler) (j : Nat) : Prop :=
  ∀ p ∈ s.props, (answer env p j).isSome = true

instance (env : environment) (s : send_packet_handler) (j : Nat) :
    Decidable (acquires env s j) := by
  unfold acquires
  infer_instance

/-- The descriptor the loop of `send` sets up for the next fragment, after a
fragment has been sent from handler `s` with the descriptor `if_packet_info`. -/
def next_info (env : environment) (metadata : tx_metadata_t) (s : send_packet_handler)
    (if_packet_info : if_packet_info_t) : if_packet_info_t :=
  { load_packet_info s if_packet_info s.max_samples_per_packet with
    tsf := env.to_ticks metadata.time_spec
    sob := false }

/-- The handler after the first `k` fragments of the loop of `send`, each
sent with all buffers acquired. -/
def frag_state (env : environment) (buffs : List Nat) (metadata : tx_metadata_t) :
    Nat → send_packet_handler → if_packet_info_t → Nat → send_packet_handler
  | 0, s, _, _ => s
  | k + 1, s, if_packet_info, total_num_samps_sent =>
    frag_state env buffs metadata k
      (episode_state env s buffs s.max_samples_per_packet if_packet_info
        (wrap (total_num_samps_sent * s.bytes_per_cpu_item)))
      (next_info env metadata s if_packet_info)
      (total_num_samps_sent + s.max_samples_per_packet)

/-- The events of the first `k` fragments of the loop of `send`. -/
def frag_events (env : environment) (buffs : List Nat) (metadata : tx_metadata_t) :
    Nat → send_packet_handler → if_packet_info_t → Nat → List event
  | 0, _, _, _ => []
  | k + 1, s, if_packet_info, total_num_samps_sent =>
    episode_events env s buffs s.max_samples_per_packet if_packet_info
        (wrap (total_num_samps_sent * s.bytes_per_cpu_item)) ++
      frag_events env buffs metadata k
        (episode_state env s buffs s.max_samples_per_packet if_packet_info
          (wrap (total_num_samps_sent * s.bytes_per_cpu_item)))
        (next_info env metadata s if_packet_info)
        (total_num_samps_sent + s.max_samples_per_packet)

/-- The descriptor `send` works with once the cached metadata, if it is
pending and the request has samples, has been applied. -/
def merged_info (env : environment) (s : send_packet_handler) (metadata : tx_metadata_t)
    (nsamps_per_buff : Nat) : if_packet_info_t :=
  if s.cached_metadata && decide (nsamps_per_buff ≠ 0) then
    apply_metadata_cache env s metadata (translate_metadata env s metadata)
  else translate_metadata env s metadata

/-- The descriptor `send` starts the loop over the fragments with: the end of
burst flag is false until the final fragment. -/
def first_info (env : environment) (s : send_packet_handler) (metadata : tx_metadata_t)
    (nsamps_per_buff : Nat) : if_packet_info_t :=
  { merged_info env s metadata nsamps_per_buff with eob := false }

/-- The descriptor of the final fragment: the end of burst flag is that of
the request. -/
def final_info (metadata : tx_metadata_t) (if_packet_info : if_packet_info_t) :
    if_packet_info_t :=
  { if_packet_info with eob := metadata.end_of_burst }

/-- The handler once `send` has applied the cached metadata, if it is pending
and the request has samples. -/
def consume_cache (s : send_packet_handler) (nsamps_per_buff : Nat) : send_packet_handler :=
  { s with
    cached_metadata :=
      if s.cached_metadata && decide (nsamps_per_buff ≠ 0) then false else s.cached_metadata }

/-- The handler when `send` reaches `send_one_packet` on the path of a request
that fits into one packet. -/
def prepare (env : environment) (s : send_packet_handler) (buffs : List Nat)
    (nsamps_per_buff : Nat) : send_packet_handler :=
  { consume_cache s nsamps_per_buff with
    zero_buffs := vec_resize s.zero_buffs buffs.length env.zero }

/-- The last statements of `send` on the path of a fragmented request: every
transmission batch is cleared. -/
def clear_batches (s : send_packet_handler) : send_packet_handler :=
  { s with
    multi_msb_buffs := s.multi_msb_buffs.map (fun multi_msb => { multi_msb with buffs := [] }) }

/-- A handler on which `send` is defined: the slices of the conversion
threads list the channels `0 .. size - 1` in order, as `resize` on a new
handler leaves them, every worker has a channel, the per-channel vectors have
one entry per channel, every channel has a buffer provider, and the sequence
counter is in the range of `size_t`. -/
def well_formed (s : send_packet_handler) : Prop :=
  s.thread_indices.flatten = List.range s.size ∧
  s.thread_indices ≠ [] ∧
  s.conversion_threads = s.thread_indices.length ∧
  (∀ indices ∈ s.thread_indices.drop 1, indices ≠ []) ∧
  s.multi_msb_buffs.length = s.size ∧
  s.conversion_ready.length = s.size ∧
  s.conversion_done.length = s.size ∧
  s.conversion_terminate = false ∧
  (∀ props ∈ s.props, props.get_buff.isSome = true) ∧
  s.next_packet_seq < 2 ^ 64

instance (s : send_packet_handler) : Decidable (well_formed s) := by
  unfold well_formed
  infer_instance

/-- The handler after the final fragment of a fragmented request of which
every full-size fragment has been sent, before the flush. -/
def final_state (env : environment) (s : send_packet_handler) (buffs : List Nat) (n : Nat)
    (metadata : tx_metadata_t) : send_packet_handler :=
  episode_state env
    (frag_state env buffs metadata ((n - 1) / s.max_samples_per_packet) (consume_cache s n)
      (first_info env s metadata n) 0)
    buffs ((n - 1) % s.max_samples_per_packet + 1)
    (final_info metadata (frag_info env metadata (consume_cache s n)
      (first_info env s metadata n) ((n - 1) / s.max_samples_per_packet)))
    (wrap ((n - 1) / s.max_samples_per_packet * s.max_samples_per_packet *
      s.bytes_per_cpu_item))

/-- The events of a fragmented request of which every full-size fragment is
sent: the full-size fragments, the final fragment, the flush. -/
def large_events (env : environment) (s : send_packet_handler) (buffs : List Nat) (n : Nat)
    (metadata : tx_metadata_t) : List event :=
  frag_events env buffs metadata ((n - 1) / s.max_samples_per_packet) (consume_cache s n)
      (first_info env s metadata n) 0 ++
    (episode_events env
        (frag_state env buffs metadata ((n - 1) / s.max_samples_per_packet) (consume_cache s n)
          (first_info env s metadata n) 0)
        buffs ((n - 1) % s.max_samples_per_packet + 1)
        (final_info metadata (frag_info env metadata (consume_cache s n)
          (first_info env s metadata n) ((n - 1) / s.max_samples_per_packet)))
        (wrap ((n - 1) / s.max_samples_per_packet * s.max_samples_per_packet *
          s.bytes_per_cpu_item)) ++
      flush_events env (final_state env s buffs n metadata).sendmmsg_calls
        (final_state env s buffs n metadata).multi_msb_buffs)

/-- The handler after a fragmented request that stops at the full-size
fragment `k`. -/
def stopped_state (env : environment) (s : send_packet_handler) (buffs : List Nat) (n : Nat)
    (metadata : tx_metadata_t) (k : Nat) : send_packet_handler :=
  episode_state env
    (frag_state env buffs metadata k (consume_cache s n) (first_info env s metadata n) 0)
    buffs s.max_samples_per_packet
    (frag_info env metadata (consume_cache s n) (first_info env s metadata n) k)
    (wrap (k * s.max_samples_per_packet * s.bytes_per_cpu_item))

/-- The events of a fragmented request that stops at the full-size fragment
`k`: the fragments before it and the call for fragment `k`. -/
def stopped_events (env : environment) (s : send_packet_handler) (buffs : List Nat) (n : Nat)
    (metadata : tx_metadata_t) (k : Nat) : List event :=
  frag_events env buffs metadata k (consume_cache s n) (first_info env s metadata n) 0 ++
    episode_events env
      (frag_state env buffs metadata k (consume_cache s n) (first_info env s metadata n) 0)
      buffs s.max_samples_per_packet
      (frag_info env metadata (consume_cache s n) (first_info env s metadata n) k)
      (wrap (k * s.max_samples_per_packet * s.bytes_per_cpu_item))

/-- What every call of `send` on a well-formed handler achieves: `r` is the
return value for a request of `n` samples, `t` the handler after the call and
`evs` the events of the call. -/
def send_summary (s : send_packet_handler) (n r : Nat) (t : send_packet_handler)
    (evs : List event) : Prop :=
  well_formed t ∧
  t.max_samples_per_packet = s.max_samples_per_packet ∧
  t.log = s.log ++ evs ∧
  t.next_packet_seq = wrap (s.next_packet_seq + ((episodes evs).length - timeouts evs)) ∧
  timeouts evs ≤ (episodes evs).length ∧
  timeouts evs ≤ 1 ∧
  r ≤ n ∧
  (0 < n → (r = n ↔ timeouts evs = 0))

/-- A packer for the examples: four header words, payload, trailer word. -/
def example_packer (info : if_packet_info_t) : if_packet_info_t :=
  { info with
    num_header_words32 := 4
    num_packet_words32 := 4 + info.num_payload_words32 + (if info.has_tlr then 1 else 0) }

/-- Collaborators whose buffer providers always return a buffer. -/
def env_ok : environment :=
  { get_buff := fun f k => some { id := 100 * f + k, sock_fd := 3 }
    vrt_packer := example_packer
    to_ticks := fun t => t.full_secs.toNat
    sendmmsg := fun _ => 0
    zero := 7
    zero_resize := 7 }

/-- Collaborators whose buffer providers always time out. -/
def env_timeout : environment :=
  { env_ok with get_buff := fun _ _ => none }

/-- Collaborators whose buffer providers time out from their third call on. -/
def env_two : environment :=
  { env_ok with
    get_buff := fun f k => if k < 2 then some { id := 100 * f + k, sock_fd := 3 } else none }

/-- Binds provider `i` to channel `i` for every channel below `n`. -/
def bind_providers : Nat → send_packet_handler → send_packet_handler
  | 0, s => s
  | n + 1, s =>
    match set_xport_chan_get_buff (bind_providers n s) n n with
    | call_result.out_of_range s1 => s1
    | call_result.returned s1 => s1

/-- A handler of four channels, one input per channel, four bytes per item,
at most 1000 samples per packet. -/
def handler4 : send_packet_handler :=
  bind_providers 4 (resize env_ok (send_packet_handler.init 1 4 4 1000 0) 4)

/-- A handler of ten channels (one worker thread), at most 1000 samples per
packet. -/
def handler10 : send_packet_handler :=
  bind_providers 10 (resize env_ok (send_packet_handler.init 1 4 4 1000 0) 10)

/-- The handler of four channels with the metadata of a start of burst at a
given time pending in the cache. -/
def handler4_primed : send_packet_handler :=
  { handler4 with
    cached_metadata := true
    metadata_cache :=
      { has_time_spec := true, time_spec := { full_secs := 5, frac_secs := 0 },
        start_of_burst := true, end_of_burst := false } }

/-- Metadata of a request that opens and closes a burst at a given time. -/
def md_burst : tx_metadata_t :=
  { has_time_spec := true, time_spec := { full_secs := 5, frac_secs := 0 },
    start_of_burst := true, end_of_burst := true }

/-- Metadata of a request that closes a burst. -/
def md_end : tx_metadata_t :=
  { has_time_spec := false, time_spec := { full_secs := 0, frac_secs := 0 },
    start_of_burst := false, end_of_burst := true }

/-- Metadata of a request in the middle of a burst. -/
def md_mid : tx_metadata_t :=
  { has_time_spec := false, time_spec := { full_secs := 0, frac_secs := 0 },
    start_of_burst := false, end_of_burst := false }

/-! ## Observations and data for the batches, the cache and the pool -/

/-- The number of background workers of the handler: `resize` starts a
thread for every slot of `conversion_threads` but the first. -/
def background_workers (s : send_packet_handler) : Nat := s.conversion_threads - 1

/-- The calls of `sendmmsg` in a run of events: socket and buffers of each, in
order. -/
def transmits (evs : List event) : List (Int × List managed_send_buffer) :=
  evs.filterMap (fun e =>
    match e with
    | event.sendmmsg sock_fd msgs _ => some (sock_fd, msgs)
    | _ => none)

/-- The buffers held by the transmission batches, batch by batch. -/
def pending (s : send_packet_handler) : List (List managed_send_buffer) :=
  s.multi_msb_buffs.map multi_msb_type.buffs

/-- The distinct sockets of the buffers held by the transmission batches. -/
def pending_sockets (s : send_packet_handler) : List Int :=
  (s.multi_msb_buffs.flatMap (fun multi_msb =>
    multi_msb.buffs.map managed_send_buffer.sock_fd)).dedup

/-- The events with the results of the calls of `sendmmsg` left out: the
value returned is put to 0 and the report of a failure is dropped. -/
def erase_results (evs : List event) : List event :=
  evs.filterMap (fun e =>
    match e with
    | event.sendmmsg sock_fd msgs _ => some (event.sendmmsg sock_fd msgs 0)
    | event.sendmmsg_failed => none
    | e => some e)

/-- The handler with the results of the calls of `sendmmsg` left out of its
log. -/
def forget_results (s : send_packet_handler) : send_packet_handler :=
  { s with log := erase_results s.log }

/-- The handler with two of its members replaced: the vector of pointers to
the zero sample and the record of the metadata cache.  `send_one_packet` and
what it calls read and write neither. -/
def with_idle_members (zero_buffs : List Nat) (metadata_cache : tx_metadata_t)
    (s : send_packet_handler) : send_packet_handler :=
  { s with zero_buffs := zero_buffs, metadata_cache := metadata_cache }

/-- The handler without its vector of pointers to the zero sample. -/
def forget_zero_buffs (s : send_packet_handler) : send_packet_handler :=
  { s with zero_buffs := [] }

/-- Metadata of a request that opens a burst at a given time. -/
def md_start : tx_metadata_t :=
  { has_time_spec := true, time_spec := { full_secs := 5, frac_secs := 0 },
    start_of_burst := true, end_of_burst := false }

/-- The metadata a request with metadata `m` is to be sent with when the
record `c` is pending in the cache, in the words of the specification: the
burst flags of `c`, and the time spec of `m` if it has one, else that of
`c`. -/
def merged_metadata (c m : tx_metadata_t) : tx_metadata_t :=
  { has_time_spec := if m.has_time_spec then true else c.has_time_spec
    time_spec := if m.has_time_spec then m.time_spec else c.time_spec
    start_of_burst := c.start_of_burst
    end_of_burst := c.end_of_burst }

/-- The fields of a descriptor that the statements on bursts compare: burst
flags, time stamp flag, time stamp and sequence number. -/
def burst_fields (info : if_packet_info_t) : Bool × Bool × Bool × Nat × Nat :=
  (info.sob, info.eob, info.has_tsf, info.tsf, info.packet_count)

/-! ## Data and observations for the descriptor, the workers and the source regions -/

/-- A value of the type `double` (IEEE 754 binary64): a finite number, an
infinity or a NaN.  The sign of a zero is not kept: nothing that is done to a
`double` here tells the two zeros apart. -/
inductive double where
  | finite (value : Rat)
  | infinite (negative : Bool)
  | nan
deriving DecidableEq

/-- The integer nearest to `x`, the even one of the two when `x` is halfway
between them. -/
def round_half_even (x : Rat) : Int :=
  if x - ⌊x⌋ < 1 / 2 then ⌊x⌋
  else if 1 / 2 < x - ⌊x⌋ then ⌊x⌋ + 1
  else if ⌊x⌋ % 2 = 0 then ⌊x⌋
  else ⌊x⌋ + 1

/-- The `double` that an arithmetic operation with the exact result `q`
returns in the default rounding mode (to nearest, ties to even): `q` is
rounded to a multiple of the unit in the last place of its binade, 53 bits
being kept and the exponent not going below that of the subnormal numbers;
a result beyond the largest finite number is an infinity. -/
def double.round (q : Rat) : double :=
  if q = 0 then double.finite 0
  else
    let exponent : Int := max (Int.log 2 |q|) (-1022) - 52
    let value : Rat := (round_half_even (q / 2 ^ exponent) : Rat) * 2 ^ exponent
    if 2 ^ 1024 ≤ |value| then double.infinite (decide (q < 0)) else double.finite value

/-- The product of two values of type `double`. -/
def double.mul : double → double → double
  | double.finite u, double.finite v => double.round (u * v)
  | double.finite u, double.infinite b =>
    if u = 0 then double.nan else double.infinite (decide (u < 0) != b)
  | double.infinite a, double.finite v =>
    if v = 0 then double.nan else double.infinite (a != decide (v < 0))
  | double.infinite a, double.infinite b => double.infinite (a != b)
  | _, _ => double.nan

/-- The conversion of a `double` to `long` (64 bits): the value is truncated
towards zero; the conversion is undefined when the truncated value is not a
value of `long`, and for an infinity or a NaN. -/
def double.to_long : double → Option Int
  | double.finite v =>
    let t : Int := if 0 ≤ v then ⌊v⌋ else ⌈v⌉
    if -2 ^ 63 ≤ t ∧ t < 2 ^ 63 then some t else none
  | _ => none

/-- What a call of `recv_async_msg` leaves: the value returned, the metadata
argument (it is passed by reference) and the number of microseconds the call
has slept for, if it has. -/
structure recv_async_result (async_metadata_t : Type) where
  retval : Bool
  async_metadata : async_metadata_t
  slept : Option Int

/-- The member function `recv_async_msg`.  The member `_async_receiver`, the
only one the function reads, is the first argument (`none`: no receiver has
been set); a receiver is given the metadata by reference and returns a flag.
Without a receiver the call sleeps for `long (timeout * 1e6)` microseconds,
the product being that of two values of type `double`; the result is `none`
where the conversion to `long` is undefined. -/
def recv_async_msg {async_metadata_t : Type}
    (async_receiver : Option (async_metadata_t → double → Bool × async_metadata_t))
    (async_metadata : async_metadata_t) (timeout : double) :
    Option (recv_async_result async_metadata_t) :=
  match async_receiver with
  | some receiver =>
    some { retval := (receiver async_metadata timeout).1
           async_metadata := (receiver async_metadata timeout).2
           slept := none }
  | none =>
    match (timeout.mul (double.finite 1000000)).to_long with
    | none => none
    | some us => some { retval := false, async_metadata := async_metadata, slept := some us }

/-- The byte counts of the commits for channel `chan`, in order. -/
def committed_bytes (chan : Nat) (evs : List event) : List Nat :=
  evs.filterMap (fun e =>
    match e with
    | event.commit c _ num_bytes => if c = chan then some num_bytes else none
    | _ => none)

/-- The calls of the converter for channel `chan`, in order: the source
pointers and the sample count of each. -/
def conversions (chan : Nat) (evs : List event) : List (List Nat × Nat) :=
  evs.filterMap (fun e =>
    match e with
    | event.conv c in_buffs n => if c = chan then some (in_buffs, n) else none
    | _ => none)

/-- The handler of four channels with the stream id 99 bound to channel 2. -/
def handler4_sid : send_packet_handler :=
  match set_xport_chan_sid handler4 2 true 99 with
  | call_result.returned s => s
  | call_result.out_of_range s => s

/-- The handler of four channels with a header offset of two words. -/
def handler4_offset : send_packet_handler :=
  bind_providers 4 (resize env_ok (send_packet_handler.init 1 4 4 1000 2) 4)

/-- A handler of one channel with one byte per item and the largest packet
size a `size_t` can hold. -/
def handler1_wide : send_packet_handler :=
  bind_providers 1 (resize env_ok (send_packet_handler.init 1 1 1 (2 ^ 64 - 1) 0) 1)

/-- One turn of the loop over the indices in the worker `convert_to_in_buff`,
statement by statement: the channel and its buffer, the source pointers, the
stream id put into the copy of the descriptor, the packer, the converter, the
commit, the buffer appended to the batch of the channel and the socket of the
batch set, the release, the callback if there is one, and the two flags of
the channel. -/
def convert_to_in_buff_body (env : environment) (s : send_packet_handler) (buffs : List Nat)
    (if_packet_info : if_packet_info_t) (index : Nat) : Option send_packet_handler :=
  (s.props[index]?).bind fun props =>
  props.buff.bind fun buff =>
  let in_buffs := (List.range s.num_inputs).map
    (fun i => buffs.getD (index * s.num_inputs + i) 0 + s.convert_buffer_offset_bytes)
  let info1 : if_packet_info_t := { if_packet_info with has_sid := props.has_sid }
  let info2 : if_packet_info_t := { info1 with sid := props.sid }
  let log1 := s.log ++ [event.vrt_packer index info2]
  let info3 := env.vrt_packer info2
  let log2 := log1 ++ [event.conv index in_buffs s.convert_nsamps]
  let num_vita_words32 := wrap (s.header_offset_words32 + info3.num_packet_words32)
  let log3 := log2 ++ [event.commit index buff (wrap (num_vita_words32 * 4))]
  (s.multi_msb_buffs[index]?).bind fun multi_msb =>
  let multi1 := s.multi_msb_buffs.set index { multi_msb with buffs := multi_msb.buffs ++ [buff] }
  let log4 := log3 ++ [event.enqueue index buff]
  (multi1[index]?).bind fun multi_msb1 =>
  let multi2 := multi1.set index { multi_msb1 with sock_fd := buff.sock_fd }
  let log5 := log4 ++ [event.release index buff]
  let log6 := if props.go_postal then log5 ++ [event.go_postal index] else log5
  some { s with
    multi_msb_buffs := multi2
    log := log6
    conversion_ready := s.conversion_ready.set index false
    conversion_done := s.conversion_done.set index true }

/-- The channel an event of the work on a channel belongs to. -/
def event.chan : event → Option Nat
  | event.get_buff chan _ => some chan
  | event.vrt_packer chan _ => some chan
  | event.conv chan _ _ => some chan
  | event.commit chan _ _ => some chan
  | event.enqueue chan _ => some chan
  | event.release chan _ => some chan
  | event.go_postal chan => some chan
  | _ => none

/-- Whether an event is a call of `sendmmsg`. -/
def event.is_transmit : event → Bool
  | event.sendmmsg _ _ _ => true
  | _ => false

/-- One statement of the unit of work for channel `index` (the body of the
loop over the indices in `convert_to_in_buff` and, up to statement 6, in
`convert_to_in_buff_sequential`), the statements that act on a collaborator
or on a member being numbered in program order: 0 the packer, 1 the
converter, 2 the commit, 3 the `push_back` into the batch of the channel,
4 the socket of the batch, 5 the release, 6 the callback if one is bound,
7 `conversion_ready[index] = false`, 8 `conversion_done[index] = true`.
The locals of the unit (the buffer reference, the copy of the descriptor, the
source pointers) are read from the members they are taken from. -/
def unit_statement (env : environment) (buffs : List Nat) (if_packet_info : if_packet_info_t)
    (index stage : Nat) (s : send_packet_handler) : Option send_packet_handler :=
  (s.props[index]?).bind fun props =>
  props.buff.bind fun buff =>
  let in_buffs := (List.range s.num_inputs).map
    (fun i => buffs.getD (index * s.num_inputs + i) 0 + s.convert_buffer_offset_bytes)
  let info : if_packet_info_t :=
    { if_packet_info with has_sid := props.has_sid, sid := props.sid }
  let num_vita_words32 := wrap (s.header_offset_words32 + (env.vrt_packer info).num_packet_words32)
  match stage with
  | 0 => some { s with log := s.log ++ [event.vrt_packer index info] }
  | 1 => some { s with log := s.log ++ [event.conv index in_buffs s.convert_nsamps] }
  | 2 => some { s with log := s.log ++ [event.commit index buff (wrap (num_vita_words32 * 4))] }
  | 3 =>
    (s.multi_msb_buffs[index]?).map fun multi_msb =>
      { s with
        multi_msb_buffs := s.multi_msb_buffs.set index
          { multi_msb with buffs := multi_msb.buffs ++ [buff] }
        log := s.log ++ [event.enqueue index buff] }
  | 4 =>
    (s.multi_msb_buffs[index]?).map fun multi_msb =>
      { s with
        multi_msb_buffs := s.multi_msb_buffs.set index
          { multi_msb with sock_fd := buff.sock_fd } }
  | 5 => some { s with log := s.log ++ [event.release index buff] }
  | 6 => some (if props.go_postal then { s with log := s.log ++ [event.go_postal index] } else s)
  | 7 => some { s with conversion_ready := s.conversion_ready.set index false }
  | 8 => some { s with conversion_done := s.conversion_done.set index true }
  | _ => none

/-- Where the calling thread is between the acquisition loop of
`send_one_packet` and the end of the flush that follows the call in `send`:
before the block that signals the workers, before the call of
`convert_to_in_buff_sequential`, in that call (the indices still to do, the
first being at hand, and the number of statements done for it), in the loop
that waits for the done flag of channel `i`, back in `send`, in the loop of
`send_multiple_packets` before batch `k`, and after that loop. -/
inductive caller_pc where
  | signal
  | sequential
  | inline (todo : List Nat) (stage : Nat)
  | waiting (i : Nat)
  | returned
  | flushing (k : Nat)
  | flushed
deriving DecidableEq, Repr

/-- Whether the calling thread is in `send_one_packet`. -/
def caller_pc.in_send_one_packet : caller_pc → Bool
  | caller_pc.returned => false
  | caller_pc.flushing _ => false
  | caller_pc.flushed => false
  | _ => true

/-- Where a worker is in `convert_to_in_buff`: in `conversion_cv.wait`, the
mutex released, or past it with the mutex held (the indices still to do, the
first being at hand, and the number of statements done for it). -/
inductive worker_pc where
  | waiting
  | working (todo : List Nat) (stage : Nat)
deriving DecidableEq, Repr

/-- The threads of a handler during a packet: the members they share, the
calling thread, and the workers; entry `w - 1` of `workers` is the thread
`conversion_threads[w]`. -/
structure conc_state where
  handler : send_packet_handler
  caller : caller_pc
  workers : List worker_pc
deriving DecidableEq, Repr

/-- Whether `conversion_mutex` is free.  The workers hold it from the end of
their wait to the end of their slice; the calling thread holds it only within
its signalling block, which is one step here. -/
def mutex_free (c : conc_state) : Bool :=
  c.workers.all (fun w => decide (w = worker_pc.waiting))

/-- The next step of the calling thread; `none` when the thread cannot go on
(the mutex is held by a worker, the done flag polled is not set, the flush is
over) or leaves the defined behaviour.  A step of the flush is one turn of
the loop of `send_multiple_packets`, `send_batch`.  The signalling block (lock, the loop
over the flags, unlock, notify) is one step: the workers read and write the
flags only with the mutex held. -/
def caller_step (env : environment) (buffs : List Nat) (if_packet_info : if_packet_info_t)
    (c : conc_state) : Option conc_state :=
  match c.caller with
  | caller_pc.signal =>
    if 1 < c.handler.conversion_threads then
      if mutex_free c then
        some { c with
          handler := { c.handler with
            conversion_done := set_first c.handler.conversion_done c.handler.size false
            conversion_ready := set_first c.handler.conversion_ready c.handler.size true }
          caller := caller_pc.sequential }
      else none
    else some { c with caller := caller_pc.sequential }
  | caller_pc.sequential =>
    match c.handler.thread_indices[0]? with
    | none => none
    | some indices0 => some { c with caller := caller_pc.inline indices0 0 }
  | caller_pc.inline [] _ =>
    if 1 < c.handler.conversion_threads then
      match c.handler.thread_indices[1]? with
      | some (first :: _) => some { c with caller := caller_pc.waiting first }
      | _ => none
    else
      some { c with
        handler := { c.handler with next_packet_seq := wrap (c.handler.next_packet_seq + 1) }
        caller := caller_pc.returned }
  | caller_pc.inline (index :: rest) stage =>
    if stage < 7 then
      (unit_statement env buffs if_packet_info index stage c.handler).map fun h =>
        { c with handler := h, caller := caller_pc.inline (index :: rest) (stage + 1) }
    else some { c with caller := caller_pc.inline rest 0 }
  | caller_pc.waiting i =>
    if i < c.handler.size then
      match c.handler.conversion_done[i]? with
      | some true => some { c with caller := caller_pc.waiting (i + 1) }
      | _ => none
    else
      some { c with
        handler := { c.handler with next_packet_seq := wrap (c.handler.next_packet_seq + 1) }
        caller := caller_pc.returned }
  | caller_pc.returned => some { c with caller := caller_pc.flushing 0 }
  | caller_pc.flushing k =>
    match c.handler.multi_msb_buffs[k]? with
    | some multi_msb =>
      some { c with
        handler := send_batch env c.handler multi_msb
        caller := caller_pc.flushing (k + 1) }
    | none => some { c with caller := caller_pc.flushed }
  | caller_pc.flushed => none

/-- The next step of the worker `conversion_threads[w]`; `none` when the
thread cannot go on (it waits for the mutex or for the ready flag of its
first channel, or it has left its loop on termination) or leaves the defined
behaviour.  A wait may end whenever the mutex is free and the flag is set. -/
def worker_step (env : environment) (buffs : List Nat) (if_packet_info : if_packet_info_t)
    (w : Nat) (c : conc_state) : Option conc_state :=
  match c.workers[w - 1]? with
  | none => none
  | some worker_pc.waiting =>
    match c.handler.thread_indices[w]? with
    | some (index0 :: rest) =>
      if mutex_free c ∧ c.handler.conversion_ready[index0]? = some true ∧
          c.handler.conversion_terminate = false then
        some { c with workers := c.workers.set (w - 1) (worker_pc.working (index0 :: rest) 0) }
      else none
    | _ => none
  | some (worker_pc.working [] _) =>
    some { c with workers := c.workers.set (w - 1) worker_pc.waiting }
  | some (worker_pc.working (index :: rest) stage) =>
    if stage < 9 then
      (unit_statement env buffs if_packet_info index stage c.handler).map fun h =>
        { c with
          handler := h
          workers := c.workers.set (w - 1) (worker_pc.working (index :: rest) (stage + 1)) }
    else some { c with workers := c.workers.set (w - 1) (worker_pc.working rest 0) }

/-- One step of thread `thread`: 0 is the calling thread, `w` from 1 on the
worker `conversion_threads[w]`. -/
def thread_step (env : environment) (buffs : List Nat) (if_packet_info : if_packet_info_t)
    (thread : Nat) (c : conc_state) : Option conc_state :=
  if thread = 0 then caller_step env buffs if_packet_info c
  else worker_step env buffs if_packet_info thread c

/-- An interleaving: the threads take their steps in the order of
`schedule`.  The result is `none` when a thread is scheduled that cannot go
on. -/
def interleave (env : environment) (buffs : List Nat) (if_packet_info : if_packet_info_t) :
    List Nat → conc_state → Option conc_state
  | [], c => some c
  | thread :: rest, c =>
    match thread_step env buffs if_packet_info thread c with
    | none => none
    | some c1 => interleave env buffs if_packet_info rest c1

/-- The threads when `send_one_packet` has got a buffer for each channel and
has set up the data shared with the workers: every worker is in its wait. -/
def conc_init (s : send_packet_handler) : conc_state :=
  { handler := s
    caller := caller_pc.signal
    workers := List.replicate (s.conversion_threads - 1) worker_pc.waiting }

/-- The threads between two packets: the calling thread is about to signal,
and every worker is in its wait or has done the last statement of its slice
and still holds the mutex. -/
def between_packets (c : conc_state) : Prop :=
  c.caller = caller_pc.signal ∧
  ∀ j todo stage, c.workers[j]? = some (worker_pc.working todo stage) →
    todo = [] ∨ (stage = 9 ∧ ∃ index ∈ c.handler.thread_indices.getD (j + 1) [], todo = [index])

/-- The handler when `send_one_packet` has got a buffer for each channel and
has set up the data shared with the workers; `none` when an acquisition has
timed out or a channel has no provider. -/
def conversion_start (env : environment) (s : send_packet_handler)
    (nsamps_per_buff : Nat) (if_packet_info : if_packet_info_t) (buffer_offset_bytes : Nat) :
    Option send_packet_handler :=
  match get_buffs env 0 s.props with
  | some (true, props, evs) =>
    some { s with
      convert_nsamps := nsamps_per_buff
      props := props
      log := s.log ++
        [event.send_one_packet nsamps_per_buff if_packet_info buffer_offset_bytes] ++ evs
      convert_buffer_offset_bytes := buffer_offset_bytes }
  | _ => none

/-- Whether the buffer that channel `chan` holds in `s` has been committed
for that channel in `evs`. -/
def has_committed (s : send_packet_handler) (evs : List event) (chan : Nat) : Bool :=
  match s.props[chan]? with
  | none => false
  | some props =>
    match props.buff with
    | none => false
    | some buff => decide (buff ∈ commits chan evs)

/-- Every call of `sendmmsg` in `evs` comes after a commit of the buffer of
each channel of `s`. -/
def transmits_after_commits (s : send_packet_handler) (evs : List event) : Prop :=
  ∀ k ∈ List.range evs.length, (evs[k]?).any event.is_transmit = true →
    ∀ chan ∈ List.range s.size, has_committed s (evs.take k) chan = true

instance (s : send_packet_handler) (evs : List event) :
    Decidable (transmits_after_commits s evs) := by
  unfold transmits_after_commits
  infer_instance

/-- The first channel of the first worker, `thread_indices[1].front ()`. -/
def first_worker_channel (s : send_packet_handler) : Nat :=
  (s.thread_indices.getD 1 []).headD 0

/-- The steps of the workers when each does its turn without interruption,
in the order of their slices; `w` is the thread of the first slice. -/
def workers_in_turn : Nat → List (List Nat) → List Nat
  | _, [] => []
  | w, indices :: rest =>
    List.replicate (1 + 10 * indices.length + 1) w ++ workers_in_turn (w + 1) rest

/-- The schedule in which the threads run one after the other: the calling
thread up to its wait, the workers in the order of their slices, the calling
thread to the end of the flush. -/
def schedule_in_turn (s : send_packet_handler) : List Nat :=
  List.replicate (2 + 8 * (s.thread_indices.getD 0 []).length + 1) 0 ++
  workers_in_turn 1 ((s.thread_indices.take s.conversion_threads).drop 1) ++
  List.replicate (s.size - first_worker_channel s + 1 + (1 + s.multi_msb_buffs.length + 1)) 0

/-- What holds of the calling thread at its program points in every
interleaving, `evs` being the events since the threads started from `s`: in
the inline slice the channels that are left behind have their commit, as has
the channel at hand once statement 2 is done; in the wait the inline slice
and the channels polled so far have theirs; afterwards every channel has. -/
def caller_invariant (s : send_packet_handler) : caller_pc → List event → Prop
  | caller_pc.signal, _ => True
  | caller_pc.sequential, _ => True
  | caller_pc.inline todo stage, evs =>
    (∀ x ∈ s.thread_indices.getD 0 [], x ∉ todo → has_committed s evs x = true) ∧
    (2 < stage → ∀ index ∈ todo.head?, has_committed s evs index = true)
  | caller_pc.waiting i, evs =>
    (∀ x ∈ s.thread_indices.getD 0 [], has_committed s evs x = true) ∧
    (∀ x, first_worker_channel s ≤ x → x < i → has_committed s evs x = true)
  | caller_pc.returned, evs => ∀ chan, chan < s.size → has_committed s evs chan = true
  | caller_pc.flushing _, evs => ∀ chan, chan < s.size → has_committed s evs chan = true
  | caller_pc.flushed, evs => ∀ chan, chan < s.size → has_committed s evs chan = true

/-- What holds of the threads in every interleaving that starts from
`conc_init s`, `evs` being the events since the start: the members that the
work on the channels does not write are those of `s`; no call of `sendmmsg`
comes before the commits and none is made while the calling thread is in
`send_one_packet`; once the calling
thread has signalled, a done flag that is set belongs to a channel that has
its commit; a worker past its wait works on channels of its slice, and the
channel at hand has its commit once statement 2 is done and before the done
flag is written; the calling thread is as `caller_invariant` says. -/
def episode_invariant (s : send_packet_handler) (c : conc_state) (evs : List event) : Prop :=
  c.handler.log = s.log ++ evs ∧
  c.handler.props = s.props ∧
  c.handler.thread_indices = s.thread_indices ∧
  c.handler.conversion_threads = s.conversion_threads ∧
  c.handler.conversion_done.length = s.size ∧
  transmits_after_commits s evs ∧
  (c.caller.in_send_one_packet = true → transmits evs = []) ∧
  (c.caller ≠ caller_pc.signal →
    ∀ chan, c.handler.conversion_done[chan]? = some true → has_committed s evs chan = true) ∧
  (∀ j todo stage, c.workers[j]? = some (worker_pc.working todo stage) →
    (∀ x ∈ todo, x ∈ s.thread_indices.getD (j + 1) []) ∧
    (2 < stage → stage < 9 → ∀ index ∈ todo.head?, has_committed s evs index = true)) ∧
  caller_invariant s c.caller evs

/-- The handler of ten channels when `send_one_packet` for 100 samples has
got a buffer for each channel. -/
def handler10_acquired : send_packet_handler :=
  (conversion_start env_ok handler10 100 (translate_metadata env_ok handler10 md_burst)
    0).getD handler10

/-- The statements `stages` of the unit of work for channel `index`, one
after the other. -/
def unit_statements (env : environment) (buffs : List Nat) (if_packet_info : if_packet_info_t)
    (index : Nat) : List Nat → send_packet_handler → Option send_packet_handler
  | [], s => some s
  | stage :: rest, s =>
    match unit_statement env buffs if_packet_info index stage s with
    | none => none
    | some s1 => unit_statements env buffs if_packet_info index rest s1

/-! ## The conversions of a packet, in turn -/

/-- The statements of `send_one_packet` after the data shared with the
workers has been set up ("perform N channels of conversion"): the signal to
the workers, the inline slice, the workers in turn, the wait for the done
flags, the increment of the sequence counter. -/
def perform_conversions (env : environment) (buffs : List Nat)
    (if_packet_info : if_packet_info_t) (s2 : send_packet_handler) :
    Option send_packet_handler :=
  let s3 : send_packet_handler :=
    if 1 < s2.conversion_threads then
      { s2 with
        conversion_done := set_first s2.conversion_done s2.size false
        conversion_ready := set_first s2.conversion_ready s2.size true }
    else s2
  match s3.thread_indices[0]? with
  | none => none
  | some indices0 =>
    match convert_to_in_buff_sequential env buffs if_packet_info indices0 s3 with
    | none => none
    | some s4 =>
      let joined : Option send_packet_handler :=
        if 1 < s4.conversion_threads then
          match run_workers env buffs if_packet_info
              ((s4.thread_indices.take s4.conversion_threads).drop 1) s4 with
          | none => none
          | some s5 => wait_for_workers s5
        else some s4
      match joined with
      | none => none
      | some s6 => some { s6 with next_packet_seq := wrap (s6.next_packet_seq + 1) }

/-! ## The acquisition loop -/

theorem get_buffs_eq (env : environment) :
    ∀ (ps : List xport_chan_props_type) (c : Nat),
      (∀ p ∈ ps, p.get_buff.isSome = true) →
      get_buffs env c ps = some (acq_ok env ps, acq_props env ps, acq_events env c ps)
  | [], _, _ => rfl
  | p :: rest, c, h => by
    have hp := h p (List.mem_cons_self _ _)
    have ih := get_buffs_eq env rest (c + 1) (fun q hq => h q (List.mem_cons_of_mem _ hq))
    obtain ⟨f, hf⟩ := Option.isSome_iff_exists.mp hp
    unfold get_buffs
    simp only [hf]
    cases hr : env.get_buff f p.get_buff_calls with
    | none => simp [acq_ok, acq_props, acq_events, answer, acquire, hf, hr]
    | some b => simp [ih, acq_ok, acq_props, acq_events, answer, acquire, hf, hr]

theorem acq_props_length (env : environment) :
    ∀ ps : List xport_chan_props_type, (acq_props env ps).length = ps.length
  | [] => rfl
  | p :: rest => by
    have ih := acq_props_length env rest
    unfold acq_props
    split <;> simp [ih]

theorem acq_props_bound (env : environment) :
    ∀ ps : List xport_chan_props_type, (∀ p ∈ ps, p.get_buff.isSome = true) →
      ∀ p ∈ acq_props env ps, p.get_buff.isSome = true
  | [], _ => by simp [acq_props]
  | q :: rest, h => by
    have ih := acq_props_bound env rest (fun p hp => h p (List.mem_cons_of_mem _ hp))
    have hq := h q (List.mem_cons_self _ _)
    intro p hp
    unfold acq_props at hp
    rcases List.mem_cons.mp hp with rfl | hp
    · simpa [acquire] using hq
    · split at hp
      · exact ih p hp
      · exact h p (List.mem_cons_of_mem _ hp)

theorem acq_props_ok (env : environment) :
    ∀ ps : List xport_chan_props_type, acq_ok env ps = true →
      acq_props env ps = ps.map (acquire env)
  | [], _ => rfl
  | p :: rest, h => by
    simp only [acq_ok, Bool.and_eq_true] at h
    simp [acq_props, h.1, acq_props_ok env rest h.2]

theorem acq_ok_iff (env : environment) :
    ∀ ps : List xport_chan_props_type,
      acq_ok env ps = true ↔ ∀ p ∈ ps, (answer env p 0).isSome = true
  | [] => by simp [acq_ok]
  | p :: rest => by simp [acq_ok, acq_ok_iff env rest]

theorem acq_props_buff (env : environment) (ps : List xport_chan_props_type)
    (h : acq_ok env ps = true) : ∀ p ∈ acq_props env ps, p.buff.isSome = true := by
  rw [acq_props_ok env ps h]
  intro p hp
  obtain ⟨q, hq, rfl⟩ := List.mem_map.mp hp
  exact (acq_ok_iff env ps).mp h q hq

/-! ## The units of work -/

theorem enqueue_at_length (props : List xport_chan_props_type) (multi : List multi_msb_type)
    (index : Nat) : (enqueue_at props multi index).length = multi.length := by
  unfold enqueue_at
  split
  · split <;> simp
  · rfl

theorem enqueue_all_length (props : List xport_chan_props_type) :
    ∀ (indices : List Nat) (multi : List multi_msb_type),
      (enqueue_all props multi indices).length = multi.length
  | [], _ => rfl
  | i :: rest, multi => by
    have ih := enqueue_all_length props rest (enqueue_at props multi i)
    simp only [enqueue_all, List.foldl_cons] at ih ⊢
    rw [ih, enqueue_at_length]

theorem set_flags_length (v : Bool) :
    ∀ (indices : List Nat) (flags : List Bool), (set_flags v indices flags).length = flags.length
  | [], _ => rfl
  | i :: rest, flags => by
    have ih := set_flags_length v rest (flags.set i v)
    simp only [set_flags, List.foldl_cons] at ih ⊢
    rw [ih, List.length_set]

theorem set_flags_append (v : Bool) (xs ys : List Nat) (flags : List Bool) :
    set_flags v (xs ++ ys) flags = set_flags v ys (set_flags v xs flags) := by
  simp [set_flags, List.foldl_append]

theorem enqueue_all_append (props : List xport_chan_props_type) (multi : List multi_msb_type)
    (xs ys : List Nat) :
    enqueue_all props multi (xs ++ ys) = enqueue_all props (enqueue_all props multi xs) ys := by
  simp [enqueue_all, List.foldl_append]

theorem set_flags_getElem_of_not_mem (v : Bool) :
    ∀ (indices : List Nat) (flags : List Bool) (i : Nat), i ∉ indices →
      (set_flags v indices flags)[i]? = flags[i]?
  | [], _, _, _ => rfl
  | j :: rest, flags, i, h => by
    have hj : j ≠ i := fun e => h (e ▸ List.mem_cons_self _ _)
    have hr : i ∉ rest := fun m => h (List.mem_cons_of_mem _ m)
    have ih := set_flags_getElem_of_not_mem v rest (flags.set j v) i hr
    simp only [set_flags, List.foldl_cons] at ih ⊢
    rw [ih, List.getElem?_set]
    simp [hj]

theorem set_flags_getElem_of_mem (v : Bool) :
    ∀ (indices : List Nat) (flags : List Bool) (i : Nat), i ∈ indices → i < flags.length →
      (set_flags v indices flags)[i]? = some v
  | j :: rest, flags, i, h, hlt => by
    by_cases hr : i ∈ rest
    · have ih := set_flags_getElem_of_mem v rest (flags.set j v) i hr (by simpa using hlt)
      simpa only [set_flags, List.foldl_cons] using ih
    · have hij : i = j := by
        rcases List.mem_cons.mp h with e | m
        · exact e
        · exact absurd m hr
      have ih := set_flags_getElem_of_not_mem v rest (flags.set j v) i hr
      simp only [set_flags, List.foldl_cons] at ih ⊢
      subst hij
      rw [ih, List.getElem?_set]
      simp [hlt]

theorem convert_index_eq (env : environment) (s : send_packet_handler) (buffs : List Nat)
    (info : if_packet_info_t) (index : Nat)
    (hp : index < s.props.length) (hm : index < s.multi_msb_buffs.length)
    (hb : ∀ p ∈ s.props, p.buff.isSome = true) :
    convert_index env s buffs info index = some (convert_effect env buffs info s index) := by
  have h1 : s.props[index]? = some s.props[index] := List.getElem?_eq_getElem hp
  have h2 : s.multi_msb_buffs[index]? = some s.multi_msb_buffs[index] :=
    List.getElem?_eq_getElem hm
  obtain ⟨b, hb1⟩ := Option.isSome_iff_exists.mp (hb _ (List.getElem_mem hp))
  simp only [convert_index, convert_effect, unit_events, enqueue_at, h1, h2, hb1]

theorem convert_sequential_eq (env : environment) (buffs : List Nat) (info : if_packet_info_t) :
    ∀ (indices : List Nat) (s : send_packet_handler),
      (∀ i ∈ indices, i < s.props.length) →
      s.multi_msb_buffs.length = s.props.length →
      (∀ p ∈ s.props, p.buff.isSome = true) →
      convert_to_in_buff_sequential env buffs info indices s =
        some { s with
          multi_msb_buffs := enqueue_all s.props s.multi_msb_buffs indices
          log := s.log ++ indices.flatMap
            (unit_events env s.props s.num_inputs s.convert_buffer_offset_bytes
              s.convert_nsamps s.header_offset_words32 buffs info) }
  | [], s, _, _, _ => by simp [convert_to_in_buff_sequential, enqueue_all]
  | i :: rest, s, hi, hm, hb => by
    have hlt := hi i (List.mem_cons_self _ _)
    unfold convert_to_in_buff_sequential
    rw [convert_index_eq env s buffs info i hlt (hm ▸ hlt) hb]
    simp only
    rw [convert_sequential_eq env buffs info rest (convert_effect env buffs info s i)
      (fun j hj => hi j (List.mem_cons_of_mem _ hj))
      (by simpa [convert_effect, enqueue_at_length] using hm) hb]
    simp [convert_effect, enqueue_all, List.append_assoc]

theorem convert_worker_eq (env : environment) (buffs : List Nat) (info : if_packet_info_t) :
    ∀ (indices : List Nat) (s : send_packet_handler),
      (∀ i ∈ indices, i < s.props.length) →
      s.multi_msb_buffs.length = s.props.length →
      (∀ p ∈ s.props, p.buff.isSome = true) →
      convert_worker_indices env buffs info indices s =
        some { s with
          multi_msb_buffs := enqueue_all s.props s.multi_msb_buffs indices
          conversion_ready := set_flags false indices s.conversion_ready
          conversion_done := set_flags true indices s.conversion_done
          log := s.log ++ indices.flatMap
            (unit_events env s.props s.num_inputs s.convert_buffer_offset_bytes
              s.convert_nsamps s.header_offset_words32 buffs info) }
  | [], s, _, _, _ => by simp [convert_worker_indices, enqueue_all, set_flags]
  | i :: rest, s, hi, hm, hb => by
    have hlt := hi i (List.mem_cons_self _ _)
    unfold convert_worker_indices
    rw [convert_index_eq env s buffs info i hlt (hm ▸ hlt) hb]
    simp only
    refine (convert_worker_eq env buffs info rest _ ?_ ?_ ?_).trans ?_
    · exact fun j hj => hi j (List.mem_cons_of_mem _ hj)
    · simpa [convert_effect, enqueue_at_length] using hm
    · exact hb
    · simp [convert_effect, enqueue_all, set_flags, List.append_assoc]

/-! ## The workers -/

theorem run_workers_eq (env : environment) (buffs : List Nat) (info : if_packet_info_t) :
    ∀ (slices : List (List Nat)) (s : send_packet_handler),
      (∀ sl ∈ slices, sl ≠ []) →
      slices.flatten.Nodup →
      (∀ i ∈ slices.flatten, i < s.props.length) →
      (∀ i ∈ slices.flatten, s.conversion_ready[i]? = some true) →
      s.conversion_terminate = false →
      s.multi_msb_buffs.length = s.props.length →
      (∀ p ∈ s.props, p.buff.isSome = true) →
      run_workers env buffs info slices s =
        some { s with
          multi_msb_buffs := enqueue_all s.props s.multi_msb_buffs slices.flatten
          conversion_ready := set_flags false slices.flatten s.conversion_ready
          conversion_done := set_flags true slices.flatten s.conversion_done
          log := s.log ++ slices.flatten.flatMap
            (unit_events env s.props s.num_inputs s.convert_buffer_offset_bytes
              s.convert_nsamps s.header_offset_words32 buffs info) }
  | [], s, _, _, _, _, _, _, _ => by simp [run_workers, enqueue_all, set_flags]
  | sl :: rest, s, hne, hnd, hlt, hrdy, hterm, hm, hb => by
    obtain ⟨i0, tl, rfl⟩ := List.exists_cons_of_ne_nil (hne sl (List.mem_cons_self _ _))
    have hnd1 : (i0 :: tl).Nodup ∧ rest.flatten.Nodup ∧ (i0 :: tl).Disjoint rest.flatten := by
      rw [List.flatten_cons] at hnd
      exact List.nodup_append.mp hnd
    have hin : ∀ i ∈ i0 :: tl, i < s.props.length :=
      fun i hi => hlt i (by simp only [List.flatten_cons, List.mem_append]; exact Or.inl hi)
    have hin2 : ∀ i ∈ rest.flatten, i < s.props.length :=
      fun i hi => hlt i (by simp only [List.flatten_cons, List.mem_append]; exact Or.inr hi)
    have h0 : s.conversion_ready[i0]? = some true := hrdy i0 (by simp)
    unfold run_workers convert_to_in_buff
    simp only [h0, hterm]
    rw [convert_worker_eq env buffs info (i0 :: tl) s hin hm hb]
    simp only [Bool.false_eq_true, ↓reduceIte]
    rw [run_workers_eq env buffs info rest]
    · simp only [List.flatten_cons, enqueue_all_append, set_flags_append, List.flatMap_append,
        List.append_assoc, hterm]
    · exact fun sl hsl => hne sl (List.mem_cons_of_mem _ hsl)
    · exact hnd1.2.1
    · exact hin2
    · intro i hi
      have hni : i ∉ i0 :: tl := fun h => hnd1.2.2 h hi
      simp only
      rw [set_flags_getElem_of_not_mem false _ _ i hni]
      exact hrdy i (by simp only [List.flatten_cons, List.mem_append]; exact Or.inr hi)
    · exact hterm
    · simpa [enqueue_all_length] using hm
    · exact hb

theorem wait_for_workers_eq (s : send_packet_handler) (first : Nat) (tl : List Nat)
    (h1 : s.thread_indices[1]? = some (first :: tl))
    (hd : ∀ i, i < s.size → first ≤ i → s.conversion_done[i]? = some true) :
    wait_for_workers s = some s := by
  unfold wait_for_workers
  simp only [h1]
  rw [if_pos]
  rw [List.all_eq_true]
  intro i hi
  simp only [List.mem_filter, List.mem_range, decide_eq_true_eq] at hi
  rw [List.getD_eq_getElem?_getD, hd i hi.1 hi.2]
  rfl

/-! ## One call of `send_one_packet` -/

theorem set_first_full {α : Type} (l : List α) (n : Nat) (v : α) (h : l.length = n) :
    set_first l n v = List.replicate n v := by
  simp [set_first, h]

theorem send_one_packet_eq (env : environment) (s : send_packet_handler) (buffs : List Nat)
    (n : Nat) (info : if_packet_info_t) (off : Nat) (hwf : well_formed s) :
    send_one_packet env s buffs n info off =
      some (if acq_ok env s.props then n else 0, load_packet_info s info n,
        episode_state env s buffs n info off) := by
  obtain ⟨hflat, hne, hthreads, hworkers, hmulti, hready, hdone, hterm, hbound, -⟩ := hwf
  unfold send_one_packet
  simp only [get_buffs_eq env s.props 0 hbound]
  cases hok : acq_ok env s.props with
  | false => simp [episode_state, episode_events, hok]
  | true =>
    obtain ⟨sl0, rest, hti⟩ := List.exists_cons_of_ne_nil hne
    have hfl : sl0 ++ rest.flatten = List.range s.props.length := by
      rw [← List.flatten_cons, ← hti]; exact hflat
    have hlt0 : ∀ i ∈ sl0, i < (acq_props env s.props).length := by
      intro i hi
      rw [acq_props_length]
      exact List.mem_range.mp (hfl ▸ List.mem_append_left _ hi)
    have hlt1 : ∀ i ∈ rest.flatten, i < (acq_props env s.props).length := by
      intro i hi
      rw [acq_props_length]
      exact List.mem_range.mp (hfl ▸ List.mem_append_right _ hi)
    have hbuff := acq_props_buff env s.props hok
    have hmulti1 : s.multi_msb_buffs.length = (acq_props env s.props).length := by
      rw [acq_props_length]; exact hmulti
    have hz : (sl0 :: rest)[0]? = some sl0 := by simp
    have hlen' : s.conversion_threads = rest.length + 1 := by rw [hthreads, hti]; rfl
    by_cases hlen : 1 < s.conversion_threads
    · -- worker threads
      obtain ⟨sl1, rest1, hrest⟩ := List.exists_cons_of_ne_nil
        (List.ne_nil_of_length_pos (by omega : 0 < rest.length))
      obtain ⟨first, tl, hsl1⟩ := List.exists_cons_of_ne_nil
        (hworkers sl1 (by simp [hti, hrest]))
      have hnd : rest.flatten.Nodup :=
        (List.nodup_append.mp (hfl ▸ List.nodup_range _)).2.1
      have hcover : ∀ i, i < s.props.length → first ≤ i → i ∈ rest.flatten := by
        intro i hi hfi
        have hmem : i ∈ sl0 ++ rest.flatten := hfl ▸ List.mem_range.mpr hi
        rcases List.mem_append.mp hmem with h0 | h1
        · have hpw := List.pairwise_append.mp (hfl ▸ List.pairwise_lt_range s.props.length)
          have := hpw.2.2 i h0 first (by simp [hrest, hsl1])
          omega
        · exact h1
      simp only [if_pos hlen, hti, hz, send_packet_handler.size]
      rw [convert_sequential_eq env buffs _ sl0 _ hlt0 (by simpa using hmulti1) hbuff]
      simp only [if_pos hlen, hlen', List.take_succ_cons, List.drop_succ_cons, List.drop_zero,
        List.take_of_length_le (le_refl rest.length)]
      rw [run_workers_eq env buffs _ rest _
        (fun sl hsl => hworkers sl (by simpa [hti] using hsl)) hnd hlt1]
      · simp only
        rw [wait_for_workers_eq _ first tl]
        · have hpos : 0 < rest.length := by omega
          simp [episode_state, episode_events, hok, hti, hlen', enqueue_all_append,
            List.append_assoc, send_packet_handler.size, hpos, acq_props_length]
        · simp [hrest, hsl1]
        · intro i hi hfi
          simp only [send_packet_handler.size] at hi ⊢
          rw [acq_props_length] at hi
          rw [set_flags_getElem_of_mem true _ _ i (hcover i hi hfi)
            (by simp [set_first, acq_props_length, hdone, send_packet_handler.size, hi])]
      · intro i hi
        rw [set_first_full _ _ _ (by simpa [acq_props_length, send_packet_handler.size] using hready)]
        simp [List.getElem?_replicate, hlt1 i hi]
      · exact hterm
      · simpa [enqueue_all_length] using hmulti1
      · exact hbuff
    · -- no worker thread
      have hrest : rest = [] := List.eq_nil_of_length_eq_zero (by omega)
      subst hrest
      simp only [if_neg hlen, hti, hz]
      rw [convert_sequential_eq env buffs _ sl0 _ hlt0 (by simpa using hmulti1) hbuff]
      simp [episode_state, episode_events, hok, hti, hlen]

/-! ## The handler after one call of `send_one_packet` -/

@[simp] theorem episode_state_conversion_threads (env : environment) (s : send_packet_handler)
    (buffs : List Nat) (n : Nat) (info : if_packet_info_t) (off : Nat) :
    (episode_state env s buffs n info off).conversion_threads = s.conversion_threads := by
  unfold episode_state
  split <;> rfl

@[simp] theorem episode_state_thread_indices (env : environment) (s : send_packet_handler)
    (buffs : List Nat) (n : Nat) (info : if_packet_info_t) (off : Nat) :
    (episode_state env s buffs n info off).thread_indices = s.thread_indices := by
  unfold episode_state
  split <;> rfl

@[simp] theorem episode_state_conversion_terminate (env : environment) (s : send_packet_handler)
    (buffs : List Nat) (n : Nat) (info : if_packet_info_t) (off : Nat) :
    (episode_state env s buffs n info off).conversion_terminate = s.conversion_terminate := by
  unfold episode_state
  split <;> rfl

@[simp] theorem episode_state_channel_per_conversion_thread (env : environment) (s : send_packet_handler)
    (buffs : List Nat) (n : Nat) (info : if_packet_info_t) (off : Nat) :
    (episode_state env s buffs n info off).channel_per_conversion_thread = s.channel_per_conversion_thread := by
  unfold episode_state
  split <;> rfl

@[simp] theorem episode_state_header_offset_words32 (env : environment) (s : send_packet_handler)
    (buffs : List Nat) (n : Nat) (info : if_packet_info_t) (off : Nat) :
    (episode_state env s buffs n info off).header_offset_words32 = s.header_offset_words32 := by
  unfold episode_state
  split <;> rfl

@[simp] theorem episode_state_num_inputs (env : environment) (s : send_packet_handler)
    (buffs : List Nat) (n : Nat) (info : if_packet_info_t) (off : Nat) :
    (episode_state env s buffs n info off).num_inputs = s.num_inputs := by
  unfold episode_state
  split <;> rfl

@[simp] theorem episode_state_bytes_per_otw_item (env : environment) (s : send_packet_handler)
    (buffs : List Nat) (n : Nat) (info : if_packet_info_t) (off : Nat) :
    (episode_state env s buffs n info off).bytes_per_otw_item = s.bytes_per_otw_item := by
  unfold episode_state
  split <;> rfl

@[simp] theorem episode_state_bytes_per_cpu_item (env : environment) (s : send_packet_handler)
    (buffs : List Nat) (n : Nat) (info : if_packet_info_t) (off : Nat) :
    (episode_state env s buffs n info off).bytes_per_cpu_item = s.bytes_per_cpu_item := by
  unfold episode_state
  split <;> rfl

@[simp] theorem episode_state_max_samples_per_packet (env : environment) (s : send_packet_handler)
    (buffs : List Nat) (n : Nat) (info : if_packet_info_t) (off : Nat) :
    (episode_state env s buffs n info off).max_samples_per_packet = s.max_samples_per_packet := by
  unfold episode_state
  split <;> rfl

@[simp] theorem episode_state_zero_buffs (env : environment) (s : send_packet_handler)
    (buffs : List Nat) (n : Nat) (info : if_packet_info_t) (off : Nat) :
    (episode_state env s buffs n info off).zero_buffs = s.zero_buffs := by
  unfold episode_state
  split <;> rfl

@[simp] theorem episode_state_has_tlr (env : environment) (s : send_packet_handler)
    (buffs : List Nat) (n : Nat) (info : if_packet_info_t) (off : Nat) :
    (episode_state env s buffs n info off).has_tlr = s.has_tlr := by
  unfold episode_state
  split <;> rfl

@[simp] theorem episode_state_cached_metadata (env : environment) (s : send_packet_handler)
    (buffs : List Nat) (n : Nat) (info : if_packet_info_t) (off : Nat) :
    (episode_state env s buffs n info off).cached_metadata = s.cached_metadata := by
  unfold episode_state
  split <;> rfl

@[simp] theorem episode_state_metadata_cache (env : environment) (s : send_packet_handler)
    (buffs : List Nat) (n : Nat) (info : if_packet_info_t) (off : Nat) :
    (episode_state env s buffs n info off).metadata_cache = s.metadata_cache := by
  unfold episode_state
  split <;> rfl

@[simp] theorem episode_state_sendmmsg_calls (env : environment) (s : send_packet_handler)
    (buffs : List Nat) (n : Nat) (info : if_packet_info_t) (off : Nat) :
    (episode_state env s buffs n info off).sendmmsg_calls = s.sendmmsg_calls := by
  unfold episode_state
  split <;> rfl

@[simp] theorem episode_state_props (env : environment) (s : send_packet_handler)
    (buffs : List Nat) (n : Nat) (info : if_packet_info_t) (off : Nat) :
    (episode_state env s buffs n info off).props = acq_props env s.props := by
  unfold episode_state
  split <;> rfl

@[simp] theorem episode_state_size (env : environment) (s : send_packet_handler)
    (buffs : List Nat) (n : Nat) (info : if_packet_info_t) (off : Nat) :
    (episode_state env s buffs n info off).size = s.size := by
  simp [send_packet_handler.size, acq_props_length]

@[simp] theorem episode_state_log (env : environment) (s : send_packet_handler)
    (buffs : List Nat) (n : Nat) (info : if_packet_info_t) (off : Nat) :
    (episode_state env s buffs n info off).log =
      s.log ++ episode_events env s buffs n info off := by
  unfold episode_state
  split <;> rfl

theorem episode_state_seq (env : environment) (s : send_packet_handler)
    (buffs : List Nat) (n : Nat) (info : if_packet_info_t) (off : Nat) :
    (episode_state env s buffs n info off).next_packet_seq =
      if acq_ok env s.props then wrap (s.next_packet_seq + 1) else s.next_packet_seq := by
  unfold episode_state
  split <;> rfl

theorem episode_state_multi (env : environment) (s : send_packet_handler)
    (buffs : List Nat) (n : Nat) (info : if_packet_info_t) (off : Nat) :
    (episode_state env s buffs n info off).multi_msb_buffs =
      if acq_ok env s.props then
        enqueue_all (acq_props env s.props) s.multi_msb_buffs s.thread_indices.flatten
      else s.multi_msb_buffs := by
  unfold episode_state
  split <;> rfl

theorem well_formed_of_eq (s t : send_packet_handler) (h : well_formed s)
    (h1 : t.thread_indices = s.thread_indices) (h2 : t.conversion_threads = s.conversion_threads)
    (h3 : t.props.length = s.props.length)
    (h4 : t.multi_msb_buffs.length = s.multi_msb_buffs.length)
    (h5 : t.conversion_ready.length = s.conversion_ready.length)
    (h6 : t.conversion_done.length = s.conversion_done.length)
    (h7 : t.conversion_terminate = s.conversion_terminate)
    (h8 : ∀ p ∈ t.props, p.get_buff.isSome = true)
    (h9 : t.next_packet_seq < 2 ^ 64) : well_formed t := by
  unfold well_formed at h ⊢
  simp only [send_packet_handler.size] at h ⊢
  rw [h1, h2, h3, h4, h5, h6, h7]
  exact ⟨h.1, h.2.1, h.2.2.1, h.2.2.2.1, h.2.2.2.2.1, h.2.2.2.2.2.1, h.2.2.2.2.2.2.1,
    h.2.2.2.2.2.2.2.1, h8, h9⟩

theorem set_first_length {α : Type} (l : List α) (n : Nat) (v : α) :
    (set_first l n v).length = l.length := by
  simp only [set_first, List.length_append, List.length_replicate, List.length_drop]
  omega

theorem episode_state_well_formed (env : environment) (s : send_packet_handler)
    (buffs : List Nat) (n : Nat) (info : if_packet_info_t) (off : Nat) (h : well_formed s) :
    well_formed (episode_state env s buffs n info off) := by
  apply well_formed_of_eq s _ h
  · simp
  · simp
  · simp [acq_props_length]
  · rw [episode_state_multi]
    split
    · rw [enqueue_all_length]
    · rfl
  · unfold episode_state
    split
    · simp only []
      split
      · rw [set_flags_length, set_first_length]
      · rfl
    · rfl
  · unfold episode_state
    split
    · simp only []
      split
      · rw [set_flags_length, set_first_length]
      · rfl
    · rfl
  · unfold episode_state
    split <;> rfl
  · rw [episode_state_props]
    exact acq_props_bound env s.props h.2.2.2.2.2.2.2.2.1
  · rw [episode_state_seq]
    split
    · exact Nat.mod_lt _ (by norm_num)
    · exact h.2.2.2.2.2.2.2.2.2

/-! ## `send_multiple_packets` -/

theorem send_multiple_packets_eq (env : environment) (s : send_packet_handler) :
    send_multiple_packets env s =
      { s with
        sendmmsg_calls := s.sendmmsg_calls + s.multi_msb_buffs.length
        log := s.log ++ flush_events env s.sendmmsg_calls s.multi_msb_buffs } := by
  have key : ∀ (ms : List multi_msb_type) (t : send_packet_handler),
      ms.foldl (send_batch env) t =
        { t with
          sendmmsg_calls := t.sendmmsg_calls + ms.length
          log := t.log ++ flush_events env t.sendmmsg_calls ms } := by
    intro ms
    induction ms with
    | nil => intro t; simp [flush_events]
    | cons m rest ih =>
      intro t
      rw [List.foldl_cons, ih]
      simp [send_batch, flush_events, List.append_assoc, Nat.add_assoc, Nat.add_comm 1]
  exact key s.multi_msb_buffs s

/-! ## Observations on the events of one call -/

theorem episodes_append (a b : List event) :
    episodes (a ++ b) = episodes a ++ episodes b := by
  simp [episodes, List.filterMap_append]

theorem episodes_acq_events (env : environment) :
    ∀ (ps : List xport_chan_props_type) (k : Nat), episodes (acq_events env k ps) = []
  | [], _ => rfl
  | p :: rest, k => by
    have ih := episodes_acq_events env rest (k + 1)
    unfold acq_events
    split
    · simpa [episodes] using ih
    · simp [episodes]

theorem episodes_flush_events (env : environment) :
    ∀ (ms : List multi_msb_type) (k : Nat), episodes (flush_events env k ms) = []
  | [], _ => rfl
  | m :: rest, k => by
    have ih := episodes_flush_events env rest (k + 1)
    unfold flush_events
    rw [episodes_append, ih]
    split <;> simp [episodes]

theorem packed_append (c : Nat) (a b : List event) :
    packed c (a ++ b) = packed c a ++ packed c b := by
  simp [packed, List.filterMap_append]

theorem packed_acq_events (env : environment) (c : Nat) :
    ∀ (ps : List xport_chan_props_type) (k : Nat), packed c (acq_events env k ps) = []
  | [], _ => rfl
  | p :: rest, k => by
    have ih := packed_acq_events env c rest (k + 1)
    unfold acq_events
    split
    · simpa [packed] using ih
    · simp [packed]

theorem packed_flush_events (env : environment) (c : Nat) :
    ∀ (ms : List multi_msb_type) (k : Nat), packed c (flush_events env k ms) = []
  | [], _ => rfl
  | m :: rest, k => by
    have ih := packed_flush_events env c rest (k + 1)
    unfold flush_events
    rw [packed_append, ih]
    split <;> simp [packed]

theorem converted_append (c : Nat) (a b : List event) :
    converted c (a ++ b) = converted c a ++ converted c b := by
  simp [converted, List.filterMap_append]

theorem converted_acq_events (env : environment) (c : Nat) :
    ∀ (ps : List xport_chan_props_type) (k : Nat), converted c (acq_events env k ps) = []
  | [], _ => rfl
  | p :: rest, k => by
    have ih := converted_acq_events env c rest (k + 1)
    unfold acq_events
    split
    · simpa [converted] using ih
    · simp [converted]

theorem converted_flush_events (env : environment) (c : Nat) :
    ∀ (ms : List multi_msb_type) (k : Nat), converted c (flush_events env k ms) = []
  | [], _ => rfl
  | m :: rest, k => by
    have ih := converted_flush_events env c rest (k + 1)
    unfold flush_events
    rw [converted_append, ih]
    split <;> simp [converted]

theorem commits_append (c : Nat) (a b : List event) :
    commits c (a ++ b) = commits c a ++ commits c b := by
  simp [commits, List.filterMap_append]

theorem commits_acq_events (env : environment) (c : Nat) :
    ∀ (ps : List xport_chan_props_type) (k : Nat), commits c (acq_events env k ps) = []
  | [], _ => rfl
  | p :: rest, k => by
    have ih := commits_acq_events env c rest (k + 1)
    unfold acq_events
    split
    · simpa [commits] using ih
    · simp [commits]

theorem commits_flush_events (env : environment) (c : Nat) :
    ∀ (ms : List multi_msb_type) (k : Nat), commits c (flush_events env k ms) = []
  | [], _ => rfl
  | m :: rest, k => by
    have ih := commits_flush_events env c rest (k + 1)
    unfold flush_events
    rw [commits_append, ih]
    split <;> simp [commits]

theorem enqueued_append (c : Nat) (a b : List event) :
    enqueued c (a ++ b) = enqueued c a ++ enqueued c b := by
  simp [enqueued, List.filterMap_append]

theorem enqueued_acq_events (env : environment) (c : Nat) :
    ∀ (ps : List xport_chan_props_type) (k : Nat), enqueued c (acq_events env k ps) = []
  | [], _ => rfl
  | p :: rest, k => by
    have ih := enqueued_acq_events env c rest (k + 1)
    unfold acq_events
    split
    · simpa [enqueued] using ih
    · simp [enqueued]

theorem enqueued_flush_events (env : environment) (c : Nat) :
    ∀ (ms : List multi_msb_type) (k : Nat), enqueued c (flush_events env k ms) = []
  | [], _ => rfl
  | m :: rest, k => by
    have ih := enqueued_flush_events env c rest (k + 1)
    unfold flush_events
    rw [enqueued_append, ih]
    split <;> simp [enqueued]

theorem timeouts_append (a b : List event) : timeouts (a ++ b) = timeouts a + timeouts b := by
  simp [timeouts, List.countP_append]

theorem timeouts_acq_events (env : environment) :
    ∀ (ps : List xport_chan_props_type) (k : Nat),
      timeouts (acq_events env k ps) = if acq_ok env ps then 0 else 1
  | [], _ => rfl
  | p :: rest, k => by
    have ih := timeouts_acq_events env rest (k + 1)
    unfold acq_events acq_ok
    cases h : answer env p 0 with
    | none => simp [timeouts]
    | some b =>
      simp only [Option.isSome_some, if_true, Bool.true_and]
      rw [← ih]
      simp [timeouts]

theorem timeouts_flush_events (env : environment) :
    ∀ (ms : List multi_msb_type) (k : Nat), timeouts (flush_events env k ms) = 0
  | [], _ => rfl
  | m :: rest, k => by
    have ih := timeouts_flush_events env rest (k + 1)
    unfold flush_events
    rw [timeouts_append, ih]
    split <;> simp [timeouts]

theorem flush_events_no_work (env : environment) :
    ∀ (ms : List multi_msb_type) (k : Nat), ∀ e ∈ flush_events env k ms, e.is_packet_work = false
  | [], _ => by simp [flush_events]
  | m :: rest, k => by
    have ih := flush_events_no_work env rest (k + 1)
    intro e he
    unfold flush_events at he
    rcases List.mem_append.mp he with h | h
    · split at h
      · simp only [List.mem_cons, List.mem_singleton, List.not_mem_nil, or_false] at h
        rcases h with rfl | rfl <;> rfl
      · simp only [List.mem_cons, List.not_mem_nil, or_false] at h
        subst h
        rfl
    · exact ih e h

theorem acq_events_timeout (env : environment) :
    ∀ (ps : List xport_chan_props_type) (k : Nat), acq_ok env ps = false →
      ∃ init c, acq_events env k ps = init ++ [event.get_buff c none] ∧ timeouts init = 0
  | [], _, h => by simp [acq_ok] at h
  | p :: rest, k, h => by
    unfold acq_events
    cases hp : answer env p 0 with
    | none => exact ⟨[], k, by simp, rfl⟩
    | some b =>
      have hr : acq_ok env rest = false := by simpa [acq_ok, hp] using h
      obtain ⟨init, c, he, ht⟩ := acq_events_timeout env rest (k + 1) hr
      refine ⟨event.get_buff k (some b) :: init, c, by simp [he], ?_⟩
      simpa [timeouts] using ht

theorem filterMap_flatMap_nil {α β γ : Type} (f : β → Option γ) (g : α → List β) :
    ∀ l : List α, (∀ a ∈ l, (g a).filterMap f = []) → (l.flatMap g).filterMap f = []
  | [], _ => rfl
  | a :: rest, h => by
    rw [List.flatMap_cons, List.filterMap_append, h a (List.mem_cons_self _ _),
      filterMap_flatMap_nil f g rest (fun b hb => h b (List.mem_cons_of_mem _ hb))]
    rfl

theorem filterMap_flatMap_range {γ : Type} (f : event → Option γ) (g : Nat → List event)
    (c : Nat) (h : ∀ i, i ≠ c → (g i).filterMap f = []) :
    ∀ N, ((List.range N).flatMap g).filterMap f = if c < N then (g c).filterMap f else []
  | 0 => by simp
  | N + 1 => by
    rw [List.range_succ, List.flatMap_append, List.filterMap_append,
      filterMap_flatMap_range f g c h N]
    simp only [List.flatMap_cons, List.flatMap_nil, List.append_nil]
    by_cases hc : c < N
    · rw [if_pos hc, if_pos (by omega), h N (by omega), List.append_nil]
    · rw [if_neg hc]
      by_cases hcN : c = N
      · subst hcN
        simp
      · rw [h N (fun e => hcN e.symm), if_neg (by omega)]
        rfl

theorem timeouts_flatMap_unit_events (env : environment) (props : List xport_chan_props_type)
    (ni off n ho : Nat) (buffs : List Nat) (info : if_packet_info_t) :
    ∀ l : List Nat, timeouts (l.flatMap (unit_events env props ni off n ho buffs info)) = 0
  | [] => rfl
  | i :: rest => by
    rw [List.flatMap_cons, timeouts_append, timeouts_flatMap_unit_events env props ni off n ho
      buffs info rest]
    unfold unit_events
    split
    · rfl
    · split
      · rfl
      · split <;> simp [timeouts]

theorem episodes_flatMap_unit_events (env : environment) (props : List xport_chan_props_type)
    (ni off n ho : Nat) (buffs : List Nat) (info : if_packet_info_t) (l : List Nat) :
    episodes (l.flatMap (unit_events env props ni off n ho buffs info)) = [] := by
  apply filterMap_flatMap_nil
  intro i _
  unfold unit_events
  split
  · rfl
  · split
    · rfl
    · split <;> simp

theorem unit_events_other (env : environment) (props : List xport_chan_props_type)
    (ni off n ho : Nat) (buffs : List Nat) (info : if_packet_info_t) (c i : Nat) (h : i ≠ c) :
    packed c (unit_events env props ni off n ho buffs info i) = [] ∧
    converted c (unit_events env props ni off n ho buffs info i) = [] ∧
    commits c (unit_events env props ni off n ho buffs info i) = [] ∧
    enqueued c (unit_events env props ni off n ho buffs info i) = [] := by
  unfold unit_events
  split
  · exact ⟨rfl, rfl, rfl, rfl⟩
  · split
    · exact ⟨rfl, rfl, rfl, rfl⟩
    · split <;> simp [packed, converted, commits, enqueued, h]

theorem unit_events_self (env : environment) (props : List xport_chan_props_type)
    (ni off n ho : Nat) (buffs : List Nat) (info : if_packet_info_t) (c : Nat)
    (p : xport_chan_props_type) (b : managed_send_buffer)
    (hp : props[c]? = some p) (hb : p.buff = some b) :
    packed c (unit_events env props ni off n ho buffs info c) = [stamp p info] ∧
    converted c (unit_events env props ni off n ho buffs info c) = [n] ∧
    commits c (unit_events env props ni off n ho buffs info c) = [b] ∧
    enqueued c (unit_events env props ni off n ho buffs info c) = [b] := by
  unfold unit_events
  simp only [hp, hb]
  split <;> simp [packed, converted, commits, enqueued, stamp]

theorem range_unit_events (env : environment) (props : List xport_chan_props_type)
    (ni off n ho : Nat) (buffs : List Nat) (info : if_packet_info_t) (c : Nat)
    (p : xport_chan_props_type) (b : managed_send_buffer)
    (hp : props[c]? = some p) (hb : p.buff = some b) :
    packed c ((List.range props.length).flatMap (unit_events env props ni off n ho buffs info)) =
      [stamp p info] ∧
    converted c ((List.range props.length).flatMap
      (unit_events env props ni off n ho buffs info)) = [n] ∧
    commits c ((List.range props.length).flatMap
      (unit_events env props ni off n ho buffs info)) = [b] ∧
    enqueued c ((List.range props.length).flatMap
      (unit_events env props ni off n ho buffs info)) = [b] := by
  have hc : c < props.length := (List.getElem?_eq_some_iff.mp hp).1
  have hs := unit_events_self env props ni off n ho buffs info c p b hp hb
  have ho' := fun i h => unit_events_other env props ni off n ho buffs info c i h
  refine ⟨?_, ?_, ?_, ?_⟩
  · unfold packed at hs ho' ⊢
    rw [filterMap_flatMap_range _ _ c (fun i h => (ho' i h).1), if_pos hc, hs.1]
  · unfold converted at hs ho' ⊢
    rw [filterMap_flatMap_range _ _ c (fun i h => (ho' i h).2.1), if_pos hc, hs.2.1]
  · unfold commits at hs ho' ⊢
    rw [filterMap_flatMap_range _ _ c (fun i h => (ho' i h).2.2.1), if_pos hc, hs.2.2.1]
  · unfold enqueued at hs ho' ⊢
    rw [filterMap_flatMap_range _ _ c (fun i h => (ho' i h).2.2.2), if_pos hc, hs.2.2.2]

theorem range_unit_events_none (env : environment) (props : List xport_chan_props_type)
    (ni off n ho : Nat) (buffs : List Nat) (info : if_packet_info_t) (c : Nat)
    (hp : props[c]? = none) :
    packed c ((List.range props.length).flatMap (unit_events env props ni off n ho buffs info)) =
      [] ∧
    converted c ((List.range props.length).flatMap
      (unit_events env props ni off n ho buffs info)) = [] ∧
    commits c ((List.range props.length).flatMap
      (unit_events env props ni off n ho buffs info)) = [] ∧
    enqueued c ((List.range props.length).flatMap
      (unit_events env props ni off n ho buffs info)) = [] := by
  have hc : ¬ c < props.length := by
    intro h
    rw [List.getElem?_eq_getElem h] at hp
    exact Option.noConfusion hp
  have ho' := fun i h => unit_events_other env props ni off n ho buffs info c i h
  refine ⟨?_, ?_, ?_, ?_⟩
  · unfold packed at ho' ⊢
    rw [filterMap_flatMap_range _ _ c (fun i h => (ho' i h).1), if_neg hc]
  · unfold converted at ho' ⊢
    rw [filterMap_flatMap_range _ _ c (fun i h => (ho' i h).2.1), if_neg hc]
  · unfold commits at ho' ⊢
    rw [filterMap_flatMap_range _ _ c (fun i h => (ho' i h).2.2.1), if_neg hc]
  · unfold enqueued at ho' ⊢
    rw [filterMap_flatMap_range _ _ c (fun i h => (ho' i h).2.2.2), if_neg hc]

theorem episodes_episode_events (env : environment) (s : send_packet_handler)
    (buffs : List Nat) (n : Nat) (info : if_packet_info_t) (off : Nat) :
    episodes (episode_events env s buffs n info off) = [(n, info, off)] := by
  unfold episode_events
  rw [← List.singleton_append, episodes_append, episodes_append, episodes_acq_events]
  split
  · rw [episodes_flatMap_unit_events]
    rfl
  · rfl

theorem timeouts_episode_events (env : environment) (s : send_packet_handler)
    (buffs : List Nat) (n : Nat) (info : if_packet_info_t) (off : Nat) :
    timeouts (episode_events env s buffs n info off) = if acq_ok env s.props then 0 else 1 := by
  unfold episode_events
  rw [← List.singleton_append, timeouts_append, timeouts_append, timeouts_acq_events]
  split
  · rw [timeouts_flatMap_unit_events]
    rfl
  · rfl

theorem episode_events_ok (env : environment) (s : send_packet_handler)
    (buffs : List Nat) (n : Nat) (info : if_packet_info_t) (off : Nat)
    (hflat : s.thread_indices.flatten = List.range s.size) (hok : acq_ok env s.props = true)
    (c : Nat) (p : xport_chan_props_type) (b : managed_send_buffer)
    (hp : s.props[c]? = some p) (hb : answer env p 0 = some b) :
    packed c (episode_events env s buffs n info off) = [stamp p (load_packet_info s info n)] ∧
    converted c (episode_events env s buffs n info off) = [n] ∧
    commits c (episode_events env s buffs n info off) = [b] ∧
    enqueued c (episode_events env s buffs n info off) = [b] := by
  have hlen : s.size = (acq_props env s.props).length := by
    rw [acq_props_length]; rfl
  have hp' : (acq_props env s.props)[c]? = some (acquire env p) := by
    rw [acq_props_ok env s.props hok, List.getElem?_map, hp]
    rfl
  have key := range_unit_events env (acq_props env s.props) s.num_inputs off n
    s.header_offset_words32 buffs (load_packet_info s info n) c (acquire env p) b hp' hb
  unfold episode_events
  rw [if_pos hok, hflat, hlen]
  refine ⟨?_, ?_, ?_, ?_⟩
  · rw [← List.singleton_append, packed_append, packed_append, packed_acq_events, key.1]
    rfl
  · rw [← List.singleton_append, converted_append, converted_append, converted_acq_events,
      key.2.1]
    rfl
  · rw [← List.singleton_append, commits_append, commits_append, commits_acq_events,
      key.2.2.1]
    rfl
  · rw [← List.singleton_append, enqueued_append, enqueued_append, enqueued_acq_events,
      key.2.2.2]
    rfl

theorem episode_events_none (env : environment) (s : send_packet_handler)
    (buffs : List Nat) (n : Nat) (info : if_packet_info_t) (off : Nat)
    (hflat : s.thread_indices.flatten = List.range s.size)
    (c : Nat) (h : acq_ok env s.props = false ∨ s.props[c]? = none) :
    packed c (episode_events env s buffs n info off) = [] ∧
    converted c (episode_events env s buffs n info off) = [] ∧
    commits c (episode_events env s buffs n info off) = [] ∧
    enqueued c (episode_events env s buffs n info off) = [] := by
  unfold episode_events
  rw [← List.singleton_append]
  simp only [packed_append, converted_append,
    commits_append, enqueued_append, packed_acq_events, converted_acq_events,
    commits_acq_events, enqueued_acq_events]
  cases hok : acq_ok env s.props with
  | false => exact ⟨rfl, rfl, rfl, rfl⟩
  | true =>
    have hc : s.props[c]? = none := by
      rcases h with h | h
      · rw [hok] at h; exact Bool.noConfusion h
      · exact h
    have hlen : s.size = (acq_props env s.props).length := by
      rw [acq_props_length]; rfl
    have hp' : (acq_props env s.props)[c]? = none := by
      rw [acq_props_ok env s.props hok, List.getElem?_map, hc]
      rfl
    have key := range_unit_events_none env (acq_props env s.props) s.num_inputs off n
      s.header_offset_words32 buffs (load_packet_info s info n) c hp'
    rw [if_pos rfl, hflat, hlen, key.1, key.2.1, key.2.2.1, key.2.2.2]
    exact ⟨rfl, rfl, rfl, rfl⟩

/-! ## The loop over the fragments -/

theorem answer_acquire (env : environment) (p : xport_chan_props_type) (j : Nat) :
    answer env (acquire env p) j = answer env p (j + 1) := by
  unfold answer acquire
  cases p.get_buff with
  | none => rfl
  | some f => simp only [Nat.add_assoc, Nat.add_comm 1 j]

theorem acquires_zero (env : environment) (s : send_packet_handler) :
    acquires env s 0 ↔ acq_ok env s.props = true :=
  (acq_ok_iff env s.props).symm

theorem acquires_episode (env : environment) (s : send_packet_handler) (buffs : List Nat)
    (n : Nat) (info : if_packet_info_t) (off : Nat) (hok : acq_ok env s.props = true) (j : Nat) :
    acquires env (episode_state env s buffs n info off) j ↔ acquires env s (j + 1) := by
  unfold acquires
  rw [episode_state_props, acq_props_ok env s.props hok]
  constructor
  · intro h p hp
    rw [← answer_acquire]
    exact h _ (List.mem_map_of_mem _ hp)
  · intro h q hq
    obtain ⟨p, hp, rfl⟩ := List.mem_map.mp hq
    rw [answer_acquire]
    exact h p hp

theorem wrap_wrap_add (a b : Nat) : wrap (wrap a + b) = wrap (a + b) := by
  unfold wrap
  exact Nat.mod_add_mod a (2 ^ 64) b

theorem wrap_of_lt (a : Nat) (h : a < 2 ^ 64) : wrap a = a := Nat.mod_eq_of_lt h

theorem load_packet_info_eq (s : send_packet_handler) (info : if_packet_info_t) (n : Nat) :
    load_packet_info s info n = loaded s.num_inputs s.bytes_per_otw_item s.next_packet_seq info n :=
  rfl

theorem frag_info_zero (env : environment) (metadata : tx_metadata_t)
    (s : send_packet_handler) (info : if_packet_info_t) :
    frag_info env metadata s info 0 = info := rfl

theorem frag_info_succ (env : environment) (metadata : tx_metadata_t)
    (s : send_packet_handler) (buffs : List Nat) (info : if_packet_info_t) (off : Nat)
    (hwf : well_formed s) (hok : acq_ok env s.props = true) (i : Nat) :
    frag_info env metadata (episode_state env s buffs s.max_samples_per_packet info off)
        (next_info env metadata s info) i =
      frag_info env metadata s info (i + 1) := by
  have hseq := hwf.2.2.2.2.2.2.2.2.2
  cases i with
  | zero =>
    simp only [frag_info, next_info, load_packet_info_eq, Nat.add_zero, wrap_of_lt _ hseq]
  | succ j =>
    simp only [frag_info, next_info, load_packet_info_eq, episode_state_num_inputs,
      episode_state_bytes_per_otw_item, episode_state_max_samples_per_packet,
      episode_state_seq, hok, if_true, wrap_wrap_add, loaded]
    rw [Nat.add_assoc, Nat.add_comm 1 j]

theorem send_fragments_ok (env : environment) (buffs : List Nat) (metadata : tx_metadata_t) :
    ∀ (F : Nat) (s : send_packet_handler) (info : if_packet_info_t) (total : Nat),
      well_formed s → 0 < s.max_samples_per_packet →
      (∀ j, j < F → acquires env s j) →
      send_fragments env buffs metadata F s info total =
        some (false, total + F * s.max_samples_per_packet, frag_info env metadata s info F,
          frag_state env buffs metadata F s info total)
  | 0, s, info, total, _, _, _ => by simp [send_fragments, frag_info, frag_state]
  | F + 1, s, info, total, hwf, hmax, hacq => by
    have hok : acq_ok env s.props = true := (acquires_zero env s).mp (hacq 0 (by omega))
    unfold send_fragments
    rw [send_one_packet_eq env s buffs _ info _ hwf]
    simp only [hok, if_true, if_neg (Nat.pos_iff_ne_zero.mp hmax)]
    rw [send_fragments_ok env buffs metadata F _ _ _
      (episode_state_well_formed env s buffs _ info _ hwf)
      (by simpa using hmax)
      (fun j hj => (acquires_episode env s buffs _ info _ hok j).mpr (hacq (j + 1) (by omega)))]
    have hn : ({ load_packet_info s info s.max_samples_per_packet with
        tsf := env.to_ticks metadata.time_spec, sob := false } : if_packet_info_t) =
        next_info env metadata s info := rfl
    rw [hn, frag_info_succ env metadata s buffs info _ hwf hok F]
    simp only [episode_state_max_samples_per_packet, frag_state, Nat.succ_mul]
    have e : total + s.max_samples_per_packet + F * s.max_samples_per_packet =
        total + (F * s.max_samples_per_packet + s.max_samples_per_packet) := by omega
    rw [e]

theorem send_fragments_timeout (env : environment) (buffs : List Nat)
    (metadata : tx_metadata_t) :
    ∀ (k F : Nat) (s : send_packet_handler) (info : if_packet_info_t) (total : Nat),
      k < F → well_formed s → 0 < s.max_samples_per_packet →
      (∀ j, j < k → acquires env s j) → ¬ acquires env s k →
      send_fragments env buffs metadata F s info total =
        some (true, total + k * s.max_samples_per_packet,
          load_packet_info (frag_state env buffs metadata k s info total)
            (frag_info env metadata s info k) s.max_samples_per_packet,
          episode_state env (frag_state env buffs metadata k s info total) buffs
            s.max_samples_per_packet (frag_info env metadata s info k)
            (wrap ((total + k * s.max_samples_per_packet) * s.bytes_per_cpu_item)))
  | _, 0, _, _, _, hk, _, _, _, _ => by omega
  | 0, F + 1, s, info, total, _, hwf, hmax, _, hfail => by
    have hok : acq_ok env s.props = false := by
      cases h : acq_ok env s.props with
      | false => rfl
      | true => exact absurd ((acquires_zero env s).mpr h) hfail
    unfold send_fragments
    rw [send_one_packet_eq env s buffs _ info _ hwf]
    simp [hok, frag_state, frag_info]
  | k + 1, F + 1, s, info, total, hk, hwf, hmax, hacq, hfail => by
    have hok : acq_ok env s.props = true := (acquires_zero env s).mp (hacq 0 (by omega))
    unfold send_fragments
    rw [send_one_packet_eq env s buffs _ info _ hwf]
    simp only [hok, if_true, if_neg (Nat.pos_iff_ne_zero.mp hmax)]
    rw [send_fragments_timeout env buffs metadata k F _ _ _ (by omega)
      (episode_state_well_formed env s buffs _ info _ hwf)
      (by simpa using hmax)
      (fun j hj => (acquires_episode env s buffs _ info _ hok j).mpr (hacq (j + 1) (by omega)))
      (fun h => hfail ((acquires_episode env s buffs _ info _ hok k).mp h))]
    have hn : ({ load_packet_info s info s.max_samples_per_packet with
        tsf := env.to_ticks metadata.time_spec, sob := false } : if_packet_info_t) =
        next_info env metadata s info := rfl
    rw [hn, frag_info_succ env metadata s buffs info _ hwf hok k]
    simp only [episode_state_max_samples_per_packet, episode_state_bytes_per_cpu_item,
      frag_state, Nat.succ_mul]
    have e : total + s.max_samples_per_packet + k * s.max_samples_per_packet =
        total + (k * s.max_samples_per_packet + s.max_samples_per_packet) := by omega
    rw [e]

/-! ## The handler and the events after `k` fragments -/

@[simp] theorem frag_state_conversion_threads (env : environment) (buffs : List Nat)
    (metadata : tx_metadata_t) :
    ∀ (k : Nat) (s : send_packet_handler) (info : if_packet_info_t) (total : Nat),
      (frag_state env buffs metadata k s info total).conversion_threads = s.conversion_threads
  | 0, _, _, _ => rfl
  | k + 1, s, info, total => by
    rw [frag_state, frag_state_conversion_threads env buffs metadata k]
    simp

@[simp] theorem frag_state_thread_indices (env : environment) (buffs : List Nat)
    (metadata : tx_metadata_t) :
    ∀ (k : Nat) (s : send_packet_handler) (info : if_packet_info_t) (total : Nat),
      (frag_state env buffs metadata k s info total).thread_indices = s.thread_indices
  | 0, _, _, _ => rfl
  | k + 1, s, info, total => by
    rw [frag_state, frag_state_thread_indices env buffs metadata k]
    simp

@[simp] theorem frag_state_conversion_terminate (env : environment) (buffs : List Nat)
    (metadata : tx_metadata_t) :
    ∀ (k : Nat) (s : send_packet_handler) (info : if_packet_info_t) (total : Nat),
      (frag_state env buffs metadata k s info total).conversion_terminate = s.conversion_terminate
  | 0, _, _, _ => rfl
  | k + 1, s, info, total => by
    rw [frag_state, frag_state_conversion_terminate env buffs metadata k]
    simp

@[simp] theorem frag_state_channel_per_conversion_thread (env : environment) (buffs : List Nat)
    (metadata : tx_metadata_t) :
    ∀ (k : Nat) (s : send_packet_handler) (info : if_packet_info_t) (total : Nat),
      (frag_state env buffs metadata k s info total).channel_per_conversion_thread = s.channel_per_conversion_thread
  | 0, _, _, _ => rfl
  | k + 1, s, info, total => by
    rw [frag_state, frag_state_channel_per_conversion_thread env buffs metadata k]
    simp

@[simp] theorem frag_state_header_offset_words32 (env : environment) (buffs : List Nat)
    (metadata : tx_metadata_t) :
    ∀ (k : Nat) (s : send_packet_handler) (info : if_packet_info_t) (total : Nat),
      (frag_state env buffs metadata k s info total).header_offset_words32 = s.header_offset_words32
  | 0, _, _, _ => rfl
  | k + 1, s, info, total => by
    rw [frag_state, frag_state_header_offset_words32 env buffs metadata k]
    simp

@[simp] theorem frag_state_num_inputs (env : environment) (buffs : List Nat)
    (metadata : tx_metadata_t) :
    ∀ (k : Nat) (s : send_packet_handler) (info : if_packet_info_t) (total : Nat),
      (frag_state env buffs metadata k s info total).num_inputs = s.num_inputs
  | 0, _, _, _ => rfl
  | k + 1, s, info, total => by
    rw [frag_state, frag_state_num_inputs env buffs metadata k]
    simp

@[simp] theorem frag_state_bytes_per_otw_item (env : environment) (buffs : List Nat)
    (metadata : tx_metadata_t) :
    ∀ (k : Nat) (s : send_packet_handler) (info : if_packet_info_t) (total : Nat),
      (frag_state env buffs metadata k s info total).bytes_per_otw_item = s.bytes_per_otw_item
  | 0, _, _, _ => rfl
  | k + 1, s, info, total => by
    rw [frag_state, frag_state_bytes_per_otw_item env buffs metadata k]
    simp

@[simp] theorem frag_state_bytes_per_cpu_item (env : environment) (buffs : List Nat)
    (metadata : tx_metadata_t) :
    ∀ (k : Nat) (s : send_packet_handler) (info : if_packet_info_t) (total : Nat),
      (frag_state env buffs metadata k s info total).bytes_per_cpu_item = s.bytes_per_cpu_item
  | 0, _, _, _ => rfl
  | k + 1, s, info, total => by
    rw [frag_state, frag_state_bytes_per_cpu_item env buffs metadata k]
    simp

@[simp] theorem frag_state_max_samples_per_packet (env : environment) (buffs : List Nat)
    (metadata : tx_metadata_t) :
    ∀ (k : Nat) (s : send_packet_handler) (info : if_packet_info_t) (total : Nat),
      (frag_state env buffs metadata k s info total).max_samples_per_packet = s.max_samples_per_packet
  | 0, _, _, _ => rfl
  | k + 1, s, info, total => by
    rw [frag_state, frag_state_max_samples_per_packet env buffs metadata k]
    simp

@[simp] theorem frag_state_zero_buffs (env : environment) (buffs : List Nat)
    (metadata : tx_metadata_t) :
    ∀ (k : Nat) (s : send_packet_handler) (info : if_packet_info_t) (total : Nat),
      (frag_state env buffs metadata k s info total).zero_buffs = s.zero_buffs
  | 0, _, _, _ => rfl
  | k + 1, s, info, total => by
    rw [frag_state, frag_state_zero_buffs env buffs metadata k]
    simp

@[simp] theorem frag_state_has_tlr (env : environment) (buffs : List Nat)
    (metadata : tx_metadata_t) :
    ∀ (k : Nat) (s : send_packet_handler) (info : if_packet_info_t) (total : Nat),
      (frag_state env buffs metadata k s info total).has_tlr = s.has_tlr
  | 0, _, _, _ => rfl
  | k + 1, s, info, total => by
    rw [frag_state, frag_state_has_tlr env buffs metadata k]
    simp

@[simp] theorem frag_state_cached_metadata (env : environment) (buffs : List Nat)
    (metadata : tx_metadata_t) :
    ∀ (k : Nat) (s : send_packet_handler) (info : if_packet_info_t) (total : Nat),
      (frag_state env buffs metadata k s info total).cached_metadata = s.cached_metadata
  | 0, _, _, _ => rfl
  | k + 1, s, info, total => by
    rw [frag_state, frag_state_cached_metadata env buffs metadata k]
    simp

@[simp] theorem frag_state_metadata_cache (env : environment) (buffs : List Nat)
    (metadata : tx_metadata_t) :
    ∀ (k : Nat) (s : send_packet_handler) (info : if_packet_info_t) (total : Nat),
      (frag_state env buffs metadata k s info total).metadata_cache = s.metadata_cache
  | 0, _, _, _ => rfl
  | k + 1, s, info, total => by
    rw [frag_state, frag_state_metadata_cache env buffs metadata k]
    simp

@[simp] theorem frag_state_sendmmsg_calls (env : environment) (buffs : List Nat)
    (metadata : tx_metadata_t) :
    ∀ (k : Nat) (s : send_packet_handler) (info : if_packet_info_t) (total : Nat),
      (frag_state env buffs metadata k s info total).sendmmsg_calls = s.sendmmsg_calls
  | 0, _, _, _ => rfl
  | k + 1, s, info, total => by
    rw [frag_state, frag_state_sendmmsg_calls env buffs metadata k]
    simp

@[simp] theorem frag_state_size (env : environment) (buffs : List Nat)
    (metadata : tx_metadata_t) :
    ∀ (k : Nat) (s : send_packet_handler) (info : if_packet_info_t) (total : Nat),
      (frag_state env buffs metadata k s info total).size = s.size
  | 0, _, _, _ => rfl
  | k + 1, s, info, total => by
    rw [frag_state, frag_state_size env buffs metadata k]
    simp

theorem frag_state_well_formed (env : environment) (buffs : List Nat)
    (metadata : tx_metadata_t) :
    ∀ (k : Nat) (s : send_packet_handler) (info : if_packet_info_t) (total : Nat),
      well_formed s → well_formed (frag_state env buffs metadata k s info total)
  | 0, _, _, _, h => h
  | k + 1, s, info, total, h => by
    rw [frag_state]
    exact frag_state_well_formed env buffs metadata k _ _ _
      (episode_state_well_formed env s buffs _ info _ h)

theorem frag_state_log (env : environment) (buffs : List Nat) (metadata : tx_metadata_t) :
    ∀ (k : Nat) (s : send_packet_handler) (info : if_packet_info_t) (total : Nat),
      (frag_state env buffs metadata k s info total).log =
        s.log ++ frag_events env buffs metadata k s info total
  | 0, s, _, _ => by simp [frag_state, frag_events]
  | k + 1, s, info, total => by
    rw [frag_state, frag_state_log env buffs metadata k, frag_events, episode_state_log,
      List.append_assoc]

theorem frag_state_acquires (env : environment) (buffs : List Nat) (metadata : tx_metadata_t) :
    ∀ (k : Nat) (s : send_packet_handler) (info : if_packet_info_t) (total : Nat),
      (∀ j, j < k → acquires env s j) → ∀ j,
        (acquires env (frag_state env buffs metadata k s info total) j ↔ acquires env s (k + j))
  | 0, s, _, _, _, j => by simp [frag_state]
  | k + 1, s, info, total, hacq, j => by
    have hok : acq_ok env s.props = true := (acquires_zero env s).mp (hacq 0 (by omega))
    rw [frag_state, frag_state_acquires env buffs metadata k _ _ _
      (fun i hi => (acquires_episode env s buffs _ info _ hok i).mpr (hacq (i + 1) (by omega))) j,
      acquires_episode env s buffs _ info _ hok (k + j)]
    have e : k + j + 1 = k + 1 + j := by omega
    rw [e]

theorem frag_state_acq_ok (env : environment) (buffs : List Nat) (metadata : tx_metadata_t)
    (k : Nat) (s : send_packet_handler) (info : if_packet_info_t) (total : Nat)
    (hacq : ∀ j, j < k → acquires env s j) :
    acq_ok env (frag_state env buffs metadata k s info total).props = true ↔ acquires env s k := by
  rw [← acquires_zero, frag_state_acquires env buffs metadata k s info total hacq 0]
  rfl

theorem frag_state_seq (env : environment) (buffs : List Nat) (metadata : tx_metadata_t) :
    ∀ (k : Nat) (s : send_packet_handler) (info : if_packet_info_t) (total : Nat),
      well_formed s → (∀ j, j < k → acquires env s j) →
      (frag_state env buffs metadata k s info total).next_packet_seq =
        wrap (s.next_packet_seq + k)
  | 0, s, _, _, hwf, _ => by
    simp [frag_state, wrap_of_lt _ hwf.2.2.2.2.2.2.2.2.2]
  | k + 1, s, info, total, hwf, hacq => by
    have hok : acq_ok env s.props = true := (acquires_zero env s).mp (hacq 0 (by omega))
    rw [frag_state, frag_state_seq env buffs metadata k _ _ _
      (episode_state_well_formed env s buffs _ info _ hwf)
      (fun i hi => (acquires_episode env s buffs _ info _ hok i).mpr (hacq (i + 1) (by omega))),
      episode_state_seq, if_pos hok, wrap_wrap_add, Nat.add_assoc, Nat.add_comm 1 k]

theorem stamp_acquire (env : environment) (p : xport_chan_props_type) (info : if_packet_info_t) :
    stamp (acquire env p) info = stamp p info := rfl

theorem frag_events_spec (env : environment) (buffs : List Nat) (metadata : tx_metadata_t) :
    ∀ (k : Nat) (s : send_packet_handler) (info : if_packet_info_t) (total : Nat),
      well_formed s → (∀ j, j < k → acquires env s j) →
      episodes (frag_events env buffs metadata k s info total) =
        (List.range k).map (fun i =>
          (s.max_samples_per_packet, frag_info env metadata s info i,
            wrap ((total + i * s.max_samples_per_packet) * s.bytes_per_cpu_item))) ∧
      timeouts (frag_events env buffs metadata k s info total) = 0 ∧
      ∀ c,
        (∀ p, s.props[c]? = some p →
          packed c (frag_events env buffs metadata k s info total) =
            (List.range k).map (fun i =>
              stamp p (loaded s.num_inputs s.bytes_per_otw_item (wrap (s.next_packet_seq + i))
                (frag_info env metadata s info i) s.max_samples_per_packet)) ∧
          converted c (frag_events env buffs metadata k s info total) =
            List.replicate k s.max_samples_per_packet ∧
          commits c (frag_events env buffs metadata k s info total) =
            (List.range k).filterMap (fun i => answer env p i) ∧
          enqueued c (frag_events env buffs metadata k s info total) =
            (List.range k).filterMap (fun i => answer env p i)) ∧
        (s.props[c]? = none →
          packed c (frag_events env buffs metadata k s info total) = [] ∧
          converted c (frag_events env buffs metadata k s info total) = [] ∧
          commits c (frag_events env buffs metadata k s info total) = [] ∧
          enqueued c (frag_events env buffs metadata k s info total) = [])
  | 0, s, info, total, _, _ => by
    simp [frag_events, episodes, timeouts, packed, converted, commits, enqueued]
  | k + 1, s, info, total, hwf, hacq => by
    have hok : acq_ok env s.props = true := (acquires_zero env s).mp (hacq 0 (by omega))
    have hseq := hwf.2.2.2.2.2.2.2.2.2
    obtain ⟨ih1, ih2, ih3⟩ := frag_events_spec env buffs metadata k
      (episode_state env s buffs s.max_samples_per_packet info
        (wrap (total * s.bytes_per_cpu_item)))
      (next_info env metadata s info)
      (total + s.max_samples_per_packet)
      (episode_state_well_formed env s buffs _ info _ hwf)
      (fun i hi => (acquires_episode env s buffs _ info _ hok i).mpr (hacq (i + 1) (by omega)))
    have hinfo := frag_info_succ env metadata s buffs info
      (wrap (total * s.bytes_per_cpu_item)) hwf hok
    have hsq : (episode_state env s buffs s.max_samples_per_packet info
        (wrap (total * s.bytes_per_cpu_item))).next_packet_seq = wrap (s.next_packet_seq + 1) := by
      rw [episode_state_seq, if_pos hok]
    refine ⟨?_, ?_, ?_⟩
    · rw [frag_events, episodes_append, episodes_episode_events, ih1, List.range_succ_eq_map,
        List.map_cons, List.map_map]
      simp only [List.singleton_append, episode_state_max_samples_per_packet,
        episode_state_bytes_per_cpu_item, hinfo, frag_info_zero, Nat.zero_mul, Nat.add_zero,
        Function.comp, Nat.succ_eq_add_one, Nat.succ_mul]
      congr 1
      apply List.map_congr_left
      intro i _
      have e : total + s.max_samples_per_packet + i * s.max_samples_per_packet =
          total + (i * s.max_samples_per_packet + s.max_samples_per_packet) := by omega
      rw [e]
      simp only [Function.comp_apply, Nat.succ_eq_add_one, Nat.succ_mul]
    · rw [frag_events, timeouts_append, timeouts_episode_events, ih2, if_pos hok]
    · intro c
      constructor
      · intro p hp
        obtain ⟨b, hb⟩ := Option.isSome_iff_exists.mp
          ((acq_ok_iff env s.props).mp hok p (List.getElem?_mem hp))
        have hep := episode_events_ok env s buffs s.max_samples_per_packet info
          (wrap (total * s.bytes_per_cpu_item)) hwf.1 hok c p b hp hb
        have hp1 : (episode_state env s buffs s.max_samples_per_packet info
            (wrap (total * s.bytes_per_cpu_item))).props[c]? = some (acquire env p) := by
          rw [episode_state_props, acq_props_ok env s.props hok, List.getElem?_map, hp]
          rfl
        obtain ⟨i1, i2, i3, i4⟩ := (ih3 c).1 _ hp1
        refine ⟨?_, ?_, ?_, ?_⟩
        · rw [frag_events, packed_append, hep.1, i1, List.range_succ_eq_map, List.map_cons,
            List.map_map]
          simp only [List.singleton_append, episode_state_max_samples_per_packet,
            episode_state_num_inputs, episode_state_bytes_per_otw_item, hinfo, hsq,
            stamp_acquire, load_packet_info_eq, frag_info_zero, Nat.add_zero, wrap_of_lt _ hseq,
            Function.comp, Nat.succ_eq_add_one, wrap_wrap_add]
          congr 1
          apply List.map_congr_left
          intro i _
          rw [Nat.add_assoc, Nat.add_comm 1 i]
          rfl
        · rw [frag_events, converted_append, hep.2.1, i2, episode_state_max_samples_per_packet]
          rfl
        · rw [frag_events, commits_append, hep.2.2.1, i3, List.range_succ_eq_map,
            List.filterMap_cons, hb, List.filterMap_map]
          simp only [List.singleton_append, Function.comp, answer_acquire, Nat.succ_eq_add_one]
          rfl
        · rw [frag_events, enqueued_append, hep.2.2.2, i4, List.range_succ_eq_map,
            List.filterMap_cons, hb, List.filterMap_map]
          simp only [List.singleton_append, Function.comp, answer_acquire, Nat.succ_eq_add_one]
          rfl
      · intro hc
        have hep := episode_events_none env s buffs s.max_samples_per_packet info
          (wrap (total * s.bytes_per_cpu_item)) hwf.1 c (Or.inr hc)
        have hc1 : (episode_state env s buffs s.max_samples_per_packet info
            (wrap (total * s.bytes_per_cpu_item))).props[c]? = none := by
          rw [episode_state_props, acq_props_ok env s.props hok, List.getElem?_map, hc]
          rfl
        obtain ⟨i1, i2, i3, i4⟩ := (ih3 c).2 hc1
        rw [frag_events, packed_append, converted_append, commits_append, enqueued_append,
          hep.1, hep.2.1, hep.2.2.1, hep.2.2.2, i1, i2, i3, i4]
        exact ⟨rfl, rfl, rfl, rfl⟩

/-! ## Closed forms of `send` -/

theorem consume_cache_well_formed (s : send_packet_handler) (n : Nat) (h : well_formed s) :
    well_formed (consume_cache s n) :=
  well_formed_of_eq s _ h rfl rfl rfl rfl rfl rfl rfl h.2.2.2.2.2.2.2.2.1 h.2.2.2.2.2.2.2.2.2

theorem prepare_well_formed (env : environment) (s : send_packet_handler) (buffs : List Nat)
    (n : Nat) (h : well_formed s) : well_formed (prepare env s buffs n) :=
  well_formed_of_eq s _ h rfl rfl rfl rfl rfl rfl rfl h.2.2.2.2.2.2.2.2.1 h.2.2.2.2.2.2.2.2.2

theorem send_zero_sob (env : environment) (s : send_packet_handler) (buffs : List Nat)
    (metadata : tx_metadata_t) (hsob : metadata.start_of_burst = true) :
    send env s buffs 0 metadata =
      some (0, { s with
        zero_buffs := vec_resize s.zero_buffs buffs.length env.zero
        metadata_cache := metadata
        cached_metadata := true }) := by
  simp [send, hsob]

theorem send_zero_end (env : environment) (s : send_packet_handler) (buffs : List Nat)
    (metadata : tx_metadata_t) (hwf : well_formed s) (hsob : metadata.start_of_burst = false) :
    send env s buffs 0 metadata =
      some (0, send_multiple_packets env
        (episode_state env (prepare env s buffs 0) (prepare env s buffs 0).zero_buffs 1
          (translate_metadata env s metadata) 0)) := by
  have hp : ({ s with zero_buffs := vec_resize s.zero_buffs buffs.length env.zero } :
      send_packet_handler) = prepare env s buffs 0 := by
    simp [prepare, consume_cache]
  unfold send
  simp only [ne_eq, not_true_eq_false, decide_False, Bool.and_false, Bool.false_eq_true,
    if_false, Nat.zero_le, if_true, hsob, hp]
  rw [send_one_packet_eq env _ _ 1 _ 0 (prepare_well_formed env s buffs 0 hwf)]
  rfl

theorem send_small (env : environment) (s : send_packet_handler) (buffs : List Nat)
    (n : Nat) (metadata : tx_metadata_t) (hwf : well_formed s) (hn : 0 < n)
    (hmax : n ≤ s.max_samples_per_packet) :
    send env s buffs n metadata =
      some (if acq_ok env s.props then n else 0, send_multiple_packets env
        (episode_state env (prepare env s buffs n) buffs n (merged_info env s metadata n) 0)) := by
  have hn0 : n ≠ 0 := Nat.pos_iff_ne_zero.mp hn
  have key := send_one_packet_eq env (prepare env s buffs n) buffs n
    (merged_info env s metadata n) 0 (prepare_well_formed env s buffs n hwf)
  unfold send
  cases hc : s.cached_metadata with
  | false =>
    simp only [hc, Bool.false_and, Bool.false_eq_true, if_false, hmax, if_true, hn0]
    simp only [prepare, consume_cache, merged_info, hc, Bool.false_and, Bool.false_eq_true,
      if_false] at key
    rw [key]
    simp only [prepare, consume_cache, merged_info, hc, Bool.false_and, Bool.false_eq_true,
      if_false]
  | true =>
    simp only [hc, Bool.true_and, ne_eq, hn0, not_false_eq_true, decide_True, if_true, hmax,
      if_false]
    simp only [prepare, consume_cache, merged_info, hc, Bool.true_and, ne_eq, hn0,
      not_false_eq_true, decide_True, if_true] at key
    rw [key]
    simp only [prepare, consume_cache, merged_info, hc, Bool.true_and, ne_eq, hn0,
      not_false_eq_true, decide_True, if_true]

theorem send_large_unfold (env : environment) (s : send_packet_handler) (buffs : List Nat)
    (n : Nat) (metadata : tx_metadata_t) (hmax : 0 < s.max_samples_per_packet)
    (hn : s.max_samples_per_packet < n) :
    send env s buffs n metadata =
      match send_fragments env buffs metadata ((n - 1) / s.max_samples_per_packet)
          (consume_cache s n) (first_info env s metadata n) 0 with
      | none => none
      | some (true, total, _, s1) => some (total, s1)
      | some (false, total, info, s1) =>
        match send_one_packet env s1 buffs ((n - 1) % s.max_samples_per_packet + 1)
            (final_info metadata info) (wrap (total * s1.bytes_per_cpu_item)) with
        | none => none
        | some (m, _, s2) => some (total + m, clear_batches (send_multiple_packets env s2)) := by
  have hn0 : n ≠ 0 := by omega
  have hle : ¬ n ≤ s.max_samples_per_packet := by omega
  have hm0 : s.max_samples_per_packet ≠ 0 := by omega
  unfold send
  cases hc : s.cached_metadata with
  | false =>
    simp only [hc, Bool.false_and, Bool.false_eq_true, if_false, hle, hm0, consume_cache,
      merged_info, clear_batches, first_info, final_info]
    rw [← hc]
  | true =>
    simp only [hc, Bool.true_and, ne_eq, hn0, not_false_eq_true, decide_True, if_true, hle,
      if_false, hm0, consume_cache, merged_info, clear_batches, first_info, final_info]

theorem send_large_ok (env : environment) (s : send_packet_handler) (buffs : List Nat)
    (n : Nat) (metadata : tx_metadata_t) (hwf : well_formed s)
    (hmax : 0 < s.max_samples_per_packet) (hn : s.max_samples_per_packet < n)
    (hacq : ∀ j, j < (n - 1) / s.max_samples_per_packet → acquires env s j) :
    send env s buffs n metadata =
      some ((n - 1) / s.max_samples_per_packet * s.max_samples_per_packet +
          (if acquires env s ((n - 1) / s.max_samples_per_packet) then
            (n - 1) % s.max_samples_per_packet + 1 else 0),
        clear_batches (send_multiple_packets env (final_state env s buffs n metadata))) := by
  have hwf0 := consume_cache_well_formed s n hwf
  have hacq0 : ∀ j, j < (n - 1) / s.max_samples_per_packet → acquires env (consume_cache s n) j :=
    hacq
  rw [send_large_unfold env s buffs n metadata hmax hn,
    send_fragments_ok env buffs metadata _ (consume_cache s n) _ 0 hwf0 hmax hacq0]
  simp only [Nat.zero_add]
  rw [send_one_packet_eq env _ buffs _ _ _
    (frag_state_well_formed env buffs metadata _ _ _ _ hwf0)]
  simp only [frag_state_bytes_per_cpu_item]
  have hiff := frag_state_acq_ok env buffs metadata ((n - 1) / s.max_samples_per_packet)
    (consume_cache s n) (first_info env s metadata n) 0 hacq0
  have hiff' : acq_ok env (frag_state env buffs metadata ((n - 1) / s.max_samples_per_packet)
      (consume_cache s n) (first_info env s metadata n) 0).props = true ↔
      acquires env s ((n - 1) / s.max_samples_per_packet) := hiff
  by_cases h : acquires env s ((n - 1) / s.max_samples_per_packet)
  · rw [if_pos h, if_pos (hiff'.mpr h)]
    rfl
  · rw [if_neg h, if_neg (fun h' => h (hiff'.mp h'))]
    rfl

theorem send_large_timeout (env : environment) (s : send_packet_handler) (buffs : List Nat)
    (n : Nat) (metadata : tx_metadata_t) (k : Nat) (hwf : well_formed s)
    (hmax : 0 < s.max_samples_per_packet) (hn : s.max_samples_per_packet < n)
    (hk : k < (n - 1) / s.max_samples_per_packet)
    (hacq : ∀ j, j < k → acquires env s j) (hfail : ¬ acquires env s k) :
    send env s buffs n metadata =
      some (k * s.max_samples_per_packet, stopped_state env s buffs n metadata k) := by
  have hwf0 := consume_cache_well_formed s n hwf
  have hacq0 : ∀ j, j < k → acquires env (consume_cache s n) j := hacq
  have hfail0 : ¬ acquires env (consume_cache s n) k := hfail
  rw [send_large_unfold env s buffs n metadata hmax hn,
    send_fragments_timeout env buffs metadata k _ (consume_cache s n) _ 0 hk hwf0 hmax hacq0
      hfail0]
  simp only [Nat.zero_add]
  rfl


/-! ## The handler after the flush -/

@[simp] theorem send_multiple_packets_next_packet_seq (env : environment) (s : send_packet_handler) :
    (send_multiple_packets env s).next_packet_seq = s.next_packet_seq := by
  rw [send_multiple_packets_eq]

@[simp] theorem clear_batches_next_packet_seq (s : send_packet_handler) :
    (clear_batches s).next_packet_seq = s.next_packet_seq := rfl

@[simp] theorem send_multiple_packets_max_samples_per_packet (env : environment) (s : send_packet_handler) :
    (send_multiple_packets env s).max_samples_per_packet = s.max_samples_per_packet := by
  rw [send_multiple_packets_eq]

@[simp] theorem clear_batches_max_samples_per_packet (s : send_packet_handler) :
    (clear_batches s).max_samples_per_packet = s.max_samples_per_packet := rfl

@[simp] theorem send_multiple_packets_cached_metadata (env : environment) (s : send_packet_handler) :
    (send_multiple_packets env s).cached_metadata = s.cached_metadata := by
  rw [send_multiple_packets_eq]

@[simp] theorem clear_batches_cached_metadata (s : send_packet_handler) :
    (clear_batches s).cached_metadata = s.cached_metadata := rfl

@[simp] theorem send_multiple_packets_metadata_cache (env : environment) (s : send_packet_handler) :
    (send_multiple_packets env s).metadata_cache = s.metadata_cache := by
  rw [send_multiple_packets_eq]

@[simp] theorem clear_batches_metadata_cache (s : send_packet_handler) :
    (clear_batches s).metadata_cache = s.metadata_cache := rfl

@[simp] theorem send_multiple_packets_props (env : environment) (s : send_packet_handler) :
    (send_multiple_packets env s).props = s.props := by
  rw [send_multiple_packets_eq]

@[simp] theorem clear_batches_props (s : send_packet_handler) :
    (clear_batches s).props = s.props := rfl

@[simp] theorem send_multiple_packets_thread_indices (env : environment) (s : send_packet_handler) :
    (send_multiple_packets env s).thread_indices = s.thread_indices := by
  rw [send_multiple_packets_eq]

@[simp] theorem clear_batches_thread_indices (s : send_packet_handler) :
    (clear_batches s).thread_indices = s.thread_indices := rfl

@[simp] theorem send_multiple_packets_bytes_per_cpu_item (env : environment) (s : send_packet_handler) :
    (send_multiple_packets env s).bytes_per_cpu_item = s.bytes_per_cpu_item := by
  rw [send_multiple_packets_eq]

@[simp] theorem clear_batches_bytes_per_cpu_item (s : send_packet_handler) :
    (clear_batches s).bytes_per_cpu_item = s.bytes_per_cpu_item := rfl

@[simp] theorem send_multiple_packets_num_inputs (env : environment) (s : send_packet_handler) :
    (send_multiple_packets env s).num_inputs = s.num_inputs := by
  rw [send_multiple_packets_eq]

@[simp] theorem clear_batches_num_inputs (s : send_packet_handler) :
    (clear_batches s).num_inputs = s.num_inputs := rfl

@[simp] theorem send_multiple_packets_bytes_per_otw_item (env : environment) (s : send_packet_handler) :
    (send_multiple_packets env s).bytes_per_otw_item = s.bytes_per_otw_item := by
  rw [send_multiple_packets_eq]

@[simp] theorem clear_batches_bytes_per_otw_item (s : send_packet_handler) :
    (clear_batches s).bytes_per_otw_item = s.bytes_per_otw_item := rfl

@[simp] theorem send_multiple_packets_log (env : environment) (s : send_packet_handler) :
    (send_multiple_packets env s).log =
      s.log ++ flush_events env s.sendmmsg_calls s.multi_msb_buffs := by
  rw [send_multiple_packets_eq]

@[simp] theorem clear_batches_log (s : send_packet_handler) :
    (clear_batches s).log = s.log := rfl

theorem send_multiple_packets_well_formed (env : environment) (s : send_packet_handler)
    (h : well_formed s) : well_formed (send_multiple_packets env s) := by
  rw [send_multiple_packets_eq]
  exact well_formed_of_eq s _ h rfl rfl rfl rfl rfl rfl rfl h.2.2.2.2.2.2.2.2.1
    h.2.2.2.2.2.2.2.2.2

theorem clear_batches_well_formed (s : send_packet_handler) (h : well_formed s) :
    well_formed (clear_batches s) :=
  well_formed_of_eq s _ h rfl rfl rfl (by simp [clear_batches]) rfl rfl rfl
    h.2.2.2.2.2.2.2.2.1 h.2.2.2.2.2.2.2.2.2

theorem first_failure (P : Nat → Prop) :
    ∀ F : Nat, (∀ j, j < F → P j) ∨ ∃ k, k < F ∧ (∀ j, j < k → P j) ∧ ¬ P k
  | 0 => Or.inl (fun j hj => absurd hj (Nat.not_lt_zero j))
  | F + 1 => by
    rcases first_failure P F with h | ⟨k, hk, h1, h2⟩
    · by_cases hF : P F
      · left
        intro j hj
        rcases Nat.lt_succ_iff_lt_or_eq.mp hj with h' | h'
        · exact h j h'
        · exact h' ▸ hF
      · exact Or.inr ⟨F, Nat.lt_succ_self F, h, hF⟩
    · exact Or.inr ⟨k, Nat.lt_succ_of_lt hk, h1, h2⟩

theorem acquires_of_always (env : environment) (s : send_packet_handler)
    (hwf : well_formed s) (h : ∀ f k, (env.get_buff f k).isSome = true) (j : Nat) :
    acquires env s j := by
  intro p hp
  obtain ⟨f, hf⟩ := Option.isSome_iff_exists.mp (hwf.2.2.2.2.2.2.2.2.1 p hp)
  simp only [answer, hf]
  exact h f _

theorem not_acquires_of_never (env : environment) (s : send_packet_handler)
    (hsize : 0 < s.size) (h : ∀ f k, env.get_buff f k = none) (j : Nat) :
    ¬ acquires env s j := by
  intro hacq
  obtain ⟨p, hp⟩ := List.exists_mem_of_length_pos hsize
  have := hacq p hp
  unfold answer at this
  cases hg : p.get_buff with
  | none => simp [hg] at this
  | some f => simp [hg, h f] at this

theorem div_mod_sum (n m : Nat) (hn : 0 < n) :
    (n - 1) / m * m + ((n - 1) % m + 1) = n := by
  have := Nat.div_add_mod (n - 1) m
  rw [Nat.mul_comm] at this
  omega

theorem final_state_log (env : environment) (s : send_packet_handler) (buffs : List Nat)
    (n : Nat) (metadata : tx_metadata_t) :
    (clear_batches (send_multiple_packets env (final_state env s buffs n metadata))).log =
      s.log ++ large_events env s buffs n metadata := by
  simp only [clear_batches_log, send_multiple_packets_log, final_state, large_events,
    episode_state_log, frag_state_log, List.append_assoc]
  rfl

theorem stopped_state_log (env : environment) (s : send_packet_handler) (buffs : List Nat)
    (n : Nat) (metadata : tx_metadata_t) (k : Nat) :
    (stopped_state env s buffs n metadata k).log =
      s.log ++ stopped_events env s buffs n metadata k := by
  simp only [stopped_state, stopped_events, episode_state_log, frag_state_log,
    List.append_assoc]
  rfl

theorem episode_flush_summary (env : environment) (s p : send_packet_handler)
    (buffs : List Nat) (m : Nat) (info : if_packet_info_t) (n : Nat)
    (hwf : well_formed s) (hp : well_formed p)
    (h1 : p.max_samples_per_packet = s.max_samples_per_packet) (h2 : p.log = s.log)
    (h3 : p.next_packet_seq = s.next_packet_seq) (r : Nat)
    (hr : r = if acq_ok env p.props then n else 0) :
    send_summary s n r
      (send_multiple_packets env (episode_state env p buffs m info 0))
      (episode_events env p buffs m info 0 ++
        flush_events env (episode_state env p buffs m info 0).sendmmsg_calls
          (episode_state env p buffs m info 0).multi_msb_buffs) := by
  have hseq := hwf.2.2.2.2.2.2.2.2.2
  subst hr
  refine ⟨send_multiple_packets_well_formed env _ (episode_state_well_formed env p buffs m info 0 hp),
    by simp [h1], by simp [h2, List.append_assoc], ?_, ?_, ?_, ?_, ?_⟩
  · rw [send_multiple_packets_next_packet_seq, episode_state_seq, episodes_append,
      episodes_episode_events, episodes_flush_events, timeouts_append, timeouts_episode_events,
      timeouts_flush_events, h3]
    split
    · rfl
    · simp [wrap_of_lt _ hseq]
  · rw [episodes_append, episodes_episode_events, episodes_flush_events, timeouts_append,
      timeouts_episode_events, timeouts_flush_events]
    split <;> simp
  · rw [timeouts_append, timeouts_episode_events, timeouts_flush_events]
    split <;> simp
  · split <;> omega
  · intro h0
    rw [timeouts_append, timeouts_episode_events, timeouts_flush_events]
    split
    · simp
    · simp
      omega

theorem send_total (env : environment) (s : send_packet_handler) (buffs : List Nat) (n : Nat)
    (metadata : tx_metadata_t) (hwf : well_formed s) (hmax : 0 < s.max_samples_per_packet) :
    ∃ r t evs, send env s buffs n metadata = some (r, t) ∧ send_summary s n r t evs := by
  have hseq := hwf.2.2.2.2.2.2.2.2.2
  by_cases hn0 : n = 0
  · subst hn0
    cases hsob : metadata.start_of_burst with
    | true =>
      refine ⟨0, _, [], send_zero_sob env s buffs metadata hsob, ?_⟩
      exact ⟨well_formed_of_eq s _ hwf rfl rfl rfl rfl rfl rfl rfl hwf.2.2.2.2.2.2.2.2.1 hseq,
        rfl, by simp, by simp [episodes, timeouts, wrap_of_lt _ hseq], by simp [timeouts],
        by simp [timeouts], le_refl 0, fun h => absurd h (Nat.lt_irrefl 0)⟩
    | false =>
      exact ⟨0, _, _, send_zero_end env s buffs metadata hwf hsob,
        episode_flush_summary env s (prepare env s buffs 0)
          (prepare env s buffs 0).zero_buffs 1 (translate_metadata env s metadata) 0 hwf
          (prepare_well_formed env s buffs 0 hwf) rfl rfl rfl 0 (by simp)⟩
  · have hn : 0 < n := Nat.pos_of_ne_zero hn0
    by_cases hle : n ≤ s.max_samples_per_packet
    · exact ⟨_, _, _, send_small env s buffs n metadata hwf hn hle,
        episode_flush_summary env s (prepare env s buffs n) buffs n
          (merged_info env s metadata n) n hwf (prepare_well_formed env s buffs n hwf) rfl rfl
          rfl _ rfl⟩
    · have hlt : s.max_samples_per_packet < n := Nat.lt_of_not_le hle
      have hwf0 := consume_cache_well_formed s n hwf
      have hsum := div_mod_sum n s.max_samples_per_packet hn
      rcases first_failure (acquires env s) ((n - 1) / s.max_samples_per_packet) with
        hall | ⟨k, hk, hbefore, hfail⟩
      · have hall0 : ∀ j, j < (n - 1) / s.max_samples_per_packet →
            acquires env (consume_cache s n) j := hall
        obtain ⟨e1, e2, -⟩ := frag_events_spec env buffs metadata
          ((n - 1) / s.max_samples_per_packet) (consume_cache s n)
          (first_info env s metadata n) 0 hwf0 hall0
        have hsq := frag_state_seq env buffs metadata ((n - 1) / s.max_samples_per_packet)
          (consume_cache s n) (first_info env s metadata n) 0 hwf0 hall0
        have hok := frag_state_acq_ok env buffs metadata ((n - 1) / s.max_samples_per_packet)
          (consume_cache s n) (first_info env s metadata n) 0 hall0
        refine ⟨_, _, large_events env s buffs n metadata,
          send_large_ok env s buffs n metadata hwf hmax hlt hall, ?_⟩
        refine ⟨clear_batches_well_formed _ (send_multiple_packets_well_formed env _
          (episode_state_well_formed env _ buffs _ _ _
            (frag_state_well_formed env buffs metadata _ _ _ _ hwf0))), ?_,
          final_state_log env s buffs n metadata, ?_, ?_, ?_, ?_, ?_⟩
        · simp [final_state, consume_cache]
        · simp only [clear_batches_next_packet_seq, send_multiple_packets_next_packet_seq,
            final_state, large_events,
            episode_state_seq, hsq, episodes_append, timeouts_append, e1, e2,
            episodes_episode_events, timeouts_episode_events, episodes_flush_events,
            timeouts_flush_events, List.length_append, List.length_map, List.length_range,
            List.length_singleton, List.length_nil, wrap_wrap_add]
          split
          · rfl
          · simp
            rfl
        · simp only [large_events, episodes_append, timeouts_append, e1, e2,
            episodes_episode_events, timeouts_episode_events, episodes_flush_events,
            timeouts_flush_events, List.length_append, List.length_map, List.length_range,
            List.length_singleton, List.length_nil]
          split <;> simp
        · simp only [large_events, timeouts_append, e2, timeouts_episode_events,
            timeouts_flush_events]
          split <;> omega
        · split <;> omega
        · intro _
          simp only [large_events, timeouts_append, e2, timeouts_episode_events,
            timeouts_flush_events]
          have hconn : acq_ok env (frag_state env buffs metadata
              ((n - 1) / s.max_samples_per_packet) (consume_cache s n)
              (first_info env s metadata n) 0).props = true ↔
              acquires env s ((n - 1) / s.max_samples_per_packet) := hok
          by_cases ha : acquires env s ((n - 1) / s.max_samples_per_packet)
          · rw [if_pos ha, if_pos (hconn.mpr ha)]
            simp [hsum]
          · rw [if_neg ha, if_neg (fun h => ha (hconn.mp h))]
            simp
            omega
      · have hbefore0 : ∀ j, j < k → acquires env (consume_cache s n) j := hbefore
        obtain ⟨e1, e2, -⟩ := frag_events_spec env buffs metadata k (consume_cache s n)
          (first_info env s metadata n) 0 hwf0 hbefore0
        have hsq := frag_state_seq env buffs metadata k
          (consume_cache s n) (first_info env s metadata n) 0 hwf0 hbefore0
        have hok := frag_state_acq_ok env buffs metadata k
          (consume_cache s n) (first_info env s metadata n) 0 hbefore0
        have hnok : acq_ok env (frag_state env buffs metadata k (consume_cache s n)
            (first_info env s metadata n) 0).props = false := by
          cases h : acq_ok env (frag_state env buffs metadata k (consume_cache s n)
            (first_info env s metadata n) 0).props with
          | false => rfl
          | true => exact absurd (hok.mp h) hfail
        have hkn : k * s.max_samples_per_packet < n := by
          have h1 : (k + 1) * s.max_samples_per_packet ≤
              (n - 1) / s.max_samples_per_packet * s.max_samples_per_packet :=
            Nat.mul_le_mul_right _ hk
          rw [Nat.succ_mul] at h1
          omega
        refine ⟨_, _, stopped_events env s buffs n metadata k,
          send_large_timeout env s buffs n metadata k hwf hmax hlt hk hbefore hfail, ?_⟩
        refine ⟨episode_state_well_formed env _ buffs _ _ _
            (frag_state_well_formed env buffs metadata _ _ _ _ hwf0), ?_,
          stopped_state_log env s buffs n metadata k, ?_, ?_, ?_, ?_, ?_⟩
        · simp [stopped_state, consume_cache]
        · simp only [stopped_state, stopped_events, episode_state_seq, hnok, hsq,
            episodes_append, timeouts_append, e1, e2,
            episodes_episode_events, timeouts_episode_events,
            List.length_append, List.length_map, List.length_range,
            List.length_singleton]
          simp
          rfl
        · simp only [stopped_events, episodes_append, timeouts_append, e1, e2, hnok,
            episodes_episode_events, timeouts_episode_events,
            List.length_append, List.length_map, List.length_range, List.length_singleton]
          simp
        · simp only [stopped_events, timeouts_append, e2, timeouts_episode_events, hnok]
          simp
        · omega
        · intro _
          simp only [stopped_events, timeouts_append, e2, timeouts_episode_events, hnok]
          simp
          omega

/-! ## The events of a fragmented request -/

theorem frag_state_props_get (env : environment) (buffs : List Nat) (metadata : tx_metadata_t) :
    ∀ (k : Nat) (s : send_packet_handler) (info : if_packet_info_t) (total : Nat) (c : Nat)
      (p : xport_chan_props_type),
      (∀ j, j < k → acquires env s j) → s.props[c]? = some p →
      ∃ q, (frag_state env buffs metadata k s info total).props[c]? = some q ∧
        (∀ i, stamp q i = stamp p i) ∧ ∀ j, answer env q j = answer env p (k + j)
  | 0, s, _, _, c, p, _, hp => ⟨p, hp, fun _ => rfl, fun j => by rw [Nat.zero_add]⟩
  | k + 1, s, info, total, c, p, hacq, hp => by
    have hok : acq_ok env s.props = true := (acquires_zero env s).mp (hacq 0 (by omega))
    have hp1 : (episode_state env s buffs s.max_samples_per_packet info
        (wrap (total * s.bytes_per_cpu_item))).props[c]? = some (acquire env p) := by
      rw [episode_state_props, acq_props_ok env s.props hok, List.getElem?_map, hp]
      rfl
    obtain ⟨q, hq, hs, ha⟩ := frag_state_props_get env buffs metadata k _
      (next_info env metadata s info) (total + s.max_samples_per_packet) c _
      (fun i hi => (acquires_episode env s buffs _ info _ hok i).mpr (hacq (i + 1) (by omega)))
      hp1
    refine ⟨q, hq, fun i => (hs i).trans (stamp_acquire env p i), fun j => ?_⟩
    rw [ha j, answer_acquire]
    have e : k + j + 1 = k + 1 + j := by omega
    rw [e]

theorem frag_state_props_none (env : environment) (buffs : List Nat) (metadata : tx_metadata_t)
    (k : Nat) (s : send_packet_handler) (info : if_packet_info_t) (total : Nat) (c : Nat)
    (hc : s.props[c]? = none) :
    (frag_state env buffs metadata k s info total).props[c]? = none := by
  rw [List.getElem?_eq_none_iff] at hc ⊢
  have := frag_state_size env buffs metadata k s info total
  simp only [send_packet_handler.size] at this
  omega

theorem large_events_spec (env : environment) (s : send_packet_handler) (buffs : List Nat)
    (n : Nat) (metadata : tx_metadata_t) (hwf : well_formed s)
    (hacq : ∀ j, j < (n - 1) / s.max_samples_per_packet + 1 → acquires env s j) :
    episodes (large_events env s buffs n metadata) =
      (List.range ((n - 1) / s.max_samples_per_packet)).map (fun i =>
        (s.max_samples_per_packet,
          frag_info env metadata (consume_cache s n) (first_info env s metadata n) i,
          wrap ((0 + i * s.max_samples_per_packet) * s.bytes_per_cpu_item))) ++
      [((n - 1) % s.max_samples_per_packet + 1,
        final_info metadata (frag_info env metadata (consume_cache s n)
          (first_info env s metadata n) ((n - 1) / s.max_samples_per_packet)),
        wrap ((n - 1) / s.max_samples_per_packet * s.max_samples_per_packet *
          s.bytes_per_cpu_item))] ∧
    timeouts (large_events env s buffs n metadata) = 0 ∧
    ∀ c,
      (∀ p, s.props[c]? = some p →
        packed c (large_events env s buffs n metadata) =
          (List.range ((n - 1) / s.max_samples_per_packet)).map (fun i =>
            stamp p (loaded s.num_inputs s.bytes_per_otw_item (wrap (s.next_packet_seq + i))
              (frag_info env metadata (consume_cache s n) (first_info env s metadata n) i)
              s.max_samples_per_packet)) ++
          [stamp p (loaded s.num_inputs s.bytes_per_otw_item
            (wrap (s.next_packet_seq + (n - 1) / s.max_samples_per_packet))
            (final_info metadata (frag_info env metadata (consume_cache s n)
              (first_info env s metadata n) ((n - 1) / s.max_samples_per_packet)))
            ((n - 1) % s.max_samples_per_packet + 1))] ∧
        converted c (large_events env s buffs n metadata) =
          List.replicate ((n - 1) / s.max_samples_per_packet) s.max_samples_per_packet ++
            [(n - 1) % s.max_samples_per_packet + 1] ∧
        commits c (large_events env s buffs n metadata) =
          (List.range ((n - 1) / s.max_samples_per_packet + 1)).filterMap
            (fun i => answer env p i) ∧
        enqueued c (large_events env s buffs n metadata) =
          (List.range ((n - 1) / s.max_samples_per_packet + 1)).filterMap
            (fun i => answer env p i)) ∧
      (s.props[c]? = none →
        packed c (large_events env s buffs n metadata) = [] ∧
        converted c (large_events env s buffs n metadata) = [] ∧
        commits c (large_events env s buffs n metadata) = [] ∧
        enqueued c (large_events env s buffs n metadata) = []) := by
  have hwf0 := consume_cache_well_formed s n hwf
  have hall0 : ∀ j, j < (n - 1) / s.max_samples_per_packet →
      acquires env (consume_cache s n) j := fun j hj => hacq j (by omega)
  obtain ⟨e1, e2, e3⟩ := frag_events_spec env buffs metadata
    ((n - 1) / s.max_samples_per_packet) (consume_cache s n)
    (first_info env s metadata n) 0 hwf0 hall0
  have hsq := frag_state_seq env buffs metadata ((n - 1) / s.max_samples_per_packet)
    (consume_cache s n) (first_info env s metadata n) 0 hwf0 hall0
  have hok : acq_ok env (frag_state env buffs metadata ((n - 1) / s.max_samples_per_packet)
      (consume_cache s n) (first_info env s metadata n) 0).props = true :=
    (frag_state_acq_ok env buffs metadata ((n - 1) / s.max_samples_per_packet)
      (consume_cache s n) (first_info env s metadata n) 0 hall0).mpr (hacq _ (by omega))
  have hwfF := frag_state_well_formed env buffs metadata ((n - 1) / s.max_samples_per_packet)
    (consume_cache s n) (first_info env s metadata n) 0 hwf0
  refine ⟨?_, ?_, ?_⟩
  · simp only [large_events, episodes_append, e1, episodes_episode_events,
      episodes_flush_events, List.append_nil]
    rfl
  · simp only [large_events, timeouts_append, e2, timeouts_episode_events,
      timeouts_flush_events, hok, if_true]
  · intro c
    constructor
    · intro p hp
      obtain ⟨i1, i2, i3, i4⟩ := (e3 c).1 p hp
      obtain ⟨q, hq, hs, ha⟩ := frag_state_props_get env buffs metadata
        ((n - 1) / s.max_samples_per_packet) (consume_cache s n) (first_info env s metadata n) 0
        c p hall0 hp
      obtain ⟨b, hb⟩ := Option.isSome_iff_exists.mp ((acq_ok_iff env _).mp hok q
        (List.getElem?_mem hq))
      have hep := episode_events_ok env _ buffs ((n - 1) % s.max_samples_per_packet + 1)
        (final_info metadata (frag_info env metadata (consume_cache s n)
          (first_info env s metadata n) ((n - 1) / s.max_samples_per_packet)))
        (wrap ((n - 1) / s.max_samples_per_packet * s.max_samples_per_packet *
          s.bytes_per_cpu_item)) hwfF.1 hok c q b hq hb
      have hb' : answer env p ((n - 1) / s.max_samples_per_packet) = some b := by
        rw [← hb, ha 0, Nat.add_zero]
      refine ⟨?_, ?_, ?_, ?_⟩
      · simp only [large_events, packed_append, i1, hep.1, packed_flush_events,
          List.append_nil, hs, load_packet_info_eq, frag_state_num_inputs,
          frag_state_bytes_per_otw_item, hsq]
        rfl
      · simp only [large_events, converted_append, i2, hep.2.1, converted_flush_events,
          List.append_nil]
        rfl
      · simp only [large_events, commits_append, i3, hep.2.2.1, commits_flush_events,
          List.append_nil, List.range_succ, List.filterMap_append, List.filterMap_cons, hb',
          List.filterMap_nil]
      · simp only [large_events, enqueued_append, i4, hep.2.2.2, enqueued_flush_events,
          List.append_nil, List.range_succ, List.filterMap_append, List.filterMap_cons, hb',
          List.filterMap_nil]
    · intro hc
      obtain ⟨i1, i2, i3, i4⟩ := (e3 c).2 hc
      have hep := episode_events_none env _ buffs ((n - 1) % s.max_samples_per_packet + 1)
        (final_info metadata (frag_info env metadata (consume_cache s n)
          (first_info env s metadata n) ((n - 1) / s.max_samples_per_packet)))
        (wrap ((n - 1) / s.max_samples_per_packet * s.max_samples_per_packet *
          s.bytes_per_cpu_item)) hwfF.1 c
        (Or.inr (frag_state_props_none env buffs metadata _ _ _ _ c hc))
      simp only [large_events, packed_append, converted_append, commits_append,
        enqueued_append, i1, i2, i3, i4, hep.1, hep.2.1, hep.2.2.1, hep.2.2.2,
        packed_flush_events, converted_flush_events, commits_flush_events,
        enqueued_flush_events, List.append_nil, and_self]

/-! ## The events of a request that fits into one packet -/

theorem small_events_spec (env : environment) (p : send_packet_handler) (buffs : List Nat)
    (m : Nat) (info : if_packet_info_t) (off k : Nat) (ms : List multi_msb_type)
    (hflat : p.thread_indices.flatten = List.range p.size) :
    episodes (episode_events env p buffs m info off ++ flush_events env k ms) =
      [(m, info, off)] ∧
    timeouts (episode_events env p buffs m info off ++ flush_events env k ms) =
      (if acq_ok env p.props then 0 else 1) ∧
    ∀ c,
      (∀ q b, acq_ok env p.props = true → p.props[c]? = some q → answer env q 0 = some b →
        packed c (episode_events env p buffs m info off ++ flush_events env k ms) =
          [stamp q (load_packet_info p info m)] ∧
        converted c (episode_events env p buffs m info off ++ flush_events env k ms) = [m] ∧
        commits c (episode_events env p buffs m info off ++ flush_events env k ms) = [b] ∧
        enqueued c (episode_events env p buffs m info off ++ flush_events env k ms) = [b]) ∧
      (acq_ok env p.props = false ∨ p.props[c]? = none →
        packed c (episode_events env p buffs m info off ++ flush_events env k ms) = [] ∧
        converted c (episode_events env p buffs m info off ++ flush_events env k ms) = [] ∧
        commits c (episode_events env p buffs m info off ++ flush_events env k ms) = [] ∧
        enqueued c (episode_events env p buffs m info off ++ flush_events env k ms) = []) := by
  refine ⟨?_, ?_, ?_⟩
  · rw [episodes_append, episodes_episode_events, episodes_flush_events, List.append_nil]
  · rw [timeouts_append, timeouts_episode_events, timeouts_flush_events, Nat.add_zero]
  · intro c
    constructor
    · intro q b hok hq hb
      have hep := episode_events_ok env p buffs m info off hflat hok c q b hq hb
      rw [packed_append, converted_append, commits_append, enqueued_append, hep.1, hep.2.1,
        hep.2.2.1, hep.2.2.2, packed_flush_events, converted_flush_events,
        commits_flush_events, enqueued_flush_events]
      exact ⟨rfl, rfl, rfl, rfl⟩
    · intro h
      have hep := episode_events_none env p buffs m info off hflat c h
      rw [packed_append, converted_append, commits_append, enqueued_append, hep.1, hep.2.1,
        hep.2.2.1, hep.2.2.2, packed_flush_events, converted_flush_events,
        commits_flush_events, enqueued_flush_events]
      exact ⟨rfl, rfl, rfl, rfl⟩

theorem small_events_packed (env : environment) (p : send_packet_handler) (buffs : List Nat)
    (m : Nat) (info : if_packet_info_t) (off k : Nat) (ms : List multi_msb_type)
    (hflat : p.thread_indices.flatten = List.range p.size) (c : Nat) :
    ∀ d ∈ packed c (episode_events env p buffs m info off ++ flush_events env k ms),
      ∃ q, d = stamp q (load_packet_info p info m) := by
  obtain ⟨-, -, h3⟩ := small_events_spec env p buffs m info off k ms hflat
  intro d hd
  cases hok : acq_ok env p.props with
  | false =>
    rw [((h3 c).2 (Or.inl hok)).1] at hd
    exact absurd hd (List.not_mem_nil d)
  | true =>
    cases hq : p.props[c]? with
    | none =>
      rw [((h3 c).2 (Or.inr hq)).1] at hd
      exact absurd hd (List.not_mem_nil d)
    | some q =>
      obtain ⟨b, hb⟩ := Option.isSome_iff_exists.mp
        ((acq_ok_iff env p.props).mp hok q (List.getElem?_mem hq))
      rw [((h3 c).1 q b hok hq hb).1] at hd
      exact ⟨q, List.mem_singleton.mp hd⟩

/-! ## Fragmentation -/

theorem merged_info_uncached (env : environment) (s : send_packet_handler)
    (metadata : tx_metadata_t) (n : Nat) (hc : s.cached_metadata = false) :
    merged_info env s metadata n = translate_metadata env s metadata := by
  simp [merged_info, hc]

theorem map_const_range {β : Type} (k : Nat) (b : β) :
    (List.range k).map (fun _ => b) = List.replicate k b := by
  induction k with
  | zero => rfl
  | succ k ih => rw [List.range_succ, List.map_append, ih, List.replicate_succ']; rfl

/-- C3: a request with `0 < n <= max_samples_per_packet` for which the buffer
provider of every channel returns a buffer produces exactly one packet per
channel: `send_one_packet` is called once, for every channel index below the
channel count exactly one buffer is committed and enqueued and the converter
is given `n` samples, nothing is committed for an index that is not a
channel; the sequence counter advances by exactly 1 (in `size_t`) and `send`
returns `n`. -/
theorem send_single_packet (env : environment) (s : send_packet_handler) (buffs : List Nat)
    (n : Nat) (metadata : tx_metadata_t) (hwf : well_formed s) (hn : 0 < n)
    (hmax : n ≤ s.max_samples_per_packet) (hacq : acquires env s 0) :
    ∃ t evs, send env s buffs n metadata = some (n, t) ∧ t.log = s.log ++ evs ∧
      t.next_packet_seq = wrap (s.next_packet_seq + 1) ∧
      (episodes evs).length = 1 ∧
      (∀ c, c < s.size →
        ∃ b, commits c evs = [b] ∧ enqueued c evs = [b] ∧ converted c evs = [n] ∧
          (packed c evs).length = 1) ∧
      ∀ c, s.size ≤ c → commits c evs = [] ∧ enqueued c evs = [] ∧ packed c evs = [] := by
  have hok : acq_ok env s.props = true := (acquires_zero env s).mp hacq
  have hsend := send_small env s buffs n metadata hwf hn hmax
  rw [if_pos hok] at hsend
  have hsum := episode_flush_summary env s (prepare env s buffs n) buffs n
    (merged_info env s metadata n) n hwf (prepare_well_formed env s buffs n hwf) rfl rfl rfl
    n (by rw [show (prepare env s buffs n).props = s.props from rfl, if_pos hok])
  obtain ⟨h1, h2, h3⟩ := small_events_spec env (prepare env s buffs n) buffs n
    (merged_info env s metadata n) 0
    (episode_state env (prepare env s buffs n) buffs n
      (merged_info env s metadata n) 0).sendmmsg_calls
    (episode_state env (prepare env s buffs n) buffs n
      (merged_info env s metadata n) 0).multi_msb_buffs hwf.1
  refine ⟨_, _, hsend, hsum.2.2.1, ?_, ?_, ?_, ?_⟩
  · rw [hsum.2.2.2.1, h1, h2, show (prepare env s buffs n).props = s.props from rfl, if_pos hok]
    rfl
  · rw [h1]
    rfl
  · intro c hc
    have hq : (prepare env s buffs n).props[c]? = some s.props[c] := List.getElem?_eq_getElem hc
    obtain ⟨b, hb⟩ := Option.isSome_iff_exists.mp (hacq s.props[c] (List.getElem_mem hc))
    obtain ⟨k1, k2, k3, k4⟩ := (h3 c).1 _ b hok hq hb
    exact ⟨b, k3, k4, k2, by rw [k1]; rfl⟩
  · intro c hc
    have hq : (prepare env s buffs n).props[c]? = none := List.getElem?_eq_none hc
    obtain ⟨k1, -, k3, k4⟩ := (h3 c).2 (Or.inr hq)
    exact ⟨k3, k4, k1⟩

/-- C3, on the handler of four channels (all channels converted inline) and
on the handler of ten channels (channels 8 and 9 converted by a worker): a
request of 100 samples returns 100 and advances the sequence counter from 0
to 1. -/
theorem send_single_packet_witness :
    (well_formed handler4 ∧ 100 ≤ handler4.max_samples_per_packet ∧
      acquires env_ok handler4 0 ∧
      ∃ t evs, send env_ok handler4 [10, 20, 30, 40] 100 md_burst = some (100, t) ∧
        t.log = handler4.log ++ evs ∧ t.next_packet_seq = 1 ∧ (episodes evs).length = 1) ∧
    (well_formed handler10 ∧ 100 ≤ handler10.max_samples_per_packet ∧
      acquires env_ok handler10 0 ∧
      ∃ t evs, send env_ok handler10 (List.range 10) 100 md_burst = some (100, t) ∧
        t.log = handler10.log ++ evs ∧ t.next_packet_seq = 1 ∧ (episodes evs).length = 1) :=
  ⟨⟨by decide, by decide, by decide,
      let ⟨t, evs, h1, h2, h3, h4, _⟩ :=
        send_single_packet env_ok handler4 [10, 20, 30, 40] 100 md_burst (by decide)
          (by decide) (by decide) (by decide)
      ⟨t, evs, h1, h2, h3, h4⟩⟩,
    ⟨by decide, by decide, by decide,
      let ⟨t, evs, h1, h2, h3, h4, _⟩ :=
        send_single_packet env_ok handler10 (List.range 10) 100 md_burst (by decide)
          (by decide) (by decide) (by decide)
      ⟨t, evs, h1, h2, h3, h4⟩⟩⟩

/-! ## The sequence counter -/

/-- C5: for a request of `n > 0` samples with `max_samples_per_packet > 0`,
whatever the buffer providers answer, `send` returns a value `r <= n`, and
`r = n` exactly when no buffer acquisition timed out during the call; a
timeout never makes `send` fail. -/
theorem send_returns_count (env : environment) (s : send_packet_handler) (buffs : List Nat)
    (n : Nat) (metadata : tx_metadata_t) (hwf : well_formed s) (hn : 0 < n)
    (hmax : 0 < s.max_samples_per_packet) :
    ∃ r t evs, send env s buffs n metadata = some (r, t) ∧ t.log = s.log ++ evs ∧
      r ≤ n ∧ (r = n ↔ timeouts evs = 0) := by
  obtain ⟨r, t, evs, hsend, -, -, hlog, -, -, -, hle, hiff⟩ :=
    send_total env s buffs n metadata hwf hmax
  exact ⟨r, t, evs, hsend, hlog, hle, hiff hn⟩

/-- C5, on the handler of four channels whose providers time out from their
third call on: a request of 3500 samples returns a count (2000) below 3500. -/
theorem send_returns_count_witness :
    well_formed handler4 ∧ 0 < handler4.max_samples_per_packet ∧
    (send env_two handler4 [10, 20, 30, 40] 3500 md_burst).map (fun r => r.1) = some 2000 ∧
    ∃ r t evs, send env_two handler4 [10, 20, 30, 40] 3500 md_burst = some (r, t) ∧
      t.log = handler4.log ++ evs ∧ r ≤ 3500 ∧ (r = 3500 ↔ timeouts evs = 0) :=
  ⟨by decide, by decide, by decide,
    send_returns_count env_two handler4 [10, 20, 30, 40] 3500 md_burst (by decide) (by decide)
      (by decide)⟩

theorem filterMap_range_length {β : Type} (f : Nat → Option β) :
    ∀ k, (∀ j, j < k → (f j).isSome = true) → ((List.range k).filterMap f).length = k
  | 0, _ => rfl
  | k + 1, h => by
    obtain ⟨b, hb⟩ := Option.isSome_iff_exists.mp (h k (Nat.lt_succ_self k))
    rw [List.range_succ, List.filterMap_append, List.length_append,
      filterMap_range_length f k (fun j hj => h j (Nat.lt_succ_of_lt hj))]
    simp [hb]

theorem timeout_rest (env : environment) (p : send_packet_handler) (buffs : List Nat)
    (m : Nat) (info : if_packet_info_t) (off : Nat) (post : List event)
    (hflat : p.thread_indices.flatten = List.range p.size)
    (hok : acq_ok env p.props = false) (h1 : episodes post = [])
    (h2 : ∀ c, commits c post = [] ∧ enqueued c post = [])
    (h3 : ∀ e ∈ post, e.is_packet_work = false) :
    (episodes (episode_events env p buffs m info off ++ post)).length = 1 ∧
    (∀ c, commits c (episode_events env p buffs m info off ++ post) = [] ∧
      enqueued c (episode_events env p buffs m info off ++ post) = []) ∧
    ∃ pre c, episode_events env p buffs m info off ++ post =
        pre ++ event.get_buff c none :: post ∧
      timeouts pre = 0 ∧ ∀ e ∈ post, e.is_packet_work = false := by
  refine ⟨?_, ?_, ?_⟩
  · rw [episodes_append, episodes_episode_events, h1]
    rfl
  · intro c
    have hep := episode_events_none env p buffs m info off hflat c (Or.inl hok)
    rw [commits_append, enqueued_append, hep.2.2.1, hep.2.2.2, (h2 c).1, (h2 c).2]
    exact ⟨rfl, rfl⟩
  · obtain ⟨init, c, hinit, ht⟩ := acq_events_timeout env p.props 0 hok
    refine ⟨event.send_one_packet m info off :: init, c, ?_, ?_, h3⟩
    · simp only [episode_events, hinit, hok, Bool.false_eq_true, if_false, List.append_nil,
        List.cons_append, List.append_assoc, List.singleton_append, List.nil_append]
    · simpa [timeouts] using ht

/-- C6: in a fragmented request (`n > max > 0`) whose first acquisition
timeout happens during fragment `k` (counted from 0, `k <= (n - 1) / max`),
`send` returns exactly `k * max` and leaves the sequence counter advanced by
exactly `k` (in `size_t`).  Its events split into those of the first `k`
fragments, which have no timeout and commit and enqueue `k` buffers on every
channel, and those from the call for fragment `k` on, which contain one call
of `send_one_packet`, no commit and no enqueue, and after the timeout no
acquisition, commit or enqueue at all. -/
theorem send_timeout_in_fragment (env : environment) (s : send_packet_handler)
    (buffs : List Nat) (n : Nat) (metadata : tx_metadata_t) (k : Nat) (hwf : well_formed s)
    (hmax : 0 < s.max_samples_per_packet) (hn : s.max_samples_per_packet < n)
    (hk : k ≤ (n - 1) / s.max_samples_per_packet)
    (hbefore : ∀ j, j < k → acquires env s j) (hfail : ¬ acquires env s k) :
    ∃ t evs, send env s buffs n metadata = some (k * s.max_samples_per_packet, t) ∧
      t.log = s.log ++ evs ∧
      t.next_packet_seq = wrap (s.next_packet_seq + k) ∧
      ∃ done rest, evs = done ++ rest ∧
        (episodes done).length = k ∧ timeouts done = 0 ∧
        (∀ c, c < s.size → (commits c done).length = k ∧ (enqueued c done).length = k) ∧
        (episodes rest).length = 1 ∧
        (∀ c, commits c rest = [] ∧ enqueued c rest = []) ∧
        ∃ pre c post, rest = pre ++ event.get_buff c none :: post ∧ timeouts pre = 0 ∧
          ∀ e ∈ post, e.is_packet_work = false := by
  have hwf0 := consume_cache_well_formed s n hwf
  have hbefore0 : ∀ j, j < k → acquires env (consume_cache s n) j := hbefore
  obtain ⟨e1, e2, e3⟩ := frag_events_spec env buffs metadata k (consume_cache s n)
    (first_info env s metadata n) 0 hwf0 hbefore0
  have hsq := frag_state_seq env buffs metadata k
    (consume_cache s n) (first_info env s metadata n) 0 hwf0 hbefore0
  have hwfk := frag_state_well_formed env buffs metadata k (consume_cache s n)
    (first_info env s metadata n) 0 hwf0
  have hnok : acq_ok env (frag_state env buffs metadata k (consume_cache s n)
      (first_info env s metadata n) 0).props = false := by
    cases h : acq_ok env (frag_state env buffs metadata k (consume_cache s n)
      (first_info env s metadata n) 0).props with
    | false => rfl
    | true =>
      exact absurd ((frag_state_acq_ok env buffs metadata k (consume_cache s n)
        (first_info env s metadata n) 0 hbefore0).mp h) hfail
  have hdone : (episodes (frag_events env buffs metadata k (consume_cache s n)
        (first_info env s metadata n) 0)).length = k ∧
      timeouts (frag_events env buffs metadata k (consume_cache s n)
        (first_info env s metadata n) 0) = 0 ∧
      ∀ c, c < s.size →
        (commits c (frag_events env buffs metadata k (consume_cache s n)
          (first_info env s metadata n) 0)).length = k ∧
        (enqueued c (frag_events env buffs metadata k (consume_cache s n)
          (first_info env s metadata n) 0)).length = k := by
    refine ⟨by rw [e1, List.length_map, List.length_range], e2, ?_⟩
    intro c hc
    have hq : (consume_cache s n).props[c]? = some s.props[c] := List.getElem?_eq_getElem hc
    obtain ⟨-, -, i3, i4⟩ := (e3 c).1 _ hq
    have hlen := filterMap_range_length (fun i => answer env s.props[c] i) k
      (fun j hj => hbefore j hj _ (List.getElem_mem hc))
    rw [i3, i4]
    exact ⟨hlen, hlen⟩
  rcases Nat.lt_or_eq_of_le hk with hlt | heq
  · -- the loop stops at fragment `k`
    have hsend := send_large_timeout env s buffs n metadata k hwf hmax hn hlt hbefore hfail
    obtain ⟨r1, r2, r3⟩ := timeout_rest env _ buffs s.max_samples_per_packet
      (frag_info env metadata (consume_cache s n) (first_info env s metadata n) k)
      (wrap (k * s.max_samples_per_packet * s.bytes_per_cpu_item)) [] hwfk.1 hnok rfl
      (fun _ => ⟨rfl, rfl⟩) (fun e he => absurd he (List.not_mem_nil e))
    rw [List.append_nil] at r1 r2 r3
    refine ⟨_, _, hsend, stopped_state_log env s buffs n metadata k, ?_, _, _, rfl, hdone.1,
      hdone.2.1, hdone.2.2, r1, r2, ?_⟩
    · rw [stopped_state, episode_state_seq, hnok, hsq]
      rfl
    · obtain ⟨pre, c, h1, h2, h3⟩ := r3
      exact ⟨pre, c, [], h1, h2, h3⟩
  · -- the final fragment times out
    subst heq
    have hsend := send_large_ok env s buffs n metadata hwf hmax hn hbefore
    rw [if_neg hfail, Nat.add_zero] at hsend
    obtain ⟨r1, r2, r3⟩ := timeout_rest env _ buffs ((n - 1) % s.max_samples_per_packet + 1)
      (final_info metadata (frag_info env metadata (consume_cache s n)
        (first_info env s metadata n) ((n - 1) / s.max_samples_per_packet)))
      (wrap ((n - 1) / s.max_samples_per_packet * s.max_samples_per_packet *
        s.bytes_per_cpu_item))
      (flush_events env (final_state env s buffs n metadata).sendmmsg_calls
        (final_state env s buffs n metadata).multi_msb_buffs) hwfk.1 hnok
      (episodes_flush_events env _ _)
      (fun c => ⟨commits_flush_events env c _ _, enqueued_flush_events env c _ _⟩)
      (flush_events_no_work env _ _)
    refine ⟨_, _, hsend, final_state_log env s buffs n metadata, ?_, _, _, rfl, hdone.1,
      hdone.2.1, hdone.2.2, r1, r2, ?_⟩
    · rw [clear_batches_next_packet_seq, send_multiple_packets_next_packet_seq, final_state,
        episode_state_seq, hnok, hsq]
      rfl
    · obtain ⟨pre, c, h1, h2, h3⟩ := r3
      exact ⟨pre, c, _, h1, h2, h3⟩

/-- C6, on the handler of four channels whose providers time out from their
third call on: a request of 3500 samples times out first in fragment 2 and
returns 2000, the sequence counter is advanced by 2. -/
theorem send_timeout_in_fragment_witness :
    well_formed handler4 ∧ handler4.max_samples_per_packet < 3500 ∧
    2 ≤ (3500 - 1) / handler4.max_samples_per_packet ∧
    (∀ j, j < 2 → acquires env_two handler4 j) ∧ ¬ acquires env_two handler4 2 ∧
    ∃ t evs, send env_two handler4 [10, 20, 30, 40] 3500 md_burst = some (2000, t) ∧
      t.log = handler4.log ++ evs ∧ t.next_packet_seq = 2 :=
  ⟨by decide, by decide, by decide, by decide, by decide,
    let ⟨t, evs, h1, h2, h3, _⟩ :=
      send_timeout_in_fragment env_two handler4 [10, 20, 30, 40] 3500 md_burst 2 (by decide)
        (by decide) (by decide) (by decide) (by decide) (by decide)
    ⟨t, evs, h1, h2, h3⟩⟩

/-- C7: if the buffer provider of every channel times out on every call, then
for every request (any sample count, any metadata, any state of the metadata
cache) `send` returns 0 and the sequence counter is the same after the call
as before it.  The handler has at least one channel and
`max_samples_per_packet > 0`. -/
theorem send_all_providers_time_out (env : environment) (s : send_packet_handler)
    (buffs : List Nat) (n : Nat) (metadata : tx_metadata_t) (hwf : well_formed s)
    (hsize : 0 < s.size) (hmax : 0 < s.max_samples_per_packet)
    (hnone : ∀ f k, env.get_buff f k = none) :
    ∃ t, send env s buffs n metadata = some (0, t) ∧ t.next_packet_seq = s.next_packet_seq := by
  have hfail : ∀ j, ¬ acquires env s j := not_acquires_of_never env s hsize hnone
  have hnok : acq_ok env s.props = false := by
    cases h : acq_ok env s.props with
    | false => rfl
    | true => exact absurd ((acquires_zero env s).mpr h) (hfail 0)
  by_cases hn0 : n = 0
  · subst hn0
    cases hsob : metadata.start_of_burst with
    | true => exact ⟨_, send_zero_sob env s buffs metadata hsob, rfl⟩
    | false =>
      refine ⟨_, send_zero_end env s buffs metadata hwf hsob, ?_⟩
      rw [send_multiple_packets_next_packet_seq, episode_state_seq,
        show (prepare env s buffs 0).props = s.props from rfl, hnok]
      rfl
  · have hn : 0 < n := Nat.pos_of_ne_zero hn0
    by_cases hle : n ≤ s.max_samples_per_packet
    · have hsend := send_small env s buffs n metadata hwf hn hle
      rw [hnok] at hsend
      refine ⟨_, hsend, ?_⟩
      rw [send_multiple_packets_next_packet_seq, episode_state_seq,
        show (prepare env s buffs n).props = s.props from rfl, hnok]
      rfl
    · have hlt : s.max_samples_per_packet < n := Nat.lt_of_not_le hle
      have hF : 0 < (n - 1) / s.max_samples_per_packet :=
        (Nat.one_le_div_iff hmax).mpr (by omega)
      have hsend := send_large_timeout env s buffs n metadata 0 hwf hmax hlt hF
        (fun j hj => absurd hj (Nat.not_lt_zero j)) (hfail 0)
      rw [Nat.zero_mul] at hsend
      refine ⟨_, hsend, ?_⟩
      rw [stopped_state, episode_state_seq]
      simp only [frag_state]
      rw [show (consume_cache s n).props = s.props from rfl, hnok]
      rfl

/-- C7, on the handler of four channels whose providers always time out: a
request of 2500 samples returns 0 and leaves the sequence counter at 0. -/
theorem send_all_providers_time_out_witness :
    well_formed handler4 ∧ 0 < handler4.size ∧ 0 < handler4.max_samples_per_packet ∧
    (∀ f k, env_timeout.get_buff f k = none) ∧
    ∃ t, send env_timeout handler4 [10, 20, 30, 40] 2500 md_burst = some (0, t) ∧
      t.next_packet_seq = handler4.next_packet_seq :=
  ⟨by decide, by decide, by decide, fun _ _ => rfl,
    send_all_providers_time_out env_timeout handler4 [10, 20, 30, 40] 2500 md_burst (by decide)
      (by decide) (by decide) (fun _ _ => rfl)⟩

/-! ## Requests without samples and the metadata cache -/

/-- C8: a request with `n = 0` and `start_of_burst = true` returns 0, calls no
buffer provider, commits and transmits no packet (the log, the channels, the
transmission batches and the count of `sendmmsg` calls are unchanged), leaves
the sequence counter unchanged, and afterwards the metadata cache is marked
pending and holds exactly the metadata of this request. -/
theorem send_caches_metadata (env : environment) (s : send_packet_handler) (buffs : List Nat)
    (metadata : tx_metadata_t) (hsob : metadata.start_of_burst = true) :
    ∃ t, send env s buffs 0 metadata = some (0, t) ∧
      t.log = s.log ∧ t.props = s.props ∧ t.multi_msb_buffs = s.multi_msb_buffs ∧
      t.sendmmsg_calls = s.sendmmsg_calls ∧ t.next_packet_seq = s.next_packet_seq ∧
      t.cached_metadata = true ∧ t.metadata_cache = metadata :=
  ⟨_, send_zero_sob env s buffs metadata hsob, rfl, rfl, rfl, rfl, rfl, rfl, rfl⟩

/-- C8, on the handler of four channels: a request of 0 samples that starts a
burst leaves the metadata of the request in the cache. -/
theorem send_caches_metadata_witness :
    md_burst.start_of_burst = true ∧
    ∃ t, send env_ok handler4 [10, 20, 30, 40] 0 md_burst = some (0, t) ∧
      t.log = handler4.log ∧ t.props = handler4.props ∧
      t.multi_msb_buffs = handler4.multi_msb_buffs ∧
      t.sendmmsg_calls = handler4.sendmmsg_calls ∧
      t.next_packet_seq = handler4.next_packet_seq ∧
      t.cached_metadata = true ∧ t.metadata_cache = md_burst :=
  ⟨rfl, send_caches_metadata env_ok handler4 [10, 20, 30, 40] md_burst rfl⟩

/-- C9 as stated fails: on the handler of four channels whose providers
always time out, a request of 0 samples that does not start a burst returns 0
and no descriptor is handed to the packer, nothing is converted, committed or
enqueued for channel 0: no packet is emitted. -/
theorem send_zero_samples_no_packet :
    well_formed handler4 ∧ md_end.start_of_burst = false ∧
    (send env_timeout handler4 [10, 20, 30, 40] 0 md_end).map
      (fun r => (r.1, packed 0 r.2.log, converted 0 r.2.log, commits 0 r.2.log,
        enqueued 0 r.2.log)) = some (0, [], [], [], []) := by
  decide

/-- C9, amended: a request with `n = 0` and `start_of_burst = false` returns 0
in every case; when the buffer provider of every channel returns a buffer it
emits exactly one packet per channel, padded to a payload of one sample (the
converter is given one sample, the payload is that of one sample), whose
burst flags are those of the request (start-of-burst false, end-of-burst of
the request), also when metadata is pending in the cache. -/
theorem send_zero_samples_padded (env : environment) (s : send_packet_handler)
    (buffs : List Nat) (metadata : tx_metadata_t) (hwf : well_formed s)
    (hsob : metadata.start_of_burst = false) :
    ∃ t evs, send env s buffs 0 metadata = some (0, t) ∧ t.log = s.log ++ evs ∧
      (acquires env s 0 →
        (episodes evs).length = 1 ∧
        ∀ c, c < s.size →
          ∃ d b, packed c evs = [d] ∧ converted c evs = [1] ∧ commits c evs = [b] ∧
            enqueued c evs = [b] ∧
            d.num_payload_bytes = wrap (wrap (1 * s.num_inputs) * s.bytes_per_otw_item) ∧
            d.sob = false ∧ d.eob = metadata.end_of_burst) := by
  have hsend := send_zero_end env s buffs metadata hwf hsob
  obtain ⟨h1, -, h3⟩ := small_events_spec env (prepare env s buffs 0)
    (prepare env s buffs 0).zero_buffs 1 (translate_metadata env s metadata) 0
    (episode_state env (prepare env s buffs 0) (prepare env s buffs 0).zero_buffs 1
      (translate_metadata env s metadata) 0).sendmmsg_calls
    (episode_state env (prepare env s buffs 0) (prepare env s buffs 0).zero_buffs 1
      (translate_metadata env s metadata) 0).multi_msb_buffs hwf.1
  refine ⟨_, episode_events env (prepare env s buffs 0) (prepare env s buffs 0).zero_buffs 1
      (translate_metadata env s metadata) 0 ++
    flush_events env
      (episode_state env (prepare env s buffs 0) (prepare env s buffs 0).zero_buffs 1
        (translate_metadata env s metadata) 0).sendmmsg_calls
      (episode_state env (prepare env s buffs 0) (prepare env s buffs 0).zero_buffs 1
        (translate_metadata env s metadata) 0).multi_msb_buffs, hsend, ?_, ?_⟩
  · rw [send_multiple_packets_log, episode_state_log, List.append_assoc]
    rfl
  · intro hacq
    have hok : acq_ok env (prepare env s buffs 0).props = true := (acquires_zero env s).mp hacq
    refine ⟨by rw [h1]; rfl, ?_⟩
    intro c hc
    have hq : (prepare env s buffs 0).props[c]? = some s.props[c] := List.getElem?_eq_getElem hc
    obtain ⟨b, hb⟩ := Option.isSome_iff_exists.mp (hacq s.props[c] (List.getElem_mem hc))
    obtain ⟨k1, k2, k3, k4⟩ := (h3 c).1 _ b hok hq hb
    refine ⟨_, b, k1, k2, k3, k4, rfl, ?_, rfl⟩
    show metadata.start_of_burst = false
    exact hsob

/-- C9, amended, on the handler of four channels whose providers return
buffers: a request of 0 samples that ends a burst returns 0 and hands the
packer one descriptor for channel 0, with end-of-burst set. -/
theorem send_zero_samples_padded_witness :
    well_formed handler4 ∧ md_end.start_of_burst = false ∧ acquires env_ok handler4 0 ∧
    ∃ t evs, send env_ok handler4 [10, 20, 30, 40] 0 md_end = some (0, t) ∧
      t.log = handler4.log ++ evs ∧ (episodes evs).length = 1 :=
  ⟨by decide, rfl, by decide,
    let ⟨t, evs, h1, h2, h3⟩ :=
      send_zero_samples_padded env_ok handler4 [10, 20, 30, 40] md_end (by decide) rfl
    ⟨t, evs, h1, h2, (h3 (by decide)).1⟩⟩

/-- C10: when a metadata record is pending in the cache and a request with
`0 < n <= max_samples_per_packet` arrives, the descriptor used for the
request (the one `send_one_packet` is called with, and every descriptor
handed to the packer) takes start-of-burst and end-of-burst from the cached
record; it takes the timestamp flag and the timestamp from the cached record
when the request has no time spec, and from the request when it has one;
after the call the cache is no longer pending. -/
theorem send_applies_cache (env : environment) (s : send_packet_handler) (buffs : List Nat)
    (n : Nat) (metadata : tx_metadata_t) (hwf : well_formed s) (hn : 0 < n)
    (hmax : n ≤ s.max_samples_per_packet) (hcache : s.cached_metadata = true) :
    ∃ r t evs info, send env s buffs n metadata = some (r, t) ∧ t.log = s.log ++ evs ∧
      episodes evs = [(n, info, 0)] ∧
      info.sob = s.metadata_cache.start_of_burst ∧
      info.eob = s.metadata_cache.end_of_burst ∧
      (metadata.has_time_spec = false →
        info.has_tsf = s.metadata_cache.has_time_spec ∧
        info.tsf = env.to_ticks s.metadata_cache.time_spec) ∧
      (metadata.has_time_spec = true →
        info.has_tsf = true ∧ info.tsf = env.to_ticks metadata.time_spec) ∧
      (∀ c, ∀ d ∈ packed c evs,
        d.sob = info.sob ∧ d.eob = info.eob ∧ d.has_tsf = info.has_tsf ∧ d.tsf = info.tsf) ∧
      t.cached_metadata = false := by
  have hn0 : n ≠ 0 := Nat.pos_iff_ne_zero.mp hn
  have hsend := send_small env s buffs n metadata hwf hn hmax
  obtain ⟨h1, -, -⟩ := small_events_spec env (prepare env s buffs n) buffs n
    (merged_info env s metadata n) 0
    (episode_state env (prepare env s buffs n) buffs n
      (merged_info env s metadata n) 0).sendmmsg_calls
    (episode_state env (prepare env s buffs n) buffs n
      (merged_info env s metadata n) 0).multi_msb_buffs hwf.1
  have hpk := small_events_packed env (prepare env s buffs n) buffs n
    (merged_info env s metadata n) 0
    (episode_state env (prepare env s buffs n) buffs n
      (merged_info env s metadata n) 0).sendmmsg_calls
    (episode_state env (prepare env s buffs n) buffs n
      (merged_info env s metadata n) 0).multi_msb_buffs hwf.1
  have hinfo : merged_info env s metadata n =
      apply_metadata_cache env s metadata (translate_metadata env s metadata) := by
    simp [merged_info, hcache, hn0]
  refine ⟨_, _, episode_events env (prepare env s buffs n) buffs n
      (merged_info env s metadata n) 0 ++
    flush_events env
      (episode_state env (prepare env s buffs n) buffs n
        (merged_info env s metadata n) 0).sendmmsg_calls
      (episode_state env (prepare env s buffs n) buffs n
        (merged_info env s metadata n) 0).multi_msb_buffs,
    merged_info env s metadata n, hsend, ?_, h1, ?_, ?_, ?_, ?_, ?_, ?_⟩
  · rw [send_multiple_packets_log, episode_state_log, List.append_assoc]
    rfl
  · rw [hinfo]
    rfl
  · rw [hinfo]
    rfl
  · intro hts
    rw [hinfo]
    simp [apply_metadata_cache, hts]
  · intro hts
    rw [hinfo]
    simp [apply_metadata_cache, translate_metadata, hts]
  · intro c d hd
    obtain ⟨q, rfl⟩ := hpk c d hd
    exact ⟨rfl, rfl, rfl, rfl⟩
  · rw [send_multiple_packets_cached_metadata, episode_state_cached_metadata]
    simp [prepare, consume_cache, hcache, hn0]

/-- C10, on the handler of four channels with a start of burst at tick 5
pending in the cache: a request of 100 samples without time spec is sent with
a descriptor that starts a burst and is stamped with tick 5, and the cache is
no longer pending. -/
theorem send_applies_cache_witness :
    well_formed handler4_primed ∧ 100 ≤ handler4_primed.max_samples_per_packet ∧
    handler4_primed.cached_metadata = true ∧
    ∃ r t evs info, send env_ok handler4_primed [10, 20, 30, 40] 100 md_mid = some (r, t) ∧
      t.log = handler4_primed.log ++ evs ∧ episodes evs = [(100, info, 0)] ∧
      info.sob = true ∧ info.eob = false ∧ info.has_tsf = true ∧ info.tsf = 5 ∧
      t.cached_metadata = false :=
  ⟨by decide, by decide, rfl,
    let ⟨r, t, evs, info, h1, h2, h3, h4, h5, h6, _, _, h9⟩ :=
      send_applies_cache env_ok handler4_primed [10, 20, 30, 40] 100 md_mid (by decide)
        (by decide) (by decide) rfl
    ⟨r, t, evs, info, h1, h2, h3, h4, h5, (h6 rfl).1, (h6 rfl).2, h9⟩⟩

/-! ## The paths of `send` -/

theorem send_small_unfold (env : environment) (s : send_packet_handler) (buffs : List Nat)
    (n : Nat) (metadata : tx_metadata_t) (hn : 0 < n) (hmax : n ≤ s.max_samples_per_packet) :
    send env s buffs n metadata =
      match send_one_packet env (prepare env s buffs n) buffs n (merged_info env s metadata n)
          0 with
      | none => none
      | some (r, _, s2) => some (r, send_multiple_packets env s2) := by
  have hn0 : n ≠ 0 := Nat.pos_iff_ne_zero.mp hn
  unfold send
  cases hc : s.cached_metadata with
  | false =>
    simp only [hc, Bool.false_and, Bool.false_eq_true, if_false, hmax, if_true, hn0, prepare,
      consume_cache, merged_info]
  | true =>
    simp only [hc, Bool.true_and, ne_eq, hn0, not_false_eq_true, decide_True, if_true, hmax,
      if_false, prepare, consume_cache, merged_info]

theorem send_zero_end_unfold (env : environment) (s : send_packet_handler) (buffs : List Nat)
    (metadata : tx_metadata_t) (hsob : metadata.start_of_burst = false) :
    send env s buffs 0 metadata =
      match send_one_packet env (prepare env s buffs 0) (prepare env s buffs 0).zero_buffs 1
          (translate_metadata env s metadata) 0 with
      | none => none
      | some (_, _, s2) => some (0, send_multiple_packets env s2) := by
  have hp : ({ s with zero_buffs := vec_resize s.zero_buffs buffs.length env.zero } :
      send_packet_handler) = prepare env s buffs 0 := by
    simp [prepare, consume_cache]
  unfold send
  simp only [ne_eq, not_true_eq_false, decide_False, Bool.and_false, Bool.false_eq_true,
    if_false, Nat.zero_le, if_true, hsob, hp]
  rfl

theorem send_zero_max (env : environment) (s : send_packet_handler) (buffs : List Nat)
    (n : Nat) (metadata : tx_metadata_t) (hn : 0 < n) (hmax : s.max_samples_per_packet = 0) :
    send env s buffs n metadata = none := by
  have hn0 : n ≠ 0 := Nat.pos_iff_ne_zero.mp hn
  have hle : ¬ n ≤ 0 := by omega
  unfold send
  cases hc : s.cached_metadata with
  | false =>
    simp only [hc, Bool.false_and, Bool.false_eq_true, if_false, hmax, hle, if_true]
  | true =>
    simp only [hc, Bool.true_and, ne_eq, hn0, not_false_eq_true, decide_True, if_true, hmax,
      hle, if_false]

/-! ## Resizing -/

theorem resize_push_replicate (t size : Nat) :
    ∀ (k i : Nat), resize_push t size i (List.replicate k []) =
      (List.range' i k).map (resize_indices t size) := by
  intro k
  induction k with
  | zero => intro i; rfl
  | succ k ih =>
    intro i
    simp only [List.replicate_succ, resize_push, List.nil_append, ih, List.range'_succ,
      List.map_cons]

theorem takeWhile_lt_range' (size : Nat) :
    ∀ (len a : Nat), (List.range' a len).takeWhile (fun x => decide (x < size)) =
      List.range' a (min (a + len) size - a) := by
  intro len
  induction len with
  | zero => intro a; simp
  | succ len ih =>
    intro a
    rw [List.range'_succ, List.takeWhile_cons]
    by_cases h : a < size
    · simp only [h, decide_True, if_true, ih]
      have e : min (a + (len + 1)) size - a = (min (a + 1 + len) size - (a + 1)) + 1 := by
        omega
      rw [e, List.range'_succ]
    · simp only [h, decide_False]
      have e : min (a + (len + 1)) size - a = 0 := by omega
      rw [e]
      rfl

theorem resize_indices_eq (t size i : Nat) :
    resize_indices t size i = List.range' (i * t) (min ((i + 1) * t) size - i * t) := by
  unfold resize_indices
  have e : (List.range t).map (fun j => i * t + j) = List.range' (i * t) t := by
    rw [List.range'_eq_map_range]
  rw [e, takeWhile_lt_range', Nat.succ_mul]

theorem flatten_slices (t size : Nat) :
    ∀ k : Nat, ((List.range k).map
        (fun i => List.range' (i * t) (min ((i + 1) * t) size - i * t))).flatten =
      List.range (min (k * t) size) := by
  intro k
  induction k with
  | zero => simp
  | succ k ih =>
    rw [List.range_succ, List.map_append, List.flatten_append, ih]
    simp only [List.map_cons, List.map_nil, List.flatten_cons, List.flatten_nil,
      List.append_nil]
    have hle : k * t ≤ (k + 1) * t := by rw [Nat.succ_mul]; omega
    by_cases h : k * t ≤ size
    · rw [Nat.min_eq_left h, List.range_eq_range', List.range_eq_range']
      have := List.range'_append 0 (k * t) (min ((k + 1) * t) size - k * t) 1
      simp only [Nat.one_mul, Nat.zero_add] at this
      rw [this]
      congr 1
      omega
    · have e1 : min (k * t) size = size := by omega
      have e2 : min ((k + 1) * t) size = size := by omega
      have e3 : size - k * t = 0 := by omega
      rw [e1, e2, e3]
      simp

theorem ceil_mul_ge (t size : Nat) (ht : 1 ≤ t) : size ≤ (size + t - 1) / t * t := by
  have h := Nat.div_add_mod (size + t - 1) t
  have hm := Nat.mod_lt (size + t - 1) (show t > 0 by omega)
  rw [Nat.mul_comm] at h
  omega

theorem ceil_le_one (t size : Nat) (ht : 1 ≤ t) (h0 : size ≠ 0) (h : size ≤ t) :
    (size + t - 1) / t = 1 := by
  have h1 : t ≤ size + t - 1 := by omega
  have h2 : size + t - 1 < 2 * t := by omega
  apply Nat.le_antisymm
  · exact Nat.lt_succ_iff.mp ((Nat.div_lt_iff_lt_mul (by omega)).mpr h2)
  · exact (Nat.le_div_iff_mul_le (by omega)).mpr (by omega)

theorem ceil_zero (t : Nat) (ht : 1 ≤ t) : (0 + t - 1) / t = 0 := by
  apply Nat.div_eq_of_lt
  omega

/-- What `resize` leaves in a handler that had no channels and no slices. -/
theorem resize_fresh_eq (env : environment) (s : send_packet_handler) (size : Nat)
    (hp : s.props = []) (hti : s.thread_indices = []) (hc : s.conversion_threads = 0)
    (ht : 1 ≤ s.channel_per_conversion_thread) :
    (resize env s size).conversion_threads =
        (size + s.channel_per_conversion_thread - 1) / s.channel_per_conversion_thread ∧
      (resize env s size).thread_indices =
        (List.range ((size + s.channel_per_conversion_thread - 1) /
            s.channel_per_conversion_thread)).map
          (fun i => List.range' (i * s.channel_per_conversion_thread)
            (min ((i + 1) * s.channel_per_conversion_thread) size -
              i * s.channel_per_conversion_thread)) := by
  unfold resize
  by_cases h0 : size = 0
  · subst h0
    have hs : s.size = 0 := by simp [send_packet_handler.size, hp]
    rw [if_pos hs, hc, hti, ceil_zero _ ht]
    exact ⟨rfl, rfl⟩
  · have hs : s.size ≠ size := by
      simp only [send_packet_handler.size, hp, List.length_nil]
      omega
    rw [if_neg hs]
    simp only [hti]
    have hk : (if s.channel_per_conversion_thread < size then
          (size + s.channel_per_conversion_thread - 1) / s.channel_per_conversion_thread
        else 1) =
        (size + s.channel_per_conversion_thread - 1) / s.channel_per_conversion_thread := by
      by_cases h : s.channel_per_conversion_thread < size
      · rw [if_pos h]
      · rw [if_neg h, ceil_le_one _ _ ht h0 (by omega)]
    rw [hk]
    refine ⟨rfl, ?_⟩
    have hv : vec_resize ([] : List (List Nat))
        ((size + s.channel_per_conversion_thread - 1) / s.channel_per_conversion_thread) [] =
        List.replicate
          ((size + s.channel_per_conversion_thread - 1) / s.channel_per_conversion_thread)
          [] := by
      simp [vec_resize]
    rw [hv, resize_push_replicate, ← List.range_eq_range']
    apply List.map_congr_left
    intro i _
    exact resize_indices_eq _ _ _

theorem count_range (size c : Nat) : (List.range size).count c = if c < size then 1 else 0 := by
  by_cases h : c < size
  · rw [if_pos h]
    exact List.count_eq_one_of_mem (List.nodup_range size) (List.mem_range.mpr h)
  · rw [if_neg h]
    exact List.count_eq_zero.mpr (fun hm => h (List.mem_range.mp hm))

/-- C17: on a freshly constructed handler with threshold `t ≥ 1` (the
constructor sets 8), `resize (size)` leaves `k = ceil (size / t)` slots of
threads, so `k - 1` background workers (none when `size ≤ t`); there are `k`
slices, slice `i` is the ascending list `i * t, ..., min ((i + 1) * t) size - 1`,
and the slices in order list `0, ..., size - 1`: every index below `size`
occurs once, no other index occurs. -/
theorem resize_fresh_partition (env : environment)
    (num_inputs bytes_per_otw_item bytes_per_cpu_item max_samples_per_packet
      header_offset_words32 t size : Nat) (ht : 1 ≤ t) :
    let fresh : send_packet_handler :=
      { send_packet_handler.init num_inputs bytes_per_otw_item bytes_per_cpu_item
          max_samples_per_packet header_offset_words32 with
        channel_per_conversion_thread := t }
    let s := resize env fresh size
    let k := (size + t - 1) / t
    size ≤ k * t ∧ k * t < size + t ∧
    background_workers s = k - 1 ∧
    (size ≤ t → background_workers s = 0) ∧
    s.thread_indices.length = k ∧
    (∀ i, i < k →
      s.thread_indices[i]? = some (List.range' (i * t) (min ((i + 1) * t) size - i * t))) ∧
    s.thread_indices.flatten = List.range size ∧
    (∀ c, s.thread_indices.flatten.count c = if c < size then 1 else 0) := by
  intro fresh s k
  have hf := resize_fresh_eq env fresh size rfl rfl rfl ht
  have hk1 : size ≤ k * t := ceil_mul_ge t size ht
  have hk2 : k * t < size + t := by
    have h := Nat.div_mul_le_self (size + t - 1) t
    show (size + t - 1) / t * t < size + t
    omega
  have hc : s.conversion_threads = k := hf.1
  have hti : s.thread_indices = (List.range k).map
      (fun i => List.range' (i * t) (min ((i + 1) * t) size - i * t)) := hf.2
  have hfl : s.thread_indices.flatten = List.range size := by
    rw [hti, flatten_slices, Nat.min_eq_right hk1]
  refine ⟨hk1, hk2, ?_, ?_, ?_, ?_, hfl, ?_⟩
  · simp only [background_workers, hc]
  · intro hle
    simp only [background_workers, hc]
    by_cases h0 : size = 0
    · have : k = 0 := by
        show (size + t - 1) / t = 0
        rw [h0]
        exact ceil_zero t ht
      omega
    · have : k = 1 := ceil_le_one t size ht h0 hle
      omega
  · rw [hti, List.length_map, List.length_range]
  · intro i hi
    rw [hti, List.getElem?_map, List.getElem?_range hi]
    rfl
  · intro c
    rw [hfl, count_range]

/-- C17 with the threshold 8 of the constructor and 20 channels: three slots
of threads, two background workers, slices of 8, 8 and 4 channels. -/
theorem resize_fresh_partition_witness :
    1 ≤ 8 ∧
    background_workers (resize env_ok (send_packet_handler.init 1 4 4 1000 0) 20) = 2 ∧
    (resize env_ok (send_packet_handler.init 1 4 4 1000 0) 20).thread_indices =
      [[0, 1, 2, 3, 4, 5, 6, 7], [8, 9, 10, 11, 12, 13, 14, 15], [16, 17, 18, 19]] ∧
    (resize env_ok (send_packet_handler.init 1 4 4 1000 0) 20).thread_indices.flatten =
      List.range 20 :=
  ⟨by decide,
    (resize_fresh_partition env_ok 1 4 4 1000 0 8 20 (by decide)).2.2.1,
    by decide,
    (resize_fresh_partition env_ok 1 4 4 1000 0 8 20 (by decide)).2.2.2.2.2.2.1⟩

/-- C18 fails on the code: `resize (2)` followed by `resize (3)` on a freshly
constructed handler leaves the one slice `[0, 1, 0, 1, 2]`, in which the
indices 0 and 1 occur twice, where `resize (3)` alone leaves `[0, 1, 2]`; and
`resize (3)` followed by `resize (2)` leaves the index 2 in the slice of a
handler of two channels.  The number of slots of threads is the same. -/
theorem resize_twice_keeps_old_slices :
    (resize env_ok (resize env_ok (send_packet_handler.init 1 4 4 1000 0) 2) 3).thread_indices =
        [[0, 1, 0, 1, 2]] ∧
      (resize env_ok (send_packet_handler.init 1 4 4 1000 0) 3).thread_indices = [[0, 1, 2]] ∧
      (resize env_ok (resize env_ok (send_packet_handler.init 1 4 4 1000 0) 3) 2).thread_indices =
        [[0, 1, 2, 0, 1]] ∧
      (resize env_ok (resize env_ok (send_packet_handler.init 1 4 4 1000 0) 3) 2).size = 2 ∧
      (resize env_ok (resize env_ok (send_packet_handler.init 1 4 4 1000 0) 2) 3).conversion_threads =
        (resize env_ok (send_packet_handler.init 1 4 4 1000 0) 3).conversion_threads := by
  decide

/-! ## The configuration calls -/

/-- C20: with an index at or beyond the number of channels each of the three
binding calls ends in the out-of-range error with the handler exactly as it
was before the call; with an index below it each call returns, and the
handler differs from the one before only in the entry of channel `i`, of which
`set_xport_chan_sid` changes `has_sid` and `sid`, `set_xport_chan_get_buff` the
provider and `set_xport_chan_post_send_cb` the callback. -/
theorem binding_calls (s : send_packet_handler) (i : Nat) (has_sid : Bool) (sid f : Nat)
    (cb : Bool) :
    (s.size ≤ i →
      set_xport_chan_sid s i has_sid sid = call_result.out_of_range s ∧
      set_xport_chan_get_buff s i f = call_result.out_of_range s ∧
      set_xport_chan_post_send_cb s i cb = call_result.out_of_range s) ∧
    (i < s.size →
      ∃ p, s.props[i]? = some p ∧
        set_xport_chan_sid s i has_sid sid =
          call_result.returned
            { s with props := s.props.set i { p with has_sid := has_sid, sid := sid } } ∧
        set_xport_chan_get_buff s i f =
          call_result.returned { s with props := s.props.set i { p with get_buff := some f } } ∧
        set_xport_chan_post_send_cb s i cb =
          call_result.returned { s with props := s.props.set i { p with go_postal := cb } } ∧
        ∀ (q : xport_chan_props_type) (j : Nat), j ≠ i →
          (s.props.set i q)[j]? = s.props[j]?) := by
  constructor
  · intro h
    have hn : s.props[i]? = none := List.getElem?_eq_none h
    simp only [set_xport_chan_sid, set_xport_chan_get_buff, set_xport_chan_post_send_cb, hn,
      and_self]
  · intro h
    have hi : i < s.props.length := h
    have hs : s.props[i]? = some s.props[i] := List.getElem?_eq_getElem hi
    refine ⟨s.props[i], hs, ?_, ?_, ?_, ?_⟩
    · simp only [set_xport_chan_sid, hs, List.getElem?_set_self, hi, List.set_set]
    · simp only [set_xport_chan_get_buff, hs]
    · simp only [set_xport_chan_post_send_cb, hs]
    · intro q j hj
      exact List.getElem?_set_ne (Ne.symm hj)

/-- C20 on the handler of four channels: index 7 is refused by the three
calls, which leave the handler as it was; index 2 is accepted. -/
theorem binding_calls_witness :
    (handler4.size ≤ 7 ∧ 2 < handler4.size) ∧
    set_xport_chan_sid handler4 7 true 99 = call_result.out_of_range handler4 ∧
    set_xport_chan_get_buff handler4 7 5 = call_result.out_of_range handler4 ∧
    set_xport_chan_post_send_cb handler4 7 true = call_result.out_of_range handler4 ∧
    ∃ p, handler4.props[2]? = some p ∧
      set_xport_chan_sid handler4 2 true 99 =
        call_result.returned
          { handler4 with props := handler4.props.set 2 { p with has_sid := true, sid := 99 } } :=
  ⟨by decide,
    ((binding_calls handler4 7 true 99 5 true).1 (by decide)).1,
    ((binding_calls handler4 7 true 99 5 true).1 (by decide)).2.1,
    ((binding_calls handler4 7 true 99 5 true).1 (by decide)).2.2,
    ((binding_calls handler4 2 true 99 5 true).2 (by decide)).imp (fun _ h => ⟨h.1, h.2.1⟩)⟩

/-! ## The transmission batches -/

theorem transmits_append (a b : List event) :
    transmits (a ++ b) = transmits a ++ transmits b := by
  simp [transmits, List.filterMap_append]

theorem transmits_flush_events (env : environment) :
    ∀ (ms : List multi_msb_type) (k : Nat),
      transmits (flush_events env k ms) = ms.map (fun m => (m.sock_fd, m.buffs))
  | [], _ => rfl
  | m :: rest, k => by
    have ih := transmits_flush_events env rest (k + 1)
    unfold flush_events
    rw [transmits_append, ih]
    split <;> rfl

/-- C13 fails on the code, on the handler of four channels whose providers
always return a buffer.  A request of 100 samples (one packet) returns 100
and leaves the buffer of each channel in its batch; so does a request of 0
samples that ends a burst (the padded packet).  A second request of 100
samples then hands the buffer of the first request to `sendmmsg` again, next
to its own.  A request of 2500 samples (three fragments) leaves every batch
empty. -/
theorem single_packet_send_keeps_batches :
    (send env_ok handler4 [10, 20, 30, 40] 100 md_burst).map
        (fun r => (r.1, pending r.2)) =
      some (100, [[{ id := 0, sock_fd := 3 }], [{ id := 100, sock_fd := 3 }],
        [{ id := 200, sock_fd := 3 }], [{ id := 300, sock_fd := 3 }]]) ∧
    (send env_ok handler4 [10, 20, 30, 40] 0 md_end).map
        (fun r => (r.1, pending r.2)) =
      some (0, [[{ id := 0, sock_fd := 3 }], [{ id := 100, sock_fd := 3 }],
        [{ id := 200, sock_fd := 3 }], [{ id := 300, sock_fd := 3 }]]) ∧
    ((send env_ok handler4 [10, 20, 30, 40] 100 md_burst).bind
        (fun r => send env_ok r.2 [10, 20, 30, 40] 100 md_burst)).map
        (fun r => (r.1, transmits r.2.log)) =
      some (100, [(3, [{ id := 0, sock_fd := 3 }]), (3, [{ id := 100, sock_fd := 3 }]),
        (3, [{ id := 200, sock_fd := 3 }]), (3, [{ id := 300, sock_fd := 3 }]),
        (3, [{ id := 0, sock_fd := 3 }, { id := 1, sock_fd := 3 }]),
        (3, [{ id := 100, sock_fd := 3 }, { id := 101, sock_fd := 3 }]),
        (3, [{ id := 200, sock_fd := 3 }, { id := 201, sock_fd := 3 }]),
        (3, [{ id := 300, sock_fd := 3 }, { id := 301, sock_fd := 3 }])]) ∧
    (send env_ok handler4 [10, 20, 30, 40] 2500 md_burst).map
        (fun r => (r.1, pending r.2)) = some (2500, [[], [], [], []]) := by
  decide

/-- C14 as stated fails: on the handler of four channels, whose buffers all
belong to socket 3, the flush after one packet per channel finds one socket
among the pending buffers and issues four calls of `sendmmsg`, one per
channel, each with the one buffer of its channel. -/
theorem flush_shared_socket_four_calls :
    (send_one_packet env_ok handler4 [10, 20, 30, 40] 100
        (translate_metadata env_ok handler4 md_burst) 0).map
        (fun r => (pending_sockets r.2.2,
          transmits ((send_multiple_packets env_ok r.2.2).log.drop r.2.2.log.length))) =
      some ([3], [(3, [{ id := 0, sock_fd := 3 }]), (3, [{ id := 100, sock_fd := 3 }]),
        (3, [{ id := 200, sock_fd := 3 }]), (3, [{ id := 300, sock_fd := 3 }])]) := by
  decide

/-- C14, amended: a flush issues one call of `sendmmsg` per transmission
batch, that is per channel index, in the order of the channels and whether or
not the batch holds a buffer; the call of a batch goes to the socket recorded
in the batch and carries all the buffers of the batch. -/
theorem flush_one_call_per_batch (env : environment) (s : send_packet_handler) :
    ∃ evs, (send_multiple_packets env s).log = s.log ++ evs ∧
      transmits evs = s.multi_msb_buffs.map (fun m => (m.sock_fd, m.buffs)) ∧
      (transmits evs).length = s.multi_msb_buffs.length := by
  refine ⟨flush_events env s.sendmmsg_calls s.multi_msb_buffs, ?_, ?_, ?_⟩
  · rw [send_multiple_packets_eq]
  · exact transmits_flush_events env _ _
  · rw [transmits_flush_events, List.length_map]

/-- C15 fails on the code: on the handler of four channels whose providers
time out from their third call on, a request of 3500 samples stops at the
third fragment and returns 2000; no call of `sendmmsg` has been made, and the
two buffers committed for each channel are still in its batch. -/
theorem stopped_send_skips_flush :
    (send env_two handler4 [10, 20, 30, 40] 3500 md_burst).map
        (fun r => (r.1, transmits r.2.log)) = some (2000, []) ∧
    (send env_two handler4 [10, 20, 30, 40] 3500 md_burst).map
        (fun r => commits 0 r.2.log) =
      some [{ id := 0, sock_fd := 3 }, { id := 1, sock_fd := 3 }] ∧
    (send env_two handler4 [10, 20, 30, 40] 3500 md_burst).map (fun r => pending r.2) =
      some [[{ id := 0, sock_fd := 3 }, { id := 1, sock_fd := 3 }],
        [{ id := 100, sock_fd := 3 }, { id := 101, sock_fd := 3 }],
        [{ id := 200, sock_fd := 3 }, { id := 201, sock_fd := 3 }],
        [{ id := 300, sock_fd := 3 }, { id := 301, sock_fd := 3 }]] := by
  decide

/-! ## The data path does not read the results of `sendmmsg` -/

theorem get_buffs_sendmmsg (env : environment) (f : Nat → Int) :
    ∀ (ps : List xport_chan_props_type) (c : Nat),
      get_buffs { env with sendmmsg := f } c ps = get_buffs env c ps
  | [], _ => rfl
  | p :: rest, c => by
    have ih := get_buffs_sendmmsg env f rest (c + 1)
    simp only [get_buffs, ih]

theorem convert_index_sendmmsg (env : environment) (f : Nat → Int) (s : send_packet_handler)
    (buffs : List Nat) (info : if_packet_info_t) (index : Nat) :
    convert_index { env with sendmmsg := f } s buffs info index =
      convert_index env s buffs info index := rfl

theorem convert_sequential_sendmmsg (env : environment) (f : Nat → Int) (buffs : List Nat)
    (info : if_packet_info_t) :
    ∀ (indices : List Nat) (s : send_packet_handler),
      convert_to_in_buff_sequential { env with sendmmsg := f } buffs info indices s =
        convert_to_in_buff_sequential env buffs info indices s
  | [], _ => rfl
  | index :: rest, s => by
    simp only [convert_to_in_buff_sequential, convert_index_sendmmsg]
    cases convert_index env s buffs info index with
    | none => rfl
    | some s1 => exact convert_sequential_sendmmsg env f buffs info rest s1

theorem convert_worker_sendmmsg (env : environment) (f : Nat → Int) (buffs : List Nat)
    (info : if_packet_info_t) :
    ∀ (indices : List Nat) (s : send_packet_handler),
      convert_worker_indices { env with sendmmsg := f } buffs info indices s =
        convert_worker_indices env buffs info indices s
  | [], _ => rfl
  | index :: rest, s => by
    simp only [convert_worker_indices, convert_index_sendmmsg]
    cases convert_index env s buffs info index with
    | none => rfl
    | some s1 => exact convert_worker_sendmmsg env f buffs info rest _

theorem convert_to_in_buff_sendmmsg (env : environment) (f : Nat → Int) (buffs : List Nat)
    (info : if_packet_info_t) (indices : List Nat) (s : send_packet_handler) :
    convert_to_in_buff { env with sendmmsg := f } buffs info indices s =
      convert_to_in_buff env buffs info indices s := by
  simp only [convert_to_in_buff, convert_worker_sendmmsg]

theorem run_workers_sendmmsg (env : environment) (f : Nat → Int) (buffs : List Nat)
    (info : if_packet_info_t) :
    ∀ (slices : List (List Nat)) (s : send_packet_handler),
      run_workers { env with sendmmsg := f } buffs info slices s =
        run_workers env buffs info slices s
  | [], _ => rfl
  | indices :: rest, s => by
    simp only [run_workers, convert_to_in_buff_sendmmsg]
    cases convert_to_in_buff env buffs info indices s with
    | none => rfl
    | some s1 => exact run_workers_sendmmsg env f buffs info rest s1

theorem send_one_packet_sendmmsg (env : environment) (f : Nat → Int) (s : send_packet_handler)
    (buffs : List Nat) (n : Nat) (info : if_packet_info_t) (off : Nat) :
    send_one_packet { env with sendmmsg := f } s buffs n info off =
      send_one_packet env s buffs n info off := by
  simp only [send_one_packet, get_buffs_sendmmsg, convert_sequential_sendmmsg,
    run_workers_sendmmsg]

theorem send_fragments_sendmmsg (env : environment) (f : Nat → Int) (buffs : List Nat)
    (metadata : tx_metadata_t) :
    ∀ (k : Nat) (s : send_packet_handler) (info : if_packet_info_t) (total : Nat),
      send_fragments { env with sendmmsg := f } buffs metadata k s info total =
        send_fragments env buffs metadata k s info total
  | 0, _, _, _ => rfl
  | k + 1, s, info, total => by
    simp only [send_fragments, send_one_packet_sendmmsg]
    cases send_one_packet env s buffs s.max_samples_per_packet info
        (wrap (total * s.bytes_per_cpu_item)) with
    | none => rfl
    | some r =>
      obtain ⟨r1, r2, r3⟩ := r
      simp only [send_fragments_sendmmsg env f buffs metadata k]

theorem erase_results_append (a b : List event) :
    erase_results (a ++ b) = erase_results a ++ erase_results b := by
  simp [erase_results, List.filterMap_append]

theorem erase_results_flush_events (env : environment) :
    ∀ (ms : List multi_msb_type) (k : Nat),
      erase_results (flush_events env k ms) =
        ms.map (fun m => event.sendmmsg m.sock_fd m.buffs 0)
  | [], _ => rfl
  | m :: rest, k => by
    have ih := erase_results_flush_events env rest (k + 1)
    unfold flush_events
    rw [erase_results_append, ih]
    split <;> rfl

theorem transmits_erase_results (evs : List event) :
    transmits (erase_results evs) = transmits evs := by
  induction evs with
  | nil => rfl
  | cons e rest ih =>
    have h1 : erase_results (e :: rest) = erase_results [e] ++ erase_results rest :=
      erase_results_append [e] rest
    have h2 : transmits (e :: rest) = transmits [e] ++ transmits rest := by
      simp [transmits, List.filterMap_cons]
      cases e <;> simp
    rw [h1, h2, ← ih]
    cases e <;> simp [erase_results, transmits, List.filterMap_append]

theorem forget_results_flush (env : environment) (s : send_packet_handler) :
    forget_results (send_multiple_packets env s) =
      { s with
        sendmmsg_calls := s.sendmmsg_calls + s.multi_msb_buffs.length
        log := erase_results s.log ++
          s.multi_msb_buffs.map (fun m => event.sendmmsg m.sock_fd m.buffs 0) } := by
  rw [send_multiple_packets_eq]
  simp only [forget_results, erase_results_append, erase_results_flush_events]

theorem forget_results_flush_sendmmsg (env : environment) (f g : Nat → Int)
    (s : send_packet_handler) :
    forget_results (send_multiple_packets { env with sendmmsg := f } s) =
      forget_results (send_multiple_packets { env with sendmmsg := g } s) := by
  rw [forget_results_flush, forget_results_flush]

theorem send_forget_results (env : environment) (f g : Nat → Int) (s : send_packet_handler)
    (buffs : List Nat) (n : Nat) (metadata : tx_metadata_t) :
    (send { env with sendmmsg := f } s buffs n metadata).map
        (fun r => (r.1, forget_results r.2)) =
      (send { env with sendmmsg := g } s buffs n metadata).map
        (fun r => (r.1, forget_results r.2)) := by
  have hprep : ∀ (h : Nat → Int) (k : Nat),
      prepare { env with sendmmsg := h } s buffs k = prepare env s buffs k := fun _ _ => rfl
  have hmerged : ∀ (h : Nat → Int),
      merged_info { env with sendmmsg := h } s metadata n = merged_info env s metadata n :=
    fun _ => rfl
  have hfirst : ∀ (h : Nat → Int),
      first_info { env with sendmmsg := h } s metadata n = first_info env s metadata n :=
    fun _ => rfl
  have htrans : ∀ (h : Nat → Int),
      translate_metadata { env with sendmmsg := h } s metadata =
        translate_metadata env s metadata := fun _ => rfl
  by_cases hn0 : n = 0
  · subst hn0
    cases hsob : metadata.start_of_burst with
    | true =>
      rw [send_zero_sob _ s buffs metadata hsob, send_zero_sob _ s buffs metadata hsob]
    | false =>
      rw [send_zero_end_unfold _ s buffs metadata hsob,
        send_zero_end_unfold _ s buffs metadata hsob]
      simp only [send_one_packet_sendmmsg, hprep, htrans]
      cases send_one_packet env (prepare env s buffs 0) (prepare env s buffs 0).zero_buffs 1
          (translate_metadata env s metadata) 0 with
      | none => rfl
      | some r =>
        obtain ⟨r1, r2, r3⟩ := r
        simp only [Option.map_some', forget_results_flush]
  · have hn : 0 < n := Nat.pos_of_ne_zero hn0
    by_cases hmax : n ≤ s.max_samples_per_packet
    · rw [send_small_unfold _ s buffs n metadata hn hmax,
        send_small_unfold _ s buffs n metadata hn hmax]
      simp only [send_one_packet_sendmmsg, hprep, hmerged]
      cases send_one_packet env (prepare env s buffs n) buffs n (merged_info env s metadata n)
          0 with
      | none => rfl
      | some r =>
        obtain ⟨r1, r2, r3⟩ := r
        simp only [Option.map_some', forget_results_flush]
    · by_cases hz : s.max_samples_per_packet = 0
      · rw [send_zero_max _ s buffs n metadata hn hz, send_zero_max _ s buffs n metadata hn hz]
      · have hpos : 0 < s.max_samples_per_packet := Nat.pos_of_ne_zero hz
        have hlt : s.max_samples_per_packet < n := by omega
        rw [send_large_unfold _ s buffs n metadata hpos hlt,
          send_large_unfold _ s buffs n metadata hpos hlt]
        simp only [send_fragments_sendmmsg, send_one_packet_sendmmsg, hfirst]
        cases send_fragments env buffs metadata ((n - 1) / s.max_samples_per_packet)
            (consume_cache s n) (first_info env s metadata n) 0 with
        | none => rfl
        | some r =>
          obtain ⟨stopped, total, info, s1⟩ := r
          cases stopped with
          | true => rfl
          | false =>
            simp only
            cases send_one_packet env s1 buffs ((n - 1) % s.max_samples_per_packet + 1)
                (final_info metadata info) (wrap (total * s1.bytes_per_cpu_item)) with
            | none => rfl
            | some r =>
              obtain ⟨r1, r2, r3⟩ := r
              simp only [Option.map_some']
              have e : ∀ t, forget_results (clear_batches t) =
                  clear_batches (forget_results t) := fun _ => rfl
              rw [e, e, forget_results_flush, forget_results_flush]

/-- C16: two runs of `send` from the same handler with the same arguments
and the same collaborators, but for the results of the calls of `sendmmsg`
(`f` in one run, `g` in the other), return the same value, or both fail, and
leave the same handler up to the results recorded in the log: the same
sequence counter, cache, batches and number of calls of `sendmmsg`; and the
calls of `sendmmsg` are the same in both runs, socket by socket and buffer by
buffer, so that a failed call is not followed by a second call for its
batch. -/
theorem send_swallows_transmit_failures (env : environment) (f g : Nat → Int)
    (s : send_packet_handler) (buffs : List Nat) (n : Nat) (metadata : tx_metadata_t) :
    (send { env with sendmmsg := f } s buffs n metadata).map
        (fun r => (r.1, forget_results r.2)) =
      (send { env with sendmmsg := g } s buffs n metadata).map
        (fun r => (r.1, forget_results r.2)) ∧
    (send { env with sendmmsg := f } s buffs n metadata).map
        (fun r => (r.1, r.2.next_packet_seq, r.2.cached_metadata, r.2.metadata_cache,
          r.2.multi_msb_buffs, r.2.sendmmsg_calls)) =
      (send { env with sendmmsg := g } s buffs n metadata).map
        (fun r => (r.1, r.2.next_packet_seq, r.2.cached_metadata, r.2.metadata_cache,
          r.2.multi_msb_buffs, r.2.sendmmsg_calls)) ∧
    (send { env with sendmmsg := f } s buffs n metadata).map (fun r => transmits r.2.log) =
      (send { env with sendmmsg := g } s buffs n metadata).map
        (fun r => transmits r.2.log) := by
  have key := send_forget_results env f g s buffs n metadata
  refine ⟨key, ?_, ?_⟩
  · have h := congrArg (Option.map (fun q : Nat × send_packet_handler =>
      (q.1, q.2.next_packet_seq, q.2.cached_metadata, q.2.metadata_cache,
        q.2.multi_msb_buffs, q.2.sendmmsg_calls))) key
    simp only [Option.map_map] at h
    exact h
  · have h := congrArg (Option.map (fun q : Nat × send_packet_handler =>
      transmits q.2.log)) key
    simp only [Option.map_map] at h
    have e : ((fun q : Nat × send_packet_handler => transmits q.2.log) ∘
        fun r : Nat × send_packet_handler => (r.1, forget_results r.2)) =
        fun r => transmits r.2.log := by
      funext r
      exact transmits_erase_results r.2.log
    rw [e] at h
    exact h

/-- C16 on the handler of four channels: with every call of `sendmmsg`
failing, a request of 100 samples returns 100, advances the sequence counter
and makes the four calls of the run in which every call succeeds. -/
theorem send_swallows_transmit_failures_witness :
    (send { env_ok with sendmmsg := fun _ => -1 } handler4 [10, 20, 30, 40] 100 md_burst).map
        (fun r => (r.1, r.2.next_packet_seq, r.2.sendmmsg_calls)) = some (100, 1, 4) ∧
    (send { env_ok with sendmmsg := fun _ => -1 } handler4 [10, 20, 30, 40] 100 md_burst).map
        (fun r => transmits r.2.log) =
      (send { env_ok with sendmmsg := fun _ => 0 } handler4 [10, 20, 30, 40] 100 md_burst).map
        (fun r => transmits r.2.log) :=
  ⟨by decide,
    (send_swallows_transmit_failures env_ok (fun _ => -1) (fun _ => 0) handler4 [10, 20, 30, 40]
      100 md_burst).2.2⟩

/-! ## The members `send_one_packet` does not touch -/

theorem convert_index_idle (env : environment) (z : List Nat) (c : tx_metadata_t)
    (s : send_packet_handler) (buffs : List Nat) (info : if_packet_info_t) (index : Nat) :
    convert_index env (with_idle_members z c s) buffs info index =
      (convert_index env s buffs info index).map (with_idle_members z c) := by
  unfold convert_index
  simp only [with_idle_members]
  cases s.props[index]? with
  | none => rfl
  | some props =>
    cases s.multi_msb_buffs[index]? with
    | none => rfl
    | some multi_msb =>
      simp only
      cases props.buff with
      | none => rfl
      | some buff => rfl

theorem convert_sequential_idle (env : environment) (z : List Nat) (c : tx_metadata_t)
    (buffs : List Nat) (info : if_packet_info_t) :
    ∀ (indices : List Nat) (s : send_packet_handler),
      convert_to_in_buff_sequential env buffs info indices (with_idle_members z c s) =
        (convert_to_in_buff_sequential env buffs info indices s).map (with_idle_members z c)
  | [], _ => rfl
  | index :: rest, s => by
    simp only [convert_to_in_buff_sequential, convert_index_idle]
    cases convert_index env s buffs info index with
    | none => rfl
    | some s1 => exact convert_sequential_idle env z c buffs info rest s1

theorem convert_worker_idle (env : environment) (z : List Nat) (c : tx_metadata_t)
    (buffs : List Nat) (info : if_packet_info_t) :
    ∀ (indices : List Nat) (s : send_packet_handler),
      convert_worker_indices env buffs info indices (with_idle_members z c s) =
        (convert_worker_indices env buffs info indices s).map (with_idle_members z c)
  | [], _ => rfl
  | index :: rest, s => by
    simp only [convert_worker_indices, convert_index_idle]
    cases convert_index env s buffs info index with
    | none => rfl
    | some s1 =>
      exact convert_worker_idle env z c buffs info rest
        { s1 with
          conversion_ready := s1.conversion_ready.set index false
          conversion_done := s1.conversion_done.set index true }

theorem convert_to_in_buff_idle (env : environment) (z : List Nat) (c : tx_metadata_t)
    (buffs : List Nat) (info : if_packet_info_t) (indices : List Nat)
    (s : send_packet_handler) :
    convert_to_in_buff env buffs info indices (with_idle_members z c s) =
      (convert_to_in_buff env buffs info indices s).map (with_idle_members z c) := by
  unfold convert_to_in_buff
  cases indices with
  | nil => rfl
  | cons index0 rest =>
    simp only
    have e1 : (with_idle_members z c s).conversion_ready = s.conversion_ready := rfl
    have e2 : (with_idle_members z c s).conversion_terminate = s.conversion_terminate := rfl
    rw [e1, e2]
    cases s.conversion_ready[index0]? with
    | none => rfl
    | some b =>
      cases b with
      | false => rfl
      | true =>
        simp only
        split
        · rfl
        · exact convert_worker_idle env z c buffs info _ s

theorem run_workers_idle (env : environment) (z : List Nat) (c : tx_metadata_t)
    (buffs : List Nat) (info : if_packet_info_t) :
    ∀ (slices : List (List Nat)) (s : send_packet_handler),
      run_workers env buffs info slices (with_idle_members z c s) =
        (run_workers env buffs info slices s).map (with_idle_members z c)
  | [], _ => rfl
  | indices :: rest, s => by
    simp only [run_workers, convert_to_in_buff_idle]
    cases convert_to_in_buff env buffs info indices s with
    | none => rfl
    | some s1 => exact run_workers_idle env z c buffs info rest s1

theorem wait_for_workers_idle (z : List Nat) (c : tx_metadata_t) (s : send_packet_handler) :
    wait_for_workers (with_idle_members z c s) =
      (wait_for_workers s).map (with_idle_members z c) := by
  unfold wait_for_workers
  have e1 : (with_idle_members z c s).thread_indices = s.thread_indices := rfl
  have e2 : (with_idle_members z c s).conversion_done = s.conversion_done := rfl
  have e3 : (with_idle_members z c s).size = s.size := rfl
  rw [e1, e2, e3]
  cases s.thread_indices[1]? with
  | none => rfl
  | some l =>
    cases l with
    | nil => rfl
    | cons first rest =>
      simp only
      split <;> rfl

theorem send_one_packet_tail_idle (env : environment) (z : List Nat) (c : tx_metadata_t)
    (buffs : List Nat) (info : if_packet_info_t) (n : Nat) (s3 : send_packet_handler) :
    (match (with_idle_members z c s3).thread_indices[0]? with
      | none => none
      | some indices0 =>
        match convert_to_in_buff_sequential env buffs info indices0
            (with_idle_members z c s3) with
        | none => none
        | some s4 =>
          match (if 1 < s4.conversion_threads then
              match run_workers env buffs info
                  ((s4.thread_indices.take s4.conversion_threads).drop 1) s4 with
              | none => none
              | some s5 => wait_for_workers s5
            else some s4) with
          | none => none
          | some s6 =>
            some (n, info, { s6 with next_packet_seq := wrap (s6.next_packet_seq + 1) })) =
      Option.map (fun r => (r.1, r.2.1, with_idle_members z c r.2.2))
        (match s3.thread_indices[0]? with
        | none => none
        | some indices0 =>
          match convert_to_in_buff_sequential env buffs info indices0 s3 with
          | none => none
          | some s4 =>
            match (if 1 < s4.conversion_threads then
                match run_workers env buffs info
                    ((s4.thread_indices.take s4.conversion_threads).drop 1) s4 with
                | none => none
                | some s5 => wait_for_workers s5
              else some s4) with
            | none => none
            | some s6 =>
              some (n, info, { s6 with next_packet_seq := wrap (s6.next_packet_seq + 1) })) := by
  have e : (with_idle_members z c s3).thread_indices = s3.thread_indices := rfl
  rw [e]
  cases s3.thread_indices[0]? with
  | none => rfl
  | some indices0 =>
    simp only
    rw [convert_sequential_idle]
    cases convert_to_in_buff_sequential env buffs info indices0 s3 with
    | none => rfl
    | some s4 =>
      simp only [Option.map_some']
      have e1 : (with_idle_members z c s4).conversion_threads = s4.conversion_threads := rfl
      have e2 : (with_idle_members z c s4).thread_indices = s4.thread_indices := rfl
      rw [e1, e2]
      by_cases hct : 1 < s4.conversion_threads
      · simp only [hct, if_true]
        rw [run_workers_idle]
        cases run_workers env buffs info
            ((s4.thread_indices.take s4.conversion_threads).drop 1) s4 with
        | none => rfl
        | some s5 =>
          simp only [Option.map_some']
          rw [wait_for_workers_idle]
          cases wait_for_workers s5 with
          | none => rfl
          | some s6 => rfl
      · simp only [hct, if_false]
        rfl

theorem send_one_packet_idle (env : environment) (z : List Nat) (c : tx_metadata_t)
    (s : send_packet_handler) (buffs : List Nat) (n : Nat) (info : if_packet_info_t)
    (off : Nat) :
    send_one_packet env (with_idle_members z c s) buffs n info off =
      (send_one_packet env s buffs n info off).map
        (fun r => (r.1, r.2.1, with_idle_members z c r.2.2)) := by
  unfold send_one_packet
  have e : (with_idle_members z c s).props = s.props := rfl
  simp only [e]
  cases get_buffs env 0 s.props with
  | none => rfl
  | some r =>
    obtain ⟨ok, props, evs⟩ := r
    cases ok with
    | false => rfl
    | true =>
      simp only
      by_cases hct : 1 < s.conversion_threads
      · have h1 : 1 < (with_idle_members z c s).conversion_threads := hct
        simp only [hct, h1, if_true]
        exact send_one_packet_tail_idle env z c buffs (load_packet_info s info n) n
          { s with
            convert_nsamps := n
            log := s.log ++ [event.send_one_packet n info off] ++ evs
            props := props
            convert_buffer_offset_bytes := off
            conversion_done := set_first s.conversion_done props.length false
            conversion_ready := set_first s.conversion_ready props.length true }
      · have h1 : ¬ 1 < (with_idle_members z c s).conversion_threads := hct
        simp only [hct, h1, if_false]
        exact send_one_packet_tail_idle env z c buffs (load_packet_info s info n) n
          { s with
            convert_nsamps := n
            log := s.log ++ [event.send_one_packet n info off] ++ evs
            props := props
            convert_buffer_offset_bytes := off }

theorem send_fragments_idle (env : environment) (z : List Nat) (c : tx_metadata_t)
    (buffs : List Nat) (metadata : tx_metadata_t) :
    ∀ (k : Nat) (s : send_packet_handler) (info : if_packet_info_t) (total : Nat),
      send_fragments env buffs metadata k (with_idle_members z c s) info total =
        (send_fragments env buffs metadata k s info total).map
          (fun r => (r.1, r.2.1, r.2.2.1, with_idle_members z c r.2.2.2))
  | 0, _, _, _ => rfl
  | k + 1, s, info, total => by
    have e1 : (with_idle_members z c s).max_samples_per_packet = s.max_samples_per_packet :=
      rfl
    have e2 : (with_idle_members z c s).bytes_per_cpu_item = s.bytes_per_cpu_item := rfl
    simp only [send_fragments, send_one_packet_idle, e1, e2]
    cases send_one_packet env s buffs s.max_samples_per_packet info
        (wrap (total * s.bytes_per_cpu_item)) with
    | none => rfl
    | some r =>
      obtain ⟨r1, r2, r3⟩ := r
      simp only [Option.map_some']
      by_cases h0 : r1 = 0
      · simp only [h0, if_true, Option.map_some']
      · simp only [h0, if_false]
        exact send_fragments_idle env z c buffs metadata k r3 _ _

theorem send_multiple_packets_idle (env : environment) (z : List Nat) (c : tx_metadata_t)
    (s : send_packet_handler) :
    send_multiple_packets env (with_idle_members z c s) =
      with_idle_members z c (send_multiple_packets env s) := by
  rw [send_multiple_packets_eq, send_multiple_packets_eq]
  rfl

theorem send_one_packet_keeps_idle (env : environment) (s : send_packet_handler)
    (buffs : List Nat) (n : Nat) (info : if_packet_info_t) (off r : Nat)
    (info1 : if_packet_info_t) (t : send_packet_handler)
    (h : send_one_packet env s buffs n info off = some (r, info1, t)) :
    t.zero_buffs = s.zero_buffs ∧ t.metadata_cache = s.metadata_cache := by
  have key : send_one_packet env s buffs n info off = _ :=
    send_one_packet_idle env s.zero_buffs s.metadata_cache s buffs n info off
  rw [h] at key
  simp only [Option.map_some', Option.some.injEq, Prod.mk.injEq, true_and] at key
  constructor
  · have e := congrArg send_packet_handler.zero_buffs key
    exact e
  · have e := congrArg send_packet_handler.metadata_cache key
    exact e

theorem send_fragments_keeps_idle (env : environment) (buffs : List Nat)
    (metadata : tx_metadata_t) (k : Nat) (s : send_packet_handler) (info : if_packet_info_t)
    (total : Nat) (stopped : Bool) (total1 : Nat) (info1 : if_packet_info_t)
    (t : send_packet_handler)
    (h : send_fragments env buffs metadata k s info total = some (stopped, total1, info1, t)) :
    t.zero_buffs = s.zero_buffs ∧ t.metadata_cache = s.metadata_cache := by
  have key : send_fragments env buffs metadata k s info total = _ :=
    send_fragments_idle env s.zero_buffs s.metadata_cache buffs metadata k s info total
  rw [h] at key
  simp only [Option.map_some', Option.some.injEq, Prod.mk.injEq, true_and] at key
  constructor
  · have e := congrArg send_packet_handler.zero_buffs key
    exact e
  · have e := congrArg send_packet_handler.metadata_cache key
    exact e

theorem forget_zero_buffs_idle (z : List Nat) (s : send_packet_handler) :
    forget_zero_buffs (with_idle_members z s.metadata_cache s) = forget_zero_buffs s := rfl

theorem forget_zero_buffs_eq (z : List Nat) (c : tx_metadata_t) (t : send_packet_handler)
    (h : t.metadata_cache = c) :
    forget_zero_buffs (with_idle_members z c t) = forget_zero_buffs t := by
  subst h
  rfl

/-- A request with samples does not read the vector of pointers to the zero
sample: with another vector in its place the call returns the same value and
leaves the same handler, that vector apart. -/
theorem send_zero_buffs_idle (env : environment) (z : List Nat) (s : send_packet_handler)
    (buffs : List Nat) (n : Nat) (metadata : tx_metadata_t) (hn : 0 < n) :
    (send env (with_idle_members z s.metadata_cache s) buffs n metadata).map
        (fun r => (r.1, forget_zero_buffs r.2)) =
      (send env s buffs n metadata).map (fun r => (r.1, forget_zero_buffs r.2)) := by
  have hm : merged_info env (with_idle_members z s.metadata_cache s) metadata n =
      merged_info env s metadata n := rfl
  have hf : first_info env (with_idle_members z s.metadata_cache s) metadata n =
      first_info env s metadata n := rfl
  by_cases hmax : n ≤ s.max_samples_per_packet
  · have hp : prepare env (with_idle_members z s.metadata_cache s) buffs n =
        with_idle_members (vec_resize z buffs.length env.zero) s.metadata_cache
          (prepare env s buffs n) := rfl
    rw [send_small_unfold env (with_idle_members z s.metadata_cache s) buffs n metadata hn hmax,
      send_small_unfold env s buffs n metadata hn hmax, hp, hm, send_one_packet_idle]
    cases h : send_one_packet env (prepare env s buffs n) buffs n
        (merged_info env s metadata n) 0 with
    | none => rfl
    | some r =>
      obtain ⟨r1, r2, r3⟩ := r
      have hk := (send_one_packet_keeps_idle env _ buffs n _ 0 r1 r2 r3 h).2
      simp only [Option.map_some', send_multiple_packets_idle]
      rw [forget_zero_buffs_eq]
      rw [send_multiple_packets_metadata_cache, hk]
      rfl
  · by_cases hz : s.max_samples_per_packet = 0
    · rw [send_zero_max env (with_idle_members z s.metadata_cache s) buffs n metadata hn hz,
        send_zero_max env s buffs n metadata hn hz]
    · have hpos : 0 < s.max_samples_per_packet := Nat.pos_of_ne_zero hz
      have hlt : s.max_samples_per_packet < n := by omega
      have hc : consume_cache (with_idle_members z s.metadata_cache s) n =
          with_idle_members z s.metadata_cache (consume_cache s n) := rfl
      have hmx : (with_idle_members z s.metadata_cache s).max_samples_per_packet =
          s.max_samples_per_packet := rfl
      rw [send_large_unfold env (with_idle_members z s.metadata_cache s) buffs n metadata hpos
          hlt,
        send_large_unfold env s buffs n metadata hpos hlt, hc, hf, hmx, send_fragments_idle]
      cases h : send_fragments env buffs metadata ((n - 1) / s.max_samples_per_packet)
          (consume_cache s n) (first_info env s metadata n) 0 with
      | none => rfl
      | some r =>
        obtain ⟨stopped, total, info, s1⟩ := r
        have hk := (send_fragments_keeps_idle env buffs metadata _ _ _ 0 stopped total info s1
          h).2
        have hk1 : s1.metadata_cache = s.metadata_cache := hk
        cases stopped with
        | true =>
          simp only [Option.map_some']
          rw [forget_zero_buffs_eq _ _ _ hk1]
        | false =>
          simp only [Option.map_some']
          have e1 : (with_idle_members z s.metadata_cache s1).bytes_per_cpu_item =
              s1.bytes_per_cpu_item := rfl
          rw [e1, send_one_packet_idle]
          cases h2 : send_one_packet env s1 buffs ((n - 1) % s.max_samples_per_packet + 1)
              (final_info metadata info) (wrap (total * s1.bytes_per_cpu_item)) with
          | none => rfl
          | some r =>
            obtain ⟨r1, r2, r3⟩ := r
            have hk2 := (send_one_packet_keeps_idle env _ buffs _ _ _ r1 r2 r3 h2).2
            simp only [Option.map_some', send_multiple_packets_idle]
            have e : ∀ t, clear_batches (with_idle_members z s.metadata_cache t) =
                with_idle_members z s.metadata_cache (clear_batches t) := fun _ => rfl
            rw [e, forget_zero_buffs_eq]
            rw [clear_batches_metadata_cache, send_multiple_packets_metadata_cache, hk2, hk1]

/-- C12: the cache is one record and a flag.  After two requests of 0 samples
that start a burst, with metadata `c1` and then `c2`, the cache is pending
and holds `c2`; the handler is the one a single such request with `c2` leaves
(the vector of pointers to the zero sample apart, which the first request may
have resized), and every following request with samples returns the same
value and leaves the same handler, log of calls included, from either. -/
theorem cache_last_write_wins (env : environment) (s : send_packet_handler)
    (buffs1 buffs2 : List Nat) (c1 c2 : tx_metadata_t)
    (h1 : c1.start_of_burst = true) (h2 : c2.start_of_burst = true) :
    ∃ t1 t12 t2, send env s buffs1 0 c1 = some (0, t1) ∧
      send env t1 buffs2 0 c2 = some (0, t12) ∧
      send env s buffs2 0 c2 = some (0, t2) ∧
      t12.cached_metadata = true ∧ t12.metadata_cache = c2 ∧
      forget_zero_buffs t12 = forget_zero_buffs t2 ∧
      ∀ (buffs : List Nat) (n : Nat) (metadata : tx_metadata_t), 0 < n →
        (send env t12 buffs n metadata).map (fun r => (r.1, forget_zero_buffs r.2)) =
          (send env t2 buffs n metadata).map (fun r => (r.1, forget_zero_buffs r.2)) := by
  refine ⟨_, _, _, send_zero_sob env s buffs1 c1 h1, send_zero_sob env _ buffs2 c2 h2,
    send_zero_sob env s buffs2 c2 h2, rfl, rfl, rfl, ?_⟩
  intro buffs n metadata hn
  exact send_zero_buffs_idle env
    (vec_resize (vec_resize s.zero_buffs buffs1.length env.zero) buffs2.length env.zero)
    { s with
      zero_buffs := vec_resize s.zero_buffs buffs2.length env.zero
      metadata_cache := c2
      cached_metadata := true } buffs n metadata hn

/-- C12 on the handler of four channels: a start of burst at time 5 that is
to go on, then a start of burst at time 5 that also ends the burst; a
following request of 100 samples is sent as one packet that starts and ends
the burst. -/
theorem cache_last_write_wins_witness :
    md_start.start_of_burst = true ∧ md_burst.start_of_burst = true ∧
    ∃ t1 t12 t2, send env_ok handler4 [10, 20, 30, 40] 0 md_start = some (0, t1) ∧
      send env_ok t1 [10, 20, 30, 40] 0 md_burst = some (0, t12) ∧
      send env_ok handler4 [10, 20, 30, 40] 0 md_burst = some (0, t2) ∧
      t12.cached_metadata = true ∧ t12.metadata_cache = md_burst ∧
      forget_zero_buffs t12 = forget_zero_buffs t2 ∧
      ∀ (buffs : List Nat) (n : Nat) (metadata : tx_metadata_t), 0 < n →
        (send env_ok t12 buffs n metadata).map (fun r => (r.1, forget_zero_buffs r.2)) =
          (send env_ok t2 buffs n metadata).map (fun r => (r.1, forget_zero_buffs r.2)) :=
  ⟨rfl, rfl, cache_last_write_wins env_ok handler4 [10, 20, 30, 40] [10, 20, 30, 40] md_start
    md_burst rfl rfl⟩

/-! ## The cache and the fragments -/

/-- C11 fails on the code for a fragmented request.  On the handler of four
channels (at most 1000 samples per packet) a start of burst at time 5 is
cached, then 2500 samples are sent with metadata that has no time spec and
ends the burst: the three descriptors of channel 0 carry the time stamps 5,
0, 0 and the last one ends the burst.  The single request with the merged
metadata carries the time stamp 5 three times and does not end the burst.
Sample counts and sequence numbers are the same, and for 100 samples (one
packet) the descriptors are the same. -/
theorem cached_metadata_lost_in_fragments :
    ((send env_ok handler4 [10, 20, 30, 40] 0 md_start).bind
        (fun r => send env_ok r.2 [10, 20, 30, 40] 2500 md_end)).map
        (fun r => (r.1, converted 0 r.2.log)) = some (2500, [1000, 1000, 500]) ∧
    ((send env_ok handler4 [10, 20, 30, 40] 0 md_start).bind
        (fun r => send env_ok r.2 [10, 20, 30, 40] 2500 md_end)).map
        (fun r => (packed 0 r.2.log).map burst_fields) =
      some [(true, false, true, 5, 0), (false, false, true, 0, 1), (false, true, true, 0, 2)] ∧
    (send env_ok handler4 [10, 20, 30, 40] 2500 (merged_metadata md_start md_end)).map
        (fun r => (r.1, converted 0 r.2.log)) = some (2500, [1000, 1000, 500]) ∧
    (send env_ok handler4 [10, 20, 30, 40] 2500 (merged_metadata md_start md_end)).map
        (fun r => (packed 0 r.2.log).map burst_fields) =
      some [(true, false, true, 5, 0), (false, false, true, 5, 1), (false, false, true, 5, 2)] ∧
    ((send env_ok handler4 [10, 20, 30, 40] 0 md_start).bind
        (fun r => send env_ok r.2 [10, 20, 30, 40] 100 md_end)).map
        (fun r => (packed 0 r.2.log).map burst_fields) =
      some [(true, false, true, 5, 0)] ∧
    (send env_ok handler4 [10, 20, 30, 40] 100 (merged_metadata md_start md_end)).map
        (fun r => (packed 0 r.2.log).map burst_fields) =
      some [(true, false, true, 5, 0)] := by
  refine ⟨?_, ?_, ?_, ?_, ?_, ?_⟩ <;> decide

/-- C19 fails on the code when the cache is pending.  On the handler of four
channels a start of burst at time 5 is cached, then 2500 samples are sent
with metadata that has no time spec: the descriptors of channel 0 carry the
time stamp flag three times, with the time stamp 5 on the first fragment and
0 on the two that follow.  Without the cache, 2500 samples sent at time 5
carry the time stamp 5 three times. -/
theorem cached_time_stamp_on_first_fragment_only :
    ((send env_ok handler4 [10, 20, 30, 40] 0 md_start).bind
        (fun r => send env_ok r.2 [10, 20, 30, 40] 2500 md_mid)).map
        (fun r => (r.1, (packed 0 r.2.log).map (fun info => (info.has_tsf, info.tsf)))) =
      some (2500, [(true, 5), (true, 0), (true, 0)]) ∧
    (send env_ok handler4 [10, 20, 30, 40] 2500 md_burst).map
        (fun r => (r.1, (packed 0 r.2.log).map (fun info => (info.has_tsf, info.tsf)))) =
      some (2500, [(true, 5), (true, 5), (true, 5)]) := by
  decide

theorem frag_info_has_tsf (env : environment) (metadata : tx_metadata_t)
    (s : send_packet_handler) (info : if_packet_info_t) (i : Nat) :
    (frag_info env metadata s info i).has_tsf = info.has_tsf := by
  cases i <;> rfl

theorem frag_info_tsf (env : environment) (metadata : tx_metadata_t) (s : send_packet_handler)
    (info : if_packet_info_t) (i : Nat) :
    (frag_info env metadata s info i).tsf =
      if i = 0 then info.tsf else env.to_ticks metadata.time_spec := by
  cases i <;> rfl

/-- The time stamps of a fragmented request of which every buffer is
acquired: the first fragment carries the time stamp of the descriptor the
request starts with (that of the cache when it is pending and the request has
no time spec), every later fragment the time of the metadata of the request;
the time stamp flag is that of the first fragment throughout. -/
theorem fragment_time_stamps (env : environment) (s : send_packet_handler)
    (buffs : List Nat) (n : Nat) (metadata : tx_metadata_t) (hwf : well_formed s)
    (hmax : 0 < s.max_samples_per_packet) (hn : s.max_samples_per_packet < n)
    (hacq : ∀ f k, (env.get_buff f k).isSome = true) :
    ∃ t evs, send env s buffs n metadata = some (n, t) ∧ t.log = s.log ++ evs ∧
      ∀ c, c < s.size →
        (packed c evs).map (fun info => (info.has_tsf, info.tsf)) =
          ((merged_info env s metadata n).has_tsf, (merged_info env s metadata n).tsf) ::
            List.replicate ((n - 1) / s.max_samples_per_packet)
              ((merged_info env s metadata n).has_tsf, env.to_ticks metadata.time_spec) := by
  have hall : ∀ j, acquires env s j := acquires_of_always env s hwf hacq
  have hsend := send_large_ok env s buffs n metadata hwf hmax hn (fun j _ => hall j)
  rw [if_pos (hall _), div_mod_sum n _ (by omega)] at hsend
  obtain ⟨-, -, e3⟩ := large_events_spec env s buffs n metadata hwf (fun j _ => hall j)
  have hF : 1 ≤ (n - 1) / s.max_samples_per_packet :=
    (Nat.one_le_div_iff hmax).mpr (by omega)
  obtain ⟨F, hFe⟩ : ∃ F, (n - 1) / s.max_samples_per_packet = F + 1 :=
    ⟨(n - 1) / s.max_samples_per_packet - 1, (Nat.sub_add_cancel hF).symm⟩
  have h1 : (first_info env s metadata n).has_tsf = (merged_info env s metadata n).has_tsf :=
    rfl
  have h2 : (first_info env s metadata n).tsf = (merged_info env s metadata n).tsf := rfl
  refine ⟨_, large_events env s buffs n metadata, hsend,
    final_state_log env s buffs n metadata, ?_⟩
  intro c hc
  rw [((e3 c).1 _ (List.getElem?_eq_getElem hc)).1, hFe, List.map_append, List.map_map,
    List.range_succ_eq_map, List.map_cons, List.map_map, List.replicate_succ',
    ← map_const_range F
      ((merged_info env s metadata n).has_tsf, env.to_ticks metadata.time_spec)]
  have hfirst : ((fun info : if_packet_info_t => (info.has_tsf, info.tsf)) ∘ fun i =>
      stamp s.props[c] (loaded s.num_inputs s.bytes_per_otw_item (wrap (s.next_packet_seq + i))
        (frag_info env metadata (consume_cache s n) (first_info env s metadata n) i)
        s.max_samples_per_packet)) 0 =
      ((merged_info env s metadata n).has_tsf, (merged_info env s metadata n).tsf) := by
    show ((frag_info env metadata (consume_cache s n) (first_info env s metadata n) 0).has_tsf,
      (frag_info env metadata (consume_cache s n) (first_info env s metadata n) 0).tsf) = _
    rw [frag_info_has_tsf, frag_info_tsf, h1, h2]
    rfl
  have hmid : ∀ i, (((fun info : if_packet_info_t => (info.has_tsf, info.tsf)) ∘ fun i =>
      stamp s.props[c] (loaded s.num_inputs s.bytes_per_otw_item (wrap (s.next_packet_seq + i))
        (frag_info env metadata (consume_cache s n) (first_info env s metadata n) i)
        s.max_samples_per_packet)) ∘ Nat.succ) i =
      ((merged_info env s metadata n).has_tsf, env.to_ticks metadata.time_spec) := by
    intro i
    show ((frag_info env metadata (consume_cache s n) (first_info env s metadata n)
        (i + 1)).has_tsf,
      (frag_info env metadata (consume_cache s n) (first_info env s metadata n) (i + 1)).tsf) = _
    rw [frag_info_has_tsf, frag_info_tsf, h1, if_neg (Nat.succ_ne_zero i)]
  have hlast : ((stamp s.props[c] (loaded s.num_inputs s.bytes_per_otw_item
        (wrap (s.next_packet_seq + (F + 1)))
        (final_info metadata (frag_info env metadata (consume_cache s n)
          (first_info env s metadata n) (F + 1)))
        ((n - 1) % s.max_samples_per_packet + 1))).has_tsf,
      (stamp s.props[c] (loaded s.num_inputs s.bytes_per_otw_item
        (wrap (s.next_packet_seq + (F + 1)))
        (final_info metadata (frag_info env metadata (consume_cache s n)
          (first_info env s metadata n) (F + 1)))
        ((n - 1) % s.max_samples_per_packet + 1))).tsf) =
      ((merged_info env s metadata n).has_tsf, env.to_ticks metadata.time_spec) := by
    show ((frag_info env metadata (consume_cache s n) (first_info env s metadata n)
        (F + 1)).has_tsf,
      (frag_info env metadata (consume_cache s n) (first_info env s metadata n) (F + 1)).tsf) = _
    rw [frag_info_has_tsf, frag_info_tsf, h1, if_neg (Nat.succ_ne_zero F)]
  rw [hfirst, List.map_congr_left (fun i _ => hmid i), List.map_cons, List.map_nil, hlast]
  rfl

/-- The law of the cache on the path of one packet: from a handler with no
metadata pending, a request of 0 samples that starts a burst with metadata
`c` followed by a request of `0 < n ≤ max` samples with metadata `m` returns
the same value and makes the same calls, with the same arguments, as the one
request of `n` samples with the merged metadata. -/
theorem caching_law_single_packet (env : environment) (s : send_packet_handler)
    (buffs0 buffs : List Nat) (c m : tx_metadata_t) (n : Nat)
    (hc : s.cached_metadata = false) (hsob : c.start_of_burst = true) (hn : 0 < n)
    (hmax : n ≤ s.max_samples_per_packet) :
    ((send env s buffs0 0 c).bind (fun r => send env r.2 buffs n m)).map
        (fun r => (r.1, r.2.log)) =
      (send env s buffs n (merged_metadata c m)).map (fun r => (r.1, r.2.log)) := by
  have hn0 : n ≠ 0 := Nat.pos_iff_ne_zero.mp hn
  rw [send_zero_sob env s buffs0 c hsob, Option.some_bind]
  simp only []
  rw [send_small_unfold env
      { s with
        zero_buffs := vec_resize s.zero_buffs buffs0.length env.zero
        metadata_cache := c
        cached_metadata := true } buffs n m hn hmax,
    send_small_unfold env s buffs n (merged_metadata c m) hn hmax]
  have hp : prepare env
      { s with
        zero_buffs := vec_resize s.zero_buffs buffs0.length env.zero
        metadata_cache := c
        cached_metadata := true } buffs n =
      with_idle_members
        (vec_resize (vec_resize s.zero_buffs buffs0.length env.zero) buffs.length env.zero) c
        (prepare env s buffs n) := by
    simp [prepare, consume_cache, with_idle_members, hc, hn0]
  have hm : merged_info env
      { s with
        zero_buffs := vec_resize s.zero_buffs buffs0.length env.zero
        metadata_cache := c
        cached_metadata := true } m n =
      merged_info env s (merged_metadata c m) n := by
    simp only [merged_info, hc, hn0, apply_metadata_cache, translate_metadata, merged_metadata,
      Bool.true_and, Bool.false_and, ne_eq, not_false_eq_true, decide_True, if_true,
      Bool.false_eq_true, if_false]
    cases m.has_time_spec <;> rfl
  rw [hp, hm, send_one_packet_idle]
  cases send_one_packet env (prepare env s buffs n) buffs n
      (merged_info env s (merged_metadata c m) n) 0 with
  | none => rfl
  | some r =>
    obtain ⟨r1, r2, r3⟩ := r
    simp only [Option.map_some', send_multiple_packets_idle]
    rfl

/-! ## Asynchronous messages -/

theorem round_half_even_close (x : Rat) : |(round_half_even x : Rat) - x| ≤ 1 / 2 := by
  have h1 := Int.floor_le x
  have h2 := Int.lt_floor_add_one x
  unfold round_half_even
  rw [abs_le]
  split
  · constructor <;> linarith
  · split
    · push_cast
      constructor <;> linarith
    · split
      · constructor <;> linarith
      · push_cast
        constructor <;> linarith

theorem round_half_even_eq (x : Rat) (z : Int) (h : |x - z| < 1 / 2) :
    round_half_even x = z := by
  rw [abs_lt] at h
  have hx := round_half_even_close x
  rw [abs_le] at hx
  have h1 : ((round_half_even x - z : Int) : Rat) < 1 := by
    push_cast
    linarith [h.1, h.2, hx.1, hx.2]
  have h2 : (-1 : Rat) < ((round_half_even x - z : Int) : Rat) := by
    push_cast
    linarith [h.1, h.2, hx.1, hx.2]
  have h3 : round_half_even x - z < 1 := by exact_mod_cast h1
  have h4 : -1 < round_half_even x - z := by exact_mod_cast h2
  omega

theorem double_round_eq (q : Rat) (e z : Int) (h0 : q ≠ 0)
    (h1 : (2 : Rat) ^ e ≤ |q|) (h2 : |q| < (2 : Rat) ^ (e + 1))
    (h3 : |q / 2 ^ (max e (-1022) - 52) - z| < 1 / 2)
    (h4 : |(z : Rat) * 2 ^ (max e (-1022) - 52)| < 2 ^ 1024) :
    double.round q = double.finite ((z : Rat) * 2 ^ (max e (-1022) - 52)) := by
  have hpos : 0 < |q| := abs_pos.mpr h0
  have he : Int.log 2 |q| = e := by
    have a1 : e ≤ Int.log 2 |q| :=
      (Int.zpow_le_iff_le_log (by norm_num) hpos).mp (by exact_mod_cast h1)
    have a2 : Int.log 2 |q| < e + 1 :=
      (Int.lt_zpow_iff_log_lt (by norm_num) hpos).mp (by exact_mod_cast h2)
    omega
  unfold double.round
  rw [if_neg h0]
  simp only [he, round_half_even_eq _ z h3]
  rw [if_neg (not_le.mpr h4)]

theorem double_round_finite (q : Rat) (hq : |q| < 2 ^ 62) :
    ∃ w, double.round q = double.finite w ∧ |w| < 2 ^ 63 := by
  by_cases h0 : q = 0
  · subst h0
    exact ⟨0, by simp [double.round], by norm_num⟩
  · have hpos : 0 < |q| := abs_pos.mpr h0
    have hlog : ((2 : Nat) : Rat) ^ Int.log 2 |q| ≤ |q| :=
      Int.zpow_log_le_self (by norm_num) hpos
    have he : Int.log 2 |q| < 62 := by
      have : ((2 : Nat) : Rat) ^ Int.log 2 |q| < ((2 : Nat) : Rat) ^ (62 : Int) := by
        refine lt_of_le_of_lt hlog ?_
        norm_num
        exact hq
      exact (zpow_lt_zpow_iff_right₀ (by norm_num)).mp this
    have hk : max (Int.log 2 |q|) (-1022) - 52 ≤ 9 := by omega
    have hk2 : (2 : Rat) ^ (max (Int.log 2 |q|) (-1022) - 52) ≤ 2 ^ (9 : Int) :=
      zpow_le_zpow_right₀ (by norm_num) hk
    have hkpos : (0 : Rat) < 2 ^ (max (Int.log 2 |q|) (-1022) - 52) := zpow_pos (by norm_num) _
    have hclose := round_half_even_close (q / 2 ^ (max (Int.log 2 |q|) (-1022) - 52))
    have hval : |(round_half_even (q / 2 ^ (max (Int.log 2 |q|) (-1022) - 52)) : Rat) *
        2 ^ (max (Int.log 2 |q|) (-1022) - 52) - q| ≤ 256 := by
      have e1 : (round_half_even (q / 2 ^ (max (Int.log 2 |q|) (-1022) - 52)) : Rat) *
          2 ^ (max (Int.log 2 |q|) (-1022) - 52) - q =
          ((round_half_even (q / 2 ^ (max (Int.log 2 |q|) (-1022) - 52)) : Rat) -
            q / 2 ^ (max (Int.log 2 |q|) (-1022) - 52)) *
            2 ^ (max (Int.log 2 |q|) (-1022) - 52) := by
        field_simp
      rw [e1, abs_mul, abs_of_pos hkpos]
      calc |(round_half_even (q / 2 ^ (max (Int.log 2 |q|) (-1022) - 52)) : Rat) -
              q / 2 ^ (max (Int.log 2 |q|) (-1022) - 52)| *
            2 ^ (max (Int.log 2 |q|) (-1022) - 52)
          ≤ 1 / 2 * 2 ^ (9 : Int) :=
            mul_le_mul hclose hk2 (le_of_lt hkpos) (by norm_num)
        _ = 256 := by norm_num
    have hw : |(round_half_even (q / 2 ^ (max (Int.log 2 |q|) (-1022) - 52)) : Rat) *
        2 ^ (max (Int.log 2 |q|) (-1022) - 52)| < 2 ^ 63 := by
      rw [abs_lt] at hq ⊢
      rw [abs_le] at hval
      constructor
      · linarith [hval.1, hq.1, show (2 : Rat) ^ 62 + 256 < 2 ^ 63 by norm_num]
      · linarith [hval.2, hq.2, show (2 : Rat) ^ 62 + 256 < 2 ^ 63 by norm_num]
    refine ⟨_, ?_, hw⟩
    unfold double.round
    rw [if_neg h0]
    simp only
    rw [if_neg]
    exact not_le.mpr (lt_trans hw (by norm_num))

theorem to_long_of_lt (w : Rat) (h : |w| < 2 ^ 63) :
    (double.finite w).to_long = some (if 0 ≤ w then ⌊w⌋ else ⌈w⌉) := by
  rw [abs_lt] at h
  unfold double.to_long
  simp only
  rw [if_pos]
  by_cases hw : 0 ≤ w
  · rw [if_pos hw]
    have h1 : 0 ≤ ⌊w⌋ := Int.floor_nonneg.mpr hw
    have h2 : ((⌊w⌋ : Int) : Rat) < ((2 ^ 63 : Int) : Rat) := by
      push_cast
      exact lt_of_le_of_lt (Int.floor_le w) h.2
    have h3 : ⌊w⌋ < 2 ^ 63 := by exact_mod_cast h2
    constructor
    · omega
    · exact h3
  · rw [if_neg hw]
    have h1 : ⌈w⌉ ≤ 0 := Int.ceil_le.mpr (by push_cast; exact le_of_lt (not_le.mp hw))
    have h2 : ((-2 ^ 63 : Int) : Rat) < ((⌈w⌉ : Int) : Rat) := by
      push_cast
      exact lt_of_lt_of_le h.1 (Int.le_ceil w)
    have h3 : -2 ^ 63 < ⌈w⌉ := by exact_mod_cast h2
    constructor
    · omega
    · omega

theorem recv_async_msg_unbound {async_metadata_t : Type} (async_metadata : async_metadata_t)
    (timeout : double) :
    recv_async_msg none async_metadata timeout =
      ((timeout.mul (double.finite 1000000)).to_long).map (fun us =>
        { retval := false, async_metadata := async_metadata, slept := some us }) := by
  unfold recv_async_msg
  cases (timeout.mul (double.finite 1000000)).to_long <;> rfl

/-- C21: with no receiver bound `recv_async_msg` returns false and leaves
the metadata as it was, whatever the timeout: it sleeps for the microseconds
`long (timeout * 1e6)`, the product being rounded as a `double`, and returns;
it does so for every finite timeout of which the microseconds are below
`2 ^ 62` in magnitude, and the conversion to `long` is undefined for a NaN or
an infinity.  With a receiver bound it returns the flag and leaves the
metadata that the receiver returns for the same metadata and timeout,
without sleeping. -/
theorem recv_async_msg_spec {async_metadata_t : Type} (async_metadata : async_metadata_t)
    (timeout : double) :
    recv_async_msg none async_metadata timeout =
        ((timeout.mul (double.finite 1000000)).to_long).map (fun us =>
          { retval := false, async_metadata := async_metadata, slept := some us }) ∧
    (∀ r, recv_async_msg none async_metadata timeout = some r →
      r.retval = false ∧ r.async_metadata = async_metadata) ∧
    (∀ v, timeout = double.finite v → |v| * 1000000 < 2 ^ 62 →
      (recv_async_msg none async_metadata timeout).isSome = true) ∧
    (recv_async_msg none async_metadata double.nan = none ∧
      ∀ negative, recv_async_msg none async_metadata (double.infinite negative) = none) ∧
    ∀ receiver : async_metadata_t → double → Bool × async_metadata_t,
      recv_async_msg (some receiver) async_metadata timeout =
        some { retval := (receiver async_metadata timeout).1
               async_metadata := (receiver async_metadata timeout).2
               slept := none } := by
  have h1 := recv_async_msg_unbound async_metadata timeout
  refine ⟨h1, ?_, ?_, ⟨rfl, fun negative => ?_⟩, fun _ => rfl⟩
  · intro r hr
    rw [h1] at hr
    cases hu : (timeout.mul (double.finite 1000000)).to_long with
    | none => rw [hu] at hr; exact Option.noConfusion hr
    | some us =>
      rw [hu] at hr
      simp only [Option.map_some', Option.some.injEq] at hr
      subst hr
      exact ⟨rfl, rfl⟩
  · intro v hv hlt
    subst hv
    have hq : |v * 1000000| < 2 ^ 62 := by
      rw [abs_mul, abs_of_pos (show (0 : Rat) < 1000000 by norm_num)]
      exact hlt
    obtain ⟨w, hw1, hw2⟩ := double_round_finite (v * 1000000) hq
    rw [h1]
    have e : (double.finite v).mul (double.finite 1000000) = double.finite w := hw1
    rw [e, to_long_of_lt w hw2]
    rfl
  · rw [recv_async_msg_unbound]
    have e : (double.infinite negative).mul (double.finite 1000000) =
        double.infinite (negative != decide ((1000000 : Rat) < 0)) := by
      simp [double.mul]
    rw [e]
    rfl

theorem double_round_example :
    double.round (29 / 100) = double.finite (5224175567749775 / 18014398509481984) ∧
    double.round (5224175567749775 / 18014398509481984 * 1000000) = double.finite 290000 ∧
    double.round (1 / 10) = double.finite (3602879701896397 / 36028797018963968) ∧
    double.round (3602879701896397 / 36028797018963968 * 1000000) = double.finite 100000 := by
  refine ⟨?_, ?_, ?_, ?_⟩
  · rw [double_round_eq (29 / 100) (-2) 5224175567749775 (by norm_num)
      (by norm_num [abs_of_pos]) (by norm_num [abs_of_pos])
      (by norm_num [abs_lt]) (by norm_num [abs_lt])]
    norm_num
  · rw [double_round_eq (5224175567749775 / 18014398509481984 * 1000000) 18 4982162063360000
      (by norm_num) (by norm_num [abs_of_pos]) (by norm_num [abs_of_pos])
      (by norm_num [abs_lt]) (by norm_num [abs_lt])]
    norm_num
  · rw [double_round_eq (1 / 10) (-4) 7205759403792794 (by norm_num)
      (by norm_num [abs_of_pos]) (by norm_num [abs_of_pos])
      (by norm_num [abs_lt]) (by norm_num [abs_lt])]
    norm_num
  · rw [double_round_eq (3602879701896397 / 36028797018963968 * 1000000) 16 6871947673600000
      (by norm_num) (by norm_num [abs_of_pos]) (by norm_num [abs_of_pos])
      (by norm_num [abs_lt]) (by norm_num [abs_lt])]
    norm_num

theorem to_long_example :
    (double.finite 290000).to_long = some 290000 ∧
    (double.finite 100000).to_long = some 100000 := by
  constructor
  · rw [to_long_of_lt 290000 (by norm_num [abs_lt])]
    have e : ⌊(290000 : Rat)⌋ = 290000 := by
      rw [Int.floor_eq_iff]
      norm_num
    simp [e]
  · rw [to_long_of_lt 100000 (by norm_num [abs_lt])]
    have e : ⌊(100000 : Rat)⌋ = 100000 := by
      rw [Int.floor_eq_iff]
      norm_num
    simp [e]

/-- C21 with the timeout 0.29 (the `double` nearest to it), with the default
timeout 0.1, and a number as metadata: unbound, the call sleeps for 290000
and for 100000 microseconds (the exact products, not being values of
`double`, are rounded to these before the conversion) and returns false with
the metadata untouched; bound to a receiver that counts up and reports a
message, it returns what the receiver returns. -/
theorem recv_async_msg_spec_witness :
    recv_async_msg none (7 : Nat) (double.round (29 / 100)) =
        some { retval := false, async_metadata := 7, slept := some 290000 } ∧
    recv_async_msg none (7 : Nat) (double.round (1 / 10)) =
        some { retval := false, async_metadata := 7, slept := some 100000 } ∧
    recv_async_msg (some (fun (m : Nat) (_ : double) => (true, m + 1))) 7
        (double.round (1 / 10)) =
        some { retval := true, async_metadata := 8, slept := none } := by
  obtain ⟨r1, r2, r3, r4⟩ := double_round_example
  refine ⟨?_, ?_, (recv_async_msg_spec (7 : Nat) (double.round (1 / 10))).2.2.2.2 _⟩
  · rw [(recv_async_msg_spec (7 : Nat) (double.round (29 / 100))).1, r1]
    have e : (double.finite (5224175567749775 / 18014398509481984)).mul
        (double.finite 1000000) = double.finite 290000 := r2
    rw [e, to_long_example.1]
    rfl
  · rw [(recv_async_msg_spec (7 : Nat) (double.round (1 / 10))).1, r3]
    have e : (double.finite (3602879701896397 / 36028797018963968)).mul
        (double.finite 1000000) = double.finite 100000 := r4
    rw [e, to_long_example.2]
    rfl

/-! ## The slices of the workers -/

theorem vec_resize_length {α : Type} (l : List α) (n : Nat) (v : α) :
    (vec_resize l n v).length = n := by
  simp only [vec_resize, List.length_append, List.length_take, List.length_replicate]
  omega

theorem resize_size (env : environment) (s : send_packet_handler) (size : Nat) :
    (resize env s size).size = size := by
  unfold resize
  by_cases h : s.size = size
  · rw [if_pos h]
    exact h
  · rw [if_neg h]
    exact vec_resize_length _ _ _

/-- C28: on a freshly constructed handler with threshold `t ≥ 1` (the
constructor sets 8), `resize (size)` with `size > t` leaves more than one
slot of threads and a slice for each; the slice of every background worker
(every slice but the first) has a first index, so `indices[0]` in the worker
and `thread_indices[1].front ()` in `send_one_packet` are defined; every
index of every slice is below `size`, and the vectors `_props` and
`multi_msb_buffs` have `size` entries, so the lookups by these indices are
in bounds. -/
theorem resize_fresh_worker_slices (env : environment)
    (num_inputs bytes_per_otw_item bytes_per_cpu_item max_samples_per_packet
      header_offset_words32 t size : Nat) (ht : 1 ≤ t) (hsize : t < size) :
    let fresh : send_packet_handler :=
      { send_packet_handler.init num_inputs bytes_per_otw_item bytes_per_cpu_item
          max_samples_per_packet header_offset_words32 with
        channel_per_conversion_thread := t }
    let s := resize env fresh size
    1 < s.conversion_threads ∧
    s.thread_indices.length = s.conversion_threads ∧
    (∀ i, 1 ≤ i → i < s.conversion_threads →
      ∃ first rest, s.thread_indices[i]? = some (first :: rest)) ∧
    (∃ first rest, s.thread_indices[1]? = some (first :: rest)) ∧
    (∀ indices ∈ s.thread_indices, ∀ index ∈ indices, index < size) ∧
    s.props.length = size ∧ s.multi_msb_buffs.length = size ∧
    s.conversion_ready.length = size ∧ s.conversion_done.length = size := by
  intro fresh s
  have hf := resize_fresh_eq env fresh size rfl rfl rfl ht
  have hk1 : size ≤ (size + t - 1) / t * t := ceil_mul_ge t size ht
  have hk2 : (size + t - 1) / t * t < size + t := by
    have h := Nat.div_mul_le_self (size + t - 1) t
    omega
  have hc : s.conversion_threads = (size + t - 1) / t := hf.1
  have hti : s.thread_indices = (List.range ((size + t - 1) / t)).map
      (fun i => List.range' (i * t) (min ((i + 1) * t) size - i * t)) := hf.2
  have hk : 1 < (size + t - 1) / t := by
    by_contra hcon
    have h1 : (size + t - 1) / t ≤ 1 := by omega
    have h2 : (size + t - 1) / t * t ≤ 1 * t := Nat.mul_le_mul_right t h1
    omega
  have hslice : ∀ i, i < (size + t - 1) / t →
      ∃ first rest, s.thread_indices[i]? = some (first :: rest) := by
    intro i hi
    have hlt : i * t < size := by
      have h1 : i + 1 ≤ (size + t - 1) / t := hi
      have h2 : (i + 1) * t ≤ (size + t - 1) / t * t := Nat.mul_le_mul_right t h1
      rw [Nat.succ_mul] at h2
      omega
    have hpos : min ((i + 1) * t) size - i * t =
        (min ((i + 1) * t) size - i * t - 1) + 1 := by
      rw [Nat.succ_mul]
      omega
    refine ⟨i * t, List.range' (i * t + 1) (min ((i + 1) * t) size - i * t - 1), ?_⟩
    rw [hti, List.getElem?_map, List.getElem?_range hi, Option.map_some', hpos,
      List.range'_succ]
    simp
  have hne : size ≠ 0 := by omega
  have hsz : (fresh.size ≠ size) := by
    show (0 : Nat) ≠ size
    omega
  refine ⟨by rw [hc]; exact hk, by rw [hti, hc, List.length_map, List.length_range], ?_, ?_,
    ?_, resize_size env fresh size, ?_, ?_, ?_⟩
  · intro i _ hi
    exact hslice i (by rw [← hc]; exact hi)
  · exact hslice 1 hk
  · intro indices hmem index hin
    rw [hti] at hmem
    obtain ⟨i, -, rfl⟩ := List.mem_map.mp hmem
    have h1 := (List.mem_range'_1.mp hin).1
    have h2 := (List.mem_range'_1.mp hin).2
    omega
  · show (resize env fresh size).multi_msb_buffs.length = size
    unfold resize
    rw [if_neg hsz]
    exact vec_resize_length _ _ _
  · show (resize env fresh size).conversion_ready.length = size
    unfold resize
    rw [if_neg hsz]
    exact List.length_replicate _ _
  · show (resize env fresh size).conversion_done.length = size
    unfold resize
    rw [if_neg hsz]
    exact List.length_replicate _ _

/-- C28 with the threshold 8 of the constructor and 20 channels: the slices
of the two background workers start at the channels 8 and 16. -/
theorem resize_fresh_worker_slices_witness :
    (1 ≤ 8 ∧ 8 < 20) ∧
    (resize env_ok (send_packet_handler.init 1 4 4 1000 0) 20).conversion_threads = 3 ∧
    (∃ first rest, (resize env_ok (send_packet_handler.init 1 4 4 1000 0) 20).thread_indices[1]? =
      some (first :: rest)) ∧
    ∀ indices ∈ (resize env_ok (send_packet_handler.init 1 4 4 1000 0) 20).thread_indices,
      ∀ index ∈ indices, index < 20 :=
  ⟨by decide, by decide,
    (resize_fresh_worker_slices env_ok 1 4 4 1000 0 8 20 (by decide) (by decide)).2.2.2.1,
    (resize_fresh_worker_slices env_ok 1 4 4 1000 0 8 20 (by decide) (by decide)).2.2.2.2.1⟩

/-! ## Commit lengths and source pointers -/

theorem committed_bytes_append (c : Nat) (a b : List event) :
    committed_bytes c (a ++ b) = committed_bytes c a ++ committed_bytes c b := by
  simp [committed_bytes, List.filterMap_append]

theorem conversions_append (c : Nat) (a b : List event) :
    conversions c (a ++ b) = conversions c a ++ conversions c b := by
  simp [conversions, List.filterMap_append]

theorem committed_bytes_acq_events (env : environment) (c : Nat) :
    ∀ (ps : List xport_chan_props_type) (k : Nat), committed_bytes c (acq_events env k ps) = []
  | [], _ => rfl
  | p :: rest, k => by
    have ih := committed_bytes_acq_events env c rest (k + 1)
    unfold acq_events
    split
    · simpa [committed_bytes] using ih
    · simp [committed_bytes]

theorem conversions_acq_events (env : environment) (c : Nat) :
    ∀ (ps : List xport_chan_props_type) (k : Nat), conversions c (acq_events env k ps) = []
  | [], _ => rfl
  | p :: rest, k => by
    have ih := conversions_acq_events env c rest (k + 1)
    unfold acq_events
    split
    · simpa [conversions] using ih
    · simp [conversions]

theorem committed_bytes_flush_events (env : environment) (c : Nat) :
    ∀ (ms : List multi_msb_type) (k : Nat), committed_bytes c (flush_events env k ms) = []
  | [], _ => rfl
  | m :: rest, k => by
    have ih := committed_bytes_flush_events env c rest (k + 1)
    unfold flush_events
    rw [committed_bytes_append, ih]
    split <;> simp [committed_bytes]

theorem unit_events_other_args (env : environment) (props : List xport_chan_props_type)
    (ni off n ho : Nat) (buffs : List Nat) (info : if_packet_info_t) (c i : Nat) (h : i ≠ c) :
    committed_bytes c (unit_events env props ni off n ho buffs info i) = [] ∧
    conversions c (unit_events env props ni off n ho buffs info i) = [] := by
  unfold unit_events
  split
  · exact ⟨rfl, rfl⟩
  · split
    · exact ⟨rfl, rfl⟩
    · split <;> simp [committed_bytes, conversions, h]

theorem unit_events_self_args (env : environment) (props : List xport_chan_props_type)
    (ni off n ho : Nat) (buffs : List Nat) (info : if_packet_info_t) (c : Nat)
    (p : xport_chan_props_type) (b : managed_send_buffer)
    (hp : props[c]? = some p) (hb : p.buff = some b) :
    committed_bytes c (unit_events env props ni off n ho buffs info c) =
      [wrap (wrap (ho + (env.vrt_packer (stamp p info)).num_packet_words32) * 4)] ∧
    conversions c (unit_events env props ni off n ho buffs info c) =
      [((List.range ni).map (fun i => buffs.getD (c * ni + i) 0 + off), n)] := by
  unfold unit_events
  simp only [hp, hb]
  split <;> simp [committed_bytes, conversions, stamp]

theorem range_unit_events_args (env : environment) (props : List xport_chan_props_type)
    (ni off n ho : Nat) (buffs : List Nat) (info : if_packet_info_t) (c : Nat)
    (p : xport_chan_props_type) (b : managed_send_buffer)
    (hp : props[c]? = some p) (hb : p.buff = some b) :
    committed_bytes c ((List.range props.length).flatMap
        (unit_events env props ni off n ho buffs info)) =
      [wrap (wrap (ho + (env.vrt_packer (stamp p info)).num_packet_words32) * 4)] ∧
    conversions c ((List.range props.length).flatMap
        (unit_events env props ni off n ho buffs info)) =
      [((List.range ni).map (fun i => buffs.getD (c * ni + i) 0 + off), n)] := by
  have hc : c < props.length := (List.getElem?_eq_some_iff.mp hp).1
  have hs := unit_events_self_args env props ni off n ho buffs info c p b hp hb
  have ho' := fun i h => unit_events_other_args env props ni off n ho buffs info c i h
  refine ⟨?_, ?_⟩
  · unfold committed_bytes at hs ho' ⊢
    rw [filterMap_flatMap_range _ _ c (fun i h => (ho' i h).1), if_pos hc, hs.1]
  · unfold conversions at hs ho' ⊢
    rw [filterMap_flatMap_range _ _ c (fun i h => (ho' i h).2), if_pos hc, hs.2]

theorem range_unit_events_none_args (env : environment) (props : List xport_chan_props_type)
    (ni off n ho : Nat) (buffs : List Nat) (info : if_packet_info_t) (c : Nat)
    (hp : props[c]? = none) :
    committed_bytes c ((List.range props.length).flatMap
        (unit_events env props ni off n ho buffs info)) = [] ∧
    conversions c ((List.range props.length).flatMap
        (unit_events env props ni off n ho buffs info)) = [] := by
  have hc : ¬ c < props.length := by
    intro h
    rw [List.getElem?_eq_getElem h] at hp
    exact Option.noConfusion hp
  have ho' := fun i h => unit_events_other_args env props ni off n ho buffs info c i h
  refine ⟨?_, ?_⟩
  · unfold committed_bytes at ho' ⊢
    rw [filterMap_flatMap_range _ _ c (fun i h => (ho' i h).1), if_neg hc]
  · unfold conversions at ho' ⊢
    rw [filterMap_flatMap_range _ _ c (fun i h => (ho' i h).2), if_neg hc]

theorem episode_events_ok_args (env : environment) (s : send_packet_handler)
    (buffs : List Nat) (n : Nat) (info : if_packet_info_t) (off : Nat)
    (hflat : s.thread_indices.flatten = List.range s.size) (hok : acq_ok env s.props = true)
    (c : Nat) (p : xport_chan_props_type) (hp : s.props[c]? = some p) :
    committed_bytes c (episode_events env s buffs n info off) =
      [wrap (wrap (s.header_offset_words32 +
        (env.vrt_packer (stamp p (load_packet_info s info n))).num_packet_words32) * 4)] ∧
    conversions c (episode_events env s buffs n info off) =
      [((List.range s.num_inputs).map (fun i => buffs.getD (c * s.num_inputs + i) 0 + off),
        n)] := by
  obtain ⟨b, hb⟩ := Option.isSome_iff_exists.mp
    ((acq_ok_iff env s.props).mp hok p (List.getElem?_mem hp))
  have hlen : s.size = (acq_props env s.props).length := by
    rw [acq_props_length]; rfl
  have hp' : (acq_props env s.props)[c]? = some (acquire env p) := by
    rw [acq_props_ok env s.props hok, List.getElem?_map, hp]
    rfl
  have key := range_unit_events_args env (acq_props env s.props) s.num_inputs off n
    s.header_offset_words32 buffs (load_packet_info s info n) c (acquire env p) b hp' hb
  unfold episode_events
  rw [if_pos hok, hflat, hlen]
  refine ⟨?_, ?_⟩
  · rw [← List.singleton_append, committed_bytes_append, committed_bytes_append,
      committed_bytes_acq_events, key.1]
    rfl
  · rw [← List.singleton_append, conversions_append, conversions_append,
      conversions_acq_events, key.2]
    rfl

theorem episode_events_none_args (env : environment) (s : send_packet_handler)
    (buffs : List Nat) (n : Nat) (info : if_packet_info_t) (off : Nat)
    (hflat : s.thread_indices.flatten = List.range s.size)
    (c : Nat) (h : acq_ok env s.props = false ∨ s.props[c]? = none) :
    committed_bytes c (episode_events env s buffs n info off) = [] ∧
    conversions c (episode_events env s buffs n info off) = [] := by
  unfold episode_events
  rw [← List.singleton_append]
  simp only [committed_bytes_append, conversions_append, committed_bytes_acq_events,
    conversions_acq_events]
  cases hok : acq_ok env s.props with
  | false => exact ⟨rfl, rfl⟩
  | true =>
    have hc : s.props[c]? = none := by
      rcases h with h | h
      · rw [hok] at h; exact Bool.noConfusion h
      · exact h
    have hlen : s.size = (acq_props env s.props).length := by
      rw [acq_props_length]; rfl
    have hp' : (acq_props env s.props)[c]? = none := by
      rw [acq_props_ok env s.props hok, List.getElem?_map, hc]
      rfl
    have key := range_unit_events_none_args env (acq_props env s.props) s.num_inputs off n
      s.header_offset_words32 buffs (load_packet_info s info n) c hp'
    rw [if_pos rfl, hflat, hlen, key.1, key.2]
    exact ⟨rfl, rfl⟩

/-! ## The descriptor of a packet -/

theorem send_one_packet_log (env : environment) (s : send_packet_handler) (buffs : List Nat)
    (n : Nat) (info : if_packet_info_t) (off : Nat) (hwf : well_formed s) :
    send_one_packet env s buffs n info off =
        some (if acq_ok env s.props then n else 0, load_packet_info s info n,
          episode_state env s buffs n info off) ∧
      (episode_state env s buffs n info off).log =
        s.log ++ episode_events env s buffs n info off :=
  ⟨send_one_packet_eq env s buffs n info off hwf, episode_state_log env s buffs n info off⟩

/-- C22: in a call of `send_one_packet` of which every buffer is acquired,
the packer is called once for every channel, with the descriptor of the
call (payload counts and sequence number loaded) in which `has_sid` and `sid`
are those bound to the channel and every other field is the same for all
channels; the descriptor the call leaves to its caller is the loaded one,
with the `has_sid` and `sid` it came with: the work for the channels has not
written to it.  Without all buffers acquired the packer is not called. -/
theorem packer_descriptor_per_channel (env : environment) (s : send_packet_handler)
    (buffs : List Nat) (n : Nat) (info : if_packet_info_t) (off : Nat)
    (hwf : well_formed s) :
    ∃ r t evs, send_one_packet env s buffs n info off =
        some (r, load_packet_info s info n, t) ∧
      t.log = s.log ++ evs ∧
      (load_packet_info s info n).has_sid = info.has_sid ∧
      (load_packet_info s info n).sid = info.sid ∧
      (acquires env s 0 →
        ∀ c p, s.props[c]? = some p →
          packed c evs =
            [{ load_packet_info s info n with has_sid := p.has_sid, sid := p.sid }]) ∧
      (¬ acquires env s 0 → ∀ c, packed c evs = []) ∧
      (∀ c, s.props[c]? = none → packed c evs = []) := by
  obtain ⟨h1, h2⟩ := send_one_packet_log env s buffs n info off hwf
  refine ⟨_, _, episode_events env s buffs n info off, h1, h2, rfl, rfl, ?_, ?_, ?_⟩
  · intro hacq c p hp
    have hok : acq_ok env s.props = true := (acquires_zero env s).mp hacq
    obtain ⟨b, hb⟩ := Option.isSome_iff_exists.mp
      ((acq_ok_iff env s.props).mp hok p (List.getElem?_mem hp))
    exact (episode_events_ok env s buffs n info off hwf.1 hok c p b hp hb).1
  · intro hacq c
    have hok : acq_ok env s.props = false := by
      cases h : acq_ok env s.props with
      | false => rfl
      | true => exact absurd ((acquires_zero env s).mpr h) hacq
    exact (episode_events_none env s buffs n info off hwf.1 c (Or.inl hok)).1
  · intro c hc
    exact (episode_events_none env s buffs n info off hwf.1 c (Or.inr hc)).1

/-- C22 on the handler of four channels with the stream id 99 bound to
channel 2: the descriptors of the channels 0 and 2 differ in the stream id
and in nothing else. -/
theorem packer_descriptor_per_channel_witness :
    well_formed handler4_sid ∧
    ∃ r t evs, send_one_packet env_ok handler4_sid [10, 20, 30, 40] 100
        (translate_metadata env_ok handler4_sid md_burst) 0 =
        some (r, load_packet_info handler4_sid
          (translate_metadata env_ok handler4_sid md_burst) 100, t) ∧
      t.log = handler4_sid.log ++ evs ∧
      packed 0 evs = [load_packet_info handler4_sid
        (translate_metadata env_ok handler4_sid md_burst) 100] ∧
      packed 2 evs = [{ load_packet_info handler4_sid
        (translate_metadata env_ok handler4_sid md_burst) 100 with has_sid := true, sid := 99 }] := by
  refine ⟨by decide, ?_⟩
  obtain ⟨r, t, evs, h1, h2, -, -, h5, -, -⟩ := packer_descriptor_per_channel env_ok
    handler4_sid [10, 20, 30, 40] 100 (translate_metadata env_ok handler4_sid md_burst) 0
    (by decide)
  exact ⟨r, t, evs, h1, h2, h5 (by decide) 0 _ rfl, h5 (by decide) 2 _ rfl⟩

/-- C24 as stated fails.  With a packer that reports a header of four words
and a packet of header, payload and trailer word, 100 samples of four bytes
are committed for 420 bytes on the handler of four channels (trailer enabled,
as the constructor leaves it), for 428 bytes with a header offset of two
words, and for 424 bytes with that offset and the trailer disabled, where
four times the header words plus the payload words is 416; the two agree once
the trailer is disabled and the header offset is zero. -/
theorem commit_counts_trailer_and_offset :
    (send env_ok handler4 [10, 20, 30, 40] 100 md_burst).map
        (fun r => (committed_bytes 0 r.2.log, (packed 0 r.2.log).map (fun d =>
          4 * ((example_packer d).num_header_words32 + d.num_payload_words32)))) =
      some ([420], [416]) ∧
    (send env_ok handler4_offset [10, 20, 30, 40] 100 md_burst).map
        (fun r => (committed_bytes 0 r.2.log, (packed 0 r.2.log).map (fun d =>
          4 * ((example_packer d).num_header_words32 + d.num_payload_words32)))) =
      some ([428], [416]) ∧
    (send env_ok { handler4_offset with has_tlr := false } [10, 20, 30, 40] 100 md_burst).map
        (fun r => (committed_bytes 0 r.2.log, (packed 0 r.2.log).map (fun d =>
          4 * ((example_packer d).num_header_words32 + d.num_payload_words32)))) =
      some ([424], [416]) ∧
    (send env_ok { handler4 with has_tlr := false } [10, 20, 30, 40] 100 md_burst).map
        (fun r => (committed_bytes 0 r.2.log, (packed 0 r.2.log).map (fun d =>
          4 * ((example_packer d).num_header_words32 + d.num_payload_words32)))) =
      some ([416], [416]) := by
  refine ⟨?_, ?_, ?_, ?_⟩ <;> decide

/-- C24, amended: in a call of `send_one_packet` of which every buffer is
acquired, the buffer of every channel is committed once, for the header
offset of the handler plus the packet length `num_packet_words32` that the
packer reports for the descriptor of the channel, in words of four bytes (a
`size_t` product); without all buffers acquired nothing is committed. -/
theorem commit_length (env : environment) (s : send_packet_handler) (buffs : List Nat)
    (n : Nat) (info : if_packet_info_t) (off : Nat) (hwf : well_formed s) :
    ∃ r d t evs, send_one_packet env s buffs n info off = some (r, d, t) ∧
      t.log = s.log ++ evs ∧
      (acquires env s 0 →
        ∀ c p, s.props[c]? = some p →
          packed c evs = [{ d with has_sid := p.has_sid, sid := p.sid }] ∧
          committed_bytes c evs =
            [wrap (wrap (s.header_offset_words32 +
              (env.vrt_packer { d with has_sid := p.has_sid, sid := p.sid }).num_packet_words32) *
              4)]) ∧
      (¬ acquires env s 0 → ∀ c, committed_bytes c evs = []) := by
  obtain ⟨h1, h2⟩ := send_one_packet_log env s buffs n info off hwf
  refine ⟨_, _, _, episode_events env s buffs n info off, h1, h2, ?_, ?_⟩
  · intro hacq c p hp
    have hok : acq_ok env s.props = true := (acquires_zero env s).mp hacq
    obtain ⟨b, hb⟩ := Option.isSome_iff_exists.mp
      ((acq_ok_iff env s.props).mp hok p (List.getElem?_mem hp))
    exact ⟨(episode_events_ok env s buffs n info off hwf.1 hok c p b hp hb).1,
      (episode_events_ok_args env s buffs n info off hwf.1 hok c p hp).1⟩
  · intro hacq c
    have hok : acq_ok env s.props = false := by
      cases h : acq_ok env s.props with
      | false => rfl
      | true => exact absurd ((acquires_zero env s).mpr h) hacq
    exact (episode_events_none_args env s buffs n info off hwf.1 c (Or.inl hok)).1

/-- C24, amended, on the handler of four channels with a header offset of
two words: the packet of 100 samples for channel 1 is committed for
`(2 + 105) * 4` bytes. -/
theorem commit_length_witness :
    well_formed handler4_offset ∧
    ∃ r d t evs, send_one_packet env_ok handler4_offset [10, 20, 30, 40] 100
        (translate_metadata env_ok handler4_offset md_burst) 0 = some (r, d, t) ∧
      t.log = handler4_offset.log ++ evs ∧ committed_bytes 1 evs = [428] := by
  refine ⟨by decide, ?_⟩
  obtain ⟨r, d, t, evs, h1, h2, h3, -⟩ := commit_length env_ok handler4_offset
    [10, 20, 30, 40] 100 (translate_metadata env_ok handler4_offset md_burst) 0 (by decide)
  have hd : d = load_packet_info handler4_offset
      (translate_metadata env_ok handler4_offset md_burst) 100 := by
    have e := send_one_packet_eq env_ok handler4_offset [10, 20, 30, 40] 100
      (translate_metadata env_ok handler4_offset md_burst) 0 (by decide)
    rw [e] at h1
    simp only [Option.some.injEq, Prod.mk.injEq] at h1
    exact h1.2.1.symm
  refine ⟨r, d, t, evs, h1, h2, ?_⟩
  rw [(h3 (by decide) 1 _ rfl).2, hd]
  decide

/-- C26 as stated fails at the end of the range of `size_t`: on a handler
with one input, one byte per item and a packet size of `2 ^ 64 - 1` samples
whose provider times out, `send` of `2 ^ 64 - 1` samples takes the path of
one packet and returns 0, and its call of `send_one_packet` returns 0 and
leaves a payload of `2 ^ 64 - 1` bytes and of 0 words in the descriptor, the
sum with 3 having wrapped: four times the words is below the bytes. -/
theorem payload_words_wrap :
    well_formed handler1_wide ∧
    2 ^ 64 - 1 ≤ handler1_wide.max_samples_per_packet ∧
    (send env_timeout handler1_wide [10] (2 ^ 64 - 1) md_mid).map (fun r => r.1) = some 0 ∧
    (send_one_packet env_timeout handler1_wide [10] (2 ^ 64 - 1)
        (translate_metadata env_timeout handler1_wide md_mid) 0).map
        (fun r => (r.1, r.2.1.num_payload_bytes, r.2.1.num_payload_words32)) =
      some (0, 2 ^ 64 - 1, 0) := by
  refine ⟨?_, ?_, ?_, ?_⟩ <;> decide

theorem payload_no_wrap (n num_inputs bytes_per_otw_item : Nat)
    (h : n * num_inputs * bytes_per_otw_item + 3 < 2 ^ 64) :
    wrap (wrap (n * num_inputs) * bytes_per_otw_item) = n * num_inputs * bytes_per_otw_item ∧
      wrap (wrap (wrap (n * num_inputs) * bytes_per_otw_item) + 3) =
        n * num_inputs * bytes_per_otw_item + 3 := by
  by_cases h0 : bytes_per_otw_item = 0
  · subst h0
    simp [wrap]
  · have h1 : n * num_inputs ≤ n * num_inputs * bytes_per_otw_item :=
      Nat.le_mul_of_pos_right _ (Nat.pos_of_ne_zero h0)
    have h2 : wrap (n * num_inputs) = n * num_inputs := wrap_of_lt _ (by omega)
    have h3 : wrap (n * num_inputs * bytes_per_otw_item) =
        n * num_inputs * bytes_per_otw_item := wrap_of_lt _ (by omega)
    rw [h2, h3]
    exact ⟨rfl, wrap_of_lt _ h⟩

/-- C26, amended: for every sample count `n` with
`n * num_inputs * bytes_per_otw_item + 3 < 2 ^ 64`, `send_one_packet` leaves
in the descriptor `num_payload_bytes = n * num_inputs * bytes_per_otw_item`
and `num_payload_words32 = (num_payload_bytes + 3) / 4`, so that four times
the words is the least multiple of 4 that is not below the bytes.  The fields
are written whether or not the buffers are acquired; when an acquisition
times out the call returns 0 and no descriptor is handed to the packer. -/
theorem payload_size (env : environment) (s : send_packet_handler) (buffs : List Nat)
    (n : Nat) (info : if_packet_info_t) (off : Nat) (hwf : well_formed s)
    (hrange : n * s.num_inputs * s.bytes_per_otw_item + 3 < 2 ^ 64) :
    ∃ r d t evs, send_one_packet env s buffs n info off = some (r, d, t) ∧
      t.log = s.log ++ evs ∧
      d.num_payload_bytes = n * s.num_inputs * s.bytes_per_otw_item ∧
      d.num_payload_words32 = (d.num_payload_bytes + 3) / 4 ∧
      d.num_payload_bytes ≤ 4 * d.num_payload_words32 ∧
      (∀ m, d.num_payload_bytes ≤ 4 * m → d.num_payload_words32 ≤ m) ∧
      (¬ acquires env s 0 → r = 0 ∧ ∀ c, packed c evs = []) ∧
      (acquires env s 0 → r = n ∧
        ∀ c p, s.props[c]? = some p →
          packed c evs = [{ d with has_sid := p.has_sid, sid := p.sid }]) := by
  obtain ⟨h1, h2⟩ := send_one_packet_log env s buffs n info off hwf
  obtain ⟨e1, e2⟩ := payload_no_wrap n s.num_inputs s.bytes_per_otw_item hrange
  have hb : (load_packet_info s info n).num_payload_bytes =
      n * s.num_inputs * s.bytes_per_otw_item := e1
  have hw : (load_packet_info s info n).num_payload_words32 =
      ((load_packet_info s info n).num_payload_bytes + 3) / 4 := by
    show wrap (wrap (wrap (n * s.num_inputs) * s.bytes_per_otw_item) + 3) / 4 =
      (wrap (wrap (n * s.num_inputs) * s.bytes_per_otw_item) + 3) / 4
    rw [e2, e1]
  refine ⟨_, _, _, episode_events env s buffs n info off, h1, h2, hb, hw, ?_, ?_, ?_, ?_⟩
  · rw [hw]
    omega
  · intro m hm
    rw [hw]
    omega
  · intro hacq
    have hok : acq_ok env s.props = false := by
      cases h : acq_ok env s.props with
      | false => rfl
      | true => exact absurd ((acquires_zero env s).mpr h) hacq
    refine ⟨by simp [hok], fun c => ?_⟩
    exact (episode_events_none env s buffs n info off hwf.1 c (Or.inl hok)).1
  · intro hacq
    have hok : acq_ok env s.props = true := (acquires_zero env s).mp hacq
    refine ⟨by simp [hok], fun c p hp => ?_⟩
    obtain ⟨b, hb'⟩ := Option.isSome_iff_exists.mp
      ((acq_ok_iff env s.props).mp hok p (List.getElem?_mem hp))
    exact (episode_events_ok env s buffs n info off hwf.1 hok c p b hp hb').1

/-- C26, amended, on the handler of four channels: 333 samples of four
bytes. -/
theorem payload_size_witness :
    (well_formed handler4 ∧
      333 * handler4.num_inputs * handler4.bytes_per_otw_item + 3 < 2 ^ 64) ∧
    ∃ r d t evs, send_one_packet env_ok handler4 [10, 20, 30, 40] 333
        (translate_metadata env_ok handler4 md_burst) 0 = some (r, d, t) ∧
      t.log = handler4.log ++ evs ∧ d.num_payload_bytes = 1332 ∧
      d.num_payload_words32 = (d.num_payload_bytes + 3) / 4 := by
  refine ⟨by decide, ?_⟩
  obtain ⟨r, d, t, evs, h1, h2, h3, h4, -⟩ := payload_size env_ok handler4 [10, 20, 30, 40] 333
    (translate_metadata env_ok handler4 md_burst) 0 (by decide) (by decide)
  exact ⟨r, d, t, evs, h1, h2, h3, h4⟩

/-! ## The unit of work, inline and on a worker -/

/-- C23: for every handler and every channel index, one turn of the loop of
the worker does what `convert_to_in_buff_sequential` does for that index and
then clears the ready flag and sets the done flag of the channel: the two
fail together, and otherwise leave the same channels, the same batches and
the same calls (packer, converter, commit with its length, enqueue, release,
callback) in the same order.  The loop of the worker in the model of
`send_one_packet` is this turn. -/
theorem unit_of_work_inline_or_worker (env : environment) (s : send_packet_handler)
    (buffs : List Nat) (if_packet_info : if_packet_info_t) (index : Nat) :
    convert_to_in_buff_body env s buffs if_packet_info index =
        (convert_to_in_buff_sequential env buffs if_packet_info [index] s).map
          (fun t => { t with
            conversion_ready := t.conversion_ready.set index false
            conversion_done := t.conversion_done.set index true }) ∧
    convert_worker_indices env buffs if_packet_info [index] s =
        convert_to_in_buff_body env s buffs if_packet_info index ∧
    ∀ t, convert_to_in_buff_body env s buffs if_packet_info index = some t →
      ∃ u, convert_to_in_buff_sequential env buffs if_packet_info [index] s = some u ∧
        t.props = u.props ∧ t.multi_msb_buffs = u.multi_msb_buffs ∧ t.log = u.log ∧
        t.next_packet_seq = u.next_packet_seq ∧
        t.conversion_ready = u.conversion_ready.set index false ∧
        t.conversion_done = u.conversion_done.set index true := by
  have key : convert_to_in_buff_body env s buffs if_packet_info index =
      (convert_index env s buffs if_packet_info index).map
        (fun t => { t with
          conversion_ready := t.conversion_ready.set index false
          conversion_done := t.conversion_done.set index true }) := by
    unfold convert_to_in_buff_body convert_index
    cases hp : s.props[index]? with
    | none => rfl
    | some props =>
      cases hb : props.buff with
      | none =>
        cases hm : s.multi_msb_buffs[index]? <;> simp [hb]
      | some buff =>
        cases hm : s.multi_msb_buffs[index]? with
        | none => simp [hb]
        | some multi_msb =>
          have hi : index < s.multi_msb_buffs.length := (List.getElem?_eq_some_iff.mp hm).1
          simp only [hb, Option.some_bind, List.getElem?_set_self hi, List.set_set,
            Option.map_some', List.append_assoc, List.singleton_append, List.cons_append,
            List.nil_append]
          cases props.go_postal <;> simp
  have hseq : convert_to_in_buff_sequential env buffs if_packet_info [index] s =
      convert_index env s buffs if_packet_info index := by
    simp only [convert_to_in_buff_sequential]
    cases convert_index env s buffs if_packet_info index <;> rfl
  have hwork : convert_worker_indices env buffs if_packet_info [index] s =
      (convert_index env s buffs if_packet_info index).map
        (fun t => { t with
          conversion_ready := t.conversion_ready.set index false
          conversion_done := t.conversion_done.set index true }) := by
    simp only [convert_worker_indices]
    cases convert_index env s buffs if_packet_info index <;> rfl
  refine ⟨by rw [key, hseq], by rw [hwork, key], ?_⟩
  intro t ht
  rw [key] at ht
  cases hc : convert_index env s buffs if_packet_info index with
  | none => rw [hc] at ht; exact Option.noConfusion ht
  | some u =>
    rw [hc] at ht
    simp only [Option.map_some', Option.some.injEq] at ht
    subst ht
    exact ⟨u, by rw [hseq, hc], rfl, rfl, rfl, rfl, rfl, rfl⟩

/-- C23 on the handler of four channels after a packet has been sent, so
that every channel holds a buffer: the turn of the worker for channel 1 goes
through, and is the inline unit of work with the two flags set after it. -/
theorem unit_of_work_inline_or_worker_witness :
    ((send env_ok handler4 [10, 20, 30, 40] 100 md_burst).bind (fun r =>
        convert_to_in_buff_body env_ok r.2 [10, 20, 30, 40]
          (translate_metadata env_ok r.2 md_burst) 1)).isSome = true ∧
    ∀ s : send_packet_handler,
      convert_to_in_buff_body env_ok s [10, 20, 30, 40] (translate_metadata env_ok s md_burst) 1 =
        (convert_to_in_buff_sequential env_ok [10, 20, 30, 40]
          (translate_metadata env_ok s md_burst) [1] s).map
          (fun t => { t with
            conversion_ready := t.conversion_ready.set 1 false
            conversion_done := t.conversion_done.set 1 true }) :=
  ⟨by decide, fun s => (unit_of_work_inline_or_worker env_ok s [10, 20, 30, 40]
    (translate_metadata env_ok s md_burst) 1).1⟩

/-! ## The cache and requests that send nothing -/

theorem send_large_first_episode (env : environment) (s : send_packet_handler)
    (buffs : List Nat) (n : Nat) (metadata : tx_metadata_t) (hwf : well_formed s)
    (hmax : 0 < s.max_samples_per_packet) (hlt : s.max_samples_per_packet < n) :
    ∃ r t, send env s buffs n metadata = some (r, t) ∧
      t.cached_metadata = (consume_cache s n).cached_metadata ∧
      t.metadata_cache = s.metadata_cache ∧
      ∃ rest, t.log = s.log ++
        (episode_events env (consume_cache s n) buffs s.max_samples_per_packet
          (first_info env s metadata n) (wrap (0 * s.bytes_per_cpu_item)) ++ rest) := by
  have hF : 1 ≤ (n - 1) / s.max_samples_per_packet :=
    (Nat.one_le_div_iff hmax).mpr (by omega)
  obtain ⟨F, hFe⟩ : ∃ F, (n - 1) / s.max_samples_per_packet = F + 1 :=
    ⟨(n - 1) / s.max_samples_per_packet - 1, (Nat.sub_add_cancel hF).symm⟩
  rcases first_failure (acquires env s) ((n - 1) / s.max_samples_per_packet) with
    hall | ⟨k, hk, hbefore, hfail⟩
  · refine ⟨_, _, send_large_ok env s buffs n metadata hwf hmax hlt hall, ?_, ?_, ?_⟩
    · simp only [clear_batches_cached_metadata, send_multiple_packets_cached_metadata,
        final_state, episode_state_cached_metadata, frag_state_cached_metadata]
    · simp only [clear_batches_metadata_cache, send_multiple_packets_metadata_cache,
        final_state, episode_state_metadata_cache, frag_state_metadata_cache]
      rfl
    · rw [final_state_log, large_events, hFe, frag_events, List.append_assoc]
      exact ⟨_, rfl⟩
  · refine ⟨_, _, send_large_timeout env s buffs n metadata k hwf hmax hlt hk hbefore hfail,
      ?_, ?_, ?_⟩
    · simp only [stopped_state, episode_state_cached_metadata, frag_state_cached_metadata]
    · simp only [stopped_state, episode_state_metadata_cache, frag_state_metadata_cache]
      rfl
    · rw [stopped_state_log, stopped_events]
      cases k with
      | zero =>
        simp only [frag_events, frag_state, frag_info_zero, List.nil_append, Nat.zero_mul]
        exact ⟨[], by rw [List.append_nil]⟩
      | succ k' =>
        rw [frag_events, List.append_assoc]
        exact ⟨_, rfl⟩

theorem consume_cache_cached (s : send_packet_handler) (n : Nat) (hn : 0 < n) :
    (consume_cache s n).cached_metadata = false := by
  have hn0 : n ≠ 0 := Nat.pos_iff_ne_zero.mp hn
  cases hc : s.cached_metadata <;> simp [consume_cache, hc, hn0]

/-- The first call of `send_one_packet` of a request with samples: it is
handed the descriptor of the request with the cached metadata applied if it
is pending, at offset 0; afterwards no metadata is pending. -/
theorem send_first_episode (env : environment) (s : send_packet_handler) (buffs : List Nat)
    (n : Nat) (metadata : tx_metadata_t) (hwf : well_formed s)
    (hmax : 0 < s.max_samples_per_packet) (hn : 0 < n) :
    ∃ r t, send env s buffs n metadata = some (r, t) ∧
      (¬ acquires env s 0 → r = 0) ∧
      t.cached_metadata = false ∧ t.metadata_cache = s.metadata_cache ∧
      ∃ evs rest, t.log = s.log ++ evs ∧
        episodes evs =
          (min n s.max_samples_per_packet,
            { merged_info env s metadata n with
              eob := if n ≤ s.max_samples_per_packet then (merged_info env s metadata n).eob
                else false }, 0) :: rest := by
  by_cases hle : n ≤ s.max_samples_per_packet
  · refine ⟨_, _, send_small env s buffs n metadata hwf hn hle, ?_, ?_, ?_, ?_⟩
    · intro hfail
      have hok : acq_ok env s.props = false := by
        cases h : acq_ok env s.props with
        | false => rfl
        | true => exact absurd ((acquires_zero env s).mpr h) hfail
      simp [hok]
    · rw [send_multiple_packets_cached_metadata, episode_state_cached_metadata]
      exact consume_cache_cached s n hn
    · rw [send_multiple_packets_metadata_cache, episode_state_metadata_cache]
      rfl
    · refine ⟨episode_events env (prepare env s buffs n) buffs n (merged_info env s metadata n) 0
        ++ flush_events env
          (episode_state env (prepare env s buffs n) buffs n
            (merged_info env s metadata n) 0).sendmmsg_calls
          (episode_state env (prepare env s buffs n) buffs n
            (merged_info env s metadata n) 0).multi_msb_buffs, [], ?_, ?_⟩
      · rw [send_multiple_packets_log, episode_state_log, List.append_assoc]
        rfl
      · rw [episodes_append, episodes_episode_events, episodes_flush_events, List.append_nil,
          Nat.min_eq_left hle, if_pos hle]
  · have hlt : s.max_samples_per_packet < n := Nat.lt_of_not_le hle
    obtain ⟨r, t, h1, h2, h3, rest, h4⟩ :=
      send_large_first_episode env s buffs n metadata hwf hmax hlt
    refine ⟨r, t, h1, ?_, ?_, h3, _, episodes rest, h4, ?_⟩
    · intro hfail
      have hk : 0 < (n - 1) / s.max_samples_per_packet :=
        (Nat.one_le_div_iff hmax).mpr (by omega)
      have e := send_large_timeout env s buffs n metadata 0 hwf hmax hlt hk
        (fun j hj => absurd hj (Nat.not_lt_zero j)) hfail
      rw [e] at h1
      simp only [Option.some.injEq, Prod.mk.injEq] at h1
      omega
    · rw [h2]
      exact consume_cache_cached s n hn
    · rw [episodes_append, episodes_episode_events, Nat.min_eq_right (Nat.le_of_lt hlt),
        if_neg hle, Nat.zero_mul]
      rfl

/-- C29: when metadata is pending in the cache and a request with `n > 0`
samples returns 0 because a buffer acquisition of its first packet times
out, the cache is not pending afterwards (the record stays in place,
unused); the first packet of that request was handed to `send_one_packet`
with the cached start-of-burst flag, and the same request made again is
handed to `send_one_packet` with the burst flags and the time stamp of its
own metadata, end-of-burst being held back for the final fragment when the
request is fragmented. -/
theorem timed_out_send_clears_cache (env : environment) (s : send_packet_handler)
    (buffs : List Nat) (n : Nat) (metadata : tx_metadata_t) (hwf : well_formed s)
    (hmax : 0 < s.max_samples_per_packet) (hn : 0 < n) (hcache : s.cached_metadata = true)
    (hfail : ¬ acquires env s 0) :
    ∃ t, send env s buffs n metadata = some (0, t) ∧
      t.cached_metadata = false ∧ t.metadata_cache = s.metadata_cache ∧
      (∃ evs0 info0 rest0, t.log = s.log ++ evs0 ∧
        episodes evs0 = (min n s.max_samples_per_packet, info0, 0) :: rest0 ∧
        info0.sob = s.metadata_cache.start_of_burst) ∧
      ∃ r2 t2 evs info rest, send env t buffs n metadata = some (r2, t2) ∧
        t2.log = t.log ++ evs ∧
        episodes evs = (min n s.max_samples_per_packet, info, 0) :: rest ∧
        info.sob = metadata.start_of_burst ∧
        info.eob = (if n ≤ s.max_samples_per_packet then metadata.end_of_burst else false) ∧
        info.has_tsf = metadata.has_time_spec ∧
        info.tsf = env.to_ticks metadata.time_spec := by
  obtain ⟨r, t, evs0, hsend0, hsum⟩ := send_total env s buffs n metadata hwf hmax
  obtain ⟨r', t', h1, h2, h3, h4, evs0, rest0, h5, h6⟩ :=
    send_first_episode env s buffs n metadata hwf hmax hn
  have hrt : (r, t) = (r', t') := Option.some.inj (hsend0.symm.trans h1)
  simp only [Prod.mk.injEq] at hrt
  obtain ⟨rfl, rfl⟩ := hrt
  have hr : r = 0 := h2 hfail
  subst hr
  have hwft : well_formed t := hsum.1
  have hmt : t.max_samples_per_packet = s.max_samples_per_packet := hsum.2.1
  obtain ⟨r2, t2, k1, -, -, -, evs, rest, k5, k6⟩ :=
    send_first_episode env t buffs n metadata hwft (by rw [hmt]; exact hmax) hn
  rw [hmt, merged_info_uncached env t metadata n h3] at k6
  have hn0 : n ≠ 0 := Nat.pos_iff_ne_zero.mp hn
  refine ⟨t, h1, h3, h4, ⟨evs0, _, rest0, h5, h6, ?_⟩,
    r2, t2, evs, _, rest, k1, k5, k6, rfl, ?_, rfl, rfl⟩
  · simp [merged_info, hcache, hn0, apply_metadata_cache]
  · by_cases hle : n ≤ s.max_samples_per_packet
    · simp only [hle, if_true]
      rfl
    · simp only [hle, if_false]

/-- C29 on the handler of four channels with a start of burst at time 5
pending in the cache, the providers timing out: a request of 100 samples
without time spec that ends a burst returns 0 and leaves no metadata
pending. -/
theorem timed_out_send_clears_cache_witness :
    (well_formed handler4_primed ∧ 0 < handler4_primed.max_samples_per_packet ∧ 0 < 100 ∧
      handler4_primed.cached_metadata = true ∧ ¬ acquires env_timeout handler4_primed 0) ∧
    ∃ t, send env_timeout handler4_primed [10, 20, 30, 40] 100 md_end = some (0, t) ∧
      t.cached_metadata = false ∧ t.metadata_cache = handler4_primed.metadata_cache ∧
      (∃ evs0 info0 rest0, t.log = handler4_primed.log ++ evs0 ∧
        episodes evs0 = (min 100 handler4_primed.max_samples_per_packet, info0, 0) :: rest0 ∧
        info0.sob = handler4_primed.metadata_cache.start_of_burst) ∧
      ∃ r2 t2 evs info rest,
        send env_timeout t [10, 20, 30, 40] 100 md_end = some (r2, t2) ∧
        t2.log = t.log ++ evs ∧
        episodes evs = (min 100 handler4_primed.max_samples_per_packet, info, 0) :: rest ∧
        info.sob = md_end.start_of_burst ∧
        info.eob = (if 100 ≤ handler4_primed.max_samples_per_packet then md_end.end_of_burst
          else false) ∧
        info.has_tsf = md_end.has_time_spec ∧
        info.tsf = env_timeout.to_ticks md_end.time_spec :=
  ⟨by decide, timed_out_send_clears_cache env_timeout handler4_primed [10, 20, 30, 40] 100 md_end
    (by decide) (by decide) (by decide) (by decide) (by decide)⟩

/-- C30: a request of 0 samples that does not start a burst leaves the cache
as it is, the record and the pending flag; `send_one_packet` is called once,
for one sample, with the burst flags and the time stamp of the metadata of
the request, and when the buffers are acquired the one descriptor the packer
gets for a channel carries those, whatever is pending in the cache. -/
theorem zero_samples_keep_cache (env : environment) (s : send_packet_handler)
    (buffs : List Nat) (metadata : tx_metadata_t) (hwf : well_formed s)
    (hsob : metadata.start_of_burst = false) :
    ∃ t evs info, send env s buffs 0 metadata = some (0, t) ∧ t.log = s.log ++ evs ∧
      t.cached_metadata = s.cached_metadata ∧ t.metadata_cache = s.metadata_cache ∧
      episodes evs = [(1, info, 0)] ∧
      info.sob = false ∧ info.eob = metadata.end_of_burst ∧
      info.has_tsf = metadata.has_time_spec ∧ info.tsf = env.to_ticks metadata.time_spec ∧
      (acquires env s 0 →
        ∀ c, c < s.size →
          ∃ d, packed c evs = [d] ∧ d.sob = false ∧ d.eob = metadata.end_of_burst ∧
            d.has_tsf = metadata.has_time_spec ∧ d.tsf = env.to_ticks metadata.time_spec) := by
  have hsend := send_zero_end env s buffs metadata hwf hsob
  obtain ⟨h1, -, h3⟩ := small_events_spec env (prepare env s buffs 0)
    (prepare env s buffs 0).zero_buffs 1 (translate_metadata env s metadata) 0
    (episode_state env (prepare env s buffs 0) (prepare env s buffs 0).zero_buffs 1
      (translate_metadata env s metadata) 0).sendmmsg_calls
    (episode_state env (prepare env s buffs 0) (prepare env s buffs 0).zero_buffs 1
      (translate_metadata env s metadata) 0).multi_msb_buffs hwf.1
  refine ⟨_, episode_events env (prepare env s buffs 0) (prepare env s buffs 0).zero_buffs 1
      (translate_metadata env s metadata) 0 ++
    flush_events env
      (episode_state env (prepare env s buffs 0) (prepare env s buffs 0).zero_buffs 1
        (translate_metadata env s metadata) 0).sendmmsg_calls
      (episode_state env (prepare env s buffs 0) (prepare env s buffs 0).zero_buffs 1
        (translate_metadata env s metadata) 0).multi_msb_buffs,
    translate_metadata env s metadata, hsend, ?_, ?_, ?_, h1, hsob, rfl, rfl, rfl, ?_⟩
  · rw [send_multiple_packets_log, episode_state_log, List.append_assoc]
    rfl
  · rw [send_multiple_packets_cached_metadata, episode_state_cached_metadata]
    simp [prepare, consume_cache]
  · rw [send_multiple_packets_metadata_cache, episode_state_metadata_cache]
    rfl
  · intro hacq c hc
    have hok : acq_ok env (prepare env s buffs 0).props = true := (acquires_zero env s).mp hacq
    have hq : (prepare env s buffs 0).props[c]? = some s.props[c] := List.getElem?_eq_getElem hc
    obtain ⟨b, hb⟩ := Option.isSome_iff_exists.mp (hacq s.props[c] (List.getElem_mem hc))
    obtain ⟨k1, -⟩ := (h3 c).1 _ b hok hq hb
    exact ⟨_, k1, hsob, rfl, rfl, rfl⟩

/-- C30 on the handler of four channels with a start of burst at time 5
pending in the cache: a request of 0 samples that ends a burst, without time
spec, is sent as a packet that ends the burst and has no time stamp, and the
start of burst is still pending. -/
theorem zero_samples_keep_cache_witness :
    (well_formed handler4_primed ∧ md_end.start_of_burst = false) ∧
    ∃ t evs info, send env_ok handler4_primed [10, 20, 30, 40] 0 md_end = some (0, t) ∧
      t.log = handler4_primed.log ++ evs ∧
      t.cached_metadata = true ∧ t.metadata_cache = handler4_primed.metadata_cache ∧
      episodes evs = [(1, info, 0)] ∧
      info.sob = false ∧ info.eob = true ∧ info.has_tsf = false := by
  refine ⟨by decide, ?_⟩
  obtain ⟨t, evs, info, h1, h2, h3, h4, h5, h6, h7, h8, -⟩ :=
    zero_samples_keep_cache env_ok handler4_primed [10, 20, 30, 40] md_end (by decide) rfl
  exact ⟨t, evs, info, h1, h2, h3, h4, h5, h6, h7, h8⟩

/-! ## The source regions of the fragments -/

theorem unit_statement_effect (env : environment) (buffs : List Nat)
    (info : if_packet_info_t) (index stage : Nat) (h h' : send_packet_handler)
    (e : unit_statement env buffs info index stage h = some h') :
    ∃ p b new, h.props[index]? = some p ∧ p.buff = some b ∧ stage < 9 ∧
      h'.log = h.log ++ new ∧ (∀ x ∈ new, x.chan = some index) ∧
      (stage = 2 → ∃ num_bytes, new = [event.commit index b num_bytes]) ∧
      h'.props = h.props ∧ h'.thread_indices = h.thread_indices ∧
      h'.conversion_threads = h.conversion_threads ∧
      h'.conversion_terminate = h.conversion_terminate ∧
      h'.conversion_done.length = h.conversion_done.length ∧
      (stage ≠ 8 → h'.conversion_done = h.conversion_done) ∧
      (stage = 8 → h'.conversion_done = h.conversion_done.set index true) ∧
      (∀ chan, chan ≠ index →
        h'.multi_msb_buffs[chan]? = h.multi_msb_buffs[chan]? ∧
        h'.conversion_ready[chan]? = h.conversion_ready[chan]? ∧
        h'.conversion_done[chan]? = h.conversion_done[chan]?) := by
  cases hp : h.props[index]? with
  | none => simp [unit_statement, hp] at e
  | some p =>
    cases hb : p.buff with
    | none => simp [unit_statement, hp, hb] at e
    | some b =>
      simp only [unit_statement, hp, hb, Option.some_bind] at e
      refine ⟨p, b, ?_⟩
      rcases stage with _ | _ | _ | _ | _ | _ | _ | _ | _ | n
      · simp only [Option.some.injEq] at e
        subst e
        exact ⟨_, rfl, hb, by omega, rfl, by simp [event.chan], by simp, rfl, rfl, rfl, rfl, rfl,
          fun _ => rfl, by simp, fun _ _ => ⟨rfl, rfl, rfl⟩⟩
      · simp only [Option.some.injEq] at e
        subst e
        exact ⟨_, rfl, hb, by omega, rfl, by simp [event.chan], by simp, rfl, rfl, rfl, rfl, rfl,
          fun _ => rfl, by simp, fun _ _ => ⟨rfl, rfl, rfl⟩⟩
      · simp only [Option.some.injEq] at e
        subst e
        exact ⟨_, rfl, hb, by omega, rfl, by simp [event.chan], fun _ => ⟨_, rfl⟩, rfl, rfl, rfl,
          rfl, rfl, fun _ => rfl, by simp, fun _ _ => ⟨rfl, rfl, rfl⟩⟩
      · cases hm : h.multi_msb_buffs[index]? with
        | none => simp [hm] at e
        | some m =>
          simp only [hm, Option.map_some', Option.some.injEq] at e
          subst e
          exact ⟨_, rfl, hb, by omega, rfl, by simp [event.chan], by simp, rfl, rfl, rfl, rfl,
            rfl, fun _ => rfl, by simp,
            fun chan hc => ⟨List.getElem?_set_ne (Ne.symm hc), rfl, rfl⟩⟩
      · cases hm : h.multi_msb_buffs[index]? with
        | none => simp [hm] at e
        | some m =>
          simp only [hm, Option.map_some', Option.some.injEq] at e
          subst e
          exact ⟨[], rfl, hb, by omega, (List.append_nil _).symm, by simp, by simp, rfl, rfl,
            rfl, rfl, rfl, fun _ => rfl, by simp,
            fun chan hc => ⟨List.getElem?_set_ne (Ne.symm hc), rfl, rfl⟩⟩
      · simp only [Option.some.injEq] at e
        subst e
        exact ⟨_, rfl, hb, by omega, rfl, by simp [event.chan], by simp, rfl, rfl, rfl, rfl, rfl,
          fun _ => rfl, by simp, fun _ _ => ⟨rfl, rfl, rfl⟩⟩
      · simp only [Option.some.injEq] at e
        subst e
        by_cases hg : p.go_postal = true
        · rw [if_pos hg]
          exact ⟨_, rfl, hb, by omega, rfl, by simp [event.chan], by simp, rfl, rfl, rfl, rfl,
            rfl, fun _ => rfl, by simp, fun _ _ => ⟨rfl, rfl, rfl⟩⟩
        · rw [if_neg hg]
          exact ⟨[], rfl, hb, by omega, (List.append_nil _).symm, by simp, by simp, rfl, rfl,
            rfl, rfl, rfl, fun _ => rfl, by simp, fun _ _ => ⟨rfl, rfl, rfl⟩⟩
      · simp only [Option.some.injEq] at e
        subst e
        exact ⟨[], rfl, hb, by omega, (List.append_nil _).symm, by simp, by simp, rfl, rfl,
          rfl, rfl, rfl, fun _ => rfl, by simp,
          fun chan hc => ⟨rfl, List.getElem?_set_ne (Ne.symm hc), rfl⟩⟩
      · simp only [Option.some.injEq] at e
        subst e
        exact ⟨[], rfl, hb, by omega, (List.append_nil _).symm, by simp, by simp, rfl, rfl,
          rfl, rfl, List.length_set _ _ _, by simp, fun _ => rfl,
          fun chan hc => ⟨rfl, rfl, List.getElem?_set_ne (Ne.symm hc)⟩⟩
      · simp at e

theorem getElem?_set_some {α : Type} (l : List α) (i j : Nat) (a b : α)
    (h : (l.set i a)[j]? = some b) : (i = j ∧ b = a) ∨ (i ≠ j ∧ l[j]? = some b) := by
  by_cases hij : i = j
  · subst hij
    left
    have hlt : i < l.length := by
      have := (List.getElem?_eq_some_iff.mp h).1
      rwa [List.length_set] at this
    rw [List.getElem?_set_self hlt] at h
    exact ⟨rfl, (Option.some.inj h).symm⟩
  · right
    rw [List.getElem?_set_ne hij] at h
    exact ⟨hij, h⟩

theorem has_committed_mono (s : send_packet_handler) (evs new : List event) (chan : Nat)
    (h : has_committed s evs chan = true) : has_committed s (evs ++ new) chan = true := by
  unfold has_committed at h ⊢
  cases hp : s.props[chan]? with
  | none => simp [hp] at h
  | some p =>
    cases hb : p.buff with
    | none => simp [hp, hb] at h
    | some b =>
      simp only [hp, hb, decide_eq_true_eq] at h ⊢
      rw [commits_append]
      exact List.mem_append_left _ h

theorem has_committed_commit (s : send_packet_handler) (evs : List event) (index : Nat)
    (p : xport_chan_props_type) (b : managed_send_buffer) (num_bytes : Nat)
    (hp : s.props[index]? = some p) (hb : p.buff = some b) :
    has_committed s (evs ++ [event.commit index b num_bytes]) index = true := by
  unfold has_committed
  simp only [hp, hb, decide_eq_true_eq]
  rw [commits_append]
  exact List.mem_append_right _ (by simp [commits])

theorem is_transmit_of_chan (e : event) (i : Nat) (h : e.chan = some i) :
    e.is_transmit = false := by
  cases e <;> simp [event.chan, event.is_transmit] at h ⊢

theorem transmits_of_chan (new : List event) (i : Nat) (h : ∀ e ∈ new, e.chan = some i) :
    transmits new = [] := by
  unfold transmits
  rw [List.filterMap_eq_nil_iff]
  intro e he
  have := h e he
  cases e <;> simp [event.chan] at this ⊢

theorem transmits_after_commits_append (s : send_packet_handler) (evs new : List event)
    (h : transmits_after_commits s evs)
    (hnew : (∃ e ∈ new, e.is_transmit = true) →
      ∀ chan, chan < s.size → has_committed s evs chan = true) :
    transmits_after_commits s (evs ++ new) := by
  intro k _ hk chan hchan
  by_cases hlt : k < evs.length
  · rw [List.getElem?_append_left hlt] at hk
    rw [List.take_append_of_le_length (Nat.le_of_lt hlt)]
    exact h k (List.mem_range.mpr hlt) hk chan hchan
  · have hle : evs.length ≤ k := Nat.le_of_not_lt hlt
    rw [List.getElem?_append_right hle] at hk
    rw [List.take_append_eq_append_take, List.take_of_length_le hle]
    apply has_committed_mono
    apply hnew _ chan (List.mem_range.mp hchan)
    cases he : new[k - evs.length]? with
    | none => simp [he] at hk
    | some e =>
      rw [he] at hk
      exact ⟨e, List.getElem?_mem he, by simpa using hk⟩

theorem slice_cover (s : send_packet_handler) (hwf : well_formed s)
    (ht : 1 < s.conversion_threads) (chan : Nat) (hchan : chan < s.size) :
    chan ∈ s.thread_indices.getD 0 [] ∨ first_worker_channel s ≤ chan := by
  obtain ⟨hflat, -, hlen, hne, -⟩ := hwf
  rw [hlen] at ht
  match hti : s.thread_indices, ht with
  | a :: b :: rest, _ =>
    have hb : b ≠ [] := hne b (by rw [hti]; simp)
    match b, hb with
    | first :: b', _ =>
      rw [hti] at hflat
      simp only [List.flatten_cons, List.getD_cons_zero, first_worker_channel, hti] at hflat ⊢
      simp only [List.getD_eq_getElem?_getD, List.getElem?_cons_succ, List.getElem?_cons_zero,
        Option.getD_some, List.headD_cons]
      have hget : ∀ i : Nat,
          (a ++ (first :: b' ++ rest.flatten))[i]? = (List.range s.size)[i]? := by
        intro i; rw [hflat]
      by_cases hc : chan < a.length
      · left
        have h1 := hget chan
        rw [List.getElem?_append_left hc, List.getElem?_range hchan] at h1
        exact List.getElem?_mem h1
      · right
        have h1 := hget a.length
        rw [List.getElem?_append_right (Nat.le_refl _), Nat.sub_self] at h1
        simp only [List.cons_append, List.getElem?_cons_zero] at h1
        have h2 : a.length < s.size := by
          by_contra hge
          rw [List.getElem?_eq_none (by simpa using Nat.le_of_not_lt hge)] at h1
          exact absurd h1 (by simp)
        rw [List.getElem?_range h2] at h1
        have : first = a.length := Option.some.inj h1
        omega

theorem between_packets_conc_init (s : send_packet_handler) : between_packets (conc_init s) := by
  refine ⟨rfl, ?_⟩
  intro j todo stage hj
  simp only [conc_init] at hj
  have := List.getElem?_mem hj
  rw [List.mem_replicate] at this
  exact absurd this.2 (by simp)

theorem episode_invariant_init (c : conc_state) (hwf : well_formed c.handler)
    (hc : between_packets c) : episode_invariant c.handler c [] := by
  refine ⟨(List.append_nil _).symm, rfl, rfl, rfl, hwf.2.2.2.2.2.2.1, ?_, fun _ => rfl,
    fun h => absurd hc.1 h, ?_, ?_⟩
  · intro k hk
    simp at hk
  · intro j todo stage hj
    rcases hc.2 j todo stage hj with h0 | ⟨h9, index, hin, h1⟩
    · subst h0
      exact ⟨by simp, fun _ _ i hi => by simp at hi⟩
    · subst h1
      refine ⟨?_, fun _ hlt => by omega⟩
      intro x hx
      rw [List.mem_singleton] at hx
      rw [hx]
      exact hin
  · rw [hc.1]
    trivial

theorem episode_invariant_unit (env : environment) (buffs : List Nat)
    (info : if_packet_info_t) (s h h' : send_packet_handler) (evs : List event)
    (index stage : Nat)
    (hlog : h.log = s.log ++ evs) (hprops : h.props = s.props)
    (hti : h.thread_indices = s.thread_indices)
    (hct : h.conversion_threads = s.conversion_threads)
    (hdl : h.conversion_done.length = s.size)
    (htac : transmits_after_commits s evs)
    (e : unit_statement env buffs info index stage h = some h') :
    ∃ new, h'.log = s.log ++ (evs ++ new) ∧ h'.props = s.props ∧
      h'.thread_indices = s.thread_indices ∧
      h'.conversion_threads = s.conversion_threads ∧
      h'.conversion_done.length = s.size ∧
      transmits_after_commits s (evs ++ new) ∧
      transmits (evs ++ new) = transmits evs ∧
      (stage = 2 → has_committed s (evs ++ new) index = true) ∧
      (∀ chan, has_committed s evs chan = true → has_committed s (evs ++ new) chan = true) ∧
      (∀ chan, h'.conversion_done[chan]? = some true →
        (stage = 8 ∧ chan = index) ∨ h.conversion_done[chan]? = some true) := by
  obtain ⟨p, b, new, hp, hb, -, hl, hchan, hcommit, hpr, hth, hc, -, hlen, hd, hd8, hother⟩ :=
    unit_statement_effect env buffs info index stage h h' e
  refine ⟨new, ?_, hpr.trans hprops, hth.trans hti, hc.trans hct, hlen.trans hdl, ?_, ?_, ?_,
    fun chan hh => has_committed_mono s evs new chan hh, ?_⟩
  · rw [hl, hlog, List.append_assoc]
  · apply transmits_after_commits_append s evs new htac
    rintro ⟨x, hx, hxt⟩
    rw [is_transmit_of_chan x index (hchan x hx)] at hxt
    exact absurd hxt (by simp)
  · rw [transmits_append, transmits_of_chan new index hchan, List.append_nil]
  · intro h2
    obtain ⟨num_bytes, hnew⟩ := hcommit h2
    rw [hnew]
    exact has_committed_commit s evs index p b num_bytes (by rw [← hprops]; exact hp) hb
  · intro chan hch
    by_cases h8 : stage = 8
    · by_cases hci : chan = index
      · exact Or.inl ⟨h8, hci⟩
      · right
        rw [← (hother chan hci).2.2]
        exact hch
    · right
      rw [← hd h8]
      exact hch

theorem episode_invariant_caller_step (env : environment) (buffs : List Nat)
    (info : if_packet_info_t) (s : send_packet_handler) (c c' : conc_state) (evs : List event)
    (hwf : well_formed s) (ht : 1 < s.conversion_threads)
    (hinv : episode_invariant s c evs)
    (hstep : caller_step env buffs info c = some c') :
    ∃ evs', episode_invariant s c' evs' := by
  obtain ⟨h, pc, ws⟩ := c
  obtain ⟨hlog, hprops, hti, hct, hdl, htac, htr, hD, hW, hC⟩ := hinv
  simp only at hlog hprops hti hct hdl htr hD hW hC
  have ht' : 1 < h.conversion_threads := by rw [hct]; exact ht
  have hsize : h.size = s.size := by
    unfold send_packet_handler.size
    rw [hprops]
  cases pc with
  | signal =>
    simp only [caller_step, if_pos ht'] at hstep
    by_cases hm : mutex_free ⟨h, caller_pc.signal, ws⟩ = true
    · rw [if_pos hm] at hstep
      cases hstep
      refine ⟨evs, hlog, hprops, hti, hct, ?_, htac, fun _ => htr rfl, ?_, hW, trivial⟩
      · show (set_first h.conversion_done h.size false).length = s.size
        rw [set_first_length]
        exact hdl
      · intro _ chan hchan
        have e : set_first h.conversion_done h.size false = List.replicate h.size false :=
          set_first_full _ _ _ (hdl.trans hsize.symm)
        simp only [e] at hchan
        have := List.getElem?_mem hchan
        rw [List.mem_replicate] at this
        exact absurd this.2 (by simp)
    · rw [if_neg hm] at hstep
      exact absurd hstep (by simp)
  | sequential =>
    simp only [caller_step] at hstep
    cases h0 : h.thread_indices[0]? with
    | none => simp [h0] at hstep
    | some indices0 =>
      simp only [h0, Option.some.injEq] at hstep
      subst hstep
      refine ⟨evs, hlog, hprops, hti, hct, hdl, htac, fun _ => htr rfl,
        fun _ => hD (by simp), hW, ?_, ?_⟩
      · intro x hx hnx
        rw [← hti, List.getD_eq_getElem?_getD, h0] at hx
        exact absurd hx hnx
      · intro h2
        omega
  | inline todo stage =>
    obtain ⟨hC1, hC2⟩ := hC
    cases todo with
    | nil =>
      simp only [caller_step, if_pos ht'] at hstep
      cases h1 : h.thread_indices[1]? with
      | none => simp [h1] at hstep
      | some b =>
        cases b with
        | nil => simp [h1] at hstep
        | cons first b' =>
          simp only [h1, Option.some.injEq] at hstep
          subst hstep
          refine ⟨evs, hlog, hprops, hti, hct, hdl, htac, fun _ => htr rfl,
            fun _ => hD (by simp), hW, fun x hx => hC1 x hx (by simp), ?_⟩
          intro x hx hlt
          have : first_worker_channel s = first := by
            unfold first_worker_channel
            rw [← hti, List.getD_eq_getElem?_getD, h1]
            rfl
          omega
    | cons index rest =>
      simp only [caller_step] at hstep
      by_cases hs : stage < 7
      · rw [if_pos hs] at hstep
        cases hu : unit_statement env buffs info index stage h with
        | none => simp [hu] at hstep
        | some h' =>
          simp only [hu, Option.map_some', Option.some.injEq] at hstep
          subst hstep
          obtain ⟨new, g1, g2, g3, g4, g5, g6, g7, g8, g9, g10⟩ :=
            episode_invariant_unit env buffs info s h h' evs index stage hlog hprops hti hct hdl
              htac hu
          refine ⟨evs ++ new, g1, g2, g3, g4, g5, g6, ?_, ?_, ?_, ?_, ?_⟩
          · intro _
            rw [g7]
            exact htr rfl
          · intro _ chan hchan
            rcases g10 chan hchan with ⟨h8, -⟩ | hold
            · omega
            · exact g9 chan (hD (by simp) chan hold)
          · intro j todo st hj
            obtain ⟨w1, w2⟩ := hW j todo st hj
            exact ⟨w1, fun h2 h9 i hi => g9 i (w2 h2 h9 i hi)⟩
          · intro x hx hnx
            exact g9 x (hC1 x hx hnx)
          · intro h2 i hi
            simp only [List.head?_cons, Option.mem_def, Option.some.injEq] at hi
            subst hi
            by_cases h22 : stage = 2
            · exact g8 h22
            · exact g9 _ (hC2 (by omega) _ (by simp))
      · rw [if_neg hs] at hstep
        simp only [Option.some.injEq] at hstep
        subst hstep
        refine ⟨evs, hlog, hprops, hti, hct, hdl, htac, fun _ => htr rfl,
          fun _ => hD (by simp), hW, ?_, ?_⟩
        · intro x hx hnx
          by_cases hxi : x = index
          · subst hxi
            exact hC2 (by omega) _ (by simp)
          · exact hC1 x hx (by simp [hxi, hnx])
        · intro h2
          omega
  | waiting i =>
    obtain ⟨hC1, hC2⟩ := hC
    simp only [caller_step] at hstep
    by_cases hi : i < h.size
    · rw [if_pos hi] at hstep
      cases hd : h.conversion_done[i]? with
      | none => simp [hd] at hstep
      | some v =>
        cases v with
        | false => simp [hd] at hstep
        | true =>
          simp only [hd, Option.some.injEq] at hstep
          subst hstep
          refine ⟨evs, hlog, hprops, hti, hct, hdl, htac, fun _ => htr rfl,
            fun _ => hD (by simp), hW, hC1, ?_⟩
          intro x hx hlt
          by_cases hxi : x = i
          · subst hxi
            exact hD (by simp) x hd
          · exact hC2 x hx (by omega)
    · rw [if_neg hi] at hstep
      simp only [Option.some.injEq] at hstep
      subst hstep
      refine ⟨evs, hlog, hprops, hti, hct, hdl, htac, fun _ => htr rfl,
        fun _ => hD (by simp), hW, ?_⟩
      intro chan hchan
      rcases slice_cover s hwf ht chan hchan with hin | hge
      · exact hC1 chan hin
      · exact hC2 chan hge (by omega)
  | returned =>
    simp only [caller_step, Option.some.injEq] at hstep
    subst hstep
    exact ⟨evs, hlog, hprops, hti, hct, hdl, htac,
      fun hin => absurd hin (by simp [caller_pc.in_send_one_packet]),
      fun _ => hD (by simp), hW, hC⟩
  | flushing k =>
    simp only [caller_step] at hstep
    cases hk : h.multi_msb_buffs[k]? with
    | none =>
      simp only [hk, Option.some.injEq] at hstep
      subst hstep
      exact ⟨evs, hlog, hprops, hti, hct, hdl, htac,
        fun hin => absurd hin (by simp [caller_pc.in_send_one_packet]),
        fun _ => hD (by simp), hW, hC⟩
    | some multi_msb =>
      simp only [hk, Option.some.injEq] at hstep
      subst hstep
      refine ⟨evs ++ (event.sendmmsg multi_msb.sock_fd multi_msb.buffs
          (env.sendmmsg h.sendmmsg_calls) ::
        (if env.sendmmsg h.sendmmsg_calls = -1 then [event.sendmmsg_failed] else [])), ?_,
        hprops, hti, hct, hdl, ?_,
        fun hin => absurd hin (by simp [caller_pc.in_send_one_packet]), ?_, ?_, ?_⟩
      · show h.log ++ _ = _
        rw [hlog, List.append_assoc]
      · exact transmits_after_commits_append s evs _ htac (fun _ => hC)
      · intro _ chan hchan
        exact has_committed_mono s evs _ chan (hD (by simp) chan hchan)
      · intro j todo st hj
        obtain ⟨w1, w2⟩ := hW j todo st hj
        exact ⟨w1, fun h2 h9 i hi => has_committed_mono s evs _ i (w2 h2 h9 i hi)⟩
      · intro chan hchan
        exact has_committed_mono s evs _ chan (hC chan hchan)
  | flushed =>
    simp [caller_step] at hstep

theorem episode_invariant_worker_step (env : environment) (buffs : List Nat)
    (info : if_packet_info_t) (s : send_packet_handler) (c c' : conc_state) (evs : List event)
    (w : Nat) (hw : w ≠ 0)
    (hinv : episode_invariant s c evs)
    (hstep : worker_step env buffs info w c = some c') :
    ∃ evs', episode_invariant s c' evs' := by
  obtain ⟨h, pc, ws⟩ := c
  obtain ⟨hlog, hprops, hti, hct, hdl, htac, htr, hD, hW, hC⟩ := hinv
  simp only at hlog hprops hti hct hdl htr hD hW hC
  have hw1 : w - 1 + 1 = w := Nat.sub_add_cancel (Nat.pos_of_ne_zero hw)
  simp only [worker_step] at hstep
  cases hws : ws[w - 1]? with
  | none => simp [hws] at hstep
  | some wpc =>
    cases wpc with
    | waiting =>
      simp only [hws] at hstep
      cases hsl : h.thread_indices[w]? with
      | none => simp [hsl] at hstep
      | some indices =>
        cases indices with
        | nil => simp [hsl] at hstep
        | cons index0 rest =>
          simp only [hsl] at hstep
          split at hstep
          · simp only [Option.some.injEq] at hstep
            subst hstep
            refine ⟨evs, hlog, hprops, hti, hct, hdl, htac, htr, hD, ?_, hC⟩
            intro j todo st hj
            rcases getElem?_set_some ws (w - 1) j _ _ hj with ⟨hj1, hj2⟩ | ⟨-, hj2⟩
            · cases hj2
              subst hj1
              refine ⟨?_, fun h2 => by omega⟩
              intro x hx
              rw [hw1, ← hti, List.getD_eq_getElem?_getD, hsl]
              exact hx
            · exact hW j todo st hj2
          · exact absurd hstep (by simp)
    | working todo stage =>
      obtain ⟨hW1, hW2⟩ := hW (w - 1) todo stage hws
      cases todo with
      | nil =>
        simp only [hws, Option.some.injEq] at hstep
        subst hstep
        refine ⟨evs, hlog, hprops, hti, hct, hdl, htac, htr, hD, ?_, hC⟩
        intro j todo st hj
        rcases getElem?_set_some ws (w - 1) j _ _ hj with ⟨-, hj2⟩ | ⟨-, hj2⟩
        · cases hj2
        · exact hW j todo st hj2
      | cons index rest =>
        simp only [hws] at hstep
        by_cases hs : stage < 9
        · rw [if_pos hs] at hstep
          cases hu : unit_statement env buffs info index stage h with
          | none => simp [hu] at hstep
          | some h' =>
            simp only [hu, Option.map_some', Option.some.injEq] at hstep
            subst hstep
            obtain ⟨new, g1, g2, g3, g4, g5, g6, g7, g8, g9, g10⟩ :=
              episode_invariant_unit env buffs info s h h' evs index stage hlog hprops hti hct
                hdl htac hu
            have hcur : 2 < stage + 1 → has_committed s (evs ++ new) index = true := by
              intro h2
              by_cases h22 : stage = 2
              · exact g8 h22
              · exact g9 _ (hW2 (by omega) hs _ (by simp))
            refine ⟨evs ++ new, g1, g2, g3, g4, g5, g6, ?_, ?_, ?_, ?_⟩
            · intro hne
              rw [g7]
              exact htr hne
            · intro hne chan hchan
              rcases g10 chan hchan with ⟨h8, hci⟩ | hold
              · subst hci
                exact hcur (by omega)
              · exact g9 chan (hD hne chan hold)
            · intro j todo st hj
              rcases getElem?_set_some ws (w - 1) j _ _ hj with ⟨hj1, hj2⟩ | ⟨-, hj2⟩
              · cases hj2
                subst hj1
                refine ⟨hW1, fun h2 _ i hi => ?_⟩
                simp only [List.head?_cons, Option.mem_def, Option.some.injEq] at hi
                subst hi
                exact hcur h2
              · obtain ⟨w1, w2⟩ := hW j todo st hj2
                exact ⟨w1, fun h2 h9 i hi => g9 i (w2 h2 h9 i hi)⟩
            · cases pc with
              | signal => trivial
              | sequential => trivial
              | inline todo st =>
                exact ⟨fun x hx hnx => g9 x (hC.1 x hx hnx),
                  fun h2 i hi => g9 i (hC.2 h2 i hi)⟩
              | waiting i =>
                exact ⟨fun x hx => g9 x (hC.1 x hx), fun x hx hlt => g9 x (hC.2 x hx hlt)⟩
              | returned => exact fun chan hchan => g9 chan (hC chan hchan)
              | flushing k => exact fun chan hchan => g9 chan (hC chan hchan)
              | flushed => exact fun chan hchan => g9 chan (hC chan hchan)
        · rw [if_neg hs] at hstep
          simp only [Option.some.injEq] at hstep
          subst hstep
          refine ⟨evs, hlog, hprops, hti, hct, hdl, htac, htr, hD, ?_, hC⟩
          intro j todo st hj
          rcases getElem?_set_some ws (w - 1) j _ _ hj with ⟨hj1, hj2⟩ | ⟨-, hj2⟩
          · cases hj2
            subst hj1
            exact ⟨fun x hx => hW1 x (List.mem_cons_of_mem _ hx), fun h2 => by omega⟩
          · exact hW j todo st hj2

theorem episode_invariant_interleave (env : environment) (buffs : List Nat)
    (info : if_packet_info_t) (s : send_packet_handler)
    (hwf : well_formed s) (ht : 1 < s.conversion_threads) :
    ∀ (schedule : List Nat) (c c' : conc_state) (evs : List event),
      episode_invariant s c evs → interleave env buffs info schedule c = some c' →
      ∃ evs', episode_invariant s c' evs'
  | [], c, c', evs, hinv, hrun => by
    simp only [interleave, Option.some.injEq] at hrun
    subst hrun
    exact ⟨evs, hinv⟩
  | thread :: rest, c, c', evs, hinv, hrun => by
    simp only [interleave] at hrun
    cases hstep : thread_step env buffs info thread c with
    | none => simp [hstep] at hrun
    | some c1 =>
      simp only [hstep] at hrun
      have h1 : ∃ evs1, episode_invariant s c1 evs1 := by
        unfold thread_step at hstep
        by_cases h0 : thread = 0
        · rw [if_pos h0] at hstep
          exact episode_invariant_caller_step env buffs info s c c1 evs hwf ht hinv hstep
        · rw [if_neg h0] at hstep
          exact episode_invariant_worker_step env buffs info s c c1 evs thread h0 hinv hstep
      obtain ⟨evs1, hinv1⟩ := h1
      exact episode_invariant_interleave env buffs info s hwf ht rest c1 c' evs1 hinv1 hrun

theorem slices_disjoint (s : send_packet_handler) (hwf : well_formed s) (w w' chan : Nat)
    (h1 : chan ∈ s.thread_indices.getD w []) (h2 : chan ∈ s.thread_indices.getD w' []) :
    w = w' := by
  have hnd : s.thread_indices.flatten.Nodup := by
    rw [hwf.1]
    exact List.nodup_range _
  have hpw := (List.nodup_flatten.mp hnd).2
  rw [List.pairwise_iff_getElem] at hpw
  have hlt : ∀ v, chan ∈ s.thread_indices.getD v [] → v < s.thread_indices.length := by
    intro v hv
    by_contra hge
    rw [List.getD_eq_getElem?_getD, List.getElem?_eq_none (Nat.le_of_not_lt hge)] at hv
    simp at hv
  have hw := hlt w h1
  have hw' := hlt w' h2
  rw [List.getD_eq_getElem?_getD, List.getElem?_eq_getElem hw] at h1
  rw [List.getD_eq_getElem?_getD, List.getElem?_eq_getElem hw'] at h2
  simp only [Option.getD_some] at h1 h2
  rcases Nat.lt_trichotomy w w' with hlt1 | heq | hgt
  · exact absurd h2 (fun h => hpw w w' hw hw' hlt1 h1 h)
  · exact heq
  · exact absurd h1 (fun h => hpw w' w hw' hw hgt h2 h)

theorem worker_step_frame (env : environment) (buffs : List Nat)
    (info : if_packet_info_t) (s : send_packet_handler) (c c' : conc_state) (evs : List event)
    (w : Nat) (hinv : episode_invariant s c evs)
    (hstep : worker_step env buffs info w c = some c') :
    c'.caller = c.caller ∧ c'.handler.props = c.handler.props ∧
    ∃ new, c'.handler.log = c.handler.log ++ new ∧
      (∀ e ∈ new, ∃ chan ∈ s.thread_indices.getD (w - 1 + 1) [], e.chan = some chan) ∧
      ∀ chan, chan ∉ s.thread_indices.getD (w - 1 + 1) [] →
        c'.handler.multi_msb_buffs[chan]? = c.handler.multi_msb_buffs[chan]? ∧
        c'.handler.conversion_ready[chan]? = c.handler.conversion_ready[chan]? ∧
        c'.handler.conversion_done[chan]? = c.handler.conversion_done[chan]? := by
  obtain ⟨h, pc, ws⟩ := c
  have hW := hinv.2.2.2.2.2.2.2.2.1
  simp only at hW
  simp only [worker_step] at hstep
  have same : ∀ ws', c' = ⟨h, pc, ws'⟩ →
      c'.caller = pc ∧ c'.handler.props = h.props ∧
      ∃ new, c'.handler.log = h.log ++ new ∧
        (∀ e ∈ new, ∃ chan ∈ s.thread_indices.getD (w - 1 + 1) [], e.chan = some chan) ∧
        ∀ chan, chan ∉ s.thread_indices.getD (w - 1 + 1) [] →
          c'.handler.multi_msb_buffs[chan]? = h.multi_msb_buffs[chan]? ∧
          c'.handler.conversion_ready[chan]? = h.conversion_ready[chan]? ∧
          c'.handler.conversion_done[chan]? = h.conversion_done[chan]? := by
    intro ws' e
    subst e
    exact ⟨rfl, rfl, [], (List.append_nil _).symm, by simp, fun _ _ => ⟨rfl, rfl, rfl⟩⟩
  cases hws : ws[w - 1]? with
  | none => simp [hws] at hstep
  | some wpc =>
    cases wpc with
    | waiting =>
      simp only [hws] at hstep
      split at hstep
      · split at hstep
        · exact same _ (Option.some.inj hstep).symm
        · exact absurd hstep (by simp)
      · exact absurd hstep (by simp)
    | working todo stage =>
      obtain ⟨hW1, -⟩ := hW (w - 1) todo stage hws
      cases todo with
      | nil =>
        simp only [hws] at hstep
        exact same _ (Option.some.inj hstep).symm
      | cons index rest =>
        simp only [hws] at hstep
        by_cases hs : stage < 9
        · rw [if_pos hs] at hstep
          cases hu : unit_statement env buffs info index stage h with
          | none => simp [hu] at hstep
          | some h' =>
            simp only [hu, Option.map_some', Option.some.injEq] at hstep
            subst hstep
            obtain ⟨p, b, new, -, -, -, hl, hchan, -, hpr, -, -, -, -, -, -, hother⟩ :=
              unit_statement_effect env buffs info index stage h h' hu
            have hin : index ∈ s.thread_indices.getD (w - 1 + 1) [] := hW1 index (by simp)
            refine ⟨rfl, hpr, new, hl, fun e he => ⟨index, hin, hchan e he⟩, ?_⟩
            intro chan hchan'
            exact hother chan (fun hc => hchan' (hc ▸ hin))
        · rw [if_neg hs] at hstep
          exact same _ (Option.some.inj hstep).symm

/-! ## The schedule in which the threads take turns -/

theorem unit_statements_inline (env : environment) (buffs : List Nat)
    (info : if_packet_info_t) (index : Nat) (s : send_packet_handler) :
    unit_statements env buffs info index [0, 1, 2, 3, 4, 5, 6] s =
      convert_index env s buffs info index := by
  unfold convert_index
  cases hp : s.props[index]? with
  | none => simp [unit_statements, unit_statement, hp]
  | some p =>
    cases hb : p.buff with
    | none => cases hm : s.multi_msb_buffs[index]? <;> simp [unit_statements, unit_statement, hp, hb]
    | some b =>
      cases hm : s.multi_msb_buffs[index]? with
      | none => simp [unit_statements, unit_statement, hp, hb, hm]
      | some m =>
        have hlt : index < s.multi_msb_buffs.length := (List.getElem?_eq_some_iff.mp hm).1
        by_cases hg : p.go_postal = true <;>
          simp [unit_statements, unit_statement, hp, hb, hm, hg, List.getElem?_set_self hlt,
            List.set_set]

theorem interleave_append (env : environment) (buffs : List Nat) (info : if_packet_info_t) :
    ∀ (a b : List Nat) (c : conc_state),
      interleave env buffs info (a ++ b) c =
        (interleave env buffs info a c).bind (interleave env buffs info b)
  | [], _, _ => rfl
  | t :: a, b, c => by
    simp only [List.cons_append, interleave]
    cases thread_step env buffs info t c with
    | none => rfl
    | some c1 => exact interleave_append env buffs info a b c1

theorem unit_statements_append (env : environment) (buffs : List Nat)
    (info : if_packet_info_t) (index : Nat) :
    ∀ (a b : List Nat) (s : send_packet_handler),
      unit_statements env buffs info index (a ++ b) s =
        (unit_statements env buffs info index a s).bind (unit_statements env buffs info index b)
  | [], _, _ => rfl
  | t :: a, b, s => by
    simp only [List.cons_append, unit_statements]
    cases unit_statement env buffs info index t s with
    | none => rfl
    | some s1 => exact unit_statements_append env buffs info index a b s1

theorem unit_statements_flags (env : environment) (buffs : List Nat)
    (info : if_packet_info_t) (index : Nat) (s : send_packet_handler) :
    unit_statements env buffs info index [0, 1, 2, 3, 4, 5, 6, 7, 8] s =
      (convert_index env s buffs info index).map
        (fun t => { t with
          conversion_ready := t.conversion_ready.set index false
          conversion_done := t.conversion_done.set index true }) := by
  have e : [0, 1, 2, 3, 4, 5, 6, 7, 8] = [0, 1, 2, 3, 4, 5, 6] ++ [7, 8] := rfl
  rw [e, unit_statements_append, unit_statements_inline]
  cases hc : convert_index env s buffs info index with
  | none => rfl
  | some t =>
    have hp : t.props = s.props := by
      unfold convert_index at hc
      split at hc
      · split at hc
        · exact absurd hc (by simp)
        · simp only [Option.some.injEq] at hc
          subst hc
          rfl
      · exact absurd hc (by simp)
    have hs : ∃ p b, s.props[index]? = some p ∧ p.buff = some b := by
      unfold convert_index at hc
      split at hc
      · rename_i p m hp1 hm1
        split at hc
        · exact absurd hc (by simp)
        · rename_i b hb1
          exact ⟨p, b, hp1, hb1⟩
      · exact absurd hc (by simp)
    obtain ⟨p, b, hp1, hb1⟩ := hs
    simp only [Option.some_bind, Option.map_some', unit_statements, unit_statement, hp, hp1, hb1]

theorem caller_statements (env : environment) (buffs : List Nat) (info : if_packet_info_t)
    (i : Nat) (r : List Nat) (ws : List worker_pc) :
    ∀ (m k : Nat) (h : send_packet_handler), k + m = 7 →
      interleave env buffs info (List.replicate m 0) ⟨h, caller_pc.inline (i :: r) k, ws⟩ =
        (unit_statements env buffs info i (List.range' k m) h).map
          (fun h' => ⟨h', caller_pc.inline (i :: r) 7, ws⟩)
  | 0, k, h, hk => by
    have : k = 7 := by omega
    subst this
    rfl
  | m + 1, k, h, hk => by
    have hlt : k < 7 := by omega
    simp only [List.replicate_succ, interleave, thread_step, if_pos, caller_step, if_pos hlt,
      List.range'_succ, unit_statements]
    cases hu : unit_statement env buffs info i k h with
    | none => rfl
    | some h1 =>
      simp only [Option.map_some']
      exact caller_statements env buffs info i r ws m (k + 1) h1 (by omega)

theorem caller_index (env : environment) (buffs : List Nat) (info : if_packet_info_t)
    (i : Nat) (r : List Nat) (ws : List worker_pc) (h : send_packet_handler) :
    interleave env buffs info (List.replicate 8 0) ⟨h, caller_pc.inline (i :: r) 0, ws⟩ =
      (convert_index env h buffs info i).map (fun h' => ⟨h', caller_pc.inline r 0, ws⟩) := by
  have e : List.replicate 8 0 = List.replicate 7 0 ++ [0] := rfl
  rw [e, interleave_append, caller_statements env buffs info i r ws 7 0 h rfl]
  have e2 : List.range' 0 7 = [0, 1, 2, 3, 4, 5, 6] := rfl
  rw [e2, unit_statements_inline]
  cases convert_index env h buffs info i with
  | none => rfl
  | some h1 => rfl

theorem caller_slice (env : environment) (buffs : List Nat) (info : if_packet_info_t)
    (ws : List worker_pc) :
    ∀ (todo : List Nat) (h : send_packet_handler),
      interleave env buffs info (List.replicate (8 * todo.length) 0)
          ⟨h, caller_pc.inline todo 0, ws⟩ =
        (convert_to_in_buff_sequential env buffs info todo h).map
          (fun h' => ⟨h', caller_pc.inline [] 0, ws⟩)
  | [], h => rfl
  | i :: r, h => by
    have e : List.replicate (8 * (i :: r).length) 0 =
        List.replicate 8 0 ++ List.replicate (8 * r.length) 0 := by
      rw [← List.replicate_add]
      congr 1
      simp only [List.length_cons]
      omega
    rw [e, interleave_append, caller_index]
    simp only [convert_to_in_buff_sequential]
    cases convert_index env h buffs info i with
    | none => rfl
    | some h1 => exact caller_slice env buffs info ws r h1

theorem worker_statements (env : environment) (buffs : List Nat) (info : if_packet_info_t)
    (w : Nat) (hw : w ≠ 0) (i : Nat) (r : List Nat) (pc : caller_pc) (ws : List worker_pc)
    (hws : w - 1 < ws.length) :
    ∀ (m k : Nat) (h : send_packet_handler), k + m = 9 →
      interleave env buffs info (List.replicate m w)
          ⟨h, pc, ws.set (w - 1) (worker_pc.working (i :: r) k)⟩ =
        (unit_statements env buffs info i (List.range' k m) h).map
          (fun h' => ⟨h', pc, ws.set (w - 1) (worker_pc.working (i :: r) 9)⟩)
  | 0, k, h, hk => by
    have : k = 9 := by omega
    subst this
    rfl
  | m + 1, k, h, hk => by
    have hlt : k < 9 := by omega
    simp only [List.replicate_succ, interleave, thread_step, if_neg hw, worker_step,
      List.getElem?_set_self hws, if_pos hlt, List.range'_succ, unit_statements, List.set_set]
    cases hu : unit_statement env buffs info i k h with
    | none => rfl
    | some h1 =>
      simp only [Option.map_some']
      exact worker_statements env buffs info w hw i r pc ws hws m (k + 1) h1 (by omega)

theorem worker_index (env : environment) (buffs : List Nat) (info : if_packet_info_t)
    (w : Nat) (hw : w ≠ 0) (i : Nat) (r : List Nat) (pc : caller_pc) (ws : List worker_pc)
    (hws : w - 1 < ws.length) (h : send_packet_handler) :
    interleave env buffs info (List.replicate 10 w)
        ⟨h, pc, ws.set (w - 1) (worker_pc.working (i :: r) 0)⟩ =
      ((convert_index env h buffs info i).map
        (fun t => { t with
          conversion_ready := t.conversion_ready.set i false
          conversion_done := t.conversion_done.set i true })).map
        (fun h' => ⟨h', pc, ws.set (w - 1) (worker_pc.working r 0)⟩) := by
  have e : List.replicate 10 w = List.replicate 9 w ++ [w] := rfl
  rw [e, interleave_append, worker_statements env buffs info w hw i r pc ws hws 9 0 h rfl]
  have e2 : List.range' 0 9 = [0, 1, 2, 3, 4, 5, 6, 7, 8] := rfl
  rw [e2, unit_statements_flags]
  cases convert_index env h buffs info i with
  | none => rfl
  | some h1 =>
    simp only [Option.map_some', Option.some_bind, interleave, thread_step, if_neg hw,
      worker_step, List.getElem?_set_self hws, List.set_set]
    rfl

theorem worker_slice (env : environment) (buffs : List Nat) (info : if_packet_info_t)
    (w : Nat) (hw : w ≠ 0) (pc : caller_pc) (ws : List worker_pc)
    (hws : w - 1 < ws.length) :
    ∀ (todo : List Nat) (h : send_packet_handler),
      interleave env buffs info (List.replicate (10 * todo.length) w)
          ⟨h, pc, ws.set (w - 1) (worker_pc.working todo 0)⟩ =
        (convert_worker_indices env buffs info todo h).map
          (fun h' => ⟨h', pc, ws.set (w - 1) (worker_pc.working [] 0)⟩)
  | [], h => rfl
  | i :: r, h => by
    have e : List.replicate (10 * (i :: r).length) w =
        List.replicate 10 w ++ List.replicate (10 * r.length) w := by
      rw [← List.replicate_add]
      congr 1
      simp only [List.length_cons]
      omega
    rw [e, interleave_append, worker_index env buffs info w hw i r pc ws hws]
    simp only [convert_worker_indices]
    cases convert_index env h buffs info i with
    | none => rfl
    | some h1 =>
      simp only [Option.map_some', Option.some_bind]
      exact worker_slice env buffs info w hw pc ws hws r _

theorem mutex_free_waiting (h : send_packet_handler) (pc : caller_pc) (n : Nat) :
    mutex_free ⟨h, pc, List.replicate n worker_pc.waiting⟩ = true := by
  simp only [mutex_free, List.all_eq_true, decide_eq_true_eq]
  intro x hx
  exact (List.mem_replicate.mp hx).2

theorem set_replicate_self {α : Type} (n j : Nat) (a : α) :
    (List.replicate n a).set j a = List.replicate n a := by
  apply List.ext_getElem?
  intro k
  rw [List.getElem?_set]
  by_cases hjk : j = k
  · subst hjk
    simp only [if_true, List.length_replicate]
    by_cases hlt : j < n
    · rw [if_pos hlt, List.getElem?_replicate, if_pos hlt]
    · rw [if_neg hlt, List.getElem?_replicate, if_neg hlt]
  · rw [if_neg hjk]

theorem worker_turn (env : environment) (buffs : List Nat) (info : if_packet_info_t)
    (w : Nat) (hw : w ≠ 0) (pc : caller_pc) (n : Nat) (hwn : w - 1 < n)
    (h : send_packet_handler) (i0 : Nat) (r : List Nat)
    (hsl : h.thread_indices[w]? = some (i0 :: r))
    (hready : h.conversion_ready[i0]? = some true)
    (hterm : h.conversion_terminate = false) :
    interleave env buffs info (List.replicate (1 + 10 * (i0 :: r).length + 1) w)
        ⟨h, pc, List.replicate n worker_pc.waiting⟩ =
      (convert_to_in_buff env buffs info (i0 :: r) h).map
        (fun h' => ⟨h', pc, List.replicate n worker_pc.waiting⟩) := by
  have hws : w - 1 < (List.replicate n worker_pc.waiting).length := by
    rw [List.length_replicate]
    exact hwn
  have e : List.replicate (1 + 10 * (i0 :: r).length + 1) w =
      [w] ++ (List.replicate (10 * (i0 :: r).length) w ++ [w]) := by
    rw [List.replicate_add, List.replicate_add]
    rfl
  have hfirst : interleave env buffs info [w] ⟨h, pc, List.replicate n worker_pc.waiting⟩ =
      some ⟨h, pc, (List.replicate n worker_pc.waiting).set (w - 1)
        (worker_pc.working (i0 :: r) 0)⟩ := by
    simp only [interleave, thread_step, if_neg hw, worker_step, List.getElem?_replicate,
      if_pos hwn, hsl, mutex_free_waiting, hready, hterm, and_self, if_true]
  rw [e, interleave_append, hfirst, Option.some_bind, interleave_append,
    worker_slice env buffs info w hw pc _ hws]
  simp only [convert_to_in_buff, hready, hterm, Bool.false_eq_true, if_false]
  cases convert_worker_indices env buffs info (i0 :: r) h with
  | none => rfl
  | some h1 =>
    simp only [Option.map_some', Option.some_bind, interleave, thread_step, if_neg hw,
      worker_step, List.getElem?_set_self hws, List.set_set, set_replicate_self]

theorem workers_turns (env : environment) (buffs : List Nat) (info : if_packet_info_t)
    (pc : caller_pc) (n : Nat) :
    ∀ (slices : List (List Nat)) (w : Nat) (s : send_packet_handler),
      w ≠ 0 → w - 1 + slices.length ≤ n →
      (∀ k sl, slices[k]? = some sl → s.thread_indices[w + k]? = some sl) →
      (∀ sl ∈ slices, sl ≠ []) →
      slices.flatten.Nodup →
      (∀ i ∈ slices.flatten, i < s.props.length) →
      (∀ i ∈ slices.flatten, s.conversion_ready[i]? = some true) →
      s.conversion_terminate = false →
      s.multi_msb_buffs.length = s.props.length →
      (∀ p ∈ s.props, p.buff.isSome = true) →
      interleave env buffs info (workers_in_turn w slices)
          ⟨s, pc, List.replicate n worker_pc.waiting⟩ =
        (run_workers env buffs info slices s).map
          (fun h' => ⟨h', pc, List.replicate n worker_pc.waiting⟩)
  | [], _, _, _, _, _, _, _, _, _, _, _, _ => rfl
  | sl :: rest, w, s, hw, hn, hti, hne, hnd, hlt, hrdy, hterm, hm, hb => by
    obtain ⟨i0, tl, rfl⟩ := List.exists_cons_of_ne_nil (hne sl (List.mem_cons_self _ _))
    have hnd1 : (i0 :: tl).Nodup ∧ rest.flatten.Nodup ∧ (i0 :: tl).Disjoint rest.flatten := by
      rw [List.flatten_cons] at hnd
      exact List.nodup_append.mp hnd
    have hin : ∀ i ∈ i0 :: tl, i < s.props.length :=
      fun i hi => hlt i (by simp only [List.flatten_cons, List.mem_append]; exact Or.inl hi)
    have hin2 : ∀ i ∈ rest.flatten, i < s.props.length :=
      fun i hi => hlt i (by simp only [List.flatten_cons, List.mem_append]; exact Or.inr hi)
    have h0 : s.conversion_ready[i0]? = some true := hrdy i0 (by simp)
    have hsl : s.thread_indices[w]? = some (i0 :: tl) := hti 0 _ (by simp)
    have hlen : w - 1 < n := by
      simp only [List.length_cons] at hn
      omega
    simp only [workers_in_turn]
    rw [interleave_append, worker_turn env buffs info w hw pc n hlen s i0 tl hsl h0 hterm]
    simp only [run_workers]
    have hc : convert_to_in_buff env buffs info (i0 :: tl) s =
        convert_worker_indices env buffs info (i0 :: tl) s := by
      simp only [convert_to_in_buff, h0, hterm, Bool.false_eq_true, if_false]
    rw [hc, convert_worker_eq env buffs info (i0 :: tl) s hin hm hb]
    simp only [Option.map_some', Option.some_bind]
    apply workers_turns env buffs info pc n rest (w + 1)
    · omega
    · simp only [List.length_cons] at hn
      omega
    · intro k sl hk
      have := hti (k + 1) sl (by simpa using hk)
      rw [show w + 1 + k = w + (k + 1) by omega]
      exact this
    · exact fun sl hsl => hne sl (List.mem_cons_of_mem _ hsl)
    · exact hnd1.2.1
    · exact hin2
    · intro i hi
      have hni : i ∉ i0 :: tl := fun h => hnd1.2.2 h hi
      simp only
      rw [set_flags_getElem_of_not_mem false _ _ i hni]
      exact hrdy i (by simp only [List.flatten_cons, List.mem_append]; exact Or.inr hi)
    · exact hterm
    · simpa [enqueue_all_length] using hm
    · exact hb

theorem caller_wait (env : environment) (buffs : List Nat) (info : if_packet_info_t)
    (ws : List worker_pc) (h : send_packet_handler) :
    ∀ (m i : Nat), i + m = h.size →
      (∀ x, i ≤ x → x < h.size → h.conversion_done[x]? = some true) →
      interleave env buffs info (List.replicate m 0) ⟨h, caller_pc.waiting i, ws⟩ =
        some ⟨h, caller_pc.waiting h.size, ws⟩
  | 0, i, hi, _ => by
    have : i = h.size := by omega
    subst this
    rfl
  | m + 1, i, hi, hd => by
    have hlt : i < h.size := by omega
    simp only [List.replicate_succ, interleave, thread_step, if_true, caller_step, if_pos hlt,
      hd i (Nat.le_refl _) hlt]
    exact caller_wait env buffs info ws h m (i + 1) (by omega)
      (fun x hx hxs => hd x (by omega) hxs)

theorem caller_flush (env : environment) (buffs : List Nat) (info : if_packet_info_t)
    (ws : List worker_pc) :
    ∀ (m k : Nat) (h : send_packet_handler), k + m = h.multi_msb_buffs.length →
      interleave env buffs info (List.replicate m 0) ⟨h, caller_pc.flushing k, ws⟩ =
        some ⟨(h.multi_msb_buffs.drop k).foldl (send_batch env) h,
          caller_pc.flushing h.multi_msb_buffs.length, ws⟩
  | 0, k, h, hk => by
    have : k = h.multi_msb_buffs.length := by omega
    subst this
    simp only [List.replicate_zero, interleave, List.drop_length, List.foldl_nil]
  | m + 1, k, h, hk => by
    have hlt : k < h.multi_msb_buffs.length := by omega
    simp only [List.replicate_succ, interleave, thread_step, if_true, caller_step,
      List.getElem?_eq_getElem hlt]
    rw [caller_flush env buffs info ws m (k + 1) (send_batch env h h.multi_msb_buffs[k])
      (by show k + 1 + m = h.multi_msb_buffs.length; omega)]
    rw [List.drop_eq_getElem_cons hlt]
    rfl

theorem send_one_packet_of_start (env : environment) (s : send_packet_handler)
    (buffs : List Nat) (n : Nat) (info : if_packet_info_t) (off : Nat)
    (s2 : send_packet_handler) (hstart : conversion_start env s n info off = some s2) :
    send_one_packet env s buffs n info off =
      (perform_conversions env buffs (load_packet_info s info n) s2).map
        (fun t => (n, load_packet_info s info n, t)) := by
  unfold conversion_start at hstart
  unfold send_one_packet
  simp only
  cases hg : get_buffs env 0 s.props with
  | none => simp [hg] at hstart
  | some r =>
    obtain ⟨ok, props, evs⟩ := r
    cases ok with
    | false => simp [hg] at hstart
    | true =>
      simp only [hg, Option.some.injEq] at hstart
      subst hstart
      simp only [perform_conversions]
      split
      · rfl
      · rename_i indices0 h0
        split
        · rfl
        · rename_i s4 hc
          by_cases h1 : 1 < s4.conversion_threads
          · simp only [if_pos h1]
            cases run_workers env buffs (load_packet_info s info n)
                (List.drop 1 (List.take s4.conversion_threads s4.thread_indices)) s4 with
            | none => rfl
            | some s5 =>
              simp only
              cases wait_for_workers s5 <;> rfl
          · simp only [if_neg h1]
            rfl

theorem interleave_in_turn (env : environment) (buffs : List Nat) (info : if_packet_info_t)
    (h : send_packet_handler) (hwf : well_formed h) (ht : 1 < h.conversion_threads)
    (hb : ∀ p ∈ h.props, p.buff.isSome = true) :
    (perform_conversions env buffs info h).isSome = true ∧
    interleave env buffs info (schedule_in_turn h) (conc_init h) =
      (perform_conversions env buffs info h).map (fun t =>
        ⟨send_multiple_packets env t, caller_pc.flushed,
          List.replicate (h.conversion_threads - 1) worker_pc.waiting⟩) := by
  obtain ⟨hflat, hne, hthreads, hworkers, hmulti, hready, hdone, hterm, -, -⟩ := hwf
  simp only [send_packet_handler.size] at hflat hmulti hready hdone
  obtain ⟨sl0, rest, hti⟩ := List.exists_cons_of_ne_nil hne
  have hfl : sl0 ++ rest.flatten = List.range h.props.length := by
    rw [← List.flatten_cons, ← hti]; exact hflat
  have hlt0 : ∀ i ∈ sl0, i < h.props.length :=
    fun i hi => List.mem_range.mp (hfl ▸ List.mem_append_left _ hi)
  have hlt1 : ∀ i ∈ rest.flatten, i < h.props.length :=
    fun i hi => List.mem_range.mp (hfl ▸ List.mem_append_right _ hi)
  have hz : (sl0 :: rest)[0]? = some sl0 := by simp
  have hlen' : h.conversion_threads = rest.length + 1 := by rw [hthreads, hti]; rfl
  obtain ⟨sl1, rest1, hrest⟩ := List.exists_cons_of_ne_nil
    (List.ne_nil_of_length_pos (by omega : 0 < rest.length))
  obtain ⟨first, tl, hsl1⟩ := List.exists_cons_of_ne_nil
    (hworkers sl1 (by simp [hti, hrest]))
  have h1 : (sl0 :: rest)[1]? = some (first :: tl) := by simp [hrest, hsl1]
  have hnd : rest.flatten.Nodup :=
    (List.nodup_append.mp (hfl ▸ List.nodup_range _)).2.1
  have hcover : ∀ i, i < h.props.length → first ≤ i → i ∈ rest.flatten := by
    intro i hi hfi
    have hmem : i ∈ sl0 ++ rest.flatten := hfl ▸ List.mem_range.mpr hi
    rcases List.mem_append.mp hmem with h0 | h1
    · have hpw := List.pairwise_append.mp (hfl ▸ List.pairwise_lt_range h.props.length)
      have := hpw.2.2 i h0 first (by simp [hrest, hsl1])
      omega
    · exact h1
  have hfirst_le : first ≤ h.props.length := by
    have : first ∈ sl0 ++ rest.flatten := by simp [hrest, hsl1]
    rw [hfl] at this
    exact Nat.le_of_lt (List.mem_range.mp this)
  have hsched : schedule_in_turn h =
      [0, 0] ++ (List.replicate (8 * sl0.length) 0 ++ ([0] ++ (workers_in_turn 1 rest ++
        (List.replicate (h.props.length - first) 0 ++ ([0, 0] ++
          (List.replicate h.multi_msb_buffs.length 0 ++ [0])))))) := by
    simp only [schedule_in_turn, first_worker_channel, hti, hrest, hsl1,
      send_packet_handler.size, hlen', List.take_succ_cons,
      List.drop_succ_cons, List.drop_zero, List.take_of_length_le (le_refl _),
      List.getD_cons_zero, List.getD_cons_succ, List.headD_cons, List.length_cons]
    simp only [List.replicate_add, List.append_assoc]
    rfl
  -- the handler after the signal
  obtain ⟨S3, hS3⟩ : ∃ S3 : send_packet_handler, S3 =
      { h with
        conversion_done := set_first h.conversion_done h.size false
        conversion_ready := set_first h.conversion_ready h.size true } := ⟨_, rfl⟩
  have p3 : S3.props = h.props := by rw [hS3]
  have t3 : S3.thread_indices = sl0 :: rest := by rw [hS3]; exact hti
  have c3 : S3.conversion_threads = h.conversion_threads := by rw [hS3]
  have e3 : S3.conversion_terminate = false := by rw [hS3]; exact hterm
  have m3 : S3.multi_msb_buffs.length = S3.props.length := by rw [hS3]; exact hmulti
  have b3 : ∀ p ∈ S3.props, p.buff.isSome = true := by rw [p3]; exact hb
  have r3 : ∀ i, i < h.props.length → S3.conversion_ready[i]? = some true := by
    intro i hi
    rw [hS3]
    simp only [send_packet_handler.size]
    rw [set_first_full _ _ _ hready]
    simp [List.getElem?_replicate, hi]
  have d3 : S3.conversion_done.length = h.props.length := by
    rw [hS3]
    simp only [set_first_length]
    exact hdone
  -- the handler after the inline slice
  have hB := convert_sequential_eq env buffs info sl0 S3 (by rw [p3]; exact hlt0) m3 b3
  obtain ⟨S4, hS4⟩ : ∃ S4 : send_packet_handler, S4 =
      { S3 with
        multi_msb_buffs := enqueue_all S3.props S3.multi_msb_buffs sl0
        log := S3.log ++ sl0.flatMap
          (unit_events env S3.props S3.num_inputs S3.convert_buffer_offset_bytes
            S3.convert_nsamps S3.header_offset_words32 buffs info) } := ⟨_, rfl⟩
  rw [← hS4] at hB
  have p4 : S4.props = h.props := by rw [hS4]; exact p3
  have t4 : S4.thread_indices = sl0 :: rest := by rw [hS4]; exact t3
  have c4 : S4.conversion_threads = h.conversion_threads := by rw [hS4]; exact c3
  have e4 : S4.conversion_terminate = false := by rw [hS4]; exact e3
  have m4 : S4.multi_msb_buffs.length = S4.props.length := by
    rw [hS4]
    simp only [enqueue_all_length]
    exact m3
  have b4 : ∀ p ∈ S4.props, p.buff.isSome = true := by rw [p4]; exact hb
  have r4 : ∀ i, i < h.props.length → S4.conversion_ready[i]? = some true := by
    intro i hi
    rw [hS4]
    exact r3 i hi
  have d4 : S4.conversion_done.length = h.props.length := by rw [hS4]; exact d3
  -- the handler after the workers
  have hD := run_workers_eq env buffs info rest S4
    (fun sl hsl => hworkers sl (by simpa [hti] using hsl)) hnd
    (by rw [p4]; exact hlt1) (fun i hi => r4 i (hlt1 i hi)) e4 m4 b4
  obtain ⟨S5, hS5⟩ : ∃ S5 : send_packet_handler, S5 =
      { S4 with
        multi_msb_buffs := enqueue_all S4.props S4.multi_msb_buffs rest.flatten
        conversion_ready := set_flags false rest.flatten S4.conversion_ready
        conversion_done := set_flags true rest.flatten S4.conversion_done
        log := S4.log ++ rest.flatten.flatMap
          (unit_events env S4.props S4.num_inputs S4.convert_buffer_offset_bytes
            S4.convert_nsamps S4.header_offset_words32 buffs info) } := ⟨_, rfl⟩
  rw [← hS5] at hD
  have p5 : S5.props = h.props := by rw [hS5]; exact p4
  have t5 : S5.thread_indices = sl0 :: rest := by rw [hS5]; exact t4
  have z5 : S5.size = h.props.length := by
    unfold send_packet_handler.size
    rw [p5]
  have d5 : ∀ i, i < S5.size → first ≤ i → S5.conversion_done[i]? = some true := by
    intro i hi hfi
    rw [z5] at hi
    rw [hS5]
    exact set_flags_getElem_of_mem true _ _ i (hcover i hi hfi) (by rw [d4]; exact hi)
  have hE : wait_for_workers S5 = some S5 :=
    wait_for_workers_eq S5 first tl (by rw [t5]; exact h1) d5
  have hseq : perform_conversions env buffs info h =
      some { S5 with next_packet_seq := wrap (S5.next_packet_seq + 1) } := by
    have hpos : 1 < rest.length + 1 := by omega
    simp only [perform_conversions, if_pos ht, ← hS3]
    simp only [if_pos hpos, t3, hz, hB, c4, t4, if_pos ht, hlen', List.take_succ_cons, List.drop_succ_cons,
      List.drop_zero, List.take_of_length_le (le_refl rest.length), hD, hE]
  refine ⟨by rw [hseq]; rfl, ?_⟩
  have hA : interleave env buffs info [0, 0] (conc_init h) =
      some ⟨S3, caller_pc.inline sl0 0,
        List.replicate (h.conversion_threads - 1) worker_pc.waiting⟩ := by
    simp only [interleave, thread_step, caller_step, conc_init, if_pos ht, mutex_free_waiting,
      if_true, ← hS3, t3, hz]
  have hBi := caller_slice env buffs info
    (List.replicate (h.conversion_threads - 1) worker_pc.waiting) sl0 S3
  rw [hB] at hBi
  have hC : interleave env buffs info [0]
      ⟨S4, caller_pc.inline [] 0, List.replicate (h.conversion_threads - 1) worker_pc.waiting⟩ =
      some ⟨S4, caller_pc.waiting first,
        List.replicate (h.conversion_threads - 1) worker_pc.waiting⟩ := by
    simp only [interleave, thread_step, caller_step, c4, if_pos ht, t4, h1, if_true]
  have hDi := workers_turns env buffs info (caller_pc.waiting first)
    (h.conversion_threads - 1) rest 1 S4 (by omega) (by omega)
    (by
      intro k sl hk
      rw [t4, Nat.add_comm, List.getElem?_cons_succ]
      exact hk)
    (fun sl hsl => hworkers sl (by simpa [hti] using hsl)) hnd
    (by rw [p4]; exact hlt1) (fun i hi => r4 i (hlt1 i hi)) e4 m4 b4
  rw [hD] at hDi
  have hEi := caller_wait env buffs info
    (List.replicate (h.conversion_threads - 1) worker_pc.waiting) S5
    (h.props.length - first) first (by rw [z5]; omega) (fun x hx hxs => d5 x hxs hx)
  have hF : interleave env buffs info [0, 0]
      ⟨S5, caller_pc.waiting S5.size,
        List.replicate (h.conversion_threads - 1) worker_pc.waiting⟩ =
      some ⟨{ S5 with next_packet_seq := wrap (S5.next_packet_seq + 1) },
        caller_pc.flushing 0, List.replicate (h.conversion_threads - 1) worker_pc.waiting⟩ := by
    simp only [interleave, thread_step, caller_step, lt_irrefl, if_false, if_true]
  have m5 : S5.multi_msb_buffs.length = h.multi_msb_buffs.length := by
    rw [hS5]
    simp only [enqueue_all_length]
    rw [hS4]
    simp only [enqueue_all_length]
    rw [hS3]
  have hG := caller_flush env buffs info
    (List.replicate (h.conversion_threads - 1) worker_pc.waiting) h.multi_msb_buffs.length 0
    { S5 with next_packet_seq := wrap (S5.next_packet_seq + 1) }
    (by show 0 + h.multi_msb_buffs.length = S5.multi_msb_buffs.length; omega)
  have hH : interleave env buffs info [0]
      ⟨send_multiple_packets env { S5 with next_packet_seq := wrap (S5.next_packet_seq + 1) },
        caller_pc.flushing S5.multi_msb_buffs.length,
        List.replicate (h.conversion_threads - 1) worker_pc.waiting⟩ =
      some ⟨send_multiple_packets env
          { S5 with next_packet_seq := wrap (S5.next_packet_seq + 1) },
        caller_pc.flushed, List.replicate (h.conversion_threads - 1) worker_pc.waiting⟩ := by
    have hm : (send_multiple_packets env
        { S5 with next_packet_seq := wrap (S5.next_packet_seq + 1) }).multi_msb_buffs =
        S5.multi_msb_buffs := by
      rw [send_multiple_packets_eq]
    simp only [interleave, thread_step, caller_step, if_true, hm,
      List.getElem?_eq_none (Nat.le_refl _)]
  rw [hseq, hsched, interleave_append, hA, Option.some_bind, interleave_append, hBi,
    Option.map_some', Option.some_bind, interleave_append, hC, Option.some_bind,
    interleave_append, hDi, Option.map_some', Option.some_bind, interleave_append, hEi,
    Option.some_bind, interleave_append, hF, Option.some_bind, interleave_append, hG,
    Option.some_bind, Option.map_some']
  exact hH

theorem conversion_start_spec (env : environment) (s : send_packet_handler)
    (n : Nat) (info : if_packet_info_t) (off : Nat) (hwf : well_formed s)
    (s2 : send_packet_handler) (hstart : conversion_start env s n info off = some s2) :
    well_formed s2 ∧ (∀ p ∈ s2.props, p.buff.isSome = true) ∧
      s2.conversion_threads = s.conversion_threads ∧ acq_ok env s.props = true := by
  have hget := get_buffs_eq env s.props 0 hwf.2.2.2.2.2.2.2.2.1
  unfold conversion_start at hstart
  rw [hget] at hstart
  cases hok : acq_ok env s.props with
  | false => simp [hok] at hstart
  | true =>
    simp only [hok, Option.some.injEq] at hstart
    subst hstart
    refine ⟨?_, acq_props_buff env s.props hok, rfl, rfl⟩
    exact well_formed_of_eq s _ hwf rfl rfl (acq_props_length env s.props) rfl rfl rfl rfl
      (acq_props_bound env s.props hwf.2.2.2.2.2.2.2.2.1) hwf.2.2.2.2.2.2.2.2.2

theorem send_one_packet_in_turn (env : environment) (s : send_packet_handler)
    (buffs : List Nat) (n : Nat) (info : if_packet_info_t) (off : Nat) (hwf : well_formed s)
    (ht : 1 < s.conversion_threads)
    (s2 : send_packet_handler) (hstart : conversion_start env s n info off = some s2) :
    (send_one_packet env s buffs n info off).isSome = true ∧
    interleave env buffs (load_packet_info s info n) (schedule_in_turn s2) (conc_init s2) =
      (send_one_packet env s buffs n info off).map (fun r =>
        ⟨send_multiple_packets env r.2.2, caller_pc.flushed,
          List.replicate (s.conversion_threads - 1) worker_pc.waiting⟩) := by
  obtain ⟨hwf2, hb2, hc2, -⟩ := conversion_start_spec env s n info off hwf s2 hstart
  obtain ⟨h1, h2⟩ := interleave_in_turn env buffs (load_packet_info s info n) s2 hwf2
    (by rw [hc2]; exact ht) hb2
  rw [send_one_packet_of_start env s buffs n info off s2 hstart, h2, hc2]
  obtain ⟨t, ht'⟩ := Option.isSome_iff_exists.mp h1
  rw [ht']
  exact ⟨rfl, rfl⟩

/-! ## The flush and the commits in every interleaving -/

theorem conversion_start_example :
    conversion_start env_ok handler10 100 (translate_metadata env_ok handler10 md_burst) 0 =
      some handler10_acquired := by
  decide

/-- C25: from the point of `send_one_packet` at which every channel has its
buffer, on a well-formed handler with background workers, each worker being
in its wait or about to return to it, in every interleaving of the statements
of the calling thread (signalling block, inline slice, wait for the done
flags, return, the turns of the loop of `send_multiple_packets`) and of the
workers (end of the wait with the mutex taken, the statements of the unit of
work and the two flag writes for each index of the slice, release of the
mutex): no call of `sendmmsg` is made while the calling thread is in
`send_one_packet`; every call of `sendmmsg` in the events comes after a
commit of the buffer of each channel; when the calling thread is back in
`send`, every channel, inline or of a worker, has had its buffer committed;
a step of a worker leaves the calling thread and the channel properties as
they are, and what it calls (packer, converter, commit, release, callback)
and writes (batch, ready and done flag) is of a channel of its own slice;
no channel is in two slices.  The interleavings do not all get stuck: when
every channel holds a buffer and the workers are in their wait, the one in
which the threads take turns runs to the end of the flush. -/
theorem flush_after_commits_in_every_interleaving (env : environment) (buffs : List Nat)
    (info : if_packet_info_t) (c0 : conc_state)
    (hwf : well_formed c0.handler) (ht : 1 < c0.handler.conversion_threads)
    (hstart : between_packets c0)
    (schedule : List Nat) (c : conc_state)
    (hrun : interleave env buffs info schedule c0 = some c) :
    (∃ evs, c.handler.log = c0.handler.log ++ evs ∧
      transmits_after_commits c0.handler evs ∧
      (c.caller.in_send_one_packet = true → transmits evs = []) ∧
      (c.caller.in_send_one_packet = false →
        ∀ chan, chan < c0.handler.size → has_committed c0.handler evs chan = true)) ∧
    (∀ w c', w ≠ 0 → thread_step env buffs info w c = some c' →
      c'.caller = c.caller ∧ c'.handler.props = c.handler.props ∧
      ∃ new, c'.handler.log = c.handler.log ++ new ∧
        (∀ e ∈ new, ∃ chan ∈ c0.handler.thread_indices.getD w [], e.chan = some chan) ∧
        ∀ chan, chan ∉ c0.handler.thread_indices.getD w [] →
          c'.handler.multi_msb_buffs[chan]? = c.handler.multi_msb_buffs[chan]? ∧
          c'.handler.conversion_ready[chan]? = c.handler.conversion_ready[chan]? ∧
          c'.handler.conversion_done[chan]? = c.handler.conversion_done[chan]?) ∧
    (∀ w w' chan, chan ∈ c0.handler.thread_indices.getD w [] →
      chan ∈ c0.handler.thread_indices.getD w' [] → w = w') ∧
    ((∀ props ∈ c0.handler.props, props.buff.isSome = true) →
      (interleave env buffs info (schedule_in_turn c0.handler) (conc_init c0.handler)).map
          (fun c' => c'.caller) =
        some caller_pc.flushed) := by
  obtain ⟨evs, hinv⟩ := episode_invariant_interleave env buffs info c0.handler hwf ht schedule
    c0 c [] (episode_invariant_init c0 hwf hstart) hrun
  refine ⟨⟨evs, hinv.1, hinv.2.2.2.2.2.1, hinv.2.2.2.2.2.2.1, ?_⟩, ?_,
    fun w w' chan => slices_disjoint c0.handler hwf w w' chan, ?_⟩
  · have hC := hinv.2.2.2.2.2.2.2.2.2
    intro hout
    cases hpc : c.caller with
    | signal => rw [hpc] at hout; exact absurd hout (by simp [caller_pc.in_send_one_packet])
    | sequential => rw [hpc] at hout; exact absurd hout (by simp [caller_pc.in_send_one_packet])
    | inline todo stage =>
      rw [hpc] at hout
      exact absurd hout (by simp [caller_pc.in_send_one_packet])
    | waiting i => rw [hpc] at hout; exact absurd hout (by simp [caller_pc.in_send_one_packet])
    | returned => rw [hpc] at hC; exact hC
    | flushing k => rw [hpc] at hC; exact hC
    | flushed => rw [hpc] at hC; exact hC
  · intro w c' hw hstep
    unfold thread_step at hstep
    rw [if_neg hw] at hstep
    have := worker_step_frame env buffs info c0.handler c c' evs w hinv hstep
    rw [Nat.sub_add_cancel (Nat.pos_of_ne_zero hw)] at this
    exact this
  · intro hb
    obtain ⟨h1, h2⟩ := interleave_in_turn env buffs info c0.handler hwf ht hb
    obtain ⟨t, ht'⟩ := Option.isSome_iff_exists.mp h1
    rw [h2, ht']
    rfl

/-- C25 on the handler of ten channels (channels 0 to 7 inline, channels 8
and 9 on the worker), the worker still holding the mutex after the last
statement of the packet before, for a schedule in which the worker first
returns to its wait and then takes its steps in alternation with the calling
thread: the interleaving runs to the end of the flush, and there every call
of `sendmmsg` comes after a commit for each of the ten channels. -/
theorem flush_after_commits_in_every_interleaving_witness :
    (well_formed handler10_acquired ∧ 1 < handler10_acquired.conversion_threads ∧
      between_packets ⟨handler10_acquired, caller_pc.signal, [worker_pc.working [9] 9]⟩) ∧
    ∃ c evs, interleave env_ok [10, 20, 30, 40, 50, 60, 70, 80, 90, 100]
        (load_packet_info handler10 (translate_metadata env_ok handler10 md_burst) 100)
        ([1, 1, 0, 0] ++ (List.replicate 22 [1, 0]).flatten ++ List.replicate 58 0)
        ⟨handler10_acquired, caller_pc.signal, [worker_pc.working [9] 9]⟩ = some c ∧
      c.caller = caller_pc.flushed ∧
      c.handler.log = handler10_acquired.log ++ evs ∧
      transmits_after_commits handler10_acquired evs ∧
      ∀ chan, chan < 10 → has_committed handler10_acquired evs chan = true := by
  have hstart : between_packets
      ⟨handler10_acquired, caller_pc.signal, [worker_pc.working [9] 9]⟩ := by
    refine ⟨rfl, ?_⟩
    intro j todo stage hj
    cases j with
    | zero =>
      simp only [List.getElem?_cons_zero, Option.some.injEq, worker_pc.working.injEq] at hj
      obtain ⟨rfl, rfl⟩ := hj
      exact Or.inr ⟨rfl, 9, by decide, rfl⟩
    | succ j => simp at hj
  refine ⟨⟨by decide, by decide, hstart⟩, ?_⟩
  have hcaller : (interleave env_ok [10, 20, 30, 40, 50, 60, 70, 80, 90, 100]
      (load_packet_info handler10 (translate_metadata env_ok handler10 md_burst) 100)
      ([1, 1, 0, 0] ++ (List.replicate 22 [1, 0]).flatten ++ List.replicate 58 0)
      ⟨handler10_acquired, caller_pc.signal, [worker_pc.working [9] 9]⟩).map
        (fun c => c.caller) = some caller_pc.flushed := by
    decide
  cases hrun : interleave env_ok [10, 20, 30, 40, 50, 60, 70, 80, 90, 100]
      (load_packet_info handler10 (translate_metadata env_ok handler10 md_burst) 100)
      ([1, 1, 0, 0] ++ (List.replicate 22 [1, 0]).flatten ++ List.replicate 58 0)
      ⟨handler10_acquired, caller_pc.signal, [worker_pc.working [9] 9]⟩ with
  | none =>
    rw [hrun] at hcaller
    exact absurd hcaller (by simp)
  | some c =>
    rw [hrun] at hcaller
    have hc : c.caller = caller_pc.flushed := Option.some.inj hcaller
    obtain ⟨⟨evs, h1, h2, -, h4⟩, -, -, -⟩ := flush_after_commits_in_every_interleaving env_ok
      [10, 20, 30, 40, 50, 60, 70, 80, 90, 100]
      (load_packet_info handler10 (translate_metadata env_ok handler10 md_burst) 100)
      ⟨handler10_acquired, caller_pc.signal, [worker_pc.working [9] 9]⟩
      (by decide) (by decide) hstart _ c hrun
    exact ⟨c, evs, rfl, hc, h1, h2, h4 (by rw [hc]; rfl)⟩

end sph
